import Mathlib

/-!
# 2048: move engine, spawner and game state (shallow embedding of `src/main.cpp`)

The C++ class `Game2048` keeps its whole state in member variables.  The
embedding below turns the members that carry game logic into the record `Game`
and every member function into a function on that record.  Rendering, sound,
the save file and the wall clock are effects outside the logic and are left
out; the pseudo-random draws of `addRandomTile` and `restart` become explicit
parameters.

C++ `int` is embedded as `Int`: the arithmetic of the engine is `x * 2` and
`score + x`, which agree with the C++ operations whenever the C++ operations
are defined (signed overflow is undefined behaviour in C++).
-/

namespace Game2048

/-! ## Constants and enumerations (main.cpp 15-59) -/

/-- Side length of the board, `const int BOARD_SIZE = 4`. -/
def BOARD_SIZE : Nat := 4

/-- The `enum GameState` of the source. -/
inductive GameState where
  | MENU
  | PLAYING
  | MULTIPLAYER
  | GAME_OVER
  | MULTIPLAYER_GAME_OVER
  | HOW_TO_PLAY
  deriving DecidableEq, Repr

/-- The `enum PlayerTurn` of the source. -/
inductive PlayerTurn where
  | PLAYER_ONE
  | PLAYER_TWO
  deriving DecidableEq, Repr

/-- The `enum AnimationState` of the source. -/
inductive AnimationState where
  | NONE
  | MOVING
  | APPEARING
  | MERGING
  deriving DecidableEq, Repr

/-- The `struct TileAnimation` of the source, without its two float fields
`startTime` and `progress` (both are written as `0.0f` where the struct is
built). -/
structure TileAnimation where
  startRow : Nat
  startCol : Nat
  endRow : Nat
  endCol : Nat
  state : AnimationState
  merged : Bool
  value : Int
  deriving DecidableEq, Repr

/-! ## Boards

`getCell` and `setCell` are total.  The loops of the move functions, of
`addRandomTile`, `restart`, `savePreviousBoard` and `createMoveAnimations`
only use indices that their loop bounds and guards keep below `BOARD_SIZE`, so
on boards of `BOARD_SIZE` by `BOARD_SIZE` cells these reads and writes are the
C++ ones.  `canMove` has a read whose index is not guarded; it is embedded with
the bounds-checked `cellAt?`.

Cells and scores are `Int`, where the program has 32-bit `int`.  The doubling
of the merge branch, the additions to the scores and the doubling test of
`createMoveAnimations` are written without wrap-around, so these definitions
are the program's as long as no such operation leaves the range of `int`:
with every cell in the range `0 ≤ v < 2 ^ 30` (`SmallTile`) and the score
together with the gains of the move below `2 ^ 31` (`InInt`). -/

/-- A board, `std::vector<std::vector<int> >`. -/
abbrev Board := List (List Int)

/-- The local `mergedTracker` / `accounted` tables,
`std::vector<std::vector<bool>>`. -/
abbrev Tracker := List (List Bool)

/-- Read `b[i][j]`. -/
def getCell (b : Board) (i j : Nat) : Int := (b.getD i []).getD j 0

/-- Write `b[i][j] = v`. -/
def setCell (b : Board) (i j : Nat) (v : Int) : Board :=
  b.set i ((b.getD i []).set j v)

/-- Read `t[i][j]` of a boolean table. -/
def getFlag (t : Tracker) (i j : Nat) : Bool := (t.getD i []).getD j false

/-- Write `t[i][j] = v` of a boolean table. -/
def setFlag (t : Tracker) (i j : Nat) (v : Bool) : Tracker :=
  t.set i ((t.getD i []).set j v)

/-- Bounds-checked read of `b[i][j]`: `none` when `i` or `j` is out of range. -/
def cellAt? (b : Board) (i j : Nat) : Option Int :=
  match b[i]? with
  | none => none
  | some row => row[j]?

/-- The table `std::vector<std::vector<bool>>(BOARD_SIZE,
std::vector<bool>(BOARD_SIZE, false))`. -/
def freshTracker : Tracker :=
  List.replicate BOARD_SIZE (List.replicate BOARD_SIZE false)

/-- The board with every cell 0. -/
def emptyBoard : Board :=
  List.replicate BOARD_SIZE (List.replicate BOARD_SIZE 0)

/-- A table has `BOARD_SIZE` rows of `BOARD_SIZE` cells, as every board and
every boolean table of the program has after the constructor ran (main.cpp
254-264). -/
def WellFormed {α : Type} (b : List (List α)) : Prop :=
  b.length = BOARD_SIZE ∧ ∀ row ∈ b, row.length = BOARD_SIZE

instance {α : Type} (b : List (List α)) : Decidable (WellFormed b) := by
  unfold WellFormed; infer_instance

/-- Reverse every row: column `j` becomes column `BOARD_SIZE - 1 - j`. -/
def mirror {α : Type} (b : List (List α)) : List (List α) := b.map List.reverse

/-- Exchange rows and columns of a table of `BOARD_SIZE` by `BOARD_SIZE`
cells; `d` fills cells missing in an ill-formed table. -/
def transposeWith {α : Type} (d : α) (b : List (List α)) : List (List α) :=
  (List.range BOARD_SIZE).map (fun j => (List.range BOARD_SIZE).map (fun i => (b.getD i []).getD j d))

/-- Exchange rows and columns of a board. -/
def transpose (b : Board) : Board := transposeWith 0 b

/-! ## The shift-and-merge loops (main.cpp 855-1104)

`MoveAcc` holds what the loops of `moveLeft`, `moveRight`, `moveUp` and
`moveDown` read and write: the active board `currentBoard`, the local
`mergedTracker`, the three score members and the locals `moved`, `merged`.
The merge branch assigns `moved` and `merged` after the score; the record
update below sets the five variables at once.
The flag `p2` stands for the condition
`currentState == MULTIPLAYER && currentPlayer == PLAYER_TWO`. -/

/-- The three score members `score`, `scoreP2` and `bestScore`. -/
structure Scores where
  score : Int
  scoreP2 : Int
  bestScore : Int
  deriving DecidableEq, Repr

/-- Variables of the move loops. -/
structure MoveAcc where
  cells : Board
  tracker : Tracker
  scores : Scores
  moved : Bool
  merged : Bool
  deriving DecidableEq, Repr

/-- The score update of the merge branch (main.cpp 891-898), `v` being the
value just written into the destination cell.  The sums and the comparison
with `bestScore` are on `Int`; they are the program's on `int` while the sums
stay below `2 ^ 31`. -/
def addScore (p2 : Bool) (v : Int) (s : Scores) : Scores :=
  if p2 then
    { s with scoreP2 := s.scoreP2 + v }
  else
    let sc := s.score + v
    { s with score := sc, bestScore := if sc > s.bestScore then sc else s.bestScore }

/-- The loop `while (col > 0 && currentBoard[i][col - 1] == 0)` of `moveLeft`
(main.cpp 878-883); returns the final `col`. -/
def slideLeft (i : Nat) : Nat → MoveAcc → Nat × MoveAcc
  | 0, s => (0, s)
  | col + 1, s =>
    if getCell s.cells i col = 0 then
      let b1 := setCell s.cells i col (getCell s.cells i (col + 1))
      let b2 := setCell b1 i (col + 1) 0
      slideLeft i col { s with cells := b2, moved := true }
    else (col + 1, s)

/-- The merge test and branch of `moveLeft` (main.cpp 886-902).  The doubling
is on `Int`; it is the program's `*= 2` on `int` while the cell is below
`2 ^ 30`. -/
def mergeLeft (p2 : Bool) (i col : Nat) (s : MoveAcc) : MoveAcc :=
  if col > 0 ∧ getCell s.cells i (col - 1) = getCell s.cells i col
      ∧ getFlag s.tracker i (col - 1) = false then
    let b1 := setCell s.cells i (col - 1) (getCell s.cells i (col - 1) * 2)
    let b2 := setCell b1 i col 0
    let t1 := setFlag s.tracker i (col - 1) true
    { s with cells := b2, tracker := t1, scores := addScore p2 (getCell b2 i (col - 1)) s.scores,
             moved := true, merged := true }
  else s

/-- Body of the inner `for` loop of `moveLeft` (main.cpp 876-903). -/
def stepLeft (p2 : Bool) (i j : Nat) (s : MoveAcc) : MoveAcc :=
  if getCell s.cells i j ≠ 0 then
    let r := slideLeft i j s
    mergeLeft p2 i r.1 r.2
  else s

/-- The inner loop `for (int j = 1; j < BOARD_SIZE; j++)` of `moveLeft`
(main.cpp 875-904) for row `i`. -/
def rowLoopLeft (p2 : Bool) (i : Nat) (s : MoveAcc) : MoveAcc :=
  (List.range' 1 (BOARD_SIZE - 1)).foldl (fun s j => stepLeft p2 i j s) s

/-- The outer loop `for (int i = 0; i < BOARD_SIZE; i++)` of `moveLeft`
(main.cpp 873-905). -/
def loopLeft (p2 : Bool) (s : MoveAcc) : MoveAcc :=
  (List.range BOARD_SIZE).foldl (fun s i => rowLoopLeft p2 i s) s

/-- The loop `while (col < BOARD_SIZE - 1 && currentBoard[i][col + 1] == 0)` of
`moveRight` (main.cpp 939-944).  The first argument bounds the number of
iterations; `BOARD_SIZE` is enough because `col` only grows and stays below
`BOARD_SIZE` (see `slideRight_fuel`). -/
def slideRight (i : Nat) : Nat → Nat → MoveAcc → Nat × MoveAcc
  | 0, col, s => (col, s)
  | fuel + 1, col, s =>
    if col < BOARD_SIZE - 1 ∧ getCell s.cells i (col + 1) = 0 then
      let b1 := setCell s.cells i (col + 1) (getCell s.cells i col)
      let b2 := setCell b1 i col 0
      slideRight i fuel (col + 1) { s with cells := b2, moved := true }
    else (col, s)

/-- The merge test and branch of `moveRight` (main.cpp 947-963).  The
doubling is on `Int`; it is the program's `*= 2` on `int` while the cell is
below `2 ^ 30`. -/
def mergeRight (p2 : Bool) (i col : Nat) (s : MoveAcc) : MoveAcc :=
  if col < BOARD_SIZE - 1 ∧ getCell s.cells i (col + 1) = getCell s.cells i col
      ∧ getFlag s.tracker i (col + 1) = false then
    let b1 := setCell s.cells i (col + 1) (getCell s.cells i (col + 1) * 2)
    let b2 := setCell b1 i col 0
    let t1 := setFlag s.tracker i (col + 1) true
    { s with cells := b2, tracker := t1, scores := addScore p2 (getCell b2 i (col + 1)) s.scores,
             moved := true, merged := true }
  else s

/-- Body of the inner `for` loop of `moveRight` (main.cpp 937-964). -/
def stepRight (p2 : Bool) (i j : Nat) (s : MoveAcc) : MoveAcc :=
  if getCell s.cells i j ≠ 0 then
    let r := slideRight i BOARD_SIZE j s
    mergeRight p2 i r.1 r.2
  else s

/-- The inner loop `for (int j = BOARD_SIZE - 2; j >= 0; j--)` of `moveRight`
(main.cpp 936-965) for row `i`. -/
def rowLoopRight (p2 : Bool) (i : Nat) (s : MoveAcc) : MoveAcc :=
  (List.range (BOARD_SIZE - 1)).reverse.foldl (fun s j => stepRight p2 i j s) s

/-- The outer loop `for (int i = 0; i < BOARD_SIZE; i++)` of `moveRight`
(main.cpp 934-966). -/
def loopRight (p2 : Bool) (s : MoveAcc) : MoveAcc :=
  (List.range BOARD_SIZE).foldl (fun s i => rowLoopRight p2 i s) s

/-- The loop `while (row > 0 && currentBoard[row - 1][j] == 0)` of `moveUp`
(main.cpp 1000-1005); returns the final `row`. -/
def slideUp (j : Nat) : Nat → MoveAcc → Nat × MoveAcc
  | 0, s => (0, s)
  | row + 1, s =>
    if getCell s.cells row j = 0 then
      let b1 := setCell s.cells row j (getCell s.cells (row + 1) j)
      let b2 := setCell b1 (row + 1) j 0
      slideUp j row { s with cells := b2, moved := true }
    else (row + 1, s)

/-- The merge test and branch of `moveUp` (main.cpp 1008-1024).  The doubling
is on `Int`; it is the program's `*= 2` on `int` while the cell is below
`2 ^ 30`. -/
def mergeUp (p2 : Bool) (j row : Nat) (s : MoveAcc) : MoveAcc :=
  if row > 0 ∧ getCell s.cells (row - 1) j = getCell s.cells row j
      ∧ getFlag s.tracker (row - 1) j = false then
    let b1 := setCell s.cells (row - 1) j (getCell s.cells (row - 1) j * 2)
    let b2 := setCell b1 row j 0
    let t1 := setFlag s.tracker (row - 1) j true
    { s with cells := b2, tracker := t1, scores := addScore p2 (getCell b2 (row - 1) j) s.scores,
             moved := true, merged := true }
  else s

/-- Body of the inner `for` loop of `moveUp` (main.cpp 998-1025). -/
def stepUp (p2 : Bool) (j i : Nat) (s : MoveAcc) : MoveAcc :=
  if getCell s.cells i j ≠ 0 then
    let r := slideUp j i s
    mergeUp p2 j r.1 r.2
  else s

/-- The inner loop `for (int i = 1; i < BOARD_SIZE; i++)` of `moveUp`
(main.cpp 997-1026) for column `j`. -/
def colLoopUp (p2 : Bool) (j : Nat) (s : MoveAcc) : MoveAcc :=
  (List.range' 1 (BOARD_SIZE - 1)).foldl (fun s i => stepUp p2 j i s) s

/-- The outer loop `for (int j = 0; j < BOARD_SIZE; j++)` of `moveUp`
(main.cpp 995-1027). -/
def loopUp (p2 : Bool) (s : MoveAcc) : MoveAcc :=
  (List.range BOARD_SIZE).foldl (fun s j => colLoopUp p2 j s) s

/-- The loop `while (row < BOARD_SIZE - 1 && currentBoard[row + 1][j] == 0)` of
`moveDown` (main.cpp 1061-1066); the first argument bounds the number of
iterations as in `slideRight`. -/
def slideDown (j : Nat) : Nat → Nat → MoveAcc → Nat × MoveAcc
  | 0, row, s => (row, s)
  | fuel + 1, row, s =>
    if row < BOARD_SIZE - 1 ∧ getCell s.cells (row + 1) j = 0 then
      let b1 := setCell s.cells (row + 1) j (getCell s.cells row j)
      let b2 := setCell b1 row j 0
      slideDown j fuel (row + 1) { s with cells := b2, moved := true }
    else (row, s)

/-- The merge test and branch of `moveDown` (main.cpp 1069-1085).  The
doubling is on `Int`; it is the program's `*= 2` on `int` while the cell is
below `2 ^ 30`. -/
def mergeDown (p2 : Bool) (j row : Nat) (s : MoveAcc) : MoveAcc :=
  if row < BOARD_SIZE - 1 ∧ getCell s.cells (row + 1) j = getCell s.cells row j
      ∧ getFlag s.tracker (row + 1) j = false then
    let b1 := setCell s.cells (row + 1) j (getCell s.cells (row + 1) j * 2)
    let b2 := setCell b1 row j 0
    let t1 := setFlag s.tracker (row + 1) j true
    { s with cells := b2, tracker := t1, scores := addScore p2 (getCell b2 (row + 1) j) s.scores,
             moved := true, merged := true }
  else s

/-- Body of the inner `for` loop of `moveDown` (main.cpp 1059-1086). -/
def stepDown (p2 : Bool) (j i : Nat) (s : MoveAcc) : MoveAcc :=
  if getCell s.cells i j ≠ 0 then
    let r := slideDown j BOARD_SIZE i s
    mergeDown p2 j r.1 r.2
  else s

/-- The inner loop `for (int i = BOARD_SIZE - 2; i >= 0; i--)` of `moveDown`
(main.cpp 1058-1087) for column `j`. -/
def colLoopDown (p2 : Bool) (j : Nat) (s : MoveAcc) : MoveAcc :=
  (List.range (BOARD_SIZE - 1)).reverse.foldl (fun s i => stepDown p2 j i s) s

/-- The outer loop `for (int j = 0; j < BOARD_SIZE; j++)` of `moveDown`
(main.cpp 1056-1088). -/
def loopDown (p2 : Bool) (s : MoveAcc) : MoveAcc :=
  (List.range BOARD_SIZE).foldl (fun s j => colLoopDown p2 j s) s

/-- The loop variables as they are when a move function enters its loops. -/
def startAcc (b : Board) (score scoreP2 bestScore : Int) : MoveAcc :=
  { cells := b, tracker := freshTracker,
    scores := { score := score, scoreP2 := scoreP2, bestScore := bestScore },
    moved := false, merged := false }

/-! ## The game state (main.cpp 187-239) -/

/-- The member variables of `Game2048` that carry game logic.  The maps
`mergedTiles` / `mergedTilesP2` (`std::map` from destination to source) are
association lists with at most one entry per key. -/
structure Game where
  board : Board
  boardP2 : Board
  previousBoard : Board
  previousBoardP2 : Board
  score : Int
  scoreP2 : Int
  bestScore : Int
  gameOver : Bool
  gameOverP2 : Bool
  won : Bool
  wonP2 : Bool
  currentState : GameState
  currentPlayer : PlayerTurn
  animating : Bool
  animations : List TileAnimation
  animationsP2 : List TileAnimation
  mergedTiles : List ((Nat × Nat) × (Nat × Nat))
  mergedTilesP2 : List ((Nat × Nat) × (Nat × Nat))
  newTiles : List (Nat × Nat)
  newTilesP2 : List (Nat × Nat)
  deriving DecidableEq, Repr

/-- The condition `currentState == MULTIPLAYER && currentPlayer == PLAYER_TWO`
that selects player two's members. -/
def p2Active (g : Game) : Bool :=
  g.currentState == GameState.MULTIPLAYER && g.currentPlayer == PlayerTurn.PLAYER_TWO

/-- The board the reference `currentBoard` is bound to. -/
def activeBoard (g : Game) : Board :=
  if p2Active g then g.boardP2 else g.board

/-- The score member the merge branch adds to. -/
def activeScore (g : Game) : Int :=
  if p2Active g then g.scoreP2 else g.score

/-- The list the reference `currentNewTiles` is bound to. -/
def activeNewTiles (g : Game) : List (Nat × Nat) :=
  if p2Active g then g.newTilesP2 else g.newTiles

/-- The element-wise copy loops of `savePreviousBoard` (main.cpp 729-739):
`dst[i][j] = src[i][j]` for all `i`, `j` below `BOARD_SIZE`. -/
def copyCells (src dst : Board) : Board :=
  (List.range BOARD_SIZE).foldl
    (fun d i => (List.range BOARD_SIZE).foldl (fun d j => setCell d i j (getCell src i j)) d) dst

/-- The function `savePreviousBoard` (main.cpp 726-741). -/
def savePreviousBoard (g : Game) : Game :=
  if p2Active g then
    { g with previousBoardP2 := copyCells g.boardP2 g.previousBoardP2 }
  else
    { g with previousBoard := copyCells g.board g.previousBoard }

/-! ## `canMove` (main.cpp 630-648)

The second loop reads `checkBoard[i][j + 1]` under the guard
`i < BOARD_SIZE - 1` (line 642), so the reads of `canMove` are embedded with
the bounds-checked `cellAt?`: the result is `none` when a read leaves the
vector. -/

/-- One `&&` chain `guard && checkBoard[i][j] == checkBoard[i2][j2] &&
checkBoard[i][j] != 0`, evaluated left to right with short circuit. -/
def sameNonZero (b : Board) (guard : Bool) (i j i2 j2 : Nat) : Option Bool :=
  if guard then
    match cellAt? b i j with
    | none => none
    | some x =>
      match cellAt? b i2 j2 with
      | none => none
      | some y => some (decide (x = y) && decide (x ≠ 0))
  else some false

/-- First loop nest of `canMove` (main.cpp 632-636) over the cells still to
visit: `some true` when a zero cell is met. -/
def anyEmpty (b : Board) : List (Nat × Nat) → Option Bool
  | [] => some false
  | (i, j) :: rest =>
    match cellAt? b i j with
    | none => none
    | some v => if v = 0 then some true else anyEmpty b rest

/-- Second loop nest of `canMove` (main.cpp 639-645) over the cells still to
visit, with the three tests of lines 641, 642 and 643 in that order. -/
def anyAdjacent (b : Board) : List (Nat × Nat) → Option Bool
  | [] => some false
  | (i, j) :: rest =>
    match sameNonZero b (decide (j < BOARD_SIZE - 1)) i j i (j + 1) with
    | none => none
    | some true => some true
    | some false =>
      match sameNonZero b (decide (i < BOARD_SIZE - 1)) i j i (j + 1) with
      | none => none
      | some true => some true
      | some false =>
        match sameNonZero b (decide (i < BOARD_SIZE - 1)) i j (i + 1) j with
        | none => none
        | some true => some true
        | some false => anyAdjacent b rest

/-- The index pairs `(i, j)` in the order of
`for i in 0..BOARD_SIZE-1 { for j in 0..BOARD_SIZE-1 }`. -/
def allCells : List (Nat × Nat) :=
  (List.range BOARD_SIZE).foldl
    (fun acc i => (List.range BOARD_SIZE).foldl (fun acc j => acc ++ [(i, j)]) acc) []

/-- The function `canMove` (main.cpp 630-648). -/
def canMove (checkBoard : Board) : Option Bool :=
  match anyEmpty checkBoard allCells with
  | none => none
  | some true => some true
  | some false => anyAdjacent checkBoard allCells

/-! ## `createMoveAnimations` (main.cpp 744-853) -/

/-- Locals of `createMoveAnimations`: the table `accounted`, and the lists
the references `currentAnimations` and `currentMergedTiles` are bound to. -/
structure Recon where
  accounted : Tracker
  anims : List TileAnimation
  mergedMap : List ((Nat × Nat) × (Nat × Nat))
  deriving DecidableEq, Repr

/-- The test `m.find(k) != m.end()` for the association-list map. -/
def mapHas (m : List ((Nat × Nat) × (Nat × Nat))) (k : Nat × Nat) : Bool :=
  m.any (fun e => decide (e.1 = k))

/-- The assignment `m[k] = v` for the association-list map. -/
def mapAssign (m : List ((Nat × Nat) × (Nat × Nat))) (k v : Nat × Nat) :
    List ((Nat × Nat) × (Nat × Nat)) :=
  if mapHas m k then m.map (fun e => if e.1 = k then (k, v) else e) else m ++ [(k, v)]

/-- The animation record built at main.cpp 784-793 and 820-829. -/
def mkAnim (sr sc er ec : Nat) (merged : Bool) (value : Int) : TileAnimation :=
  { startRow := sr, startCol := sc, endRow := er, endCol := ec,
    state := AnimationState.MOVING, merged := merged, value := value }

/-- One pass of the inner loop `for nj` of the merge search (main.cpp
777-800) for row `ni`: the loop stops at the first `nj` that is not skipped by
the `continue` of line 779; the `break` leaves only this inner loop. -/
def mergeSearchRow (prev : Board) (i j ni : Nat) (r : Recon) : Recon :=
  match (List.range BOARD_SIZE).find?
      (fun nj => !(getFlag r.accounted ni nj || decide (getCell prev ni nj ≠ getCell prev i j))) with
  | none => r
  | some nj =>
    let r1 : Recon :=
      if ni ≠ i ∨ nj ≠ j then
        { r with anims := r.anims ++ [mkAnim ni nj i j true (getCell prev ni nj)],
                 mergedMap := mapAssign r.mergedMap (i, j) (ni, nj) }
      else r
    { r1 with accounted := setFlag r1.accounted ni nj true }

/-- Body of the first loop nest of `createMoveAnimations` for the cell
`(i, j)` (main.cpp 765-802). -/
def mergePassCell (cur prev : Board) (i j : Nat) (r : Recon) : Recon :=
  if getCell cur i j = 0 then r
  else if getCell prev i j ≠ 0 ∧ getCell cur i j = getCell prev i j * 2 then
    let r1 := { r with accounted := setFlag r.accounted i j true }
    (List.range BOARD_SIZE).foldl (fun r ni => mergeSearchRow prev i j ni r) r1
  else r

/-- One pass of the inner loop `for pj` of the slide search (main.cpp
815-836) for row `pi`; the `break` leaves only this inner loop. -/
def slideSearchRow (cur prev : Board) (i j pi : Nat) (r : Recon) : Recon :=
  match (List.range BOARD_SIZE).find?
      (fun pj => !getFlag r.accounted pi pj && decide (getCell prev pi pj = getCell cur i j)) with
  | none => r
  | some pj =>
    let r1 : Recon :=
      if pi ≠ i ∨ pj ≠ j then
        { r with anims := r.anims ++ [mkAnim pi pj i j false (getCell prev pi pj)] }
      else r
    { r1 with accounted := setFlag r1.accounted pi pj true }

/-- Body of the second loop nest of `createMoveAnimations` for the cell
`(i, j)` (main.cpp 809-838). -/
def slidePassCell (cur prev : Board) (i j : Nat) (r : Recon) : Recon :=
  if getCell cur i j = 0 then r
  else if mapHas r.mergedMap (i, j) then r
  else (List.range BOARD_SIZE).foldl (fun r pi => slideSearchRow cur prev i j pi r) r

/-- The two loop nests of `createMoveAnimations` (main.cpp 759-840) on the
current and previous board, starting from empty lists. -/
def reconcile (cur prev : Board) : Recon :=
  let r0 : Recon := { accounted := freshTracker, anims := [], mergedMap := [] }
  let r1 := (List.range BOARD_SIZE).foldl
    (fun r i => (List.range BOARD_SIZE).foldl (fun r j => mergePassCell cur prev i j r) r) r0
  (List.range BOARD_SIZE).foldl
    (fun r i => (List.range BOARD_SIZE).foldl (fun r j => slidePassCell cur prev i j r) r) r1

/-- The function `createMoveAnimations` (main.cpp 744-853). -/
def createMoveAnimations (g : Game) : Game :=
  if p2Active g then
    let r := reconcile g.boardP2 g.previousBoardP2
    { g with animationsP2 := r.anims, mergedTilesP2 := r.mergedMap,
             animating := !r.anims.isEmpty }
  else
    let r := reconcile g.board g.previousBoard
    { g with animations := r.anims, mergedTiles := r.mergedMap,
             animating := !r.anims.isEmpty }

/-! ## The four move functions (main.cpp 855-1104) -/

/-- Store the loop variables back into the members they alias. -/
def storeAcc (g : Game) (a : MoveAcc) : Game :=
  if p2Active g then
    { g with boardP2 := a.cells, score := a.scores.score, scoreP2 := a.scores.scoreP2,
             bestScore := a.scores.bestScore }
  else
    { g with board := a.cells, score := a.scores.score, scoreP2 := a.scores.scoreP2,
             bestScore := a.scores.bestScore }

/-- What every move function does after `savePreviousBoard`: its loops on the
active board and, when `moved`, `createMoveAnimations`; the result is the new
state and the returned `moved`. -/
def finishMove (loop : Bool → MoveAcc → MoveAcc) (g : Game) : Game × Bool :=
  let a := loop (p2Active g) (startAcc (activeBoard g) g.score g.scoreP2 g.bestScore)
  let g2 := storeAcc g a
  if a.moved then (createMoveAnimations g2, true) else (g2, false)

/-- The clearing of the merge map at the start of `moveLeft` (main.cpp
864-868). -/
def clearMergedTiles (g : Game) : Game :=
  if p2Active g then { g with mergedTilesP2 := [] } else { g with mergedTiles := [] }

/-- The function `moveLeft` (main.cpp 855-921); it alone clears the merge map before its
loops. -/
def moveLeft (g : Game) : Game × Bool :=
  finishMove loopLeft (clearMergedTiles (savePreviousBoard g))

/-- The function `moveRight` (main.cpp 923-982). -/
def moveRight (g : Game) : Game × Bool := finishMove loopRight (savePreviousBoard g)

/-- The function `moveUp` (main.cpp 984-1043). -/
def moveUp (g : Game) : Game × Bool := finishMove loopUp (savePreviousBoard g)

/-- The function `moveDown` (main.cpp 1045-1104). -/
def moveDown (g : Game) : Game × Bool := finishMove loopDown (savePreviousBoard g)

/-- The enumeration `Direction` of the specification. -/
inductive Direction where
  | Left
  | Right
  | Up
  | Down
  deriving DecidableEq, Repr

/-- The move function of a direction. -/
def move : Direction → Game → Game × Bool
  | Direction.Left => moveLeft
  | Direction.Right => moveRight
  | Direction.Up => moveUp
  | Direction.Down => moveDown

/-! ## `addRandomTile` (main.cpp 593-628) and `restart` (main.cpp 2545-2664) -/

/-- The list `emptyCells` built at main.cpp 600-606. -/
def emptyCells (b : Board) : List (Nat × Nat) :=
  (List.range BOARD_SIZE).foldl
    (fun acc i => (List.range BOARD_SIZE).foldl
      (fun acc j => if getCell b i j = 0 then acc ++ [(i, j)] else acc) acc) []

/-- The value `(valueDist(rng) < 9) ? 2 : 4` for a draw `d`. -/
def tileValue (d : Nat) : Int := if d < 9 then 2 else 4

/-- The function `addRandomTile` (main.cpp 593-628); `index` is the draw `dist(rng)` from
`0 .. emptyCells.size() - 1` and `d` the draw `valueDist(rng)` from `0 .. 9`. -/
def addRandomTile (g : Game) (index d : Nat) : Game :=
  let cells := emptyCells (activeBoard g)
  if cells.isEmpty then g
  else
    let rc := cells.getD index (0, 0)
    if p2Active g then
      { g with boardP2 := setCell g.boardP2 rc.1 rc.2 (tileValue d),
               newTilesP2 := g.newTilesP2 ++ [rc] }
    else
      { g with board := setCell g.board rc.1 rc.2 (tileValue d),
               newTiles := g.newTiles ++ [rc] }

/-- The loops `board[i][j] = 0` of `restart` (main.cpp 2547-2552) on one
board. -/
def clearCells (b : Board) : Board :=
  (List.range BOARD_SIZE).foldl
    (fun d i => (List.range BOARD_SIZE).foldl (fun d j => setCell d i j 0) d) b

/-- The two initial tiles of one board (main.cpp 2592-2599, 2615-2622,
2642-2649): `cells` is the list of all sixteen index pairs after
`std::shuffle`, `d1` and `d2` are the two value draws. -/
def placeInitial (b : Board) (cells : List (Nat × Nat)) (d1 d2 : Nat) : Board :=
  let c1 := cells.getD 0 (0, 0)
  let b1 := setCell b c1.1 c1.2 (tileValue d1)
  let c2 := cells.getD 1 (0, 0)
  setCell b1 c2.1 c2.2 (tileValue d2)

/-- The reset part of `restart` (main.cpp 2546-2573): both boards cleared,
scores, flags and turn marker reset, all animation data cleared. -/
def restartReset (g : Game) : Game :=
  { g with board := clearCells g.board, boardP2 := clearCells g.boardP2,
           score := 0, scoreP2 := 0,
           gameOver := false, gameOverP2 := false, won := false, wonP2 := false,
           currentPlayer := PlayerTurn.PLAYER_ONE,
           animations := [], animationsP2 := [], mergedTiles := [], mergedTilesP2 := [],
           newTiles := [], newTilesP2 := [], animating := false }

/-- The function `restart` (main.cpp 2545-2664).  `sh1`, `sh2` are the outcomes of the
shuffles of the sixteen index pairs (only `sh1` is used outside multiplayer),
`d1 .. d4` the value draws in the order they are made. -/
def restart (g : Game) (sh1 sh2 : List (Nat × Nat)) (d1 d2 d3 d4 : Nat) : Game :=
  let g1 := restartReset g
  if g1.currentState = GameState.MULTIPLAYER ∨ g1.currentState = GameState.MULTIPLAYER_GAME_OVER then
    { g1 with board := placeInitial g1.board sh1 d1 d2,
              boardP2 := placeInitial g1.boardP2 sh2 d3 d4,
              currentState := GameState.MULTIPLAYER }
  else
    { g1 with board := placeInitial g1.board sh1 d1 d2,
              currentState := GameState.PLAYING }

/-! ## Reference description of a move on one line (from the specification)

The specification describes the effect of a move on a line of four cells:
the non-zero values keep their order, equal neighbours merge pairwise from the
front, every value takes part in at most one merge, and the line is padded
with zeros. -/

/-- Merge equal neighbours pairwise, greedily from the front. -/
def mergePairs : List Int → List Int
  | a :: b :: rest => if a = b then (a * 2) :: mergePairs rest else a :: mergePairs (b :: rest)
  | l => l

/-- The doubled values created by `mergePairs`, in the order of the merges. -/
def mergeGains : List Int → List Int
  | a :: b :: rest => if a = b then (a * 2) :: mergeGains rest else mergeGains (b :: rest)
  | _ => []

/-- For each tile of `mergePairs`, whether it was created by a merge. -/
def mergeMarks : List Int → List Bool
  | a :: b :: rest => if a = b then true :: mergeMarks rest else false :: mergeMarks (b :: rest)
  | [_] => [false]
  | [] => []

/-- The non-zero values of a line in their order. -/
def tiles (line : List Int) : List Int := line.filter (fun v => v ≠ 0)

/-- Pad a list on the right up to length `BOARD_SIZE`. -/
def padTo {α : Type} (d : α) (l : List α) : List α :=
  l ++ List.replicate (BOARD_SIZE - l.length) d

/-- The reference row of a move towards index 0. -/
def refRow (line : List Int) : List Int := padTo 0 (mergePairs (tiles line))

/-- The merge marks of a move towards index 0. -/
def refMarks (line : List Int) : List Bool := padTo false (mergeMarks (tiles line))

/-- The doubled values a move towards index 0 creates on a line. -/
def refGains (line : List Int) : List Int := mergeGains (tiles line)

/-- Apply the score update of the merge branch once per gain, in order. -/
def applyGains (p2 : Bool) (gains : List Int) (s : Scores) : Scores :=
  gains.foldl (fun s v => addScore p2 v s) s

/-! ## Reflections of the loop variables (used to relate the four directions) -/

/-- Exchange rows and columns of the board and of the tracker. -/
def transposeAcc (s : MoveAcc) : MoveAcc :=
  { s with cells := transpose s.cells, tracker := transposeWith false s.tracker }

/-- Reverse the rows of the board and of the tracker. -/
def mirrorAcc (s : MoveAcc) : MoveAcc :=
  { s with cells := mirror s.cells, tracker := mirror s.tracker }

/-- Board and tracker both have `BOARD_SIZE` by `BOARD_SIZE` cells. -/
def AccWF (s : MoveAcc) : Prop := WellFormed s.cells ∧ WellFormed s.tracker

/-- The lines a direction works on, each listed from the edge the tiles move
to: the rows for Left, the reversed rows for Right, the columns for Up and the
reversed columns for Down. -/
def lines : Direction → Board → Board
  | Direction.Left, b => b
  | Direction.Right, b => mirror b
  | Direction.Up, b => transpose b
  | Direction.Down, b => mirror (transpose b)

/-- Put the lines of a direction back into a board; inverse of `lines` on
well-formed boards. -/
def unlines : Direction → Board → Board
  | Direction.Left, b => b
  | Direction.Right, b => mirror b
  | Direction.Up, b => transpose b
  | Direction.Down, b => transpose (mirror b)

/-- The doubled values created on a list of lines, line after line. -/
def lineGains : List (List Int) → List Int
  | [] => []
  | l :: rest => refGains l ++ lineGains rest

/-- The loops of the move function of a direction. -/
def loopOf : Direction → Bool → MoveAcc → MoveAcc
  | Direction.Left => loopLeft
  | Direction.Right => loopRight
  | Direction.Up => loopUp
  | Direction.Down => loopDown

/-- Replace the active board. -/
def withActiveBoard (g : Game) (b : Board) : Game :=
  if p2Active g then { g with boardP2 := b } else { g with board := b }

/-- Sum of all cells of a board. -/
def boardSum (b : Board) : Int := (b.map List.sum).sum

/-- The loop variables at the end of the loops of a move in direction `d`
from state `g`. -/
def moveAcc (d : Direction) (g : Game) : MoveAcc :=
  loopOf d (p2Active g) (startAcc (activeBoard g) g.score g.scoreP2 g.bestScore)

/-- The members of the state that the move loops read or write, and the two
members that select the active player. -/
def core (g : Game) : Board × Board × Int × Int × Int × GameState × PlayerTurn :=
  (g.board, g.boardP2, g.score, g.scoreP2, g.bestScore, g.currentState, g.currentPlayer)

/-- The state the constructor leaves (main.cpp 242-270): empty boards of
`BOARD_SIZE` by `BOARD_SIZE` cells, all counters 0, `currentState = MENU`. -/
def initialGame : Game :=
  { board := emptyBoard, boardP2 := emptyBoard,
    previousBoard := emptyBoard, previousBoardP2 := emptyBoard,
    score := 0, scoreP2 := 0, bestScore := 0,
    gameOver := false, gameOverP2 := false, won := false, wonP2 := false,
    currentState := GameState.MENU, currentPlayer := PlayerTurn.PLAYER_ONE,
    animating := false, animations := [], animationsP2 := [],
    mergedTiles := [], mergedTilesP2 := [], newTiles := [], newTilesP2 := [] }

/-- A single-player state whose board is `b`. -/
def playingWith (b : Board) : Game :=
  { initialGame with board := b, currentState := GameState.PLAYING }

/-- A multiplayer state with boards `b1`, `b2` and the given player to act. -/
def multiplayerWith (b1 b2 : Board) (p : PlayerTurn) : Game :=
  { initialGame with board := b1, boardP2 := b2, currentState := GameState.MULTIPLAYER,
                     currentPlayer := p }

/-- A tile value: 0 (empty) or a power of two that is at least 2. -/
def IsTile (v : Int) : Prop := v = 0 ∨ ∃ k : Nat, 1 ≤ k ∧ v = 2 ^ k

/-- Every cell of the board satisfies `P`. -/
def AllCells (P : Int → Prop) (b : Board) : Prop := ∀ row ∈ b, ∀ v ∈ row, P v

/-- Grid validity of the specification: `BOARD_SIZE` by `BOARD_SIZE` cells,
each 0 or a power of two that is at least 2. -/
def ValidBoard (b : Board) : Prop := WellFormed b ∧ AllCells IsTile b

/-- Put per-line merge marks back into a boolean table, as `unlines` does
for cell values. -/
def unlinesFlags : Direction → Tracker → Tracker
  | Direction.Left, t => t
  | Direction.Right, t => mirror t
  | Direction.Up, t => transposeWith false t
  | Direction.Down, t => transposeWith false (mirror t)

/-- Sum of the cells of one row whose flag is set. -/
def rowFlagged (row : List Int) (marks : List Bool) : Int :=
  ((List.range BOARD_SIZE).map (fun j => if marks.getD j false then row.getD j 0 else 0)).sum

/-- Sum of the cells `b[i][j]` whose flag `t[i][j]` is set. -/
def flaggedSum (b : Board) (t : Tracker) : Int :=
  ((List.range BOARD_SIZE).map (fun i => rowFlagged (b.getD i []) (t.getD i []))).sum

/-! ## `checkWin` and `checkGameOver` (main.cpp 650-724)

`checkGameOver` branches on the value that `canMove` returns.  C++ gives the
read of `checkBoard[i][j + 1]` at `j = 3` (line 642) no meaning, and `canMove`
above stops there with `none`.  To follow the callers of `canMove` past that
read, `canMoveWith oob` is the same function in which a read outside the
vector yields the word `oob i j` found there; what is proved about the callers
holds for every `oob`. -/

/-- The read `b[i][j]`, with the value `oob i j` when it leaves the vector. -/
def cellOr (oob : Nat → Nat → Int) (b : Board) (i j : Nat) : Int :=
  match cellAt? b i j with
  | some v => v
  | none => oob i j

/-- One `&&` chain `guard && checkBoard[i][j] == checkBoard[i2][j2] &&
checkBoard[i][j] != 0` of `canMove`, evaluated left to right with short
circuit, reads outside the vector yielding `oob`. -/
def sameNonZeroWith (oob : Nat → Nat → Int) (b : Board) (guard : Bool)
    (i j i2 j2 : Nat) : Bool :=
  if guard then
    decide (cellOr oob b i j = cellOr oob b i2 j2) && decide (cellOr oob b i j ≠ 0)
  else false

/-- First loop nest of `canMove` (main.cpp 632-636) over the cells still to
visit, reads outside the vector yielding `oob`. -/
def anyEmptyWith (oob : Nat → Nat → Int) (b : Board) : List (Nat × Nat) → Bool
  | [] => false
  | (i, j) :: rest => if cellOr oob b i j = 0 then true else anyEmptyWith oob b rest

/-- Second loop nest of `canMove` (main.cpp 639-645) over the cells still to
visit, with the three tests of lines 641, 642 and 643 in that order, reads
outside the vector yielding `oob`. -/
def anyAdjacentWith (oob : Nat → Nat → Int) (b : Board) : List (Nat × Nat) → Bool
  | [] => false
  | (i, j) :: rest =>
    if sameNonZeroWith oob b (decide (j < BOARD_SIZE - 1)) i j i (j + 1) then true
    else if sameNonZeroWith oob b (decide (i < BOARD_SIZE - 1)) i j i (j + 1) then true
    else if sameNonZeroWith oob b (decide (i < BOARD_SIZE - 1)) i j (i + 1) j then true
    else anyAdjacentWith oob b rest

/-- The function `canMove` (main.cpp 630-648), reads outside the vector
yielding `oob`. -/
def canMoveWith (oob : Nat → Nat → Int) (checkBoard : Board) : Bool :=
  if anyEmptyWith oob checkBoard allCells then true
  else anyAdjacentWith oob checkBoard allCells

/-- The scan `for i, for j: if (b[i][j] == 2048) { ...; return; }` of
`checkWin`: whether the test succeeds at some cell. -/
def has2048 (b : Board) : Bool :=
  allCells.any (fun p => decide (getCell b p.1 p.2 = 2048))

/-- The function `checkWin` (main.cpp 686-724); `playSound` has no effect on
the state. -/
def checkWin (g : Game) : Game :=
  if g.currentState = GameState.MULTIPLAYER then
    if g.currentPlayer = PlayerTurn.PLAYER_ONE then
      if has2048 g.board then
        { g with won := true, currentState := GameState.MULTIPLAYER_GAME_OVER }
      else g
    else
      if has2048 g.boardP2 then
        { g with wonP2 := true, currentState := GameState.MULTIPLAYER_GAME_OVER }
      else g
  else
    if has2048 g.board then
      { g with won := true, currentState := GameState.GAME_OVER }
    else g

/-- The function `checkGameOver` (main.cpp 650-684). -/
def checkGameOver (oob : Nat → Nat → Int) (g : Game) : Game :=
  if g.currentState = GameState.MULTIPLAYER then
    if g.currentPlayer = PlayerTurn.PLAYER_ONE then
      if !canMoveWith oob g.board then
        if g.gameOverP2 then
          { g with gameOver := true, currentState := GameState.MULTIPLAYER_GAME_OVER }
        else
          { g with gameOver := true, currentPlayer := PlayerTurn.PLAYER_TWO }
      else g
    else
      if !canMoveWith oob g.boardP2 then
        if g.gameOver then
          { g with gameOverP2 := true, currentState := GameState.MULTIPLAYER_GAME_OVER }
        else
          { g with gameOverP2 := true, currentPlayer := PlayerTurn.PLAYER_ONE }
      else g
  else
    if !canMoveWith oob g.board then
      { g with currentState := GameState.GAME_OVER }
    else g

/-- The two calls `checkWin(); checkGameOver();` that follow a move
(main.cpp 2961-2962, 3066-3067, 3077-3078) and the end of an animation
(main.cpp 2717-2718). -/
def evaluate (oob : Nat → Nat → Int) (g : Game) : Game :=
  checkGameOver oob (checkWin g)

/-- The board of the player whose turn it is. -/
def actorBoard (g : Game) : Board :=
  if g.currentPlayer = PlayerTurn.PLAYER_ONE then g.board else g.boardP2

/-- The win flag of the player whose turn it is. -/
def actorWon (g : Game) : Bool :=
  if g.currentPlayer = PlayerTurn.PLAYER_ONE then g.won else g.wonP2

/-- The stuck flag of the player whose turn it is. -/
def actorStuck (g : Game) : Bool :=
  if g.currentPlayer = PlayerTurn.PLAYER_ONE then g.gameOver else g.gameOverP2

/-- The stuck flag of the player whose turn it is not. -/
def otherStuck (g : Game) : Bool :=
  if g.currentPlayer = PlayerTurn.PLAYER_ONE then g.gameOverP2 else g.gameOver

/-- The other player. -/
def otherPlayer : PlayerTurn → PlayerTurn
  | PlayerTurn.PLAYER_ONE => PlayerTurn.PLAYER_TWO
  | PlayerTurn.PLAYER_TWO => PlayerTurn.PLAYER_ONE

/-- The board has a cell equal to 2048. -/
def Has2048 (b : Board) : Prop :=
  ∃ i j : Nat, i < BOARD_SIZE ∧ j < BOARD_SIZE ∧ getCell b i j = 2048

/-- A full board on which no two neighbours are equal. -/
def stuckBoard : Board := [[2, 4, 2, 4], [4, 2, 4, 2], [2, 4, 2, 4], [4, 2, 4, 2]]

/-- The cells of a board that are not zero, in row-major order. -/
def nonZeroCells (b : Board) : List (Nat × Nat) :=
  allCells.filter (fun c => decide (getCell b c.1 c.2 ≠ 0))

/-- A freshly dealt board: `BOARD_SIZE` by `BOARD_SIZE` cells, exactly two of
them non-zero, each of these 2 or 4. -/
def TwoTiles (b : Board) : Prop :=
  WellFormed b ∧ (nonZeroCells b).length = 2
    ∧ ∀ c ∈ nonZeroCells b, getCell b c.1 c.2 = 2 ∨ getCell b c.1 c.2 = 4

/-- A finished single-player game: a full board, score and best score 20. -/
def finishedGame : Game :=
  { playingWith stuckBoard with
    score := 20, bestScore := 20, won := true, currentState := GameState.GAME_OVER }

/-- The board the reference `prevBoard` of `createMoveAnimations` is bound
to. -/
def activePrevious (g : Game) : Board :=
  if p2Active g then g.previousBoardP2 else g.previousBoard

/-- The list the reference `currentAnimations` is bound to. -/
def activeAnimations (g : Game) : List TileAnimation :=
  if p2Active g then g.animationsP2 else g.animations

/-- The map the reference `currentMergedTiles` is bound to. -/
def activeMergedTiles (g : Game) : List ((Nat × Nat) × (Nat × Nat)) :=
  if p2Active g then g.mergedTilesP2 else g.mergedTiles

/-- A single-player state with current board `after` and previous board
`before`, as `createMoveAnimations` finds it. -/
def reconciling (before after : Board) : Game :=
  { playingWith after with previousBoard := before }

/-- Source cell of an event. -/
def source (a : TileAnimation) : Nat × Nat := (a.startRow, a.startCol)

/-- Destination cell of an event. -/
def dest (a : TileAnimation) : Nat × Nat := (a.endRow, a.endCol)

/-- Row-major order of cells, strict. -/
def cellLT (c d : Nat × Nat) : Prop := c.1 < d.1 ∨ (c.1 = d.1 ∧ c.2 < d.2)

instance (c d : Nat × Nat) : Decidable (cellLT c d) := by
  unfold cellLT; infer_instance

/-- Row-major order of cells, not strict. -/
def cellLE (c d : Nat × Nat) : Prop := c.1 < d.1 ∨ (c.1 = d.1 ∧ c.2 ≤ d.2)

instance (c d : Nat × Nat) : Decidable (cellLE c d) := by
  unfold cellLE; infer_instance

/-- Two equal tiles in different rows. -/
def twoRowsBoard : Board := [[2, 0, 0, 0], [2, 0, 0, 0], [0, 0, 0, 0], [0, 0, 0, 0]]

/-- A pair in row 0 and an equal tile below it. -/
def pairAboveBoard : Board := [[2, 2, 0, 0], [2, 0, 0, 0], [0, 0, 0, 0], [0, 0, 0, 0]]

/-- A lone tile in row 0 and a pair of other tiles in row 1. -/
def slideAboveMergeBoard : Board := [[0, 4, 0, 0], [2, 2, 0, 0], [0, 0, 0, 0], [0, 0, 0, 0]]

/-! ## Input handling and the main loop (main.cpp 307-406, 2666-3081, 3106-3175)

What the handlers take from outside the state is passed in: the event, the
contents of the save files that `loadGame` finds, the random draws, and for
`updateAnimations` whether the clock has reached the end of the animation.
Mouse position, hover flags, sounds, rendering and the writing of the save
files do not act on the state and are left out. -/

/-- The key symbols that the handlers distinguish. -/
inductive Key where
  | SDLK_LEFT
  | SDLK_RIGHT
  | SDLK_UP
  | SDLK_DOWN
  | SDLK_a
  | SDLK_d
  | SDLK_w
  | SDLK_s
  | SDLK_r
  | SDLK_ESCAPE
  | OTHER
  deriving DecidableEq, Repr

/-- An `SDL_Event` as far as the handlers read it: its type, for a mouse
press whether it is the left button and where, for a key press the symbol. -/
inductive Event where
  | SDL_QUIT
  | SDL_MOUSEMOTION (x y : Int)
  | SDL_MOUSEBUTTONDOWN (left : Bool) (x y : Int)
  | SDL_KEYDOWN (sym : Key)
  | OTHER
  deriving DecidableEq, Repr

/-- The fields `x`, `y`, `w`, `h` of an `SDL_Rect`. -/
structure Rect where
  x : Int
  y : Int
  w : Int
  h : Int
  deriving DecidableEq, Repr

/-- The function `isPointInRect` (main.cpp 135-137). -/
def isPointInRect (x y : Int) (rect : Rect) : Bool :=
  decide (x ≥ rect.x) && decide (x < rect.x + rect.w)
    && decide (y ≥ rect.y) && decide (y < rect.y + rect.h)

/-- The constant `SCREEN_WIDTH = 900`. -/
def SCREEN_WIDTH : Int := 900

/-- The constant `BOARD_MARGIN = 10`. -/
def BOARD_MARGIN : Int := 10

/-- Rectangles of `menuButtons` (main.cpp 502-536): Singleplayer,
Multiplayer, How to Play, Exit. -/
def menuButtons : List Rect :=
  [⟨SCREEN_WIDTH / 2 - 150, 200, 300, 60⟩, ⟨SCREEN_WIDTH / 2 - 150, 280, 300, 60⟩,
   ⟨SCREEN_WIDTH / 2 - 150, 360, 300, 60⟩, ⟨SCREEN_WIDTH / 2 - 150, 440, 300, 60⟩]

/-- Rectangle of `howToPlayButtons[0]` (main.cpp 541-548). -/
def howToPlayButton : Rect := ⟨SCREEN_WIDTH / 2 - 150, 575, 300, 60⟩

/-- Rectangles of `gameOverButtons` (main.cpp 553-569): Play Again, Main
Menu. -/
def gameOverButtons : List Rect :=
  [⟨SCREEN_WIDTH / 2 - 150, 350, 300, 60⟩, ⟨SCREEN_WIDTH / 2 - 150, 430, 300, 60⟩]

/-- Rectangles of `multiplayerGameOverButtons` (main.cpp 574-590): Play
Again, Main Menu. -/
def multiplayerGameOverButtons : List Rect :=
  [⟨SCREEN_WIDTH / 2 - 150, 400, 300, 60⟩, ⟨SCREEN_WIDTH / 2 - 150, 480, 300, 60⟩]

/-- The local `backButton` of the two game handlers (main.cpp 2896-2900). -/
def backButton : Rect := ⟨BOARD_MARGIN, BOARD_MARGIN, 100, 40⟩

/-- The local `newGameButton` of the two game handlers (main.cpp
2909-2913). -/
def newGameButton : Rect := ⟨BOARD_MARGIN + 100 + 10, BOARD_MARGIN, 120, 40⟩

/-- What `saveGame` writes and `loadGame` reads (main.cpp 318-348). -/
structure Saved where
  currentState : GameState
  score : Int
  scoreP2 : Int
  bestScore : Int
  gameOver : Bool
  gameOverP2 : Bool
  won : Bool
  wonP2 : Bool
  currentPlayer : PlayerTurn
  board : Board
  boardP2 : Board
  deriving DecidableEq, Repr

/-- What a handler takes from outside the state while it handles one event:
the contents of the two save files (`none`: the file cannot be opened), the
outcomes of the shuffles and value draws of `restart`, and the two draws of
`addRandomTile`. -/
structure Outside where
  saveSingle : Option Saved
  saveMulti : Option Saved
  sh1 : List (Nat × Nat)
  sh2 : List (Nat × Nat)
  d1 : Nat
  d2 : Nat
  d3 : Nat
  d4 : Nat
  index : Nat
  d : Nat

/-- What `saveGame` (main.cpp 307-352) writes. -/
def saveGame (g : Game) : Saved :=
  { currentState := g.currentState, score := g.score, scoreP2 := g.scoreP2,
    bestScore := g.bestScore, gameOver := g.gameOver, gameOverP2 := g.gameOverP2,
    won := g.won, wonP2 := g.wonP2, currentPlayer := g.currentPlayer,
    board := g.board, boardP2 := g.boardP2 }

/-- The function `loadGame` (main.cpp 355-406) on the contents of the file
it opens; the second component is the returned flag. -/
def loadGame (file : Option Saved) (g : Game) : Game × Bool :=
  match file with
  | none => (g, false)
  | some s =>
    ({ g with currentState := s.currentState, score := s.score, scoreP2 := s.scoreP2,
              bestScore := s.bestScore, gameOver := s.gameOver, gameOverP2 := s.gameOverP2,
              won := s.won, wonP2 := s.wonP2, currentPlayer := s.currentPlayer,
              board := copyCells s.board g.board, boardP2 := copyCells s.boardP2 g.boardP2 },
     true)

/-- The call `restart()` with the draws of `o`. -/
def restartWith (o : Outside) (g : Game) : Game :=
  restart g o.sh1 o.sh2 o.d1 o.d2 o.d3 o.d4

/-- The calls `addRandomTile(); checkWin(); checkGameOver();` after a move
that moved (main.cpp 2960-2962, 3065-3067, 3076-3078). -/
def afterMove (oob : Nat → Nat → Int) (o : Outside) (g : Game) : Game :=
  checkGameOver oob (checkWin (addRandomTile g o.index o.d))

/-- The `switch (i)` of `handleMenuInput` (main.cpp 2740-2767). -/
def menuClick (o : Outside) (i : Nat) (g : Game) : Game :=
  match i with
  | 0 =>
    if (loadGame o.saveSingle g).2 then
      { (loadGame o.saveSingle g).1 with currentState := GameState.PLAYING }
    else restartWith o { (loadGame o.saveSingle g).1 with currentState := GameState.PLAYING }
  | 1 =>
    if (loadGame o.saveMulti g).2 then
      { (loadGame o.saveMulti g).1 with currentState := GameState.MULTIPLAYER }
    else restartWith o { (loadGame o.saveMulti g).1 with currentState := GameState.MULTIPLAYER }
  | 2 => { g with currentState := GameState.HOW_TO_PLAY }
  | 3 => { g with gameOver := true }
  | _ => g

/-- The loop `for i: if (isPointInRect(..., buttons[i].rect)) click(i)` of the
menu and game-over handlers. -/
def clickButtons (buttons : List Rect) (click : Nat → Game → Game) (x y : Int) (g : Game) :
    Game :=
  (List.range buttons.length).foldl
    (fun g i => if isPointInRect x y (buttons.getD i ⟨0, 0, 0, 0⟩) then click i g else g) g

/-- The function `handleMenuInput` (main.cpp 2722-2772). -/
def handleMenuInput (o : Outside) (e : Event) (g : Game) : Game :=
  match e with
  | Event.SDL_MOUSEBUTTONDOWN true x y => clickButtons menuButtons (menuClick o) x y g
  | _ => g

/-- The function `handleHowToPlayInput` (main.cpp 2774-2798). -/
def handleHowToPlayInput (e : Event) (g : Game) : Game :=
  match e with
  | Event.SDL_MOUSEBUTTONDOWN true x y =>
    if isPointInRect x y howToPlayButton then { g with currentState := GameState.MENU } else g
  | Event.SDL_KEYDOWN Key.SDLK_ESCAPE => { g with currentState := GameState.MENU }
  | _ => g

/-- The `switch (i)` of the two game-over handlers (main.cpp 2817-2824,
2858-2865). -/
def gameOverClick (o : Outside) (i : Nat) (g : Game) : Game :=
  match i with
  | 0 => restartWith o g
  | 1 => { g with currentState := GameState.MENU }
  | _ => g

/-- The function `handleGameOverInput` (main.cpp 2800-2839). -/
def handleGameOverInput (o : Outside) (e : Event) (g : Game) : Game :=
  match e with
  | Event.SDL_MOUSEBUTTONDOWN true x y => clickButtons gameOverButtons (gameOverClick o) x y g
  | Event.SDL_KEYDOWN Key.SDLK_r => restartWith o g
  | Event.SDL_KEYDOWN Key.SDLK_ESCAPE => { g with currentState := GameState.MENU }
  | _ => g

/-- The function `handleMultiplayerGameOverInput` (main.cpp 2841-2880). -/
def handleMultiplayerGameOverInput (o : Outside) (e : Event) (g : Game) : Game :=
  match e with
  | Event.SDL_MOUSEBUTTONDOWN true x y =>
    clickButtons multiplayerGameOverButtons (gameOverClick o) x y g
  | Event.SDL_KEYDOWN Key.SDLK_r => restartWith o g
  | Event.SDL_KEYDOWN Key.SDLK_ESCAPE => { g with currentState := GameState.MENU }
  | _ => g

/-- The `switch` of `handleGameInput` (main.cpp 2926-2952): the state after
it and the local `moved`. -/
def gameKey (o : Outside) (sym : Key) (g : Game) : Game × Bool :=
  match sym with
  | Key.SDLK_LEFT => moveLeft g
  | Key.SDLK_a => moveLeft g
  | Key.SDLK_RIGHT => moveRight g
  | Key.SDLK_d => moveRight g
  | Key.SDLK_UP => moveUp g
  | Key.SDLK_w => moveUp g
  | Key.SDLK_DOWN => moveDown g
  | Key.SDLK_s => moveDown g
  | Key.SDLK_r => (restartWith o g, false)
  | Key.SDLK_ESCAPE => ({ g with currentState := GameState.MENU }, false)
  | Key.OTHER => (g, false)

/-- The function `handleGameInput` (main.cpp 2882-2965). -/
def handleGameInput (oob : Nat → Nat → Int) (o : Outside) (e : Event) (g : Game) : Game :=
  match e with
  | Event.SDL_QUIT => { g with gameOver := true }
  | Event.SDL_MOUSEMOTION _ _ => g
  | Event.SDL_MOUSEBUTTONDOWN left x y =>
    if left then
      let g1 := if isPointInRect x y backButton then { g with currentState := GameState.MENU }
        else g
      if isPointInRect x y newGameButton then
        restartWith o { g1 with currentState := GameState.PLAYING }
      else g1
    else g
  | Event.SDL_KEYDOWN sym =>
    if g.animating then g
    else if (gameKey o sym g).2 then afterMove oob o (gameKey o sym g).1
    else (gameKey o sym g).1
  | Event.OTHER => g

/-- The first `switch` of `handleMultiplayerInput` (main.cpp 3011-3028), the
keys of player one: the state after it and the local `movedP1`. -/
def playerOneKey (sym : Key) (g : Game) : Game × Bool :=
  match sym with
  | Key.SDLK_a => moveLeft { g with currentPlayer := PlayerTurn.PLAYER_ONE }
  | Key.SDLK_d => moveRight { g with currentPlayer := PlayerTurn.PLAYER_ONE }
  | Key.SDLK_w => moveUp { g with currentPlayer := PlayerTurn.PLAYER_ONE }
  | Key.SDLK_s => moveDown { g with currentPlayer := PlayerTurn.PLAYER_ONE }
  | _ => (g, false)

/-- The second `switch` of `handleMultiplayerInput` (main.cpp 3031-3057),
the keys of player two, `r` and Escape: the state after it and the local
`movedP2`. -/
def playerTwoKey (o : Outside) (sym : Key) (g : Game) : Game × Bool :=
  match sym with
  | Key.SDLK_LEFT => moveLeft { g with currentPlayer := PlayerTurn.PLAYER_TWO }
  | Key.SDLK_RIGHT => moveRight { g with currentPlayer := PlayerTurn.PLAYER_TWO }
  | Key.SDLK_UP => moveUp { g with currentPlayer := PlayerTurn.PLAYER_TWO }
  | Key.SDLK_DOWN => moveDown { g with currentPlayer := PlayerTurn.PLAYER_TWO }
  | Key.SDLK_r => (restartWith o g, false)
  | Key.SDLK_ESCAPE => ({ g with currentState := GameState.MENU }, false)
  | _ => (g, false)

/-- The function `handleMultiplayerInput` (main.cpp 2967-3081). -/
def handleMultiplayerInput (oob : Nat → Nat → Int) (o : Outside) (e : Event) (g : Game) :
    Game :=
  match e with
  | Event.SDL_QUIT => { g with gameOver := true }
  | Event.SDL_MOUSEMOTION _ _ => g
  | Event.SDL_MOUSEBUTTONDOWN left x y =>
    if left then
      let g1 := if isPointInRect x y backButton then { g with currentState := GameState.MENU }
        else g
      if isPointInRect x y newGameButton then restartWith o g1 else g1
    else g
  | Event.SDL_KEYDOWN sym =>
    if g.animating then g
    else
      let p1 := playerOneKey sym g
      let p2 := playerTwoKey o sym p1.1
      let g3 := if p1.2 then afterMove oob o p2.1 else p2.1
      if p2.2 then afterMove oob o g3 else g3
  | Event.OTHER => g

/-- The function `updateAnimations` (main.cpp 2666-2720); `timeUp` is the
outcome of the test `deltaTime >= totalAnimationTime` on the clock. -/
def updateAnimations (oob : Nat → Nat → Int) (timeUp : Bool) (g : Game) : Game :=
  if timeUp then
    let g1 : Game :=
      if p2Active g then
        { g with animating := false, animationsP2 := [], mergedTilesP2 := [], newTilesP2 := [] }
      else
        { g with animating := false, animations := [], mergedTiles := [], newTiles := [] }
    checkGameOver oob (checkWin g1)
  else g

/-- The `switch (currentState)` of `run` (main.cpp 3133-3152). -/
def handleInput (oob : Nat → Nat → Int) (o : Outside) (e : Event) (g : Game) : Game :=
  match g.currentState with
  | GameState.MENU => handleMenuInput o e g
  | GameState.PLAYING => handleGameInput oob o e g
  | GameState.MULTIPLAYER => handleMultiplayerInput oob o e g
  | GameState.HOW_TO_PLAY => handleHowToPlayInput e g
  | GameState.GAME_OVER => handleGameOverInput o e g
  | GameState.MULTIPLAYER_GAME_OVER => handleMultiplayerGameOverInput o e g

/-- The loop `while (SDL_PollEvent(&e))` of `run` (main.cpp 3125-3153) on the
pending events: the state after it and the local `quitApplication`. -/
def pollEvents (oob : Nat → Nat → Int) : List (Event × Outside) → Game → Game × Bool
  | [], g => (g, false)
  | (Event.SDL_QUIT, _) :: _, g => (g, true)
  | (e, o) :: rest, g => pollEvents oob rest (handleInput oob o e g)

/-- One pass of the loop `while (!quitApplication)` of `run` (main.cpp
3113-3174): the state after it and `quitApplication`. -/
def runIteration (oob : Nat → Nat → Int) (events : List (Event × Outside)) (timeUp : Bool)
    (g : Game) : Game × Bool :=
  let p := pollEvents oob events g
  let g2 := if p.1.animating then updateAnimations oob timeUp p.1 else p.1
  if g2.gameOver && g2.currentState == GameState.MENU then (g2, true) else (g2, p.2)

/-- No save files, the shuffles leave the cells in row-major order, every
draw is 0. -/
def plainOutside : Outside :=
  { saveSingle := none, saveMulti := none, sh1 := allCells, sh2 := allCells,
    d1 := 0, d2 := 0, d3 := 0, d4 := 0, index := 0, d := 0 }

/-- A multiplayer game in which player one has one move left. -/
def lastMoveGame : Game :=
  multiplayerWith [[2, 4, 2, 4], [4, 2, 4, 2], [2, 4, 2, 4], [0, 4, 2, 8]]
    [[2, 0, 0, 0], [0, 0, 0, 0], [0, 0, 0, 0], [0, 0, 0, 4]] PlayerTurn.PLAYER_ONE

/-- The state after player one pressed `a` in `lastMoveGame`, with zeros
past the rows of the boards. -/
def afterLastMove : Game :=
  (runIteration (fun _ _ => 0) [(Event.SDL_KEYDOWN Key.SDLK_a, plainOutside)] false
    lastMoveGame).1

/-- The state after the animation of that move has ended. -/
def afterSettle : Game := (runIteration (fun _ _ => 0) [] true afterLastMove).1

/-! ## Helper definitions for the claims about input, playback and events -/

/-- The direction of an arrow key, the keys of player two in multiplayer
(main.cpp 3032-3047). -/
def arrowDirection : Key → Option Direction
  | Key.SDLK_LEFT => some Direction.Left
  | Key.SDLK_RIGHT => some Direction.Right
  | Key.SDLK_UP => some Direction.Up
  | Key.SDLK_DOWN => some Direction.Down
  | _ => none

/-- The direction of a letter key, the keys of player one in multiplayer
(main.cpp 3012-3027). -/
def letterDirection : Key → Option Direction
  | Key.SDLK_a => some Direction.Left
  | Key.SDLK_d => some Direction.Right
  | Key.SDLK_w => some Direction.Up
  | Key.SDLK_s => some Direction.Down
  | _ => none

/-- The state with the turn marker set, as the key switches of
`handleMultiplayerInput` set it before they call the move function. -/
def withPlayer (g : Game) (p : PlayerTurn) : Game := { g with currentPlayer := p }

/-- A full board with an equal pair in the last row only. -/
def lastRowPairBoard : Board :=
  [[2, 4, 8, 16], [4, 8, 16, 32], [8, 16, 32, 64], [16, 32, 64, 64]]

/-- An event agrees with the two boards: its cells are on the board, its
source is a tile of `before`, its destination a tile of `after`, its value is
the source tile; a slide carries the value found at the destination, a merge
comes from a tile equal to the one that stood at the destination, which is
now twice as large. -/
def EventSound (before after : Board) (a : TileAnimation) : Prop :=
  a.startRow < BOARD_SIZE ∧ a.startCol < BOARD_SIZE
  ∧ a.endRow < BOARD_SIZE ∧ a.endCol < BOARD_SIZE
  ∧ getCell before a.startRow a.startCol ≠ 0
  ∧ getCell after a.endRow a.endCol ≠ 0
  ∧ a.value = getCell before a.startRow a.startCol
  ∧ (a.merged = false → getCell before a.startRow a.startCol = getCell after a.endRow a.endCol)
  ∧ (a.merged = true →
      getCell before a.startRow a.startCol = getCell before a.endRow a.endCol
      ∧ getCell after a.endRow a.endCol = 2 * getCell before a.startRow a.startCol)

/-- A tile 2 with a tile 4 to its right and an empty cell to its left. -/
def doublingBoard : Board := [[0, 2, 4, 0], [0, 0, 0, 0], [0, 0, 0, 0], [0, 0, 0, 0]]

/-- Two equal tiles with an empty cell to their left. -/
def movingPairBoard : Board := [[0, 2, 2, 0], [0, 0, 0, 0], [0, 0, 0, 0], [0, 0, 0, 0]]

/-- While no event has been pushed, the merge map is empty and only cells
that are non-zero in the current board are accounted for. -/
def Quiet (cur : Board) (r : Recon) : Prop :=
  WellFormed r.accounted
  ∧ (r.anims = [] → r.mergedMap = []
      ∧ ∀ i j, getFlag r.accounted i j = true → getCell cur i j ≠ 0)

/-- Sum over the sixteen cells of a value computed from the cell of one
board and the same cell of another. -/
def pairSum (F : Int → Int → Int) (b1 b2 : Board) : Int :=
  (allCells.map (fun c => F (getCell b1 c.1 c.2) (getCell b2 c.1 c.2))).sum

/-- The same sum over the four cells of a line. -/
def rowPair (F : Int → Int → Int) (l1 l2 : List Int) : Int :=
  ((List.range BOARD_SIZE).map (fun j => F (l1.getD j 0) (l2.getD j 0))).sum

/-- 1 where a tile stood and the cell is empty now, 0 elsewhere. -/
def leftCell (x y : Int) : Int := if x ≠ 0 ∧ y = 0 then 1 else 0

/-- 1 on the cells that hold `v`, 0 elsewhere. -/
def holds (v : Int) (x : Int) : Int := if x = v then 1 else 0

/-- The events of a list whose destination is the cell `D`. -/
def eventsTo (D : Nat × Nat) (l : List TileAnimation) : List TileAnimation :=
  l.filter (fun a => decide (dest a = D))

/-! ## Helper definitions for the range of `int` -/

/-- The value is not negative and its double fits a 32-bit C++ `int`: the
doubling `currentBoard[i][col - 1] *= 2` (main.cpp 887, 948, 1009, 1070) does
not overflow on it. -/
def SmallTile (v : Int) : Prop := 0 ≤ v ∧ v < 2 ^ 30

instance (v : Int) : Decidable (SmallTile v) := by
  unfold SmallTile; infer_instance

/-- The value is in the range of a 32-bit C++ `int`. -/
def InInt (v : Int) : Prop := -(2 ^ 31) ≤ v ∧ v < 2 ^ 31

instance (v : Int) : Decidable (InInt v) := by
  unfold InInt; infer_instance

/-- Scenario 1 of the specification: the row `2 2 0 0`. -/
def pairRowBoard : Board := [[2, 2, 0, 0], [0, 0, 0, 0], [0, 0, 0, 0], [0, 0, 0, 0]]

/-- The row `v v 2v 0` with `v = 2` in row 1. -/
def chainRowBoard : Board := [[0, 0, 0, 0], [2, 2, 4, 0], [0, 0, 0, 0], [0, 0, 0, 0]]

/-- The row `v v v v` with `v = 2` in row 1. -/
def fourEqualBoard : Board := [[0, 0, 0, 0], [2, 2, 2, 2], [0, 0, 0, 0], [0, 0, 0, 0]]

/-- A board whose move to the left merges twice. -/
def twoMergesBoard : Board := [[2, 2, 4, 4], [0, 0, 0, 0], [0, 8, 0, 0], [0, 0, 0, 0]]

/-! ## Helper definitions for the claims about `canMove` -/

/-- Some cell of the board is empty. -/
def HasEmpty (b : Board) : Prop := ∃ c ∈ allCells, getCell b c.1 c.2 = 0

instance (b : Board) : Decidable (HasEmpty b) := by
  unfold HasEmpty; infer_instance

/-- Some cell holds a non-zero value that its right or its lower neighbour
holds too. -/
def EqualNeighbours (b : Board) : Prop :=
  ∃ c ∈ allCells, getCell b c.1 c.2 ≠ 0
    ∧ ((c.2 + 1 < BOARD_SIZE ∧ getCell b c.1 c.2 = getCell b c.1 (c.2 + 1))
      ∨ (c.1 + 1 < BOARD_SIZE ∧ getCell b c.1 c.2 = getCell b (c.1 + 1) c.2))

instance (b : Board) : Decidable (EqualNeighbours b) := by
  unfold EqualNeighbours; infer_instance

/-- The word that the read `checkBoard[i][BOARD_SIZE]` of main.cpp 642 finds
after one of the rows 0 to 2 equals the non-zero last cell of that row. -/
def StrayHit (oob : Nat → Nat → Int) (b : Board) : Prop :=
  ∃ i ∈ List.range (BOARD_SIZE - 1),
    getCell b i (BOARD_SIZE - 1) ≠ 0 ∧ getCell b i (BOARD_SIZE - 1) = oob i BOARD_SIZE

instance (oob : Nat → Nat → Int) (b : Board) : Decidable (StrayHit oob b) := by
  unfold StrayHit; infer_instance

/-- Every read past a row yields 4. -/
def wordFour : Nat → Nat → Int := fun _ _ => 4

/-- Every read past a row yields 16. -/
def wordSixteen : Nat → Nat → Int := fun _ _ => 16

/-- A valid full board on which no two neighbours are equal. -/
def validStuckBoard : Board := [[2, 4, 8, 16], [4, 2, 4, 2], [2, 4, 2, 4], [4, 2, 4, 2]]

/-! ## Helper definitions for the claims about playback and the best score -/

/-- The single-player state after the key `a` on the row `0 2 2 0`: one pass
of the loop of `run` with that key pending, every draw 0. -/
def afterPairKey : Game :=
  (runIteration (fun _ _ => 0) [(Event.SDL_KEYDOWN Key.SDLK_a, plainOutside)] false
    (playingWith movingPairBoard)).1

/-! ## Helper definitions for the claims about `createMoveAnimations` -/

/-- Invariant of the slide pass on a board reconciled with itself, after the
cells `p`: no event, no merge-map entry, and exactly the tiles among `p` are
accounted for. -/
def SelfFound (b : Board) (p : List (Nat × Nat)) (r : Recon) : Prop :=
  r.anims = [] ∧ r.mergedMap = [] ∧ WellFormed r.accounted
  ∧ ∀ X ∈ allCells,
      (getFlag r.accounted X.1 X.2 = true ↔ (X ∈ p ∧ getCell b X.1 X.2 ≠ 0))

/-- Equal non-empty cells of the board stand in one row. -/
def EqualTilesShareRow (b : Board) : Prop :=
  ∀ X ∈ allCells, ∀ Y ∈ allCells, getCell b X.1 X.2 ≠ 0 →
    getCell b X.1 X.2 = getCell b Y.1 Y.2 → X.1 = Y.1

instance (b : Board) : Decidable (EqualTilesShareRow b) := by
  unfold EqualTilesShareRow
  infer_instance

/-- Two equal tiles in row 0 and another tile in row 1. -/
def sharedRowBoard : Board := [[2, 0, 2, 0], [4, 0, 0, 0], [0, 0, 0, 0], [0, 0, 0, 0]]

/-! ## Helper definitions for the coverage of the changed cells -/

/-- The doubling test of the merge pass (main.cpp 769) at the cell `D`:
`prevBoard[i][j] != 0 && currentBoard[i][j] == prevBoard[i][j] * 2`. -/
def doubled (prev cur : Board) (D : Nat × Nat) : Bool :=
  decide (getCell prev D.1 D.2 ≠ 0 ∧ getCell cur D.1 D.2 = getCell prev D.1 D.2 * 2)

/-- The value the search for the cell `D` compares the cells of the previous
board with: `prevBoard[i][j]` in the merge pass (main.cpp 779), which runs
where the doubling test passes, and `currentBoard[i][j]` in the slide pass
(main.cpp 813). -/
def sought (prev cur : Board) (D : Nat × Nat) : Int :=
  if doubled prev cur D then getCell prev D.1 D.2 else getCell cur D.1 D.2

/-- The doubling test of `createMoveAnimations` passes at exactly the cells
into which the move merged two tiles. -/
def MergesInPlace (d : Direction) (g : Game) : Prop :=
  ∀ D ∈ allCells, getFlag (moveAcc d g).tracker D.1 D.2
    = doubled (activeBoard g) (activeBoard (move d g).1) D

instance (d : Direction) (g : Game) : Decidable (MergesInPlace d g) := by
  unfold MergesInPlace
  infer_instance

/-- For every non-empty cell `D` of the current board that differs from the
same cell of the previous board, the cells of the previous board other than
`D` that hold the value sought for `D` stand in one row. -/
def OneRowSources (prev cur : Board) : Prop :=
  ∀ D ∈ allCells, getCell cur D.1 D.2 ≠ 0 → getCell cur D.1 D.2 ≠ getCell prev D.1 D.2 →
    ∀ X ∈ allCells, ∀ Y ∈ allCells, X ≠ D → Y ≠ D →
    getCell prev X.1 X.2 = sought prev cur D → getCell prev Y.1 Y.2 = sought prev cur D →
    X.1 = Y.1

instance (prev cur : Board) : Decidable (OneRowSources prev cur) := by
  unfold OneRowSources
  infer_instance

/-- Number of cells of the previous board that hold `w` and are marked in the
table. -/
def accCount (prev : Board) (w : Int) (t : Tracker) : Int :=
  (allCells.map (fun c => if getFlag t c.1 c.2 = true then holds w (getCell prev c.1 c.2)
    else 0)).sum

/-- 1 on the cells where the doubling test passes on the value `w`. -/
def mdest (prev cur : Board) (w : Int) (c : Nat × Nat) : Int :=
  if doubled prev cur c = true ∧ getCell prev c.1 c.2 = w then 1 else 0

/-- 1 on the cells that fail the doubling test and hold `w` on the current
board. -/
def sdest (prev cur : Board) (w : Int) (c : Nat × Nat) : Int :=
  if doubled prev cur c = false ∧ getCell cur c.1 c.2 = w then 1 else 0

/-- How many tiles of value `w` went into a cell that holds `x` after the
move: two if the cell is marked as merged and holds the double, one if it is
not marked and holds `w`. -/
def share (w : Int) (x : Int) (m : Bool) : Int :=
  if m = true then 2 * holds (w * 2) x else holds w x

/-- Sum over the sixteen cells of a value computed from the cell of a board
and the flag of a table at the same place. -/
def flagSum (G : Int → Bool → Int) (b : Board) (t : Tracker) : Int :=
  (allCells.map (fun c => G (getCell b c.1 c.2) (getFlag t c.1 c.2))).sum

/-- The same sum over the four cells of a line. -/
def rowFlagSum (G : Int → Bool → Int) (row : List Int) (marks : List Bool) : Int :=
  ((List.range BOARD_SIZE).map (fun j => G (row.getD j 0) (marks.getD j false))).sum

/-- The sum of `share` over a list of tiles and their marks. -/
def listShare (w : Int) : List Int → List Bool → Int
  | x :: xs, m :: ms => share w x m + listShare w xs ms
  | _, _ => 0

/-- The tiles of every non-zero value `w` of the previous board are the
cells that fail the doubling test and hold `w`, and two for every cell that
passes the doubling test on `w`. -/
def CountRel (prev cur : Board) : Prop :=
  ∀ w, w ≠ 0 → (allCells.map (fun c => holds w (getCell prev c.1 c.2))).sum
    = (allCells.map (sdest prev cur w)).sum + 2 * (allCells.map (mdest prev cur w)).sum

/-- What holds of the locals of `createMoveAnimations` after the merge pass
has visited the cells `p`: at most two marked cells for every visited cell
that passes the doubling test, and for every such cell one entry of the merge
map and one event. -/
def MergeInv (prev cur : Board) (p : List (Nat × Nat)) (r : Recon) : Prop :=
  WellFormed r.accounted
  ∧ (∀ w, w ≠ 0 → accCount prev w r.accounted ≤ 2 * (p.map (mdest prev cur w)).sum)
  ∧ (∀ k, mapHas r.mergedMap k = true → doubled prev cur k = true)
  ∧ (∀ c ∈ p, doubled prev cur c = true → mapHas r.mergedMap c = true)
  ∧ (∀ a ∈ r.anims, dest a ∈ p ∧ doubled prev cur (dest a) = true)
  ∧ (∀ c ∈ p, doubled prev cur c = true → ∃ X ∈ allCells, X ≠ c
      ∧ getCell prev X.1 X.2 = getCell prev c.1 c.2
      ∧ eventsTo c r.anims = [mkAnim X.1 X.2 c.1 c.2 true (getCell prev X.1 X.2)])

/-- What holds of the locals of `createMoveAnimations` after the slide pass
has visited the cells `p`, for a cell `T` that fails the doubling test: the
marked cells that hold the value of `T` are bounded by the visited cells of
that value, the merge map is `M`, and `T` has no event before it is visited
and one event after. -/
def SlideInv (prev cur : Board) (T : Nat × Nat) (M : List ((Nat × Nat) × (Nat × Nat)))
    (p : List (Nat × Nat)) (r : Recon) : Prop :=
  WellFormed r.accounted
  ∧ accCount prev (getCell cur T.1 T.2) r.accounted
      ≤ 2 * (allCells.map (mdest prev cur (getCell cur T.1 T.2))).sum
        + (p.map (sdest prev cur (getCell cur T.1 T.2))).sum
  ∧ r.mergedMap = M
  ∧ (T ∉ p → eventsTo T r.anims = [])
  ∧ (T ∈ p → ∃ X ∈ allCells, X ≠ T ∧ getCell prev X.1 X.2 = getCell cur T.1 T.2
      ∧ eventsTo T r.anims = [mkAnim X.1 X.2 T.1 T.2 false (getCell prev X.1 X.2)])

/-! ## Shape of well-formed tables -/

theorem length_four {α : Type} (l : List α) (h : l.length = 4) :
    ∃ a b c d, l = [a, b, c, d] := by
  match l, h with
  | [a, b, c, d], _ => exact ⟨a, b, c, d, rfl⟩

theorem wellFormed_rows {α : Type} (b : List (List α)) (h : WellFormed b) :
    ∃ r0 r1 r2 r3 : List α, b = [r0, r1, r2, r3] ∧ r0.length = 4 ∧ r1.length = 4 ∧
      r2.length = 4 ∧ r3.length = 4 := by
  obtain ⟨h1, h2⟩ := h
  obtain ⟨r0, r1, r2, r3, rfl⟩ := length_four b h1
  exact ⟨r0, r1, r2, r3, rfl, h2 r0 (by simp), h2 r1 (by simp), h2 r2 (by simp), h2 r3 (by simp)⟩

theorem wellFormed_cells {α : Type} (b : List (List α)) (h : WellFormed b) :
    ∃ a0 a1 a2 a3 b0 b1 b2 b3 c0 c1 c2 c3 d0 d1 d2 d3 : α,
      b = [[a0, a1, a2, a3], [b0, b1, b2, b3], [c0, c1, c2, c3], [d0, d1, d2, d3]] := by
  obtain ⟨r0, r1, r2, r3, rfl, h0, h1, h2, h3⟩ := wellFormed_rows b h
  obtain ⟨a0, a1, a2, a3, rfl⟩ := length_four r0 h0
  obtain ⟨b0, b1, b2, b3, rfl⟩ := length_four r1 h1
  obtain ⟨c0, c1, c2, c3, rfl⟩ := length_four r2 h2
  obtain ⟨d0, d1, d2, d3, rfl⟩ := length_four r3 h3
  exact ⟨_, _, _, _, _, _, _, _, _, _, _, _, _, _, _, _, rfl⟩

theorem wellFormed_literal {α : Type} (a0 a1 a2 a3 b0 b1 b2 b3 c0 c1 c2 c3 d0 d1 d2 d3 : α) :
    WellFormed [[a0, a1, a2, a3], [b0, b1, b2, b3], [c0, c1, c2, c3], [d0, d1, d2, d3]] := by
  simp [WellFormed, BOARD_SIZE]

theorem lt_four_cases (i : Nat) (h : i < BOARD_SIZE) : i = 0 ∨ i = 1 ∨ i = 2 ∨ i = 3 := by
  unfold BOARD_SIZE at h; omega

theorem wellFormed_set {α : Type} (b : List (List α)) (hb : WellFormed b) (i j : Nat) (v : α) :
    WellFormed (b.set i ((b.getD i []).set j v)) := by
  obtain ⟨h1, h2⟩ := hb
  refine ⟨by simpa using h1, ?_⟩
  intro row hrow
  rcases List.mem_or_eq_of_mem_set hrow with h | h
  · exact h2 row h
  · subst h
    by_cases hi : i < b.length
    · simp only [List.length_set]
      apply h2
      rw [List.getD_eq_getElem _ _ hi]
      exact List.getElem_mem _
    · have hset : b.set i ((b.getD i []).set j v) = b := by
        apply List.set_eq_of_length_le; omega
      rw [hset] at hrow
      exact h2 _ hrow

theorem wellFormed_transposeWith {α : Type} (d : α) (b : List (List α)) :
    WellFormed (transposeWith d b) := by
  simp [WellFormed, transposeWith, BOARD_SIZE]

theorem wellFormed_mirror {α : Type} (b : List (List α)) (hb : WellFormed b) :
    WellFormed (mirror b) := by
  obtain ⟨a0, a1, a2, a3, b0, b1, b2, b3, c0, c1, c2, c3, d0, d1, d2, d3, rfl⟩ :=
    wellFormed_cells b hb
  exact wellFormed_literal _ _ _ _ _ _ _ _ _ _ _ _ _ _ _ _

theorem transposeWith_transposeWith {α : Type} (d : α) (b : List (List α)) (hb : WellFormed b) :
    transposeWith d (transposeWith d b) = b := by
  obtain ⟨a0, a1, a2, a3, b0, b1, b2, b3, c0, c1, c2, c3, d0, d1, d2, d3, rfl⟩ :=
    wellFormed_cells b hb
  rfl

theorem mirror_mirror {α : Type} (b : List (List α)) : mirror (mirror b) = b := by
  simp [mirror, Function.comp_def]

/-! ## Reads and writes under transposition and mirroring -/

theorem getD_transposeWith {α : Type} (d : α) (b : List (List α)) (i j : Nat)
    (hi : i < BOARD_SIZE) (hj : j < BOARD_SIZE) :
    ((transposeWith d b).getD i []).getD j d = (b.getD j []).getD i d := by
  rcases lt_four_cases i hi with rfl | rfl | rfl | rfl <;>
  rcases lt_four_cases j hj with rfl | rfl | rfl | rfl <;> rfl

theorem set_transposeWith {α : Type} (d : α) (b : List (List α)) (hb : WellFormed b) (i j : Nat)
    (hi : i < BOARD_SIZE) (hj : j < BOARD_SIZE) (v : α) :
    transposeWith d (b.set i ((b.getD i []).set j v))
      = (transposeWith d b).set j (((transposeWith d b).getD j []).set i v) := by
  obtain ⟨a0, a1, a2, a3, b0, b1, b2, b3, c0, c1, c2, c3, d0, d1, d2, d3, rfl⟩ :=
    wellFormed_cells b hb
  rcases lt_four_cases i hi with rfl | rfl | rfl | rfl <;>
  rcases lt_four_cases j hj with rfl | rfl | rfl | rfl <;> rfl

theorem getD_mirror {α : Type} (d : α) (b : List (List α)) (hb : WellFormed b) (i j : Nat)
    (hi : i < BOARD_SIZE) (hj : j < BOARD_SIZE) :
    ((mirror b).getD i []).getD j d = (b.getD i []).getD (BOARD_SIZE - 1 - j) d := by
  obtain ⟨a0, a1, a2, a3, b0, b1, b2, b3, c0, c1, c2, c3, d0, d1, d2, d3, rfl⟩ :=
    wellFormed_cells b hb
  rcases lt_four_cases i hi with rfl | rfl | rfl | rfl <;>
  rcases lt_four_cases j hj with rfl | rfl | rfl | rfl <;> rfl

theorem set_mirror {α : Type} (b : List (List α)) (hb : WellFormed b) (i j : Nat)
    (hi : i < BOARD_SIZE) (hj : j < BOARD_SIZE) (v : α) :
    mirror (b.set i ((b.getD i []).set j v))
      = (mirror b).set i (((mirror b).getD i []).set (BOARD_SIZE - 1 - j) v) := by
  obtain ⟨a0, a1, a2, a3, b0, b1, b2, b3, c0, c1, c2, c3, d0, d1, d2, d3, rfl⟩ :=
    wellFormed_cells b hb
  rcases lt_four_cases i hi with rfl | rfl | rfl | rfl <;>
  rcases lt_four_cases j hj with rfl | rfl | rfl | rfl <;> rfl

theorem getCell_transpose (b : Board) (i j : Nat) (hi : i < BOARD_SIZE) (hj : j < BOARD_SIZE) :
    getCell (transpose b) i j = getCell b j i := getD_transposeWith 0 b i j hi hj

theorem getFlag_transpose (t : Tracker) (i j : Nat) (hi : i < BOARD_SIZE) (hj : j < BOARD_SIZE) :
    getFlag (transposeWith false t) i j = getFlag t j i := getD_transposeWith false t i j hi hj

theorem setCell_transpose (b : Board) (hb : WellFormed b) (i j : Nat) (hi : i < BOARD_SIZE)
    (hj : j < BOARD_SIZE) (v : Int) :
    transpose (setCell b i j v) = setCell (transpose b) j i v :=
  set_transposeWith 0 b hb i j hi hj v

theorem setFlag_transpose (t : Tracker) (ht : WellFormed t) (i j : Nat) (hi : i < BOARD_SIZE)
    (hj : j < BOARD_SIZE) (v : Bool) :
    transposeWith false (setFlag t i j v) = setFlag (transposeWith false t) j i v :=
  set_transposeWith false t ht i j hi hj v

theorem getCell_mirror (b : Board) (hb : WellFormed b) (i j : Nat) (hi : i < BOARD_SIZE)
    (hj : j < BOARD_SIZE) :
    getCell (mirror b) i j = getCell b i (BOARD_SIZE - 1 - j) := getD_mirror 0 b hb i j hi hj

theorem getFlag_mirror (t : Tracker) (ht : WellFormed t) (i j : Nat) (hi : i < BOARD_SIZE)
    (hj : j < BOARD_SIZE) :
    getFlag (mirror t) i j = getFlag t i (BOARD_SIZE - 1 - j) := getD_mirror false t ht i j hi hj

theorem setCell_mirror (b : Board) (hb : WellFormed b) (i j : Nat) (hi : i < BOARD_SIZE)
    (hj : j < BOARD_SIZE) (v : Int) :
    mirror (setCell b i j v) = setCell (mirror b) i (BOARD_SIZE - 1 - j) v :=
  set_mirror b hb i j hi hj v

theorem setFlag_mirror (t : Tracker) (ht : WellFormed t) (i j : Nat) (hi : i < BOARD_SIZE)
    (hj : j < BOARD_SIZE) (v : Bool) :
    mirror (setFlag t i j v) = setFlag (mirror t) i (BOARD_SIZE - 1 - j) v :=
  set_mirror t ht i j hi hj v

theorem wellFormed_setCell (b : Board) (hb : WellFormed b) (i j : Nat) (v : Int) :
    WellFormed (setCell b i j v) := wellFormed_set b hb i j v

theorem wellFormed_setFlag (t : Tracker) (ht : WellFormed t) (i j : Nat) (v : Bool) :
    WellFormed (setFlag t i j v) := wellFormed_set t ht i j v

/-! ## The loops keep the tables well formed -/

theorem accWF_cells (s : MoveAcc) (h : AccWF s) (b : Board) (hb : WellFormed b) (m : Bool) :
    AccWF { s with cells := b, moved := m } := ⟨hb, h.2⟩

theorem accWF_merge (s : MoveAcc) (h : AccWF s) (i j i2 j2 i3 j3 : Nat) (v : Int) (sc : Scores) :
    AccWF { s with cells := setCell (setCell s.cells i j v) i2 j2 0,
                   tracker := setFlag s.tracker i3 j3 true, scores := sc,
                   moved := true, merged := true } :=
  ⟨wellFormed_setCell _ (wellFormed_setCell _ h.1 _ _ _) _ _ _, wellFormed_setFlag _ h.2 _ _ _⟩

theorem slideLeft_wf (i : Nat) (col : Nat) (s : MoveAcc) (h : AccWF s) :
    AccWF (slideLeft i col s).2 := by
  induction col generalizing s with
  | zero => simpa [slideLeft] using h
  | succ col ih =>
    unfold slideLeft
    split
    · exact ih _ (accWF_cells s h _ (wellFormed_setCell _ (wellFormed_setCell _ h.1 _ _ _) _ _ _) _)
    · exact h

theorem slideLeft_le (i : Nat) (col : Nat) (s : MoveAcc) : (slideLeft i col s).1 ≤ col := by
  induction col generalizing s with
  | zero => simp [slideLeft]
  | succ col ih =>
    unfold slideLeft
    split
    · exact Nat.le_succ_of_le (ih _)
    · exact Nat.le_refl _

theorem mergeLeft_wf (p2 : Bool) (i col : Nat) (s : MoveAcc) (h : AccWF s) :
    AccWF (mergeLeft p2 i col s) := by
  unfold mergeLeft
  split
  · exact accWF_merge s h _ _ _ _ _ _ _ _
  · exact h

theorem stepLeft_wf (p2 : Bool) (i j : Nat) (s : MoveAcc) (h : AccWF s) :
    AccWF (stepLeft p2 i j s) := by
  unfold stepLeft
  split
  · exact mergeLeft_wf p2 i _ _ (slideLeft_wf i j s h)
  · exact h

theorem foldl_wf (f : MoveAcc → Nat → MoveAcc) (hf : ∀ s k, AccWF s → AccWF (f s k))
    (l : List Nat) (s : MoveAcc) (h : AccWF s) : AccWF (l.foldl f s) := by
  induction l generalizing s with
  | nil => exact h
  | cons k l ih => exact ih _ (hf s k h)

theorem rowLoopLeft_wf (p2 : Bool) (i : Nat) (s : MoveAcc) (h : AccWF s) :
    AccWF (rowLoopLeft p2 i s) :=
  foldl_wf _ (fun s j hs => stepLeft_wf p2 i j s hs) _ s h

theorem loopLeft_wf (p2 : Bool) (s : MoveAcc) (h : AccWF s) : AccWF (loopLeft p2 s) :=
  foldl_wf _ (fun s i hs => rowLoopLeft_wf p2 i s hs) _ s h

theorem slideUp_wf (j : Nat) (row : Nat) (s : MoveAcc) (h : AccWF s) :
    AccWF (slideUp j row s).2 := by
  induction row generalizing s with
  | zero => simpa [slideUp] using h
  | succ row ih =>
    unfold slideUp
    split
    · exact ih _ (accWF_cells s h _ (wellFormed_setCell _ (wellFormed_setCell _ h.1 _ _ _) _ _ _) _)
    · exact h

theorem slideUp_le (j : Nat) (row : Nat) (s : MoveAcc) : (slideUp j row s).1 ≤ row := by
  induction row generalizing s with
  | zero => simp [slideUp]
  | succ row ih =>
    unfold slideUp
    split
    · exact Nat.le_succ_of_le (ih _)
    · exact Nat.le_refl _

theorem mergeUp_wf (p2 : Bool) (j row : Nat) (s : MoveAcc) (h : AccWF s) :
    AccWF (mergeUp p2 j row s) := by
  unfold mergeUp
  split
  · exact accWF_merge s h _ _ _ _ _ _ _ _
  · exact h

theorem stepUp_wf (p2 : Bool) (j i : Nat) (s : MoveAcc) (h : AccWF s) :
    AccWF (stepUp p2 j i s) := by
  unfold stepUp
  split
  · exact mergeUp_wf p2 j _ _ (slideUp_wf j i s h)
  · exact h

/-! ## `moveUp` is `moveLeft` on the transposed board -/

theorem accWF_transposeAcc (s : MoveAcc) : AccWF (transposeAcc s) :=
  ⟨wellFormed_transposeWith _ _, wellFormed_transposeWith _ _⟩

theorem transposeAcc_transposeAcc (s : MoveAcc) (h : AccWF s) :
    transposeAcc (transposeAcc s) = s := by
  cases s
  simp only [transposeAcc, transpose, MoveAcc.mk.injEq, and_true, true_and]
  exact ⟨transposeWith_transposeWith _ _ h.1, transposeWith_transposeWith _ _ h.2⟩

theorem slideUp_sim (j : Nat) (hj : j < BOARD_SIZE) (row : Nat) (hrow : row < BOARD_SIZE)
    (s : MoveAcc) (h : AccWF s) :
    slideLeft j row (transposeAcc s) = ((slideUp j row s).1, transposeAcc (slideUp j row s).2) := by
  induction row generalizing s with
  | zero => simp [slideLeft, slideUp]
  | succ row ih =>
    have hr : row < BOARD_SIZE := Nat.lt_of_succ_lt hrow
    unfold slideLeft slideUp
    have hc : getCell (transposeAcc s).cells j row = getCell s.cells row j :=
      getCell_transpose _ _ _ hj hr
    rw [hc]
    split
    · have hw := accWF_cells s h _
        (wellFormed_setCell _ (wellFormed_setCell _ h.1 row j (getCell s.cells (row + 1) j))
          (row + 1) j 0) true
      rw [← ih hr _ hw]
      simp only [transposeAcc, MoveAcc.mk.injEq, and_true, true_and]
      rw [setCell_transpose _ (wellFormed_setCell _ h.1 _ _ _) _ _ hrow hj,
        setCell_transpose _ h.1 _ _ hr hj, getCell_transpose _ _ _ hj hrow]
    · rfl

theorem mergeUp_sim (p2 : Bool) (j : Nat) (hj : j < BOARD_SIZE) (row : Nat)
    (hrow : row < BOARD_SIZE) (s : MoveAcc) (h : AccWF s) :
    mergeLeft p2 j row (transposeAcc s) = transposeAcc (mergeUp p2 j row s) := by
  have hr : row - 1 < BOARD_SIZE := Nat.lt_of_le_of_lt (Nat.sub_le _ _) hrow
  unfold mergeLeft mergeUp
  have h1 : getCell (transposeAcc s).cells j (row - 1) = getCell s.cells (row - 1) j :=
    getCell_transpose _ _ _ hj hr
  have h2 : getCell (transposeAcc s).cells j row = getCell s.cells row j :=
    getCell_transpose _ _ _ hj hrow
  have h3 : getFlag (transposeAcc s).tracker j (row - 1) = getFlag s.tracker (row - 1) j :=
    getFlag_transpose _ _ _ hj hr
  rw [h1, h2, h3]
  split
  · cases p2 <;>
    simp only [transposeAcc, addScore, MoveAcc.mk.injEq, and_true, true_and, if_true,
      Bool.false_eq_true, if_false] <;>
    rw [setCell_transpose _ (wellFormed_setCell _ h.1 _ _ _) _ _ hrow hj,
      setCell_transpose _ h.1 _ _ hr hj, setFlag_transpose _ h.2 _ _ hr hj] <;>
    simp [getCell_transpose _ _ _ hj hr,
      ← setCell_transpose _ (wellFormed_setCell _ h.1 _ _ _) _ _ hrow hj,
      ← setCell_transpose _ h.1 _ _ hr hj]
  · rfl

theorem stepUp_sim (p2 : Bool) (j : Nat) (hj : j < BOARD_SIZE) (i : Nat) (hi : i < BOARD_SIZE)
    (s : MoveAcc) (h : AccWF s) :
    stepLeft p2 j i (transposeAcc s) = transposeAcc (stepUp p2 j i s) := by
  unfold stepLeft stepUp
  have hc : getCell (transposeAcc s).cells j i = getCell s.cells i j :=
    getCell_transpose _ _ _ hj hi
  rw [hc]
  split
  · rw [slideUp_sim j hj i hi s h]
    exact mergeUp_sim p2 j hj _ (Nat.lt_of_le_of_lt (slideUp_le j i s) hi) _ (slideUp_wf j i s h)
  · rfl

theorem foldl_sim (f g : MoveAcc → Nat → MoveAcc) (T : MoveAcc → MoveAcc) (l : List Nat)
    (hg : ∀ s k, AccWF s → AccWF (g s k))
    (hfg : ∀ s k, k ∈ l → AccWF s → f (T s) k = T (g s k))
    (s : MoveAcc) (h : AccWF s) : l.foldl f (T s) = T (l.foldl g s) := by
  induction l generalizing s with
  | nil => rfl
  | cons k l ih =>
    simp only [List.foldl_cons]
    rw [hfg s k (List.mem_cons_self _ _) h]
    exact ih (fun s k hk hs => hfg s k (List.mem_cons_of_mem _ hk) hs) _ (hg s k h)

theorem colLoopUp_sim (p2 : Bool) (j : Nat) (hj : j < BOARD_SIZE) (s : MoveAcc) (h : AccWF s) :
    rowLoopLeft p2 j (transposeAcc s) = transposeAcc (colLoopUp p2 j s) := by
  unfold rowLoopLeft colLoopUp
  apply foldl_sim _ _ transposeAcc _ (fun s i hs => stepUp_wf p2 j i s hs) _ s h
  intro s i hi hs
  refine stepUp_sim p2 j hj i ?_ s hs
  simp [BOARD_SIZE, List.mem_range'] at hi ⊢
  omega

theorem colLoopUp_wf (p2 : Bool) (j : Nat) (s : MoveAcc) (h : AccWF s) :
    AccWF (colLoopUp p2 j s) :=
  foldl_wf _ (fun s i hs => stepUp_wf p2 j i s hs) _ s h

theorem loopUp_wf (p2 : Bool) (s : MoveAcc) (h : AccWF s) : AccWF (loopUp p2 s) :=
  foldl_wf _ (fun s j hs => colLoopUp_wf p2 j s hs) _ s h

theorem loopUp_sim (p2 : Bool) (s : MoveAcc) (h : AccWF s) :
    loopLeft p2 (transposeAcc s) = transposeAcc (loopUp p2 s) := by
  unfold loopLeft loopUp
  apply foldl_sim _ _ transposeAcc _ (fun s j hs => colLoopUp_wf p2 j s hs) _ s h
  intro s j hj hs
  exact colLoopUp_sim p2 j (by simpa using hj) s hs

/-- The loops of `moveUp` are the loops of `moveLeft` on the transposed
tables, transposed back. -/
theorem loopUp_eq (p2 : Bool) (s : MoveAcc) (h : AccWF s) :
    loopUp p2 s = transposeAcc (loopLeft p2 (transposeAcc s)) := by
  rw [loopUp_sim p2 s h, transposeAcc_transposeAcc _ (loopUp_wf p2 s h)]

/-! ## `moveRight` is `moveLeft` on the mirrored board -/

/-- The bound `BOARD_SIZE` on the iterations of the `while` loop of
`moveRight` is never reached: from `BOARD_SIZE - 1 - col` on, more fuel does
not change the result. -/
theorem slideRight_fuel (i : Nat) (fuel col : Nat) (h : BOARD_SIZE - 1 - col ≤ fuel)
    (s : MoveAcc) : slideRight i (fuel + 1) col s = slideRight i fuel col s := by
  induction fuel generalizing s col with
  | zero =>
    have hc : ¬ col < BOARD_SIZE - 1 := by omega
    simp [slideRight, hc]
  | succ fuel ih =>
    rw [slideRight]
    conv_rhs => rw [slideRight]
    split
    · rename_i hc
      exact ih (col + 1) (by have := hc.1; omega) _
    · rfl

theorem slideRight_wf (i : Nat) (fuel col : Nat) (s : MoveAcc) (h : AccWF s) :
    AccWF (slideRight i fuel col s).2 := by
  induction fuel generalizing s col with
  | zero => simpa [slideRight] using h
  | succ fuel ih =>
    unfold slideRight
    split
    · exact ih _ _ (accWF_cells s h _ (wellFormed_setCell _ (wellFormed_setCell _ h.1 _ _ _) _ _ _) _)
    · exact h

theorem slideRight_lt (i : Nat) (fuel col : Nat) (hcol : col < BOARD_SIZE) (s : MoveAcc) :
    (slideRight i fuel col s).1 < BOARD_SIZE := by
  induction fuel generalizing s col with
  | zero => simpa [slideRight] using hcol
  | succ fuel ih =>
    unfold slideRight
    split
    · rename_i hc
      exact ih _ (by have := hc.1; unfold BOARD_SIZE at this ⊢; omega) _
    · exact hcol

theorem mergeRight_wf (p2 : Bool) (i col : Nat) (s : MoveAcc) (h : AccWF s) :
    AccWF (mergeRight p2 i col s) := by
  unfold mergeRight
  split
  · exact accWF_merge s h _ _ _ _ _ _ _ _
  · exact h

theorem stepRight_wf (p2 : Bool) (i j : Nat) (s : MoveAcc) (h : AccWF s) :
    AccWF (stepRight p2 i j s) := by
  unfold stepRight
  split
  · exact mergeRight_wf p2 i _ _ (slideRight_wf i _ j s h)
  · exact h

theorem rowLoopRight_wf (p2 : Bool) (i : Nat) (s : MoveAcc) (h : AccWF s) :
    AccWF (rowLoopRight p2 i s) :=
  foldl_wf _ (fun s j hs => stepRight_wf p2 i j s hs) _ s h

theorem loopRight_wf (p2 : Bool) (s : MoveAcc) (h : AccWF s) : AccWF (loopRight p2 s) :=
  foldl_wf _ (fun s i hs => rowLoopRight_wf p2 i s hs) _ s h

theorem accWF_mirrorAcc (s : MoveAcc) (h : AccWF s) : AccWF (mirrorAcc s) :=
  ⟨wellFormed_mirror _ h.1, wellFormed_mirror _ h.2⟩

theorem mirrorAcc_mirrorAcc (s : MoveAcc) : mirrorAcc (mirrorAcc s) = s := by
  cases s
  simp [mirrorAcc, mirror_mirror]

theorem slideRight_sim (i : Nat) (hi : i < BOARD_SIZE) (fuel col : Nat) (hcol : col < BOARD_SIZE)
    (hfuel : BOARD_SIZE - 1 - col ≤ fuel) (s : MoveAcc) (h : AccWF s) :
    slideLeft i (BOARD_SIZE - 1 - col) (mirrorAcc s)
      = (BOARD_SIZE - 1 - (slideRight i fuel col s).1, mirrorAcc (slideRight i fuel col s).2) := by
  induction fuel generalizing s col with
  | zero =>
    have : BOARD_SIZE - 1 - col = 0 := by omega
    simp [slideLeft, slideRight, this]
  | succ fuel ih =>
    unfold slideRight
    by_cases hc : col < BOARD_SIZE - 1
    · obtain ⟨k, hk⟩ : ∃ k, BOARD_SIZE - 1 - col = k + 1 := ⟨BOARD_SIZE - 2 - col, by
        unfold BOARD_SIZE at hc ⊢; omega⟩
      have hk1 : k = BOARD_SIZE - 1 - (col + 1) := by unfold BOARD_SIZE at hk ⊢; omega
      have hk4 : k < BOARD_SIZE := by unfold BOARD_SIZE at hk ⊢; omega
      have hk14 : k + 1 < BOARD_SIZE := by unfold BOARD_SIZE at hk ⊢; omega
      have hcol1 : col + 1 < BOARD_SIZE := by unfold BOARD_SIZE at hc ⊢; omega
      have e1 : BOARD_SIZE - 1 - k = col + 1 := by unfold BOARD_SIZE at hk ⊢; omega
      have e2 : BOARD_SIZE - 1 - (k + 1) = col := by unfold BOARD_SIZE at hk ⊢; omega
      rw [hk]
      unfold slideLeft
      have hcell : getCell (mirrorAcc s).cells i k = getCell s.cells i (col + 1) := by
        show getCell (mirror s.cells) i k = _
        rw [getCell_mirror _ h.1 _ _ hi hk4, e1]
      rw [hcell]
      by_cases hz : getCell s.cells i (col + 1) = 0
      · simp only [hz, hc, and_self, if_true]
        have hw := accWF_cells s h _
          (wellFormed_setCell _ (wellFormed_setCell _ h.1 i (col + 1) (getCell s.cells i col))
            i col 0) true
        have := ih (col + 1) hcol1 (by unfold BOARD_SIZE at hfuel ⊢; omega) _ hw
        rw [← this, ← hk1]
        congr 1
        simp only [mirrorAcc, MoveAcc.mk.injEq, and_true, true_and]
        rw [setCell_mirror _ (wellFormed_setCell _ h.1 _ _ _) _ _ hi hcol,
          setCell_mirror _ h.1 _ _ hi hcol1, getCell_mirror _ h.1 _ _ hi hk14, e2, ← hk, ← hk1]
      · simp [hz, hk]
    · have : BOARD_SIZE - 1 - col = 0 := by omega
      simp [slideLeft, hc, this]

theorem mergeRight_sim (p2 : Bool) (i : Nat) (hi : i < BOARD_SIZE) (col : Nat)
    (hcol : col < BOARD_SIZE) (s : MoveAcc) (h : AccWF s) :
    mergeLeft p2 i (BOARD_SIZE - 1 - col) (mirrorAcc s) = mirrorAcc (mergeRight p2 i col s) := by
  unfold mergeLeft mergeRight
  by_cases hc : col < BOARD_SIZE - 1
  · have hk4 : BOARD_SIZE - 1 - col - 1 < BOARD_SIZE := by unfold BOARD_SIZE at hc ⊢; omega
    have hk14 : BOARD_SIZE - 1 - col < BOARD_SIZE := by unfold BOARD_SIZE at hc ⊢; omega
    have hcol1 : col + 1 < BOARD_SIZE := by unfold BOARD_SIZE at hc ⊢; omega
    have e1 : BOARD_SIZE - 1 - (BOARD_SIZE - 1 - col - 1) = col + 1 := by
      unfold BOARD_SIZE at hc ⊢; omega
    have e2 : BOARD_SIZE - 1 - (BOARD_SIZE - 1 - col) = col := by
      unfold BOARD_SIZE at hc ⊢; omega
    have e3 : BOARD_SIZE - 1 - (col + 1) = BOARD_SIZE - 1 - col - 1 := by
      unfold BOARD_SIZE at hc ⊢; omega
    have hpos : BOARD_SIZE - 1 - col > 0 := by unfold BOARD_SIZE at hc ⊢; omega
    have h1 : getCell (mirrorAcc s).cells i (BOARD_SIZE - 1 - col - 1) = getCell s.cells i (col + 1) := by
      show getCell (mirror s.cells) i _ = _
      rw [getCell_mirror _ h.1 _ _ hi hk4, e1]
    have h2 : getCell (mirrorAcc s).cells i (BOARD_SIZE - 1 - col) = getCell s.cells i col := by
      show getCell (mirror s.cells) i _ = _
      rw [getCell_mirror _ h.1 _ _ hi hk14, e2]
    have h3 : getFlag (mirrorAcc s).tracker i (BOARD_SIZE - 1 - col - 1)
        = getFlag s.tracker i (col + 1) := by
      show getFlag (mirror s.tracker) i _ = _
      rw [getFlag_mirror _ h.2 _ _ hi hk4, e1]
    have key : ∀ X : Board, WellFormed X →
        getCell (mirror X) i (BOARD_SIZE - 1 - (col + 1)) = getCell X i (col + 1) := by
      intro X hX
      rw [getCell_mirror _ hX _ _ hi (by rw [e3]; exact hk4), e3, e1]
    rw [h1, h2, h3]
    simp only [hpos, hc, true_and]
    split
    · cases p2 <;>
      simp only [mirrorAcc, addScore, MoveAcc.mk.injEq, and_true, true_and, if_true,
        Bool.false_eq_true, if_false] <;>
      rw [setCell_mirror _ (wellFormed_setCell _ h.1 _ _ _) _ _ hi hcol,
        setCell_mirror _ h.1 _ _ hi hcol1, setFlag_mirror _ h.2 _ _ hi hcol1, e3] <;>
      simp [← e3, ← setCell_mirror _ h.1 _ _ hi hcol1,
        ← setCell_mirror _ (wellFormed_setCell _ h.1 _ _ _) _ _ hi hcol,
        key _ (wellFormed_setCell _ (wellFormed_setCell _ h.1 _ _ _) _ _ _)]
    · rfl
  · have : BOARD_SIZE - 1 - col = 0 := by omega
    simp [hc, this]

theorem stepRight_sim (p2 : Bool) (i : Nat) (hi : i < BOARD_SIZE) (j : Nat) (hj : j < BOARD_SIZE)
    (s : MoveAcc) (h : AccWF s) :
    stepLeft p2 i (BOARD_SIZE - 1 - j) (mirrorAcc s) = mirrorAcc (stepRight p2 i j s) := by
  unfold stepLeft stepRight
  have hk : BOARD_SIZE - 1 - j < BOARD_SIZE := by unfold BOARD_SIZE at hj ⊢; omega
  have e : BOARD_SIZE - 1 - (BOARD_SIZE - 1 - j) = j := by unfold BOARD_SIZE at hj ⊢; omega
  have hc : getCell (mirrorAcc s).cells i (BOARD_SIZE - 1 - j) = getCell s.cells i j := by
    show getCell (mirror s.cells) i _ = _
    rw [getCell_mirror _ h.1 _ _ hi hk, e]
  rw [hc]
  split
  · rw [slideRight_sim i hi BOARD_SIZE j hj (by unfold BOARD_SIZE; omega) s h]
    exact mergeRight_sim p2 i hi _ (slideRight_lt i _ j hj s) _ (slideRight_wf i _ j s h)
  · rfl

theorem foldl_map_sim (f g : MoveAcc → Nat → MoveAcc) (T : MoveAcc → MoveAcc) (φ : Nat → Nat)
    (l : List Nat) (hg : ∀ s k, AccWF s → AccWF (g s k))
    (hfg : ∀ s k, k ∈ l → AccWF s → f (T s) (φ k) = T (g s k))
    (s : MoveAcc) (h : AccWF s) : (l.map φ).foldl f (T s) = T (l.foldl g s) := by
  induction l generalizing s with
  | nil => rfl
  | cons k l ih =>
    simp only [List.map_cons, List.foldl_cons]
    rw [hfg s k (List.mem_cons_self _ _) h]
    exact ih (fun s k hk hs => hfg s k (List.mem_cons_of_mem _ hk) hs) _ (hg s k h)

theorem rowLoopRight_sim (p2 : Bool) (i : Nat) (hi : i < BOARD_SIZE) (s : MoveAcc) (h : AccWF s) :
    rowLoopLeft p2 i (mirrorAcc s) = mirrorAcc (rowLoopRight p2 i s) := by
  unfold rowLoopLeft rowLoopRight
  have hl : List.range' 1 (BOARD_SIZE - 1)
      = ((List.range (BOARD_SIZE - 1)).reverse).map (fun j => BOARD_SIZE - 1 - j) := by decide
  rw [hl]
  apply foldl_map_sim _ _ mirrorAcc _ _ (fun s j hs => stepRight_wf p2 i j s hs) _ s h
  intro s j hj hs
  refine stepRight_sim p2 i hi j ?_ s hs
  simp [BOARD_SIZE] at hj ⊢
  omega

theorem loopRight_sim (p2 : Bool) (s : MoveAcc) (h : AccWF s) :
    loopLeft p2 (mirrorAcc s) = mirrorAcc (loopRight p2 s) := by
  unfold loopLeft loopRight
  apply foldl_sim _ _ mirrorAcc _ (fun s i hs => rowLoopRight_wf p2 i s hs) _ s h
  intro s i hi hs
  exact rowLoopRight_sim p2 i (by simpa using hi) s hs

/-- The loops of `moveRight` are the loops of `moveLeft` on the mirrored
tables, mirrored back. -/
theorem loopRight_eq (p2 : Bool) (s : MoveAcc) (h : AccWF s) :
    loopRight p2 s = mirrorAcc (loopLeft p2 (mirrorAcc s)) := by
  rw [loopRight_sim p2 s h, mirrorAcc_mirrorAcc]

/-! ## `moveDown` is `moveRight` on the transposed board -/

/-- The bound `BOARD_SIZE` on the iterations of the `while` loop of
`moveDown` is never reached: from `BOARD_SIZE - 1 - row` on, more fuel does not
change the result. -/
theorem slideDown_fuel (j : Nat) (fuel row : Nat) (h : BOARD_SIZE - 1 - row ≤ fuel)
    (s : MoveAcc) : slideDown j (fuel + 1) row s = slideDown j fuel row s := by
  induction fuel generalizing s row with
  | zero =>
    have hc : ¬ row < BOARD_SIZE - 1 := by omega
    simp [slideDown, hc]
  | succ fuel ih =>
    rw [slideDown]
    conv_rhs => rw [slideDown]
    split
    · rename_i hc
      exact ih (row + 1) (by have := hc.1; omega) _
    · rfl

theorem slideDown_wf (j : Nat) (fuel row : Nat) (s : MoveAcc) (h : AccWF s) :
    AccWF (slideDown j fuel row s).2 := by
  induction fuel generalizing s row with
  | zero => simpa [slideDown] using h
  | succ fuel ih =>
    unfold slideDown
    split
    · exact ih _ _ (accWF_cells s h _ (wellFormed_setCell _ (wellFormed_setCell _ h.1 _ _ _) _ _ _) _)
    · exact h

theorem slideDown_lt (j : Nat) (fuel row : Nat) (hrow : row < BOARD_SIZE) (s : MoveAcc) :
    (slideDown j fuel row s).1 < BOARD_SIZE := by
  induction fuel generalizing s row with
  | zero => simpa [slideDown] using hrow
  | succ fuel ih =>
    unfold slideDown
    split
    · rename_i hc
      exact ih _ (by have := hc.1; unfold BOARD_SIZE at this ⊢; omega) _
    · exact hrow

theorem mergeDown_wf (p2 : Bool) (j row : Nat) (s : MoveAcc) (h : AccWF s) :
    AccWF (mergeDown p2 j row s) := by
  unfold mergeDown
  split
  · exact accWF_merge s h _ _ _ _ _ _ _ _
  · exact h

theorem stepDown_wf (p2 : Bool) (j i : Nat) (s : MoveAcc) (h : AccWF s) :
    AccWF (stepDown p2 j i s) := by
  unfold stepDown
  split
  · exact mergeDown_wf p2 j _ _ (slideDown_wf j _ i s h)
  · exact h

theorem colLoopDown_wf (p2 : Bool) (j : Nat) (s : MoveAcc) (h : AccWF s) :
    AccWF (colLoopDown p2 j s) :=
  foldl_wf _ (fun s i hs => stepDown_wf p2 j i s hs) _ s h

theorem loopDown_wf (p2 : Bool) (s : MoveAcc) (h : AccWF s) : AccWF (loopDown p2 s) :=
  foldl_wf _ (fun s j hs => colLoopDown_wf p2 j s hs) _ s h

theorem slideDown_sim (j : Nat) (hj : j < BOARD_SIZE) (fuel row : Nat) (hrow : row < BOARD_SIZE)
    (s : MoveAcc) (h : AccWF s) :
    slideRight j fuel row (transposeAcc s)
      = ((slideDown j fuel row s).1, transposeAcc (slideDown j fuel row s).2) := by
  induction fuel generalizing s row with
  | zero => simp [slideRight, slideDown]
  | succ fuel ih =>
    unfold slideRight slideDown
    by_cases hc : row < BOARD_SIZE - 1
    · have hr1 : row + 1 < BOARD_SIZE := by unfold BOARD_SIZE at hc ⊢; omega
      have hcell : getCell (transposeAcc s).cells j (row + 1) = getCell s.cells (row + 1) j :=
        getCell_transpose _ _ _ hj hr1
      rw [hcell]
      split
      · have hw := accWF_cells s h _
          (wellFormed_setCell _ (wellFormed_setCell _ h.1 (row + 1) j (getCell s.cells row j))
            row j 0) true
        rw [← ih (row + 1) hr1 _ hw]
        simp only [transposeAcc, MoveAcc.mk.injEq, and_true, true_and]
        rw [setCell_transpose _ (wellFormed_setCell _ h.1 _ _ _) _ _ hrow hj,
          setCell_transpose _ h.1 _ _ hr1 hj, getCell_transpose _ _ _ hj hrow]
      · rfl
    · simp [hc]

theorem mergeDown_sim (p2 : Bool) (j : Nat) (hj : j < BOARD_SIZE) (row : Nat)
    (hrow : row < BOARD_SIZE) (s : MoveAcc) (h : AccWF s) :
    mergeRight p2 j row (transposeAcc s) = transposeAcc (mergeDown p2 j row s) := by
  unfold mergeRight mergeDown
  by_cases hc : row < BOARD_SIZE - 1
  · have hr : row + 1 < BOARD_SIZE := by unfold BOARD_SIZE at hc ⊢; omega
    have h1 : getCell (transposeAcc s).cells j (row + 1) = getCell s.cells (row + 1) j :=
      getCell_transpose _ _ _ hj hr
    have h2 : getCell (transposeAcc s).cells j row = getCell s.cells row j :=
      getCell_transpose _ _ _ hj hrow
    have h3 : getFlag (transposeAcc s).tracker j (row + 1) = getFlag s.tracker (row + 1) j :=
      getFlag_transpose _ _ _ hj hr
    rw [h1, h2, h3]
    split
    · cases p2 <;>
      simp only [transposeAcc, addScore, MoveAcc.mk.injEq, and_true, true_and, if_true,
        Bool.false_eq_true, if_false] <;>
      rw [setCell_transpose _ (wellFormed_setCell _ h.1 _ _ _) _ _ hrow hj,
        setCell_transpose _ h.1 _ _ hr hj, setFlag_transpose _ h.2 _ _ hr hj] <;>
      simp [getCell_transpose _ _ _ hj hr,
        ← setCell_transpose _ (wellFormed_setCell _ h.1 _ _ _) _ _ hrow hj,
        ← setCell_transpose _ h.1 _ _ hr hj]
    · rfl
  · simp [hc]

theorem stepDown_sim (p2 : Bool) (j : Nat) (hj : j < BOARD_SIZE) (i : Nat) (hi : i < BOARD_SIZE)
    (s : MoveAcc) (h : AccWF s) :
    stepRight p2 j i (transposeAcc s) = transposeAcc (stepDown p2 j i s) := by
  unfold stepRight stepDown
  have hc : getCell (transposeAcc s).cells j i = getCell s.cells i j :=
    getCell_transpose _ _ _ hj hi
  rw [hc]
  split
  · rw [slideDown_sim j hj _ i hi s h]
    exact mergeDown_sim p2 j hj _ (slideDown_lt j _ i hi s) _ (slideDown_wf j _ i s h)
  · rfl

theorem colLoopDown_sim (p2 : Bool) (j : Nat) (hj : j < BOARD_SIZE) (s : MoveAcc) (h : AccWF s) :
    rowLoopRight p2 j (transposeAcc s) = transposeAcc (colLoopDown p2 j s) := by
  unfold rowLoopRight colLoopDown
  apply foldl_sim _ _ transposeAcc _ (fun s i hs => stepDown_wf p2 j i s hs) _ s h
  intro s i hi hs
  refine stepDown_sim p2 j hj i ?_ s hs
  simp [BOARD_SIZE] at hi ⊢
  omega

theorem loopDown_sim (p2 : Bool) (s : MoveAcc) (h : AccWF s) :
    loopRight p2 (transposeAcc s) = transposeAcc (loopDown p2 s) := by
  unfold loopRight loopDown
  apply foldl_sim _ _ transposeAcc _ (fun s j hs => colLoopDown_wf p2 j s hs) _ s h
  intro s j hj hs
  exact colLoopDown_sim p2 j (by simpa using hj) s hs

/-- The loops of `moveDown` are the loops of `moveRight` on the transposed
tables, transposed back. -/
theorem loopDown_eq (p2 : Bool) (s : MoveAcc) (h : AccWF s) :
    loopDown p2 s = transposeAcc (loopRight p2 (transposeAcc s)) := by
  rw [loopDown_sim p2 s h, transposeAcc_transposeAcc _ (loopDown_wf p2 s h)]

/-! ## Symbolic evaluation of the loops of `moveLeft` on one row -/

theorem stepLeft_mk (p2 : Bool) (i j : Nat) (cells : Board) (tr : Tracker) (sc : Scores)
    (m g : Bool) :
    stepLeft p2 i j ⟨cells, tr, sc, m, g⟩
      = if getCell cells i j ≠ 0 then
          mergeLeft p2 i (slideLeft i j ⟨cells, tr, sc, m, g⟩).1
            (slideLeft i j ⟨cells, tr, sc, m, g⟩).2
        else ⟨cells, tr, sc, m, g⟩ := rfl

theorem slideLeft_mk_zero (i : Nat) (cells : Board) (tr : Tracker) (sc : Scores) (m g : Bool) :
    slideLeft i 0 ⟨cells, tr, sc, m, g⟩ = (0, ⟨cells, tr, sc, m, g⟩) := rfl

theorem slideLeft_mk_succ (i col : Nat) (cells : Board) (tr : Tracker) (sc : Scores)
    (m g : Bool) :
    slideLeft i (col + 1) ⟨cells, tr, sc, m, g⟩
      = if getCell cells i col = 0 then
          slideLeft i col
            ⟨setCell (setCell cells i col (getCell cells i (col + 1))) i (col + 1) 0, tr, sc,
              true, g⟩
        else (col + 1, ⟨cells, tr, sc, m, g⟩) := rfl

theorem mergeLeft_mk (p2 : Bool) (i col : Nat) (cells : Board) (tr : Tracker) (sc : Scores)
    (m g : Bool) :
    mergeLeft p2 i col ⟨cells, tr, sc, m, g⟩
      = if col > 0 ∧ getCell cells i (col - 1) = getCell cells i col
            ∧ getFlag tr i (col - 1) = false then
          ⟨setCell (setCell cells i (col - 1) (getCell cells i (col - 1) * 2)) i col 0,
            setFlag tr i (col - 1) true,
            addScore p2 (getCell (setCell (setCell cells i (col - 1)
              (getCell cells i (col - 1) * 2)) i col 0) i (col - 1)) sc, true, true⟩
        else ⟨cells, tr, sc, m, g⟩ := rfl

theorem stepLeft_ite (p2 : Bool) (i j : Nat) (c : Prop) [Decidable c] (x y : MoveAcc) :
    stepLeft p2 i j (if c then x else y) = if c then stepLeft p2 i j x else stepLeft p2 i j y := by
  split <;> rfl

theorem rowLoopLeft_zero (p2 : Bool) (a b c d : Int) (r1 r2 r3 : List Int)
    (t1 t2 t3 : List Bool) (sc : Scores) (m g : Bool) :
    rowLoopLeft p2 0 ⟨[[a, b, c, d], r1, r2, r3], [[false, false, false, false], t1, t2, t3], sc, m, g⟩
      = ⟨[refRow [a, b, c, d], r1, r2, r3], [refMarks [a, b, c, d], t1, t2, t3],
          applyGains p2 (refGains [a, b, c, d]) sc,
          m || decide (refRow [a, b, c, d] ≠ [a, b, c, d]),
          g || !(refGains [a, b, c, d]).isEmpty⟩ := by
  simp only [rowLoopLeft, BOARD_SIZE, List.range', List.foldl]
  by_cases ha : a = 0 <;> by_cases hb : b = 0 <;> by_cases hc : c = 0 <;> by_cases hd : d = 0 <;>
  simp [stepLeft_mk, stepLeft_ite, slideLeft_mk_zero, slideLeft_mk_succ, mergeLeft_mk, getCell,
    setCell, getFlag, setFlag, ha, hb, hc, hd, applyGains, refGains, refRow, refMarks, tiles, padTo,
    mergePairs, mergeGains, mergeMarks, BOARD_SIZE] <;>
  split_ifs <;> simp_all

theorem rowLoopLeft_one (p2 : Bool) (a b c d : Int) (r0 r2 r3 : List Int)
    (t0 t2 t3 : List Bool) (sc : Scores) (m g : Bool) :
    rowLoopLeft p2 1 ⟨[r0, [a, b, c, d], r2, r3], [t0, [false, false, false, false], t2, t3], sc, m, g⟩
      = ⟨[r0, refRow [a, b, c, d], r2, r3], [t0, refMarks [a, b, c, d], t2, t3],
          applyGains p2 (refGains [a, b, c, d]) sc,
          m || decide (refRow [a, b, c, d] ≠ [a, b, c, d]),
          g || !(refGains [a, b, c, d]).isEmpty⟩ := by
  simp only [rowLoopLeft, BOARD_SIZE, List.range', List.foldl]
  by_cases ha : a = 0 <;> by_cases hb : b = 0 <;> by_cases hc : c = 0 <;> by_cases hd : d = 0 <;>
  simp [stepLeft_mk, stepLeft_ite, slideLeft_mk_zero, slideLeft_mk_succ, mergeLeft_mk, getCell,
    setCell, getFlag, setFlag, ha, hb, hc, hd, applyGains, refGains, refRow, refMarks, tiles, padTo,
    mergePairs, mergeGains, mergeMarks, BOARD_SIZE] <;>
  split_ifs <;> simp_all

theorem rowLoopLeft_two (p2 : Bool) (a b c d : Int) (r0 r1 r3 : List Int)
    (t0 t1 t3 : List Bool) (sc : Scores) (m g : Bool) :
    rowLoopLeft p2 2 ⟨[r0, r1, [a, b, c, d], r3], [t0, t1, [false, false, false, false], t3], sc, m, g⟩
      = ⟨[r0, r1, refRow [a, b, c, d], r3], [t0, t1, refMarks [a, b, c, d], t3],
          applyGains p2 (refGains [a, b, c, d]) sc,
          m || decide (refRow [a, b, c, d] ≠ [a, b, c, d]),
          g || !(refGains [a, b, c, d]).isEmpty⟩ := by
  simp only [rowLoopLeft, BOARD_SIZE, List.range', List.foldl]
  by_cases ha : a = 0 <;> by_cases hb : b = 0 <;> by_cases hc : c = 0 <;> by_cases hd : d = 0 <;>
  simp [stepLeft_mk, stepLeft_ite, slideLeft_mk_zero, slideLeft_mk_succ, mergeLeft_mk, getCell,
    setCell, getFlag, setFlag, ha, hb, hc, hd, applyGains, refGains, refRow, refMarks, tiles, padTo,
    mergePairs, mergeGains, mergeMarks, BOARD_SIZE] <;>
  split_ifs <;> simp_all

theorem rowLoopLeft_three (p2 : Bool) (a b c d : Int) (r0 r1 r2 : List Int)
    (t0 t1 t2 : List Bool) (sc : Scores) (m g : Bool) :
    rowLoopLeft p2 3 ⟨[r0, r1, r2, [a, b, c, d]], [t0, t1, t2, [false, false, false, false]], sc, m, g⟩
      = ⟨[r0, r1, r2, refRow [a, b, c, d]], [t0, t1, t2, refMarks [a, b, c, d]],
          applyGains p2 (refGains [a, b, c, d]) sc,
          m || decide (refRow [a, b, c, d] ≠ [a, b, c, d]),
          g || !(refGains [a, b, c, d]).isEmpty⟩ := by
  simp only [rowLoopLeft, BOARD_SIZE, List.range', List.foldl]
  by_cases ha : a = 0 <;> by_cases hb : b = 0 <;> by_cases hc : c = 0 <;> by_cases hd : d = 0 <;>
  simp [stepLeft_mk, stepLeft_ite, slideLeft_mk_zero, slideLeft_mk_succ, mergeLeft_mk, getCell,
    setCell, getFlag, setFlag, ha, hb, hc, hd, applyGains, refGains, refRow, refMarks, tiles, padTo,
    mergePairs, mergeGains, mergeMarks, BOARD_SIZE] <;>
  split_ifs <;> simp_all

theorem applyGains_append (p2 : Bool) (l1 l2 : List Int) (sc : Scores) :
    applyGains p2 (l1 ++ l2) sc = applyGains p2 l2 (applyGains p2 l1 sc) := by
  simp [applyGains, List.foldl_append]

/-- The loops of `moveLeft`, started on a well-formed board, replace every row
by its reference row, add the gains of the rows in order, and report `moved`
exactly when a row changed. -/
theorem loopLeft_start (p2 : Bool) (b : Board) (hb : WellFormed b) (sc : Scores) :
    loopLeft p2 ⟨b, freshTracker, sc, false, false⟩
      = ⟨b.map refRow, b.map refMarks, applyGains p2 (lineGains b) sc,
          decide (b.map refRow ≠ b), !(lineGains b).isEmpty⟩ := by
  obtain ⟨a0, a1, a2, a3, b0, b1, b2, b3, c0, c1, c2, c3, d0, d1, d2, d3, rfl⟩ :=
    wellFormed_cells b hb
  simp only [loopLeft, BOARD_SIZE, List.range, List.range.loop, List.foldl, freshTracker,
    List.replicate]
  rw [rowLoopLeft_zero, rowLoopLeft_one, rowLoopLeft_two, rowLoopLeft_three]
  simp only [lineGains, applyGains_append, List.map, List.append_nil]
  congr 1
  · rw [Bool.eq_iff_iff]
    simp only [Bool.false_or, Bool.or_eq_true, decide_eq_true_eq, ne_eq, List.cons.injEq,
      and_true]
    tauto
  · rw [Bool.eq_iff_iff]
    simp only [Bool.false_or, Bool.or_eq_true, Bool.not_eq_true', List.isEmpty_eq_false,
      List.isEmpty_iff, ne_eq, List.append_eq_nil, Bool.not_eq_eq_eq_not, Bool.not_true]
    tauto

theorem mirror_freshTracker : mirror freshTracker = freshTracker := rfl

theorem transpose_freshTracker : transposeWith false freshTracker = freshTracker := rfl

theorem wellFormed_freshTracker : WellFormed freshTracker := by decide

theorem wellFormed_transpose (b : Board) : WellFormed (transpose b) :=
  wellFormed_transposeWith 0 b

theorem wellFormed_lines (d : Direction) (b : Board) (hb : WellFormed b) :
    WellFormed (lines d b) := by
  cases d
  · exact hb
  · exact wellFormed_mirror _ hb
  · exact wellFormed_transpose _
  · exact wellFormed_mirror _ (wellFormed_transpose _)

theorem unlines_lines (d : Direction) (b : Board) (hb : WellFormed b) :
    unlines d (lines d b) = b := by
  cases d
  · rfl
  · exact mirror_mirror b
  · exact transposeWith_transposeWith 0 b hb
  · show transpose (mirror (mirror (transpose b))) = b
    rw [mirror_mirror]
    exact transposeWith_transposeWith 0 b hb

/-- Every move function, started on a well-formed board, replaces each line of
its direction by the reference row of that line, adds the gains of the lines in
order, and reports `moved` exactly when a line changed. -/
theorem loopOf_start (d : Direction) (p2 : Bool) (b : Board) (hb : WellFormed b) (sc : Scores) :
    (loopOf d p2 ⟨b, freshTracker, sc, false, false⟩).cells = unlines d ((lines d b).map refRow)
    ∧ (loopOf d p2 ⟨b, freshTracker, sc, false, false⟩).scores
        = applyGains p2 (lineGains (lines d b)) sc
    ∧ (loopOf d p2 ⟨b, freshTracker, sc, false, false⟩).moved
        = decide ((lines d b).map refRow ≠ lines d b)
    ∧ (loopOf d p2 ⟨b, freshTracker, sc, false, false⟩).merged
        = !(lineGains (lines d b)).isEmpty
    ∧ (loopOf d p2 ⟨b, freshTracker, sc, false, false⟩).tracker
        = unlinesFlags d ((lines d b).map refMarks) := by
  have hs : AccWF ⟨b, freshTracker, sc, false, false⟩ := ⟨hb, wellFormed_freshTracker⟩
  cases d
  · simp only [loopOf, lines, unlines]
    rw [loopLeft_start p2 b hb sc]
    exact ⟨rfl, rfl, rfl, rfl, rfl⟩
  · simp only [loopOf, lines, unlines]
    rw [loopRight_eq p2 _ hs]
    simp only [mirrorAcc, mirror_freshTracker]
    rw [loopLeft_start p2 _ (wellFormed_mirror _ hb) sc]
    exact ⟨rfl, rfl, rfl, rfl, rfl⟩
  · simp only [loopOf, lines, unlines]
    rw [loopUp_eq p2 _ hs]
    simp only [transposeAcc, transpose_freshTracker]
    rw [loopLeft_start p2 _ (wellFormed_transpose _) sc]
    exact ⟨rfl, rfl, rfl, rfl, rfl⟩
  · simp only [loopOf, lines, unlines]
    rw [loopDown_eq p2 _ hs, loopRight_eq p2 _ (accWF_transposeAcc _)]
    simp only [transposeAcc, mirrorAcc, transpose_freshTracker, mirror_freshTracker]
    rw [loopLeft_start p2 _ (wellFormed_mirror _ (wellFormed_transpose _)) sc]
    exact ⟨rfl, rfl, rfl, rfl, rfl⟩

/-! ## The move functions on the game state -/

theorem p2Active_savePreviousBoard (g : Game) : p2Active (savePreviousBoard g) = p2Active g := by
  unfold savePreviousBoard; split <;> simp [p2Active]

theorem p2Active_createMoveAnimations (g : Game) :
    p2Active (createMoveAnimations g) = p2Active g := by
  unfold createMoveAnimations; split <;> simp [p2Active]

theorem p2Active_storeAcc (g : Game) (a : MoveAcc) : p2Active (storeAcc g a) = p2Active g := by
  unfold storeAcc; split <;> simp [p2Active]

theorem core_savePreviousBoard (g : Game) : core (savePreviousBoard g) = core g := by
  unfold savePreviousBoard; split <;> simp [core]

theorem core_clearMergedTiles (g : Game) : core (clearMergedTiles g) = core g := by
  unfold clearMergedTiles; split <;> simp [core]

theorem core_createMoveAnimations (g : Game) : core (createMoveAnimations g) = core g := by
  unfold createMoveAnimations; split <;> simp [core]

theorem p2Active_of_core (g h : Game) (e : core g = core h) : p2Active g = p2Active h := by
  simp only [core, Prod.mk.injEq] at e
  simp [p2Active, e]

theorem activeBoard_of_core (g h : Game) (e : core g = core h) : activeBoard g = activeBoard h := by
  have hp := p2Active_of_core g h e
  simp only [core, Prod.mk.injEq] at e
  simp [activeBoard, hp, e]

theorem finishMove_of_core (loop : Bool → MoveAcc → MoveAcc) (g h : Game) (e : core g = core h) :
    core (finishMove loop g).1 = core (finishMove loop h).1
    ∧ (finishMove loop g).2 = (finishMove loop h).2 := by
  have hp := p2Active_of_core g h e
  have hb := activeBoard_of_core g h e
  simp only [core, Prod.mk.injEq] at e
  obtain ⟨e1, e2, e3, e4, e5, e6, e7⟩ := e
  unfold finishMove
  simp only [hp, hb, e3, e4, e5]
  split
  · simp only [core_createMoveAnimations, and_true]
    unfold storeAcc
    simp only [hp]
    split <;> simp [core, *]
  · simp only [and_true]
    unfold storeAcc
    simp only [hp]
    split <;> simp [core, *]

theorem finishMove_spec (loop : Bool → MoveAcc → MoveAcc) (g : Game) :
    core (finishMove loop g).1
      = (if p2Active g then
          (g.board, (loop (p2Active g) (startAcc (activeBoard g) g.score g.scoreP2 g.bestScore)).cells,
            (loop (p2Active g) (startAcc (activeBoard g) g.score g.scoreP2 g.bestScore)).scores.score,
            (loop (p2Active g) (startAcc (activeBoard g) g.score g.scoreP2 g.bestScore)).scores.scoreP2,
            (loop (p2Active g) (startAcc (activeBoard g) g.score g.scoreP2 g.bestScore)).scores.bestScore,
            g.currentState, g.currentPlayer)
        else
          ((loop (p2Active g) (startAcc (activeBoard g) g.score g.scoreP2 g.bestScore)).cells, g.boardP2,
            (loop (p2Active g) (startAcc (activeBoard g) g.score g.scoreP2 g.bestScore)).scores.score,
            (loop (p2Active g) (startAcc (activeBoard g) g.score g.scoreP2 g.bestScore)).scores.scoreP2,
            (loop (p2Active g) (startAcc (activeBoard g) g.score g.scoreP2 g.bestScore)).scores.bestScore,
            g.currentState, g.currentPlayer))
    ∧ (finishMove loop g).2
        = (loop (p2Active g) (startAcc (activeBoard g) g.score g.scoreP2 g.bestScore)).moved := by
  unfold finishMove
  simp only
  split
  · rename_i hm
    simp only [core_createMoveAnimations, hm, and_true]
    unfold storeAcc
    split <;> simp [core]
  · rename_i hm
    simp only [hm, and_true]
    unfold storeAcc
    split <;> simp [core]

/-- What a move leaves in the members the claims are about: the active board,
the three scores and the returned flag are those of the loop variables, the
other board and the player selection are untouched. -/
theorem move_spec (d : Direction) (g : Game) :
    activeBoard (move d g).1 = (moveAcc d g).cells
    ∧ (move d g).1.score = (moveAcc d g).scores.score
    ∧ (move d g).1.scoreP2 = (moveAcc d g).scores.scoreP2
    ∧ (move d g).1.bestScore = (moveAcc d g).scores.bestScore
    ∧ (move d g).2 = (moveAcc d g).moved
    ∧ p2Active (move d g).1 = p2Active g
    ∧ (p2Active g = true → (move d g).1.board = g.board)
    ∧ (p2Active g = false → (move d g).1.boardP2 = g.boardP2) := by
  have key : core (move d g).1 = core (finishMove (loopOf d) g).1
      ∧ (move d g).2 = (finishMove (loopOf d) g).2 := by
    cases d
    · simp only [move, moveLeft, loopOf]
      exact finishMove_of_core loopLeft _ g
        ((core_clearMergedTiles _).trans (core_savePreviousBoard g))
    · simp only [move, moveRight, loopOf]
      exact finishMove_of_core loopRight _ g (core_savePreviousBoard g)
    · simp only [move, moveUp, loopOf]
      exact finishMove_of_core loopUp _ g (core_savePreviousBoard g)
    · simp only [move, moveDown, loopOf]
      exact finishMove_of_core loopDown _ g (core_savePreviousBoard g)
  obtain ⟨k1, k2⟩ := key
  obtain ⟨f1, f2⟩ := finishMove_spec (loopOf d) g
  rw [f1] at k1
  rw [f2] at k2
  have hp : p2Active (move d g).1 = p2Active g := by
    cases h : p2Active g <;> simp only [h, if_true, if_false, Bool.false_eq_true, core,
      Prod.mk.injEq] at k1 <;> simp only [p2Active, k1.2.2.2.2.2.1, k1.2.2.2.2.2.2] <;>
      simpa [p2Active] using h
  unfold moveAcc
  cases h : p2Active g <;>
  simp only [h, if_true, if_false, Bool.false_eq_true, core, Prod.mk.injEq] at k1 hp <;>
  simp [activeBoard, hp, k1, k2, h]

/-! ## Facts about the reference row of a line of four cells -/

theorem refRow_length (a b c d : Int) : (refRow [a, b, c, d]).length = 4 := by
  by_cases ha : a = 0 <;> by_cases hb : b = 0 <;> by_cases hc : c = 0 <;> by_cases hd : d = 0 <;>
  simp [refRow, tiles, padTo, mergePairs, BOARD_SIZE, ha, hb, hc, hd] <;>
  split_ifs <;> simp

theorem refRow_fixed_gains (a b c d : Int) (h : refRow [a, b, c, d] = [a, b, c, d]) :
    refGains [a, b, c, d] = [] := by
  revert h
  by_cases ha : a = 0 <;> by_cases hb : b = 0 <;> by_cases hc : c = 0 <;> by_cases hd : d = 0 <;>
  simp [refRow, refGains, tiles, padTo, mergePairs, mergeGains, BOARD_SIZE, ha, hb, hc, hd] <;>
  split_ifs <;> simp_all

theorem refRow_sum (a b c d : Int) : (refRow [a, b, c, d]).sum = a + b + c + d := by
  by_cases ha : a = 0 <;> by_cases hb : b = 0 <;> by_cases hc : c = 0 <;> by_cases hd : d = 0 <;>
  simp [refRow, tiles, padTo, mergePairs, BOARD_SIZE, ha, hb, hc, hd] <;>
  split_ifs <;> simp_all <;> omega

theorem wellFormed_map_refRow (b : Board) (hb : WellFormed b) : WellFormed (b.map refRow) := by
  obtain ⟨a0, a1, a2, a3, b0, b1, b2, b3, c0, c1, c2, c3, d0, d1, d2, d3, rfl⟩ :=
    wellFormed_cells b hb
  simp [WellFormed, BOARD_SIZE, refRow_length]

theorem lineGains_of_fixed (b : Board) (hb : WellFormed b) (h : b.map refRow = b) :
    lineGains b = [] := by
  obtain ⟨a0, a1, a2, a3, b0, b1, b2, b3, c0, c1, c2, c3, d0, d1, d2, d3, rfl⟩ :=
    wellFormed_cells b hb
  simp only [List.map, List.cons.injEq, and_true] at h
  simp [lineGains, refRow_fixed_gains _ _ _ _ h.1, refRow_fixed_gains _ _ _ _ h.2.1,
    refRow_fixed_gains _ _ _ _ h.2.2.1, refRow_fixed_gains _ _ _ _ h.2.2.2]

/-! ## The score update -/

theorem applyGains_nil (p2 : Bool) (sc : Scores) : applyGains p2 [] sc = sc := rfl

theorem applyGains_active (p2 : Bool) (gains : List Int) (sc : Scores) :
    (if p2 then (applyGains p2 gains sc).scoreP2 else (applyGains p2 gains sc).score)
      = (if p2 then sc.scoreP2 else sc.score) + gains.sum := by
  induction gains generalizing sc with
  | nil => simp [applyGains]
  | cons v rest ih =>
    have := ih (addScore p2 v sc)
    simp only [applyGains, List.foldl_cons, List.sum_cons] at this ⊢
    rw [this]
    cases p2 <;> simp [addScore] <;> omega

theorem applyGains_true (gains : List Int) (sc : Scores) :
    (applyGains true gains sc).score = sc.score
    ∧ (applyGains true gains sc).bestScore = sc.bestScore := by
  induction gains generalizing sc with
  | nil => simp [applyGains]
  | cons v rest ih =>
    have := ih (addScore true v sc)
    simp only [applyGains, List.foldl_cons] at this ⊢
    rw [this.1, this.2]
    simp [addScore]

theorem applyGains_false (gains : List Int) (sc : Scores) :
    (applyGains false gains sc).scoreP2 = sc.scoreP2 := by
  induction gains generalizing sc with
  | nil => simp [applyGains]
  | cons v rest ih =>
    have := ih (addScore false v sc)
    simp only [applyGains, List.foldl_cons] at this ⊢
    rw [this]
    simp [addScore]

/-! ## Every move in terms of the reference rows -/

/-- A move on a well-formed active board: the new active board, the three
scores and the returned flag in terms of the reference rows of the lines of the
direction. -/
theorem move_char (d : Direction) (g : Game) (h : WellFormed (activeBoard g)) :
    activeBoard (move d g).1 = unlines d ((lines d (activeBoard g)).map refRow)
    ∧ (⟨(move d g).1.score, (move d g).1.scoreP2, (move d g).1.bestScore⟩ : Scores)
        = applyGains (p2Active g) (lineGains (lines d (activeBoard g)))
            ⟨g.score, g.scoreP2, g.bestScore⟩
    ∧ (move d g).2 = decide ((lines d (activeBoard g)).map refRow ≠ lines d (activeBoard g))
    ∧ (moveAcc d g).merged = !(lineGains (lines d (activeBoard g))).isEmpty
    ∧ (moveAcc d g).tracker = unlinesFlags d ((lines d (activeBoard g)).map refMarks) := by
  obtain ⟨m1, m2, m3, m4, m5, -, -, -⟩ := move_spec d g
  obtain ⟨l1, l2, l3, l4, l5⟩ :=
    loopOf_start d (p2Active g) (activeBoard g) h ⟨g.score, g.scoreP2, g.bestScore⟩
  have e : moveAcc d g
      = loopOf d (p2Active g) ⟨activeBoard g, freshTracker, ⟨g.score, g.scoreP2, g.bestScore⟩,
          false, false⟩ := rfl
  rw [e] at m1 m2 m3 m4 m5
  refine ⟨m1.trans l1, ?_, m5.trans l3, by rw [e]; exact l4, by rw [e]; exact l5⟩
  rw [← l2, m2, m3, m4]

/-! ## Merge destinations are the flagged cells -/

theorem rowFlagged_eq (row : List Int) (marks : List Bool) :
    rowFlagged row marks
      = (if marks.getD 0 false then row.getD 0 0 else 0)
        + ((if marks.getD 1 false then row.getD 1 0 else 0)
          + ((if marks.getD 2 false then row.getD 2 0 else 0)
            + ((if marks.getD 3 false then row.getD 3 0 else 0) + 0))) := rfl

theorem rowFlagged_refRow (a b c d : Int) :
    rowFlagged (refRow [a, b, c, d]) (refMarks [a, b, c, d]) = (refGains [a, b, c, d]).sum := by
  by_cases ha : a = 0 <;> by_cases hb : b = 0 <;> by_cases hc : c = 0 <;> by_cases hd : d = 0 <;>
  simp only [refRow, refMarks, refGains, tiles, padTo, mergePairs, mergeMarks, mergeGains,
    BOARD_SIZE, ha, hb, hc, hd, List.filter, ne_eq, not_false_eq_true, decide_True,
    not_true_eq_false, decide_False] <;>
  (try split_ifs) <;> simp [rowFlagged_eq]

theorem lineGains_sum (a b c d : List Int) :
    (lineGains [a, b, c, d]).sum
      = (refGains a).sum + (refGains b).sum + (refGains c).sum + (refGains d).sum := by
  simp [lineGains, List.sum_append]
  omega

theorem flaggedSum_map (b : Board) (hb : WellFormed b) :
    flaggedSum (b.map refRow) (b.map refMarks) = (lineGains b).sum := by
  obtain ⟨a0, a1, a2, a3, b0, b1, b2, b3, c0, c1, c2, c3, d0, d1, d2, d3, rfl⟩ :=
    wellFormed_cells b hb
  rw [lineGains_sum]
  simp only [flaggedSum, BOARD_SIZE, List.range, List.range.loop, List.map, List.getD_cons_zero,
    List.getD_cons_succ, List.sum_cons, List.sum_nil, rowFlagged_refRow]
  omega

theorem wellFormed_map_refMarks (b : Board) (hb : WellFormed b) :
    WellFormed (b.map refMarks) := by
  obtain ⟨a0, a1, a2, a3, b0, b1, b2, b3, c0, c1, c2, c3, d0, d1, d2, d3, rfl⟩ :=
    wellFormed_cells b hb
  have key : ∀ a b c d : Int, (refMarks [a, b, c, d]).length = 4 := by
    intro a b c d
    by_cases ha : a = 0 <;> by_cases hb : b = 0 <;> by_cases hc : c = 0 <;>
    by_cases hd : d = 0 <;>
    simp [refMarks, tiles, padTo, mergeMarks, BOARD_SIZE, ha, hb, hc, hd] <;>
    split_ifs <;> simp
  simp [WellFormed, BOARD_SIZE, key]

theorem flaggedSum_unlines (d : Direction) (b : Board) (t : Tracker) (hb : WellFormed b)
    (ht : WellFormed t) : flaggedSum (unlines d b) (unlinesFlags d t) = flaggedSum b t := by
  obtain ⟨a0, a1, a2, a3, b0, b1, b2, b3, c0, c1, c2, c3, d0, d1, d2, d3, rfl⟩ :=
    wellFormed_cells b hb
  obtain ⟨e0, e1, e2, e3, f0, f1, f2, f3, g0, g1, g2, g3, h0, h1, h2, h3, rfl⟩ :=
    wellFormed_cells t ht
  cases d <;>
  simp only [flaggedSum, rowFlagged, unlines, unlinesFlags, mirror, transpose, transposeWith,
    BOARD_SIZE, List.range, List.range.loop, List.map, List.getD_cons_zero, List.getD_cons_succ,
    List.sum_cons, List.sum_nil, List.reverse_cons, List.reverse_nil, List.nil_append,
    List.cons_append] <;>
  ring

/-! ## Sums of cells -/

theorem boardSum_unlines (d : Direction) (b : Board) (hb : WellFormed b) :
    boardSum (unlines d b) = boardSum b := by
  obtain ⟨a0, a1, a2, a3, b0, b1, b2, b3, c0, c1, c2, c3, d0, d1, d2, d3, rfl⟩ :=
    wellFormed_cells b hb
  cases d <;>
  simp only [boardSum, unlines, mirror, transpose, transposeWith, BOARD_SIZE, List.range,
    List.range.loop, List.map, List.getD_cons_zero, List.getD_cons_succ, List.sum_cons,
    List.sum_nil, List.reverse_cons, List.reverse_nil, List.nil_append, List.cons_append] <;>
  ring

theorem boardSum_lines (d : Direction) (b : Board) (hb : WellFormed b) :
    boardSum (lines d b) = boardSum b := by
  obtain ⟨a0, a1, a2, a3, b0, b1, b2, b3, c0, c1, c2, c3, d0, d1, d2, d3, rfl⟩ :=
    wellFormed_cells b hb
  cases d <;>
  simp only [boardSum, lines, mirror, transpose, transposeWith, BOARD_SIZE, List.range,
    List.range.loop, List.map, List.getD_cons_zero, List.getD_cons_succ, List.sum_cons,
    List.sum_nil, List.reverse_cons, List.reverse_nil, List.nil_append, List.cons_append] <;>
  ring

theorem boardSum_map_refRow (b : Board) (hb : WellFormed b) :
    boardSum (b.map refRow) = boardSum b := by
  obtain ⟨a0, a1, a2, a3, b0, b1, b2, b3, c0, c1, c2, c3, d0, d1, d2, d3, rfl⟩ :=
    wellFormed_cells b hb
  simp only [boardSum, List.map, List.sum_cons, List.sum_nil, refRow_sum]
  omega

/-! ## The state with another active board -/

theorem p2Active_withActiveBoard (g : Game) (b : Board) :
    p2Active (withActiveBoard g b) = p2Active g := by
  unfold withActiveBoard; split <;> simp [p2Active]

theorem activeBoard_withActiveBoard (g : Game) (b : Board) :
    activeBoard (withActiveBoard g b) = b := by
  unfold activeBoard
  rw [p2Active_withActiveBoard]
  unfold withActiveBoard
  cases hp : p2Active g <;> simp

theorem scores_withActiveBoard (g : Game) (b : Board) :
    (withActiveBoard g b).score = g.score ∧ (withActiveBoard g b).scoreP2 = g.scoreP2
    ∧ (withActiveBoard g b).bestScore = g.bestScore := by
  unfold withActiveBoard; split <;> simp

theorem activeScore_move (d : Direction) (g : Game) (h : WellFormed (activeBoard g)) :
    activeScore (move d g).1 = activeScore g + (lineGains (lines d (activeBoard g))).sum := by
  obtain ⟨-, c2, -, -, -⟩ := move_char d g h
  obtain ⟨-, -, -, -, -, s6, -, -⟩ := move_spec d g
  have := applyGains_active (p2Active g) (lineGains (lines d (activeBoard g)))
    ⟨g.score, g.scoreP2, g.bestScore⟩
  rw [← c2] at this
  simpa [activeScore, s6] using this

theorem move_left (g : Game) : move Direction.Left g = moveLeft g := rfl

theorem move_right (g : Game) : move Direction.Right g = moveRight g := rfl

theorem move_up (g : Game) : move Direction.Up g = moveUp g := rfl

theorem move_down (g : Game) : move Direction.Down g = moveDown g := rfl

theorem lines_left (b : Board) : lines Direction.Left b = b := rfl

theorem unlines_left (b : Board) : unlines Direction.Left b = b := rfl

/-! ## One row of a board -/

theorem getD_map_refRow (b : Board) (hb : WellFormed b) (i : Nat) (hi : i < BOARD_SIZE) :
    (b.map refRow).getD i [] = refRow (b.getD i []) := by
  obtain ⟨r0, r1, r2, r3, rfl, -, -, -, -⟩ := wellFormed_rows b hb
  rcases lt_four_cases i hi with rfl | rfl | rfl | rfl <;> rfl

theorem lineGains_split (b : Board) (hb : WellFormed b) (i : Nat) (hi : i < BOARD_SIZE) :
    (lineGains b).sum = (refGains (b.getD i [])).sum + (lineGains (b.eraseIdx i)).sum := by
  obtain ⟨r0, r1, r2, r3, rfl, -, -, -, -⟩ := wellFormed_rows b hb
  rcases lt_four_cases i hi with rfl | rfl | rfl | rfl <;>
  simp [lineGains, List.sum_append, List.eraseIdx] <;> omega

theorem refRow_pair_double (v : Int) (hv : 0 < v) :
    refRow [v, v, 2 * v, 0] = [2 * v, 2 * v, 0, 0] ∧ refGains [v, v, 2 * v, 0] = [2 * v] := by
  have h1 : v ≠ 0 := by omega
  have h2 : (2 : Int) * v ≠ 0 := by omega
  have h3 : v * 2 = 2 * v := by omega
  simp [refRow, refGains, tiles, padTo, mergePairs, mergeGains, BOARD_SIZE, h1, h3]

theorem refRow_four_equal (v : Int) (hv : 0 < v) :
    refRow [v, v, v, v] = [2 * v, 2 * v, 0, 0] ∧ refGains [v, v, v, v] = [2 * v, 2 * v] := by
  have h1 : v ≠ 0 := by omega
  have h3 : v * 2 = 2 * v := by omega
  simp [refRow, refGains, tiles, padTo, mergePairs, mergeGains, BOARD_SIZE, h1, h3]

/-! ## Claims about the move engine -/

/-- C2: if a move in any direction returns `didMove = false`, both boards are
what they were before the call and `score`, `scoreP2` and `bestScore` are
unchanged. -/
theorem C2_noop_leaves_boards_and_scores (d : Direction) (g : Game)
    (h : WellFormed (activeBoard g)) (hm : (move d g).2 = false) :
    (move d g).1.board = g.board ∧ (move d g).1.boardP2 = g.boardP2
    ∧ (move d g).1.score = g.score ∧ (move d g).1.scoreP2 = g.scoreP2
    ∧ (move d g).1.bestScore = g.bestScore := by
  obtain ⟨c1, c2, c3, -⟩ := move_char d g h
  obtain ⟨-, -, -, -, -, s6, s7, s8⟩ := move_spec d g
  rw [hm] at c3
  have hfix : (lines d (activeBoard g)).map refRow = lines d (activeBoard g) := by
    simpa using c3.symm
  rw [hfix, unlines_lines d _ h] at c1
  rw [lineGains_of_fixed _ (wellFormed_lines d _ h) hfix, applyGains_nil] at c2
  simp only [Scores.mk.injEq] at c2
  refine ⟨?_, ?_, c2.1, c2.2.1, c2.2.2⟩
  · cases hp : p2Active g
    · simpa [activeBoard, hp, s6] using c1
    · exact s7 hp
  · cases hp : p2Active g
    · exact s8 hp
    · simpa [activeBoard, hp, s6] using c1

/-- Witness of C2: the full row of scenario 3 of the specification, on a board
where no direction moves anything. -/
theorem C2_witness :
    WellFormed (activeBoard (playingWith [[2, 4, 8, 16], [4, 2, 4, 2], [2, 4, 2, 4], [4, 2, 4, 2]]))
    ∧ (move Direction.Left
          (playingWith [[2, 4, 8, 16], [4, 2, 4, 2], [2, 4, 2, 4], [4, 2, 4, 2]])).2 = false
    ∧ ((move Direction.Left
          (playingWith [[2, 4, 8, 16], [4, 2, 4, 2], [2, 4, 2, 4], [4, 2, 4, 2]])).1.board
        = (playingWith [[2, 4, 8, 16], [4, 2, 4, 2], [2, 4, 2, 4], [4, 2, 4, 2]]).board
      ∧ (move Direction.Left
          (playingWith [[2, 4, 8, 16], [4, 2, 4, 2], [2, 4, 2, 4], [4, 2, 4, 2]])).1.boardP2
        = (playingWith [[2, 4, 8, 16], [4, 2, 4, 2], [2, 4, 2, 4], [4, 2, 4, 2]]).boardP2
      ∧ (move Direction.Left
          (playingWith [[2, 4, 8, 16], [4, 2, 4, 2], [2, 4, 2, 4], [4, 2, 4, 2]])).1.score
        = (playingWith [[2, 4, 8, 16], [4, 2, 4, 2], [2, 4, 2, 4], [4, 2, 4, 2]]).score
      ∧ (move Direction.Left
          (playingWith [[2, 4, 8, 16], [4, 2, 4, 2], [2, 4, 2, 4], [4, 2, 4, 2]])).1.scoreP2
        = (playingWith [[2, 4, 8, 16], [4, 2, 4, 2], [2, 4, 2, 4], [4, 2, 4, 2]]).scoreP2
      ∧ (move Direction.Left
          (playingWith [[2, 4, 8, 16], [4, 2, 4, 2], [2, 4, 2, 4], [4, 2, 4, 2]])).1.bestScore
        = (playingWith [[2, 4, 8, 16], [4, 2, 4, 2], [2, 4, 2, 4], [4, 2, 4, 2]]).bestScore) :=
  ⟨by decide, by decide,
    C2_noop_leaves_boards_and_scores Direction.Left _ (by decide) (by decide)⟩

/-- C5: `moveRight`, `moveUp` and `moveDown` are `moveLeft` on the mirrored,
the transposed, and the transposed-then-mirrored active board, reflected back,
with the same returned flag and the same three scores. -/
theorem C5_directions_are_reflections_of_left (g : Game) (h : WellFormed (activeBoard g)) :
    (activeBoard (moveRight g).1
        = mirror (activeBoard (moveLeft (withActiveBoard g (mirror (activeBoard g)))).1)
      ∧ (moveRight g).2 = (moveLeft (withActiveBoard g (mirror (activeBoard g)))).2
      ∧ (moveRight g).1.score = (moveLeft (withActiveBoard g (mirror (activeBoard g)))).1.score
      ∧ (moveRight g).1.scoreP2 = (moveLeft (withActiveBoard g (mirror (activeBoard g)))).1.scoreP2
      ∧ (moveRight g).1.bestScore
          = (moveLeft (withActiveBoard g (mirror (activeBoard g)))).1.bestScore)
    ∧ (activeBoard (moveUp g).1
        = transpose (activeBoard (moveLeft (withActiveBoard g (transpose (activeBoard g)))).1)
      ∧ (moveUp g).2 = (moveLeft (withActiveBoard g (transpose (activeBoard g)))).2
      ∧ (moveUp g).1.score = (moveLeft (withActiveBoard g (transpose (activeBoard g)))).1.score
      ∧ (moveUp g).1.scoreP2 = (moveLeft (withActiveBoard g (transpose (activeBoard g)))).1.scoreP2
      ∧ (moveUp g).1.bestScore
          = (moveLeft (withActiveBoard g (transpose (activeBoard g)))).1.bestScore)
    ∧ (activeBoard (moveDown g).1
        = transpose (mirror (activeBoard
            (moveLeft (withActiveBoard g (mirror (transpose (activeBoard g))))).1))
      ∧ (moveDown g).2 = (moveLeft (withActiveBoard g (mirror (transpose (activeBoard g))))).2
      ∧ (moveDown g).1.score
          = (moveLeft (withActiveBoard g (mirror (transpose (activeBoard g))))).1.score
      ∧ (moveDown g).1.scoreP2
          = (moveLeft (withActiveBoard g (mirror (transpose (activeBoard g))))).1.scoreP2
      ∧ (moveDown g).1.bestScore
          = (moveLeft (withActiveBoard g (mirror (transpose (activeBoard g))))).1.bestScore) := by
  have key : ∀ d : Direction,
      activeBoard (move d g).1
          = unlines d (activeBoard (moveLeft (withActiveBoard g (lines d (activeBoard g)))).1)
      ∧ (move d g).2 = (moveLeft (withActiveBoard g (lines d (activeBoard g)))).2
      ∧ (move d g).1.score = (moveLeft (withActiveBoard g (lines d (activeBoard g)))).1.score
      ∧ (move d g).1.scoreP2 = (moveLeft (withActiveBoard g (lines d (activeBoard g)))).1.scoreP2
      ∧ (move d g).1.bestScore
          = (moveLeft (withActiveBoard g (lines d (activeBoard g)))).1.bestScore := by
    intro d
    have hl := wellFormed_lines d _ h
    obtain ⟨c1, c2, c3, -, -⟩ := move_char d g h
    have hw : WellFormed (activeBoard (withActiveBoard g (lines d (activeBoard g)))) := by
      rw [activeBoard_withActiveBoard]; exact hl
    obtain ⟨e1, e2, e3, -, -⟩ :=
      move_char Direction.Left (withActiveBoard g (lines d (activeBoard g))) hw
    obtain ⟨w1, w2, w3⟩ := scores_withActiveBoard g (lines d (activeBoard g))
    rw [activeBoard_withActiveBoard, p2Active_withActiveBoard, w1, w2, w3, move_left] at e2
    rw [activeBoard_withActiveBoard, move_left] at e1 e3
    rw [lines_left, unlines_left] at e1
    rw [lines_left] at e2 e3
    rw [← e2] at c2
    simp only [Scores.mk.injEq] at c2
    exact ⟨by rw [c1, e1], by rw [c3, e3], c2.1, c2.2.1, c2.2.2⟩
  have kR := key Direction.Right
  have kU := key Direction.Up
  have kD := key Direction.Down
  simp only [move_right, move_up, move_down, lines, unlines] at kR kU kD
  exact ⟨kR, kU, kD⟩

/-- Witness of C5 on a board with merges in every direction. -/
theorem C5_witness :
    WellFormed (activeBoard (playingWith [[2, 0, 2, 2], [2, 2, 2, 2], [4, 4, 8, 0], [2, 4, 8, 16]]))
    ∧ activeBoard (moveDown (playingWith [[2, 0, 2, 2], [2, 2, 2, 2], [4, 4, 8, 0], [2, 4, 8, 16]])).1
        = transpose (mirror (activeBoard (moveLeft (withActiveBoard
            (playingWith [[2, 0, 2, 2], [2, 2, 2, 2], [4, 4, 8, 0], [2, 4, 8, 16]])
            (mirror (transpose (activeBoard
              (playingWith [[2, 0, 2, 2], [2, 2, 2, 2], [4, 4, 8, 0], [2, 4, 8, 16]])))))).1)) :=
  by
  have hw : WellFormed (activeBoard
      (playingWith [[2, 0, 2, 2], [2, 2, 2, 2], [4, 4, 8, 0], [2, 4, 8, 16]])) := by decide
  exact ⟨hw, (C5_directions_are_reflections_of_left _ hw).2.2.1⟩

/-! ## Reads after writes, and the list of empty cells -/

theorem getD_set_eq {α : Type} (l : List α) (c j : Nat) (v d : α) :
    (l.set c v).getD j d = if j = c ∧ c < l.length then v else l.getD j d := by
  induction l generalizing c j with
  | nil => simp
  | cons x l ih =>
    cases c <;> cases j
    · simp
    · simp
    · simp
    · simpa [List.getD_eq_getElem?_getD] using ih _ _

theorem getCell_setCell (b : Board) (r c : Nat) (v : Int) (i j : Nat) :
    getCell (setCell b r c v) i j
      = if i = r ∧ j = c ∧ r < b.length ∧ c < (b.getD r []).length then v else getCell b i j := by
  unfold getCell setCell
  rw [getD_set_eq]
  by_cases h1 : i = r ∧ r < b.length
  · rw [if_pos h1, getD_set_eq]
    obtain ⟨rfl, hr⟩ := h1
    by_cases h2 : j = c ∧ c < (b.getD i []).length
    · simp [h2, hr]
    · rw [if_neg h2, if_neg]
      intro h
      exact h2 ⟨h.2.1, h.2.2.2⟩
  · rw [if_neg h1, if_neg]
    intro h
    exact h1 ⟨h.1, h.2.2.1⟩

theorem foldl_push (α β : Type) (f : β → α) (p : β → Prop) [DecidablePred p] (l : List β)
    (init : List α) :
    l.foldl (fun acc x => if p x then acc ++ [f x] else acc) init
      = init ++ (l.filter (fun x => decide (p x))).map f := by
  induction l generalizing init with
  | nil => simp
  | cons x l ih =>
    simp only [List.foldl_cons, List.filter_cons]
    rw [ih]
    by_cases hx : p x <;> simp [hx]

theorem allCells_eq : allCells
    = [(0, 0), (0, 1), (0, 2), (0, 3), (1, 0), (1, 1), (1, 2), (1, 3),
       (2, 0), (2, 1), (2, 2), (2, 3), (3, 0), (3, 1), (3, 2), (3, 3)] := by decide

theorem emptyCells_eq (b : Board) :
    emptyCells b = allCells.filter (fun c => decide (getCell b c.1 c.2 = 0)) := by
  unfold emptyCells
  have inner : ∀ (i : Nat) (init : List (Nat × Nat)),
      (List.range BOARD_SIZE).foldl
        (fun acc j => if getCell b i j = 0 then acc ++ [(i, j)] else acc) init
      = init ++ (((List.range BOARD_SIZE).map (fun j => (i, j))).filter
          (fun c => decide (getCell b c.1 c.2 = 0))) := by
    intro i init
    rw [foldl_push (Nat × Nat) Nat (fun j => (i, j)) (fun j => getCell b i j = 0)]
    simp [List.filter_map, Function.comp_def]
  simp only [inner]
  have e : allCells = (List.range BOARD_SIZE).map (fun j => (0, j))
      ++ ((List.range BOARD_SIZE).map (fun j => (1, j))
      ++ ((List.range BOARD_SIZE).map (fun j => (2, j))
      ++ (List.range BOARD_SIZE).map (fun j => (3, j)))) := by decide
  rw [e]
  simp only [List.filter_append]
  simp only [BOARD_SIZE, List.range, List.range.loop, List.foldl, List.nil_append,
    List.append_assoc]

theorem mem_allCells (c : Nat × Nat) (h : c ∈ allCells) : c.1 < BOARD_SIZE ∧ c.2 < BOARD_SIZE := by
  rw [allCells_eq] at h
  simp only [List.mem_cons, List.mem_singleton, List.not_mem_nil, or_false] at h
  rcases h with h | h | h | h | h | h | h | h | h | h | h | h | h | h | h | h <;>
  subst h <;> decide

theorem getD_length (b : Board) (hb : WellFormed b) (i : Nat) (hi : i < BOARD_SIZE) :
    (b.getD i []).length = BOARD_SIZE := by
  obtain ⟨r0, r1, r2, r3, rfl, h0, h1, h2, h3⟩ := wellFormed_rows b hb
  rcases lt_four_cases i hi with rfl | rfl | rfl | rfl <;> assumption

/-- What `addRandomTile` does when the `index`-th entry of `emptyCells` is
the cell `c`. -/
theorem addRandomTile_spec (g : Game) (k d : Nat) (c : Nat × Nat)
    (hc : (emptyCells (activeBoard g))[k]? = some c) :
    activeBoard (addRandomTile g k d) = setCell (activeBoard g) c.1 c.2 (tileValue d)
    ∧ activeNewTiles (addRandomTile g k d) = activeNewTiles g ++ [c]
    ∧ p2Active (addRandomTile g k d) = p2Active g
    ∧ (p2Active g = true → (addRandomTile g k d).board = g.board
        ∧ (addRandomTile g k d).newTiles = g.newTiles)
    ∧ (p2Active g = false → (addRandomTile g k d).boardP2 = g.boardP2
        ∧ (addRandomTile g k d).newTilesP2 = g.newTilesP2) := by
  have hne : (emptyCells (activeBoard g)).isEmpty = false := by
    cases hl : emptyCells (activeBoard g) with
    | nil => rw [hl] at hc; simp at hc
    | cons x l => rfl
  have hrc : (emptyCells (activeBoard g)).getD k (0, 0) = c := by
    rw [List.getD_eq_getElem?_getD, hc]; rfl
  unfold addRandomTile
  simp only [hne, hrc, Bool.false_eq_true, if_false]
  have key : ∀ x : Game, x.currentState = g.currentState → x.currentPlayer = g.currentPlayer →
      p2Active x = p2Active g := by
    intro x h1 h2
    simp [p2Active, h1, h2]
  cases hp : p2Active g
  · simp only [Bool.false_eq_true, if_false]
    have e : ∀ x : Game, x.currentState = g.currentState →
        x.currentPlayer = g.currentPlayer → p2Active x = false :=
      fun x h1 h2 => (key x h1 h2).trans hp
    refine ⟨?_, ?_, e _ rfl rfl, ?_, ?_⟩
    · simp [activeBoard, e, hp]
    · simp [activeNewTiles, e, hp]
    · intro hh; cases hh
    · intro _; trivial
  · simp only [if_true]
    have e : ∀ x : Game, x.currentState = g.currentState →
        x.currentPlayer = g.currentPlayer → p2Active x = true :=
      fun x h1 h2 => (key x h1 h2).trans hp
    refine ⟨?_, ?_, e _ rfl rfl, ?_, ?_⟩
    · simp [activeBoard, e, hp]
    · simp [activeNewTiles, e, hp]
    · intro _; trivial
    · intro hh; cases hh

/-! ## Claims about the spawner -/

/-- C10: the spawner with its two draws as parameters.  When `c` is the
`k`-th entry of the row-major list of empty cells of the active board, that
cell held 0 and now holds 2 if `d < 9` and 4 otherwise, every other cell reads
as before, and `c` is appended to the active new-tile list; when the board has
no empty cell the whole state is unchanged.  The list of empty cells is the
row-major list of the cells that read 0. -/
theorem C10_spawner_postcondition (g : Game) (h : WellFormed (activeBoard g)) (k d : Nat) :
    (∀ c : Nat × Nat, (emptyCells (activeBoard g))[k]? = some c →
        getCell (activeBoard g) c.1 c.2 = 0
        ∧ getCell (activeBoard (addRandomTile g k d)) c.1 c.2 = (if d < 9 then 2 else 4)
        ∧ (∀ i j : Nat, (i, j) ≠ c →
            getCell (activeBoard (addRandomTile g k d)) i j = getCell (activeBoard g) i j)
        ∧ activeNewTiles (addRandomTile g k d) = activeNewTiles g ++ [c])
    ∧ (emptyCells (activeBoard g) = [] → addRandomTile g k d = g)
    ∧ emptyCells (activeBoard g)
        = allCells.filter (fun c => decide (getCell (activeBoard g) c.1 c.2 = 0)) := by
  refine ⟨?_, ?_, emptyCells_eq _⟩
  · intro c hc
    obtain ⟨s1, s2, -, -, -⟩ := addRandomTile_spec g k d c hc
    have hmem : c ∈ emptyCells (activeBoard g) := List.getElem?_mem hc
    rw [emptyCells_eq] at hmem
    obtain ⟨hall, hzero⟩ := List.mem_filter.mp hmem
    obtain ⟨h1, h2⟩ := mem_allCells c hall
    have hlen1 : c.1 < (activeBoard g).length := by rw [h.1]; exact h1
    have hlen2 : c.2 < ((activeBoard g).getD c.1 []).length := by
      rw [getD_length _ h _ h1]; exact h2
    refine ⟨by simpa using hzero, ?_, ?_, s2⟩
    · rw [s1, getCell_setCell, if_pos ⟨rfl, rfl, hlen1, hlen2⟩]
      rfl
    · intro i j hij
      rw [s1, getCell_setCell, if_neg]
      intro hh
      exact hij (Prod.ext hh.1 hh.2.1)
  · intro he
    unfold addRandomTile
    simp [he]

/-- Witness of C10: on the board with the single tile 2 in the corner the
entry 0 of the list of empty cells is the cell (0,1), and the draw `d = 9`
puts a 4 there; on a full board the spawner changes nothing. -/
theorem C10_witness :
    WellFormed (activeBoard (playingWith [[2, 0, 0, 0], [0, 0, 0, 0], [0, 0, 0, 0], [0, 0, 0, 0]]))
    ∧ (emptyCells (activeBoard
        (playingWith [[2, 0, 0, 0], [0, 0, 0, 0], [0, 0, 0, 0], [0, 0, 0, 0]])))[0]? = some (0, 1)
    ∧ (getCell (activeBoard
          (playingWith [[2, 0, 0, 0], [0, 0, 0, 0], [0, 0, 0, 0], [0, 0, 0, 0]])) 0 1 = 0
      ∧ getCell (activeBoard (addRandomTile
          (playingWith [[2, 0, 0, 0], [0, 0, 0, 0], [0, 0, 0, 0], [0, 0, 0, 0]]) 0 9)) 0 1
          = (if 9 < 9 then 2 else 4)
      ∧ (∀ i j : Nat, (i, j) ≠ (0, 1) →
          getCell (activeBoard (addRandomTile
            (playingWith [[2, 0, 0, 0], [0, 0, 0, 0], [0, 0, 0, 0], [0, 0, 0, 0]]) 0 9)) i j
          = getCell (activeBoard
            (playingWith [[2, 0, 0, 0], [0, 0, 0, 0], [0, 0, 0, 0], [0, 0, 0, 0]])) i j)
      ∧ activeNewTiles (addRandomTile
          (playingWith [[2, 0, 0, 0], [0, 0, 0, 0], [0, 0, 0, 0], [0, 0, 0, 0]]) 0 9)
          = activeNewTiles
            (playingWith [[2, 0, 0, 0], [0, 0, 0, 0], [0, 0, 0, 0], [0, 0, 0, 0]]) ++ [(0, 1)])
    ∧ emptyCells (activeBoard
        (playingWith [[2, 4, 2, 4], [4, 2, 4, 2], [2, 4, 2, 4], [4, 2, 4, 2]])) = []
    ∧ addRandomTile (playingWith [[2, 4, 2, 4], [4, 2, 4, 2], [2, 4, 2, 4], [4, 2, 4, 2]]) 0 0
        = playingWith [[2, 4, 2, 4], [4, 2, 4, 2], [2, 4, 2, 4], [4, 2, 4, 2]] :=
  ⟨by decide, by decide,
    (C10_spawner_postcondition
      (playingWith [[2, 0, 0, 0], [0, 0, 0, 0], [0, 0, 0, 0], [0, 0, 0, 0]]) (by decide) 0 9).1
      (0, 1) (by decide),
    by decide,
    (C10_spawner_postcondition
      (playingWith [[2, 4, 2, 4], [4, 2, 4, 2], [2, 4, 2, 4], [4, 2, 4, 2]]) (by decide) 0 0).2.1
      (by decide)⟩

/-! ## The out-of-range read of `canMove` -/

theorem anyAdjacent_row_zero (b : Board) (hb : WellFormed b) (rest : List (Nat × Nat)) :
    anyAdjacent b ((0, 0) :: (0, 1) :: (0, 2) :: (0, 3) :: rest) ≠ some false := by
  obtain ⟨a0, a1, a2, a3, b0, b1, b2, b3, c0, c1, c2, c3, d0, d1, d2, d3, rfl⟩ :=
    wellFormed_cells b hb
  simp only [anyAdjacent, sameNonZero, cellAt?, BOARD_SIZE]
  simp only [List.getElem?_cons_zero, List.getElem?_cons_succ, Nat.reduceSub, Nat.reduceLT,
    Nat.lt_irrefl, decide_True, decide_False, if_true, Nat.reduceAdd, Nat.zero_lt_succ,
    Nat.lt_add_one]
  generalize (decide (a0 = a1) && decide (a0 ≠ 0)) = x1
  generalize (decide (a0 = b0) && decide (a0 ≠ 0)) = x2
  generalize (decide (a1 = a2) && decide (a1 ≠ 0)) = x3
  generalize (decide (a1 = b1) && decide (a1 ≠ 0)) = x4
  generalize (decide (a2 = a3) && decide (a2 ≠ 0)) = x5
  generalize (decide (a2 = b2) && decide (a2 ≠ 0)) = x6
  cases x1 <;> cases x2 <;> cases x3 <;> cases x4 <;> cases x5 <;> cases x6 <;> simp

theorem anyEmpty_cases (b : Board) (l : List (Nat × Nat)) :
    anyEmpty b l = none ∨ anyEmpty b l = some true ∨ anyEmpty b l = some false := by
  cases h : anyEmpty b l with
  | none => exact Or.inl rfl
  | some v => cases v <;> simp

/-- On a board of 4 by 4 cells `canMove` never returns false: it returns true,
or it reaches the test of main.cpp 642 at `i = 0`, `j = 3`, whose read of
`checkBoard[0][4]` is out of range. -/
theorem canMove_ne_some_false (b : Board) (hb : WellFormed b) : canMove b ≠ some false := by
  unfold canMove
  rw [allCells_eq]
  rcases anyEmpty_cases b _ with h | h | h <;> rw [h]
  · simp
  · simp
  · exact anyAdjacent_row_zero b hb _

/-! ## Grid validity -/

theorem isTile_zero : IsTile 0 := Or.inl rfl

theorem isTile_double (v : Int) (h : IsTile v) : IsTile (v * 2) := by
  rcases h with rfl | ⟨k, hk, rfl⟩
  · exact Or.inl rfl
  · exact Or.inr ⟨k + 1, by omega, by ring⟩

theorem isTile_tileValue (d : Nat) : IsTile (tileValue d) := by
  unfold tileValue
  split
  · exact Or.inr ⟨1, by omega, by norm_num⟩
  · exact Or.inr ⟨2, by omega, by norm_num⟩

theorem allCells_literal (P : Int → Prop)
    (a0 a1 a2 a3 b0 b1 b2 b3 c0 c1 c2 c3 d0 d1 d2 d3 : Int) :
    AllCells P [[a0, a1, a2, a3], [b0, b1, b2, b3], [c0, c1, c2, c3], [d0, d1, d2, d3]]
      ↔ (P a0 ∧ P a1 ∧ P a2 ∧ P a3) ∧ (P b0 ∧ P b1 ∧ P b2 ∧ P b3)
        ∧ (P c0 ∧ P c1 ∧ P c2 ∧ P c3) ∧ (P d0 ∧ P d1 ∧ P d2 ∧ P d3) := by
  simp [AllCells]

theorem refRow_forall (P Q : Int → Prop) (h0 : Q 0) (h1 : ∀ w, P w → Q w)
    (h2 : ∀ w, P w → Q (w * 2)) (a b c d : Int) (h : P a ∧ P b ∧ P c ∧ P d) :
    ∀ v ∈ refRow [a, b, c, d], Q v := by
  obtain ⟨pa, pb, pc, pd⟩ := h
  have qa := h1 a pa
  have qb := h1 b pb
  have qc := h1 c pc
  have qd := h1 d pd
  have da := h2 a pa
  have db := h2 b pb
  have dc := h2 c pc
  by_cases ha : a = 0 <;> by_cases hb : b = 0 <;> by_cases hc : c = 0 <;> by_cases hd : d = 0 <;>
  simp only [refRow, tiles, padTo, mergePairs, BOARD_SIZE, ha, hb, hc, hd, List.filter, ne_eq,
    not_false_eq_true, decide_True, not_true_eq_false, decide_False] <;>
  (try split_ifs) <;>
  simp [h0, qa, qb, qc, qd, da, db, dc]

theorem allCells_map_refRow (P Q : Int → Prop) (h0 : Q 0) (h1 : ∀ w, P w → Q w)
    (h2 : ∀ w, P w → Q (w * 2)) (b : Board) (hb : WellFormed b) (h : AllCells P b) :
    AllCells Q (b.map refRow) := by
  obtain ⟨a0, a1, a2, a3, b0, b1, b2, b3, c0, c1, c2, c3, d0, d1, d2, d3, rfl⟩ :=
    wellFormed_cells b hb
  rw [allCells_literal] at h
  intro row hrow
  simp only [List.map, List.mem_cons, List.mem_singleton, List.not_mem_nil, or_false] at hrow
  rcases hrow with rfl | rfl | rfl | rfl
  · exact refRow_forall P Q h0 h1 h2 _ _ _ _ h.1
  · exact refRow_forall P Q h0 h1 h2 _ _ _ _ h.2.1
  · exact refRow_forall P Q h0 h1 h2 _ _ _ _ h.2.2.1
  · exact refRow_forall P Q h0 h1 h2 _ _ _ _ h.2.2.2

theorem allCells_lines (P : Int → Prop) (d : Direction) (b : Board) (hb : WellFormed b)
    (h : AllCells P b) : AllCells P (lines d b) := by
  obtain ⟨a0, a1, a2, a3, b0, b1, b2, b3, c0, c1, c2, c3, d0, d1, d2, d3, rfl⟩ :=
    wellFormed_cells b hb
  rw [allCells_literal] at h
  cases d <;>
  simp only [lines, mirror, transpose, transposeWith, BOARD_SIZE, List.range, List.range.loop,
    List.map, List.getD_cons_zero, List.getD_cons_succ, List.reverse_cons, List.reverse_nil,
    List.nil_append, List.cons_append, allCells_literal] <;>
  tauto

theorem allCells_unlines (P : Int → Prop) (d : Direction) (b : Board) (hb : WellFormed b)
    (h : AllCells P b) : AllCells P (unlines d b) := by
  obtain ⟨a0, a1, a2, a3, b0, b1, b2, b3, c0, c1, c2, c3, d0, d1, d2, d3, rfl⟩ :=
    wellFormed_cells b hb
  rw [allCells_literal] at h
  cases d <;>
  simp only [unlines, mirror, transpose, transposeWith, BOARD_SIZE, List.range, List.range.loop,
    List.map, List.getD_cons_zero, List.getD_cons_succ, List.reverse_cons, List.reverse_nil,
    List.nil_append, List.cons_append, allCells_literal] <;>
  tauto

theorem wellFormed_unlines (d : Direction) (b : Board) (hb : WellFormed b) :
    WellFormed (unlines d b) := by
  cases d
  · exact hb
  · exact wellFormed_mirror _ hb
  · exact wellFormed_transpose _
  · exact wellFormed_transpose _

/-- The active board after a move keeps a property of cells that holds for 0
and passes from a value to its double. -/
theorem allCells_move (P Q : Int → Prop) (h0 : Q 0) (h1 : ∀ w, P w → Q w)
    (h2 : ∀ w, P w → Q (w * 2)) (d : Direction) (g : Game) (h : WellFormed (activeBoard g))
    (hp : AllCells P (activeBoard g)) :
    WellFormed (activeBoard (move d g).1) ∧ AllCells Q (activeBoard (move d g).1) := by
  have hl := wellFormed_lines d _ h
  rw [(move_char d g h).1]
  exact ⟨wellFormed_unlines d _ (wellFormed_map_refRow _ hl),
    allCells_unlines Q d _ (wellFormed_map_refRow _ hl)
      (allCells_map_refRow P Q h0 h1 h2 _ hl (allCells_lines P d _ h hp))⟩

theorem validBoard_setCell (b : Board) (hb : ValidBoard b) (i j : Nat) (x : Int) (hx : IsTile x) :
    ValidBoard (setCell b i j x) := by
  refine ⟨wellFormed_setCell _ hb.1 _ _ _, ?_⟩
  intro row hrow v hv
  unfold setCell at hrow
  rcases List.mem_or_eq_of_mem_set hrow with hr | hr
  · exact hb.2 row hr v hv
  · subst hr
    rcases List.mem_or_eq_of_mem_set hv with hv2 | hv2
    · by_cases hi : i < b.length
      · rw [List.getD_eq_getElem _ _ hi] at hv2
        exact hb.2 _ (List.getElem_mem _) v hv2
      · rw [List.getD_eq_default _ _ (by omega)] at hv2
        cases hv2
    · rw [hv2]; exact hx

theorem clearCells_eq (b : Board) (hb : WellFormed b) : clearCells b = emptyBoard := by
  obtain ⟨a0, a1, a2, a3, b0, b1, b2, b3, c0, c1, c2, c3, d0, d1, d2, d3, rfl⟩ :=
    wellFormed_cells b hb
  simp only [clearCells, BOARD_SIZE, List.range, List.range.loop, List.foldl, setCell,
    List.getD_cons_zero, List.getD_cons_succ, List.set_cons_zero, List.set_cons_succ,
    emptyBoard, List.replicate]

theorem validBoard_emptyBoard : ValidBoard emptyBoard := by
  refine ⟨by decide, ?_⟩
  show AllCells IsTile [[0, 0, 0, 0], [0, 0, 0, 0], [0, 0, 0, 0], [0, 0, 0, 0]]
  rw [allCells_literal]
  simp [isTile_zero]

theorem validBoard_placeInitial (b : Board) (hb : ValidBoard b) (cells : List (Nat × Nat))
    (d1 d2 : Nat) : ValidBoard (placeInitial b cells d1 d2) :=
  validBoard_setCell _ (validBoard_setCell _ hb _ _ _ (isTile_tileValue d1)) _ _ _
    (isTile_tileValue d2)

theorem validBoard_addRandomTile (g : Game) (hb : ValidBoard g.board)
    (hb2 : ValidBoard g.boardP2) (k d : Nat) :
    ValidBoard (addRandomTile g k d).board ∧ ValidBoard (addRandomTile g k d).boardP2 := by
  unfold addRandomTile
  simp only
  split
  · exact ⟨hb, hb2⟩
  · split
    · exact ⟨hb, validBoard_setCell _ hb2 _ _ _ (isTile_tileValue d)⟩
    · exact ⟨validBoard_setCell _ hb _ _ _ (isTile_tileValue d), hb2⟩

theorem restartReset_board (g : Game) : (restartReset g).board = clearCells g.board := by
  simp only [restartReset]

theorem restartReset_boardP2 (g : Game) : (restartReset g).boardP2 = clearCells g.boardP2 := by
  simp only [restartReset]

theorem restart_boards (g : Game) (sh1 sh2 : List (Nat × Nat)) (d1 d2 d3 d4 : Nat) :
    (restart g sh1 sh2 d1 d2 d3 d4).board = placeInitial (clearCells g.board) sh1 d1 d2
    ∧ ((restart g sh1 sh2 d1 d2 d3 d4).boardP2 = placeInitial (clearCells g.boardP2) sh2 d3 d4
      ∨ (restart g sh1 sh2 d1 d2 d3 d4).boardP2 = clearCells g.boardP2) := by
  unfold restart
  simp only
  split
  · exact ⟨by rw [← restartReset_board], Or.inl (by rw [← restartReset_boardP2])⟩
  · exact ⟨by rw [← restartReset_board], Or.inr (by rw [← restartReset_boardP2])⟩

theorem validBoard_restart (g : Game) (h1 : WellFormed g.board) (h2 : WellFormed g.boardP2)
    (sh1 sh2 : List (Nat × Nat)) (d1 d2 d3 d4 : Nat) :
    ValidBoard (restart g sh1 sh2 d1 d2 d3 d4).board
    ∧ ValidBoard (restart g sh1 sh2 d1 d2 d3 d4).boardP2 := by
  obtain ⟨e1, e2⟩ := restart_boards g sh1 sh2 d1 d2 d3 d4
  rw [e1, clearCells_eq _ h1]
  refine ⟨validBoard_placeInitial _ validBoard_emptyBoard _ _ _, ?_⟩
  rcases e2 with e2 | e2 <;> rw [e2, clearCells_eq _ h2]
  · exact validBoard_placeInitial _ validBoard_emptyBoard _ _ _
  · exact validBoard_emptyBoard

/-- C9: grid validity is an invariant.  If both boards have 4 by 4 cells, each
0 or a power of two that is at least 2, they still have after a move in any
direction and after `addRandomTile` with any draws; if moreover every cell of
the active board is below `2 ^ 30`, every cell after the move is below
`2 ^ 31`, so no doubling overflowed the C++ `int`; and `restart`, from any
state whose boards have 4 by 4 cells, leaves both boards valid. -/
theorem C9_grid_validity_is_invariant (g : Game) (hb : ValidBoard g.board)
    (hb2 : ValidBoard g.boardP2) :
    (∀ d : Direction, ValidBoard (move d g).1.board ∧ ValidBoard (move d g).1.boardP2)
    ∧ (∀ d : Direction, AllCells (fun v => v < 2 ^ 30) (activeBoard g) →
        AllCells (fun v => v < 2 ^ 31) (activeBoard (move d g).1))
    ∧ (∀ k d : Nat, ValidBoard (addRandomTile g k d).board
        ∧ ValidBoard (addRandomTile g k d).boardP2)
    ∧ (∀ (g0 : Game) (sh1 sh2 : List (Nat × Nat)) (d1 d2 d3 d4 : Nat),
        WellFormed g0.board → WellFormed g0.boardP2 →
        ValidBoard (restart g0 sh1 sh2 d1 d2 d3 d4).board
        ∧ ValidBoard (restart g0 sh1 sh2 d1 d2 d3 d4).boardP2) := by
  have hact : ValidBoard (activeBoard g) := by
    unfold activeBoard; split <;> assumption
  refine ⟨?_, ?_, fun k d => validBoard_addRandomTile g hb hb2 k d,
    fun g0 sh1 sh2 d1 d2 d3 d4 h1 h2 => validBoard_restart g0 h1 h2 sh1 sh2 d1 d2 d3 d4⟩
  · intro d
    have hv : ValidBoard (activeBoard (move d g).1) :=
      allCells_move IsTile IsTile isTile_zero (fun _ h => h) isTile_double d g hact.1 hact.2
    obtain ⟨-, -, -, -, -, s6, s7, s8⟩ := move_spec d g
    cases hp : p2Active g
    · rw [s8 hp]
      refine ⟨?_, hb2⟩
      simpa [activeBoard, s6, hp] using hv
    · rw [s7 hp]
      refine ⟨hb, ?_⟩
      simpa [activeBoard, s6, hp] using hv
  · intro d hbound
    exact (allCells_move (fun v => v < 2 ^ 30) (fun v => v < 2 ^ 31) (by norm_num)
      (fun w hw => by simp only at hw ⊢; omega) (fun w hw => by simp only at hw ⊢; omega)
      d g hact.1 hbound).2

/-- Witness of C9 on a single-player state with the tiles 2 and 4. -/
theorem C9_witness :
    ValidBoard (playingWith [[2, 4, 0, 0], [0, 0, 0, 0], [0, 0, 0, 0], [0, 0, 0, 4]]).board
    ∧ ValidBoard (playingWith [[2, 4, 0, 0], [0, 0, 0, 0], [0, 0, 0, 0], [0, 0, 0, 4]]).boardP2
    ∧ ValidBoard (move Direction.Down
        (playingWith [[2, 4, 0, 0], [0, 0, 0, 0], [0, 0, 0, 0], [0, 0, 0, 4]])).1.board
    ∧ ValidBoard (addRandomTile
        (playingWith [[2, 4, 0, 0], [0, 0, 0, 0], [0, 0, 0, 0], [0, 0, 0, 4]]) 3 9).board := by
  have h4 : IsTile 4 := Or.inr ⟨2, by omega, by norm_num⟩
  have h2 : IsTile 2 := Or.inr ⟨1, by omega, by norm_num⟩
  have hv : ValidBoard (playingWith [[2, 4, 0, 0], [0, 0, 0, 0], [0, 0, 0, 0], [0, 0, 0, 4]]).board := by
    refine ⟨by decide, ?_⟩
    show AllCells IsTile [[2, 4, 0, 0], [0, 0, 0, 0], [0, 0, 0, 0], [0, 0, 0, 4]]
    rw [allCells_literal]
    simp [isTile_zero, h2, h4]
  have hv2 : ValidBoard
      (playingWith [[2, 4, 0, 0], [0, 0, 0, 0], [0, 0, 0, 0], [0, 0, 0, 4]]).boardP2 :=
    validBoard_emptyBoard
  have key := C9_grid_validity_is_invariant _ hv hv2
  exact ⟨hv, hv2, (key.1 Direction.Down).1, (key.2.2.1 3 9).1⟩

theorem cellOr_of_cellAt (oob : Nat → Nat → Int) (b : Board) (i j : Nat) (v : Int)
    (h : cellAt? b i j = some v) : cellOr oob b i j = v := by
  simp [cellOr, h]

theorem sameNonZeroWith_of_some (oob : Nat → Nat → Int) (b : Board) (guard : Bool)
    (i j i2 j2 : Nat) (r : Bool) (h : sameNonZero b guard i j i2 j2 = some r) :
    sameNonZeroWith oob b guard i j i2 j2 = r := by
  unfold sameNonZero at h
  unfold sameNonZeroWith
  cases guard with
  | false => simpa using h
  | true =>
    simp only [if_true] at h ⊢
    cases h1 : cellAt? b i j with
    | none => simp [h1] at h
    | some x =>
      cases h2 : cellAt? b i2 j2 with
      | none => simp [h1, h2] at h
      | some y =>
        simp only [h1, h2, Option.some.injEq] at h
        rw [cellOr_of_cellAt oob b i j x h1, cellOr_of_cellAt oob b i2 j2 y h2]
        exact h

theorem anyEmptyWith_of_some (oob : Nat → Nat → Int) (b : Board) (l : List (Nat × Nat))
    (r : Bool) (h : anyEmpty b l = some r) : anyEmptyWith oob b l = r := by
  induction l with
  | nil => simpa [anyEmpty, anyEmptyWith] using h
  | cons p rest ih =>
    obtain ⟨i, j⟩ := p
    simp only [anyEmpty] at h
    simp only [anyEmptyWith]
    cases h1 : cellAt? b i j with
    | none => simp [h1] at h
    | some v =>
      simp only [h1] at h
      rw [cellOr_of_cellAt oob b i j v h1]
      by_cases hv : v = 0
      · simp only [hv, if_true, Option.some.injEq] at h ⊢
        exact h
      · simp only [hv, if_false] at h ⊢
        exact ih h

theorem anyAdjacentWith_of_some (oob : Nat → Nat → Int) (b : Board) (l : List (Nat × Nat))
    (r : Bool) (h : anyAdjacent b l = some r) : anyAdjacentWith oob b l = r := by
  induction l with
  | nil => simpa [anyAdjacent, anyAdjacentWith] using h
  | cons p rest ih =>
    obtain ⟨i, j⟩ := p
    simp only [anyAdjacent] at h
    simp only [anyAdjacentWith]
    cases h1 : sameNonZero b (decide (j < BOARD_SIZE - 1)) i j i (j + 1) with
    | none => simp [h1] at h
    | some r1 =>
      rw [sameNonZeroWith_of_some oob b _ i j i (j + 1) r1 h1]
      cases r1 with
      | true => simpa [h1] using h
      | false =>
        simp only [h1] at h
        cases h2 : sameNonZero b (decide (i < BOARD_SIZE - 1)) i j i (j + 1) with
        | none => simp [h2] at h
        | some r2 =>
          rw [sameNonZeroWith_of_some oob b _ i j i (j + 1) r2 h2]
          cases r2 with
          | true => simpa [h2] using h
          | false =>
            simp only [h2] at h
            cases h3 : sameNonZero b (decide (i < BOARD_SIZE - 1)) i j (i + 1) j with
            | none => simp [h3] at h
            | some r3 =>
              rw [sameNonZeroWith_of_some oob b _ i j (i + 1) j r3 h3]
              cases r3 with
              | true => simpa [h3] using h
              | false =>
                simp only [h3] at h
                simpa using ih h

/-- Where the bounds-checked `canMove` has a result, `canMoveWith` has the
same one, whatever lies outside the vectors. -/
theorem canMoveWith_of_canMove (oob : Nat → Nat → Int) (b : Board) (r : Bool)
    (h : canMove b = some r) : canMoveWith oob b = r := by
  unfold canMove at h
  unfold canMoveWith
  cases h1 : anyEmpty b allCells with
  | none => simp [h1] at h
  | some r1 =>
    rw [anyEmptyWith_of_some oob b _ r1 h1]
    cases r1 with
    | true => simpa [h1] using h
    | false =>
      simp only [h1] at h
      simpa using anyAdjacentWith_of_some oob b _ r h

/-! ## Win and game-over evaluation -/

theorem has2048_iff (b : Board) : has2048 b = true ↔ Has2048 b := by
  unfold has2048 Has2048
  rw [List.any_eq_true]
  constructor
  · rintro ⟨p, hp, h⟩
    exact ⟨p.1, p.2, (mem_allCells p hp).1, (mem_allCells p hp).2, by simpa using h⟩
  · rintro ⟨i, j, hi, hj, h⟩
    refine ⟨(i, j), ?_, by simpa using h⟩
    rw [allCells_eq]
    simp only [BOARD_SIZE] at hi hj
    interval_cases i <;> interval_cases j <;> simp

theorem has2048_false_iff (b : Board) : has2048 b = false ↔ ¬ Has2048 b := by
  rw [← has2048_iff]
  simp

theorem checkWin_single (g : Game) (hs : g.currentState ≠ GameState.MULTIPLAYER) :
    checkWin g = if has2048 g.board then
      { g with won := true, currentState := GameState.GAME_OVER } else g := by
  unfold checkWin
  rw [if_neg hs]

theorem checkGameOver_single (oob : Nat → Nat → Int) (g : Game)
    (hs : g.currentState ≠ GameState.MULTIPLAYER) :
    checkGameOver oob g = if canMoveWith oob g.board then g
      else { g with currentState := GameState.GAME_OVER } := by
  unfold checkGameOver
  rw [if_neg hs]
  cases canMoveWith oob g.board <;> simp

/-- C11: in a single-player state whose board has a cell equal to 2048,
`checkWin` followed by `checkGameOver` leaves the phase at `GAME_OVER` with
`won` set, whatever `canMove` returns for the board (for every content `oob`
of the words that `canMove` reads past the rows). -/
theorem C11_single_player_win (oob : Nat → Nat → Int) (g : Game)
    (hs : g.currentState = GameState.PLAYING) (h : Has2048 g.board) :
    (evaluate oob g).currentState = GameState.GAME_OVER
    ∧ (evaluate oob g).won = true
    ∧ evaluate oob g = { g with won := true, currentState := GameState.GAME_OVER } := by
  have hw : checkWin g = { g with won := true, currentState := GameState.GAME_OVER } := by
    rw [checkWin_single g (by rw [hs]; decide), (has2048_iff _).2 h, if_pos rfl]
  have he : evaluate oob g = { g with won := true, currentState := GameState.GAME_OVER } := by
    unfold evaluate
    rw [hw, checkGameOver_single oob _ (by simp)]
    split <;> rfl
  rw [he]
  exact ⟨rfl, rfl, rfl⟩

/-- Witness of C11: a board with the tile 2048 that still has empty cells
(so `canMove` is true), once with and once without junk past the rows. -/
theorem C11_witness :
    (playingWith [[2048, 0, 0, 0], [0, 0, 0, 0], [0, 0, 0, 0], [0, 0, 0, 0]]).currentState
      = GameState.PLAYING
    ∧ Has2048 (playingWith [[2048, 0, 0, 0], [0, 0, 0, 0], [0, 0, 0, 0], [0, 0, 0, 0]]).board
    ∧ (evaluate (fun _ _ => 0)
        (playingWith [[2048, 0, 0, 0], [0, 0, 0, 0], [0, 0, 0, 0], [0, 0, 0, 0]])).currentState
      = GameState.GAME_OVER
    ∧ (evaluate (fun _ _ => 0)
        (playingWith [[2048, 0, 0, 0], [0, 0, 0, 0], [0, 0, 0, 0], [0, 0, 0, 0]])).won = true := by
  have h1 : (playingWith [[2048, 0, 0, 0], [0, 0, 0, 0], [0, 0, 0, 0], [0, 0, 0, 0]]).currentState
      = GameState.PLAYING := rfl
  have h2 : Has2048
      (playingWith [[2048, 0, 0, 0], [0, 0, 0, 0], [0, 0, 0, 0], [0, 0, 0, 0]]).board :=
    ⟨0, 0, by decide, by decide, by decide⟩
  have h3 := C11_single_player_win (fun _ _ => 0) _ h1 h2
  exact ⟨h1, h2, h3.1, h3.2.1⟩

/-- C12: in a single-player state with `won = false` whose board has no
cell equal to 2048, `checkWin` followed by `checkGameOver` moves the phase to
`GAME_OVER` exactly when `canMove` returns false for the board, `won` is
still false afterwards, and when `canMove` returns true the state is
unchanged (the phase stays `PLAYING`). -/
theorem C12_single_player_game_over (oob : Nat → Nat → Int) (g : Game)
    (hs : g.currentState = GameState.PLAYING) (hw : g.won = false) (h : ¬ Has2048 g.board) :
    ((evaluate oob g).currentState = GameState.GAME_OVER ↔ canMoveWith oob g.board = false)
    ∧ (evaluate oob g).won = false
    ∧ (canMoveWith oob g.board = true →
        evaluate oob g = g ∧ (evaluate oob g).currentState = GameState.PLAYING) := by
  have hcw : checkWin g = g := by
    rw [checkWin_single g (by rw [hs]; decide), (has2048_false_iff _).2 h]
    rfl
  have he : evaluate oob g = if canMoveWith oob g.board then g
      else { g with currentState := GameState.GAME_OVER } := by
    unfold evaluate
    rw [hcw, checkGameOver_single oob g (by rw [hs]; decide)]
  rw [he]
  cases hc : canMoveWith oob g.board
  · simp [hw]
  · simp [hw, hs]

/-- Witness of C12: a full board without equal neighbours, with zeros past
the rows: `canMove` returns false and the phase becomes `GAME_OVER`. -/
theorem C12_witness :
    (playingWith stuckBoard).currentState = GameState.PLAYING
    ∧ (playingWith stuckBoard).won = false
    ∧ ¬ Has2048 (playingWith stuckBoard).board
    ∧ canMoveWith (fun _ _ => 0) (playingWith stuckBoard).board = false
    ∧ (evaluate (fun _ _ => 0) (playingWith stuckBoard)).currentState = GameState.GAME_OVER
    ∧ (evaluate (fun _ _ => 0) (playingWith stuckBoard)).won = false := by
  have h1 : (playingWith stuckBoard).currentState = GameState.PLAYING := rfl
  have h2 : (playingWith stuckBoard).won = false := rfl
  have h3 : ¬ Has2048 (playingWith stuckBoard).board := by
    rw [← has2048_iff]
    decide
  have h4 : canMoveWith (fun _ _ => 0) (playingWith stuckBoard).board = false := by decide
  have h5 := C12_single_player_game_over (fun _ _ => 0) _ h1 h2 h3
  exact ⟨h1, h2, h3, h4, h5.1.2 h4, h5.2.1⟩

theorem checkWin_multi (g : Game) (hs : g.currentState = GameState.MULTIPLAYER) :
    checkWin g = if g.currentPlayer = PlayerTurn.PLAYER_ONE then
        (if has2048 g.board then
          { g with won := true, currentState := GameState.MULTIPLAYER_GAME_OVER } else g)
      else
        (if has2048 g.boardP2 then
          { g with wonP2 := true, currentState := GameState.MULTIPLAYER_GAME_OVER } else g) := by
  unfold checkWin
  rw [if_pos hs]

/-- C13: in a multiplayer state in which the board of the player to act has
a cell equal to 2048, `checkWin` sets that player's win flag and the phase
`MULTIPLAYER_GAME_OVER`, but the `checkGameOver` that follows no longer finds
the phase `MULTIPLAYER`, takes its single-player branch and tests the board
of player one: the phase ends as `MULTIPLAYER_GAME_OVER` only if `canMove`
returns true for that board, and as `GAME_OVER` otherwise. -/
theorem C13_multiplayer_win_phase (oob : Nat → Nat → Int) (g : Game)
    (hs : g.currentState = GameState.MULTIPLAYER) (h : Has2048 (actorBoard g)) :
    actorWon (evaluate oob g) = true
    ∧ (evaluate oob g).currentState
        = (if canMoveWith oob g.board then GameState.MULTIPLAYER_GAME_OVER
           else GameState.GAME_OVER) := by
  have h' := (has2048_iff _).2 h
  unfold evaluate
  rw [checkWin_multi g hs]
  unfold actorBoard at h'
  by_cases hp : g.currentPlayer = PlayerTurn.PLAYER_ONE
  · rw [if_pos hp] at h' ⊢
    rw [h', if_pos rfl, checkGameOver_single oob _ (by simp)]
    cases hc : canMoveWith oob g.board <;> simp [actorWon, hc, hp]
  · rw [if_neg hp] at h' ⊢
    rw [h', if_pos rfl, checkGameOver_single oob _ (by simp)]
    cases hc : canMoveWith oob g.board <;> simp [actorWon, hc, hp]

/-- Witness of C13, the failing input: player two reaches 2048 while the
board of player one is full without equal neighbours; the phase ends as
`GAME_OVER`, not `MULTIPLAYER_GAME_OVER`. -/
theorem C13_witness :
    (multiplayerWith stuckBoard [[2048, 0, 0, 0], [0, 0, 0, 0], [0, 0, 0, 0], [0, 0, 0, 0]]
        PlayerTurn.PLAYER_TWO).currentState = GameState.MULTIPLAYER
    ∧ Has2048 (actorBoard (multiplayerWith stuckBoard
        [[2048, 0, 0, 0], [0, 0, 0, 0], [0, 0, 0, 0], [0, 0, 0, 0]] PlayerTurn.PLAYER_TWO))
    ∧ (evaluate (fun _ _ => 0) (multiplayerWith stuckBoard
        [[2048, 0, 0, 0], [0, 0, 0, 0], [0, 0, 0, 0], [0, 0, 0, 0]]
        PlayerTurn.PLAYER_TWO)).currentState = GameState.GAME_OVER
    ∧ (evaluate (fun _ _ => 0) (multiplayerWith stuckBoard
        [[2048, 0, 0, 0], [0, 0, 0, 0], [0, 0, 0, 0], [0, 0, 0, 0]]
        PlayerTurn.PLAYER_TWO)).wonP2 = true := by
  have h1 : (multiplayerWith stuckBoard [[2048, 0, 0, 0], [0, 0, 0, 0], [0, 0, 0, 0], [0, 0, 0, 0]]
        PlayerTurn.PLAYER_TWO).currentState = GameState.MULTIPLAYER := rfl
  have h2 : Has2048 (actorBoard (multiplayerWith stuckBoard
        [[2048, 0, 0, 0], [0, 0, 0, 0], [0, 0, 0, 0], [0, 0, 0, 0]] PlayerTurn.PLAYER_TWO)) :=
    ⟨0, 0, by decide, by decide, by decide⟩
  have h3 := C13_multiplayer_win_phase (fun _ _ => 0) _ h1 h2
  refine ⟨h1, h2, ?_, by decide⟩
  rw [h3.2]
  decide

theorem checkGameOver_multi (oob : Nat → Nat → Int) (g : Game)
    (hs : g.currentState = GameState.MULTIPLAYER) :
    checkGameOver oob g = if canMoveWith oob (actorBoard g) then g
      else if g.currentPlayer = PlayerTurn.PLAYER_ONE then
        (if g.gameOverP2 then
          { g with gameOver := true, currentState := GameState.MULTIPLAYER_GAME_OVER }
        else { g with gameOver := true, currentPlayer := PlayerTurn.PLAYER_TWO })
      else
        (if g.gameOver then
          { g with gameOverP2 := true, currentState := GameState.MULTIPLAYER_GAME_OVER }
        else { g with gameOverP2 := true, currentPlayer := PlayerTurn.PLAYER_ONE }) := by
  unfold checkGameOver actorBoard
  rw [if_pos hs]
  by_cases hp : g.currentPlayer = PlayerTurn.PLAYER_ONE
  · simp only [hp, if_true]
    cases canMoveWith oob g.board <;> simp
  · simp only [hp, if_false]
    cases canMoveWith oob g.boardP2 <;> simp

/-- C14: in a multiplayer state `checkGameOver` (a) changes nothing when
`canMove` returns true for the board of the player to act; (b) otherwise it
sets that player's stuck flag, the phase becomes `MULTIPLAYER_GAME_OVER` if
and only if the other player's stuck flag was already set, and when it was
not set the phase stays `MULTIPLAYER` and the turn passes to the other
player. -/
theorem C14_multiplayer_stuck_rule (oob : Nat → Nat → Int) (g : Game)
    (hs : g.currentState = GameState.MULTIPLAYER) :
    (canMoveWith oob (actorBoard g) = true → checkGameOver oob g = g)
    ∧ (canMoveWith oob (actorBoard g) = false →
        (if g.currentPlayer = PlayerTurn.PLAYER_ONE then (checkGameOver oob g).gameOver
          else (checkGameOver oob g).gameOverP2) = true
        ∧ ((checkGameOver oob g).currentState = GameState.MULTIPLAYER_GAME_OVER
            ↔ otherStuck g = true)
        ∧ (otherStuck g = false →
            (checkGameOver oob g).currentState = GameState.MULTIPLAYER
            ∧ (checkGameOver oob g).currentPlayer = otherPlayer g.currentPlayer)) := by
  rw [checkGameOver_multi oob g hs]
  constructor
  · intro hc
    rw [hc, if_pos rfl]
  · intro hc
    rw [hc]
    simp only [Bool.false_eq_true, if_false, otherStuck]
    cases hp : g.currentPlayer
    · cases ho : g.gameOverP2 <;> simp [otherPlayer, hs]
    · cases ho : g.gameOver <;> simp [otherPlayer, hs]

/-- Witness of C14: player one is stuck while player two is not yet; the
turn passes to player two and the phase stays `MULTIPLAYER`. -/
theorem C14_witness :
    (multiplayerWith stuckBoard emptyBoard PlayerTurn.PLAYER_ONE).currentState
      = GameState.MULTIPLAYER
    ∧ canMoveWith (fun _ _ => 0)
        (actorBoard (multiplayerWith stuckBoard emptyBoard PlayerTurn.PLAYER_ONE)) = false
    ∧ (checkGameOver (fun _ _ => 0)
        (multiplayerWith stuckBoard emptyBoard PlayerTurn.PLAYER_ONE)).gameOver = true
    ∧ (checkGameOver (fun _ _ => 0)
        (multiplayerWith stuckBoard emptyBoard PlayerTurn.PLAYER_ONE)).currentState
        = GameState.MULTIPLAYER
    ∧ (checkGameOver (fun _ _ => 0)
        (multiplayerWith stuckBoard emptyBoard PlayerTurn.PLAYER_ONE)).currentPlayer
        = PlayerTurn.PLAYER_TWO := by
  have h1 : (multiplayerWith stuckBoard emptyBoard PlayerTurn.PLAYER_ONE).currentState
      = GameState.MULTIPLAYER := rfl
  have h2 : canMoveWith (fun _ _ => 0)
      (actorBoard (multiplayerWith stuckBoard emptyBoard PlayerTurn.PLAYER_ONE)) = false := by
    decide
  have h3 := (C14_multiplayer_stuck_rule (fun _ _ => 0) _ h1).2 h2
  exact ⟨h1, h2, h3.1, (h3.2.2 rfl).1, (h3.2.2 rfl).2⟩

/-! ## Restart -/

theorem tileValue_cases (d : Nat) : tileValue d = 2 ∨ tileValue d = 4 := by
  unfold tileValue
  split <;> simp

theorem wellFormed_emptyBoard : WellFormed emptyBoard := by decide

theorem getCell_emptyBoard (i j : Nat) : getCell emptyBoard i j = 0 := by
  have h : ∀ k : Nat, (List.replicate BOARD_SIZE (0 : Int)).getD k 0 = 0 := by
    intro k
    simp only [BOARD_SIZE, List.replicate]
    rcases k with _ | _ | _ | _ | _ | k <;> rfl
  unfold getCell emptyBoard
  simp only [BOARD_SIZE, List.replicate]
  rcases i with _ | _ | _ | _ | _ | i
  · exact h j
  · exact h j
  · exact h j
  · exact h j
  · simp
  · simp

theorem getD_length_emptyBoard (i : Nat) (hi : i < BOARD_SIZE) :
    (emptyBoard.getD i []).length = BOARD_SIZE :=
  getD_length emptyBoard wellFormed_emptyBoard i hi

/-- The cells of an empty board after two writes. -/
theorem getCell_placed (c1 c2 : Nat × Nat) (h1 : c1 ∈ allCells) (h2 : c2 ∈ allCells)
    (v1 v2 : Int) (c : Nat × Nat) :
    getCell (setCell (setCell emptyBoard c1.1 c1.2 v1) c2.1 c2.2 v2) c.1 c.2
      = if c = c2 then v2 else if c = c1 then v1 else 0 := by
  obtain ⟨a1, a2⟩ := mem_allCells c1 h1
  obtain ⟨b1, b2⟩ := mem_allCells c2 h2
  have hw := wellFormed_setCell emptyBoard wellFormed_emptyBoard c1.1 c1.2 v1
  rw [getCell_setCell, getCell_setCell, getCell_emptyBoard]
  have e1 : c2.1 < (setCell emptyBoard c1.1 c1.2 v1).length := by rw [hw.1]; exact b1
  have e2 : c2.2 < ((setCell emptyBoard c1.1 c1.2 v1).getD c2.1 []).length := by
    rw [getD_length _ hw _ b1]; exact b2
  have e3 : c1.1 < emptyBoard.length := by rw [wellFormed_emptyBoard.1]; exact a1
  have e4 : c1.2 < (emptyBoard.getD c1.1 []).length := by
    rw [getD_length_emptyBoard _ a1]; exact a2
  have k2 : (c.1 = c2.1 ∧ c.2 = c2.2 ∧ c2.1 < (setCell emptyBoard c1.1 c1.2 v1).length
      ∧ c2.2 < ((setCell emptyBoard c1.1 c1.2 v1).getD c2.1 []).length) ↔ c = c2 :=
    ⟨fun h => Prod.ext h.1 h.2.1, fun h => ⟨by rw [h], by rw [h], e1, e2⟩⟩
  have k1 : (c.1 = c1.1 ∧ c.2 = c1.2 ∧ c1.1 < emptyBoard.length
      ∧ c1.2 < (emptyBoard.getD c1.1 []).length) ↔ c = c1 :=
    ⟨fun h => Prod.ext h.1 h.2.1, fun h => ⟨by rw [h], by rw [h], e3, e4⟩⟩
  simp only [k1, k2]

theorem two_cells_selected : ∀ c1 ∈ allCells, ∀ c2 ∈ allCells, c1 ≠ c2 →
    (allCells.filter (fun c => decide (c = c2 ∨ c = c1))).length = 2 := by
  rw [allCells_eq]
  decide

theorem twoTiles_placed (c1 c2 : Nat × Nat) (h1 : c1 ∈ allCells) (h2 : c2 ∈ allCells)
    (hne : c1 ≠ c2) (v1 v2 : Int) (hv1 : v1 = 2 ∨ v1 = 4) (hv2 : v2 = 2 ∨ v2 = 4) :
    TwoTiles (setCell (setCell emptyBoard c1.1 c1.2 v1) c2.1 c2.2 v2) := by
  have hz1 : v1 ≠ 0 := by rcases hv1 with h | h <;> rw [h] <;> decide
  have hz2 : v2 ≠ 0 := by rcases hv2 with h | h <;> rw [h] <;> decide
  have hf : nonZeroCells (setCell (setCell emptyBoard c1.1 c1.2 v1) c2.1 c2.2 v2)
      = allCells.filter (fun c => decide (c = c2 ∨ c = c1)) := by
    unfold nonZeroCells
    apply List.filter_congr
    intro c _
    rw [getCell_placed c1 c2 h1 h2]
    by_cases e2 : c = c2
    · simp [e2, hz2]
    · by_cases e1 : c = c1
      · rw [if_neg e2, if_pos e1]
        simp [e1, hz1]
      · simp [e1, e2]
  refine ⟨wellFormed_setCell _ (wellFormed_setCell _ wellFormed_emptyBoard _ _ _) _ _ _, ?_, ?_⟩
  · rw [hf]
    exact two_cells_selected c1 h1 c2 h2 hne
  · intro c _
    rw [getCell_placed c1 c2 h1 h2]
    by_cases e2 : c = c2
    · rw [if_pos e2]; exact hv2
    · rw [if_neg e2]
      by_cases e1 : c = c1
      · rw [if_pos e1]; exact hv1
      · rename_i hc
        rw [hf] at hc
        have := (List.mem_filter.mp hc).2
        simp [e1, e2] at this

/-- The first two entries of a shuffle of the sixteen index pairs are two
different cells of the board. -/
theorem shuffle_first_two (sh : List (Nat × Nat)) (h : sh.Perm allCells) :
    sh.getD 0 (0, 0) ∈ allCells ∧ sh.getD 1 (0, 0) ∈ allCells
      ∧ sh.getD 0 (0, 0) ≠ sh.getD 1 (0, 0) := by
  have hl : sh.length = 16 := by rw [h.length_eq, allCells_eq]; rfl
  have hn : sh.Nodup := h.nodup_iff.mpr (by rw [allCells_eq]; decide)
  match sh, hl, hn, h with
  | a :: b :: rest, _, hn, h =>
    refine ⟨h.subset (by simp), h.subset (by simp), ?_⟩
    simp only [List.getD_cons_zero, List.getD_cons_succ]
    intro hab
    rw [List.nodup_cons] at hn
    exact hn.1 (by rw [hab]; simp)

theorem twoTiles_placeInitial (b : Board) (hb : WellFormed b) (sh : List (Nat × Nat))
    (h : sh.Perm allCells) (d1 d2 : Nat) :
    TwoTiles (placeInitial (clearCells b) sh d1 d2) := by
  obtain ⟨h1, h2, hne⟩ := shuffle_first_two sh h
  rw [clearCells_eq b hb]
  exact twoTiles_placed _ _ h1 h2 hne _ _ (tileValue_cases d1) (tileValue_cases d2)

theorem restartReset_fields (g : Game) :
    (restartReset g).score = 0
    ∧ (restartReset g).scoreP2 = 0
    ∧ (restartReset g).gameOver = false
    ∧ (restartReset g).gameOverP2 = false
    ∧ (restartReset g).won = false
    ∧ (restartReset g).wonP2 = false
    ∧ (restartReset g).currentPlayer = PlayerTurn.PLAYER_ONE
    ∧ (restartReset g).animating = false
    ∧ (restartReset g).animations = []
    ∧ (restartReset g).animationsP2 = []
    ∧ (restartReset g).mergedTiles = []
    ∧ (restartReset g).mergedTilesP2 = []
    ∧ (restartReset g).newTiles = []
    ∧ (restartReset g).newTilesP2 = []
    ∧ (restartReset g).bestScore = g.bestScore := by
  simp only [restartReset, and_self]

theorem restartReset_currentState (g : Game) :
    (restartReset g).currentState = g.currentState := by
  simp only [restartReset]

theorem restart_fields (g : Game) (sh1 sh2 : List (Nat × Nat)) (d1 d2 d3 d4 : Nat) :
    (restart g sh1 sh2 d1 d2 d3 d4).score = 0
    ∧ (restart g sh1 sh2 d1 d2 d3 d4).scoreP2 = 0
    ∧ (restart g sh1 sh2 d1 d2 d3 d4).gameOver = false
    ∧ (restart g sh1 sh2 d1 d2 d3 d4).gameOverP2 = false
    ∧ (restart g sh1 sh2 d1 d2 d3 d4).won = false
    ∧ (restart g sh1 sh2 d1 d2 d3 d4).wonP2 = false
    ∧ (restart g sh1 sh2 d1 d2 d3 d4).currentPlayer = PlayerTurn.PLAYER_ONE
    ∧ (restart g sh1 sh2 d1 d2 d3 d4).animating = false
    ∧ (restart g sh1 sh2 d1 d2 d3 d4).animations = []
    ∧ (restart g sh1 sh2 d1 d2 d3 d4).animationsP2 = []
    ∧ (restart g sh1 sh2 d1 d2 d3 d4).mergedTiles = []
    ∧ (restart g sh1 sh2 d1 d2 d3 d4).mergedTilesP2 = []
    ∧ (restart g sh1 sh2 d1 d2 d3 d4).newTiles = []
    ∧ (restart g sh1 sh2 d1 d2 d3 d4).newTilesP2 = []
    ∧ (restart g sh1 sh2 d1 d2 d3 d4).bestScore = g.bestScore := by
  obtain ⟨h1, h2, h3, h4, h5, h6, h7, h8, h9, h10, h11, h12, h13, h14, h15⟩ :=
    restartReset_fields g
  unfold restart
  simp only
  split <;>
  simp only [h1, h2, h3, h4, h5, h6, h7, h8, h9, h10, h11, h12, h13, h14, h15, and_self]

theorem restart_multi (g : Game) (sh1 sh2 : List (Nat × Nat)) (d1 d2 d3 d4 : Nat)
    (h : g.currentState = GameState.MULTIPLAYER
      ∨ g.currentState = GameState.MULTIPLAYER_GAME_OVER) :
    (restart g sh1 sh2 d1 d2 d3 d4).currentState = GameState.MULTIPLAYER
    ∧ (restart g sh1 sh2 d1 d2 d3 d4).board = placeInitial (clearCells g.board) sh1 d1 d2
    ∧ (restart g sh1 sh2 d1 d2 d3 d4).boardP2 = placeInitial (clearCells g.boardP2) sh2 d3 d4 := by
  unfold restart
  simp only
  rw [if_pos (by rw [restartReset_currentState]; exact h)]
  exact ⟨rfl, by rw [← restartReset_board], by rw [← restartReset_boardP2]⟩

theorem restart_single (g : Game) (sh1 sh2 : List (Nat × Nat)) (d1 d2 d3 d4 : Nat)
    (h : ¬ (g.currentState = GameState.MULTIPLAYER
      ∨ g.currentState = GameState.MULTIPLAYER_GAME_OVER)) :
    (restart g sh1 sh2 d1 d2 d3 d4).currentState = GameState.PLAYING
    ∧ (restart g sh1 sh2 d1 d2 d3 d4).board = placeInitial (clearCells g.board) sh1 d1 d2
    ∧ (restart g sh1 sh2 d1 d2 d3 d4).boardP2 = clearCells g.boardP2 := by
  unfold restart
  simp only
  rw [if_neg (by rw [restartReset_currentState]; exact h)]
  exact ⟨rfl, by rw [← restartReset_board], by rw [← restartReset_boardP2]⟩

/-- C16: after `restart`, from every state with boards of 4 by 4 cells, for
every outcome of the shuffles (a permutation of the sixteen index pairs) and
of the value draws: both scores are 0, all win and stuck flags are false, the
turn is player one's, `animating` is false, all six event lists are empty and
`bestScore` is unchanged; from `MULTIPLAYER` or `MULTIPLAYER_GAME_OVER` the
phase is `MULTIPLAYER` and each board has exactly two non-zero cells, each 2
or 4; from every other phase the phase is `PLAYING`, the first board has
exactly two non-zero cells, each 2 or 4, and the second board is all zeros. -/
theorem C16_restart_postcondition (g : Game) (hb1 : WellFormed g.board)
    (hb2 : WellFormed g.boardP2) (sh1 sh2 : List (Nat × Nat)) (hs1 : sh1.Perm allCells)
    (hs2 : sh2.Perm allCells) (d1 d2 d3 d4 : Nat) :
    ((restart g sh1 sh2 d1 d2 d3 d4).score = 0
      ∧ (restart g sh1 sh2 d1 d2 d3 d4).scoreP2 = 0
      ∧ (restart g sh1 sh2 d1 d2 d3 d4).gameOver = false
      ∧ (restart g sh1 sh2 d1 d2 d3 d4).gameOverP2 = false
      ∧ (restart g sh1 sh2 d1 d2 d3 d4).won = false
      ∧ (restart g sh1 sh2 d1 d2 d3 d4).wonP2 = false
      ∧ (restart g sh1 sh2 d1 d2 d3 d4).currentPlayer = PlayerTurn.PLAYER_ONE
      ∧ (restart g sh1 sh2 d1 d2 d3 d4).animating = false
      ∧ (restart g sh1 sh2 d1 d2 d3 d4).animations = []
      ∧ (restart g sh1 sh2 d1 d2 d3 d4).animationsP2 = []
      ∧ (restart g sh1 sh2 d1 d2 d3 d4).mergedTiles = []
      ∧ (restart g sh1 sh2 d1 d2 d3 d4).mergedTilesP2 = []
      ∧ (restart g sh1 sh2 d1 d2 d3 d4).newTiles = []
      ∧ (restart g sh1 sh2 d1 d2 d3 d4).newTilesP2 = []
      ∧ (restart g sh1 sh2 d1 d2 d3 d4).bestScore = g.bestScore)
    ∧ (g.currentState = GameState.MULTIPLAYER
        ∨ g.currentState = GameState.MULTIPLAYER_GAME_OVER →
        (restart g sh1 sh2 d1 d2 d3 d4).currentState = GameState.MULTIPLAYER
        ∧ TwoTiles (restart g sh1 sh2 d1 d2 d3 d4).board
        ∧ TwoTiles (restart g sh1 sh2 d1 d2 d3 d4).boardP2)
    ∧ (¬ (g.currentState = GameState.MULTIPLAYER
        ∨ g.currentState = GameState.MULTIPLAYER_GAME_OVER) →
        (restart g sh1 sh2 d1 d2 d3 d4).currentState = GameState.PLAYING
        ∧ TwoTiles (restart g sh1 sh2 d1 d2 d3 d4).board
        ∧ (restart g sh1 sh2 d1 d2 d3 d4).boardP2 = emptyBoard) := by
  refine ⟨restart_fields g sh1 sh2 d1 d2 d3 d4, ?_, ?_⟩
  · intro h
    obtain ⟨e1, e2, e3⟩ := restart_multi g sh1 sh2 d1 d2 d3 d4 h
    rw [e2, e3]
    exact ⟨e1, twoTiles_placeInitial _ hb1 _ hs1 _ _, twoTiles_placeInitial _ hb2 _ hs2 _ _⟩
  · intro h
    obtain ⟨e1, e2, e3⟩ := restart_single g sh1 sh2 d1 d2 d3 d4 h
    rw [e2, e3]
    exact ⟨e1, twoTiles_placeInitial _ hb1 _ hs1 _ _, clearCells_eq _ hb2⟩

/-- Witness of C16: restart of a finished single-player game with score 20,
the shuffle leaving the sixteen cells in row-major order and the draws 0, 9:
the new board has a 2 at (0,0) and a 4 at (0,1), and `bestScore` is still
20. -/
theorem C16_witness :
    WellFormed finishedGame.board
    ∧ WellFormed finishedGame.boardP2
    ∧ allCells.Perm allCells
    ∧ (restart finishedGame allCells allCells 0 9 0 0).score = 0
    ∧ (restart finishedGame allCells allCells 0 9 0 0).bestScore = 20
    ∧ (restart finishedGame allCells allCells 0 9 0 0).currentState = GameState.PLAYING
    ∧ TwoTiles (restart finishedGame allCells allCells 0 9 0 0).board
    ∧ (restart finishedGame allCells allCells 0 9 0 0).boardP2 = emptyBoard := by
  have hw1 : WellFormed finishedGame.board := by decide
  have hw2 : WellFormed finishedGame.boardP2 := by decide
  have h := C16_restart_postcondition finishedGame hw1 hw2 allCells allCells
    (List.Perm.refl _) (List.Perm.refl _) 0 9 0 0
  have h3 := h.2.2 (by decide)
  exact ⟨hw1, hw2, List.Perm.refl _, h.1.1, h.1.2.2.2.2.2.2.2.2.2.2.2.2.2.2, h3.1, h3.2.1,
    h3.2.2⟩

/-! ## Shape of the event list of `createMoveAnimations` -/

/-- What the two passes promise of an event pushed for the cell `c`. -/
theorem mergeSearchRow_anims (prev : Board) (i j ni : Nat) (r : Recon) :
    ∃ extra, (mergeSearchRow prev i j ni r).anims = r.anims ++ extra
      ∧ ∀ a ∈ extra, dest a = (i, j) ∧ a.merged = true ∧ source a ≠ dest a := by
  unfold mergeSearchRow
  split
  · exact ⟨[], by simp, by simp⟩
  · rename_i nj _
    by_cases h : ni ≠ i ∨ nj ≠ j
    · refine ⟨[mkAnim ni nj i j true (getCell prev ni nj)], by simp [h], ?_⟩
      intro a ha
      rw [List.mem_singleton] at ha
      subst ha
      refine ⟨rfl, rfl, ?_⟩
      simp only [source, dest, mkAnim, ne_eq, Prod.mk.injEq, not_and]
      intro h1 h2
      rcases h with h | h
      · exact h h1
      · exact h h2
    · exact ⟨[], by simp [h], by simp⟩

theorem slideSearchRow_anims (cur prev : Board) (i j pi : Nat) (r : Recon) :
    ∃ extra, (slideSearchRow cur prev i j pi r).anims = r.anims ++ extra
      ∧ ∀ a ∈ extra, dest a = (i, j) ∧ a.merged = false ∧ source a ≠ dest a := by
  unfold slideSearchRow
  split
  · exact ⟨[], by simp, by simp⟩
  · rename_i pj _
    by_cases h : pi ≠ i ∨ pj ≠ j
    · refine ⟨[mkAnim pi pj i j false (getCell prev pi pj)], by simp [h], ?_⟩
      intro a ha
      rw [List.mem_singleton] at ha
      subst ha
      refine ⟨rfl, rfl, ?_⟩
      simp only [source, dest, mkAnim, ne_eq, Prod.mk.injEq, not_and]
      intro h1 h2
      rcases h with h | h
      · exact h h1
      · exact h h2
    · exact ⟨[], by simp [h], by simp⟩

/-- A loop whose every step only appends events with property `Q` only
appends events with property `Q`. -/
theorem foldl_anims {ι : Type} (Q : TileAnimation → Prop) (step : ι → Recon → Recon)
    (hstep : ∀ k r, ∃ extra, (step k r).anims = r.anims ++ extra ∧ ∀ a ∈ extra, Q a)
    (l : List ι) (r : Recon) :
    ∃ extra, (l.foldl (fun r k => step k r) r).anims = r.anims ++ extra ∧ ∀ a ∈ extra, Q a := by
  induction l generalizing r with
  | nil => exact ⟨[], by simp, by simp⟩
  | cons k rest ih =>
    obtain ⟨e1, h1, q1⟩ := hstep k r
    obtain ⟨e2, h2, q2⟩ := ih (step k r)
    refine ⟨e1 ++ e2, ?_, ?_⟩
    · rw [List.foldl_cons, h2, h1, List.append_assoc]
    · intro a ha
      rcases List.mem_append.mp ha with h | h
      · exact q1 a h
      · exact q2 a h

theorem mergePassCell_anims (cur prev : Board) (c : Nat × Nat) (r : Recon) :
    ∃ extra, (mergePassCell cur prev c.1 c.2 r).anims = r.anims ++ extra
      ∧ ∀ a ∈ extra, dest a = c ∧ a.merged = true ∧ source a ≠ dest a := by
  unfold mergePassCell
  split
  · exact ⟨[], by simp, by simp⟩
  · split
    · exact foldl_anims _ (fun ni r => mergeSearchRow prev c.1 c.2 ni r)
        (fun ni r => mergeSearchRow_anims prev c.1 c.2 ni r) _ _
    · exact ⟨[], by simp, by simp⟩

theorem slidePassCell_anims (cur prev : Board) (c : Nat × Nat) (r : Recon) :
    ∃ extra, (slidePassCell cur prev c.1 c.2 r).anims = r.anims ++ extra
      ∧ ∀ a ∈ extra, dest a = c ∧ a.merged = false ∧ source a ≠ dest a := by
  unfold slidePassCell
  split
  · exact ⟨[], by simp, by simp⟩
  · split
    · exact ⟨[], by simp, by simp⟩
    · exact foldl_anims _ (fun pi r => slideSearchRow cur prev c.1 c.2 pi r)
        (fun pi r => slideSearchRow_anims cur prev c.1 c.2 pi r) _ _

/-- A pass over cells in row-major order appends events whose destinations
are among these cells and in row-major order. -/
theorem pass_anims (m : Bool) (step : Nat × Nat → Recon → Recon)
    (hstep : ∀ c r, ∃ extra, (step c r).anims = r.anims ++ extra
      ∧ ∀ a ∈ extra, dest a = c ∧ a.merged = m ∧ source a ≠ dest a)
    (cells : List (Nat × Nat)) (hs : cells.Pairwise cellLT) (r : Recon) :
    ∃ extra, (cells.foldl (fun r c => step c r) r).anims = r.anims ++ extra
      ∧ (∀ a ∈ extra, dest a ∈ cells ∧ a.merged = m ∧ source a ≠ dest a)
      ∧ extra.Pairwise (fun a b => cellLE (dest a) (dest b)) := by
  induction cells generalizing r with
  | nil => exact ⟨[], by simp, by simp, List.Pairwise.nil⟩
  | cons c rest ih =>
    obtain ⟨e1, h1, q1⟩ := hstep c r
    rw [List.pairwise_cons] at hs
    obtain ⟨e2, h2, q2, p2⟩ := ih hs.2 (step c r)
    refine ⟨e1 ++ e2, ?_, ?_, ?_⟩
    · rw [List.foldl_cons, h2, h1, List.append_assoc]
    · intro a ha
      rcases List.mem_append.mp ha with h | h
      · obtain ⟨k1, k2, k3⟩ := q1 a h
        exact ⟨by rw [k1]; exact List.mem_cons_self _ _, k2, k3⟩
      · obtain ⟨k1, k2, k3⟩ := q2 a h
        exact ⟨List.mem_cons_of_mem _ k1, k2, k3⟩
    · rw [List.pairwise_append]
      refine ⟨?_, p2, ?_⟩
      · rw [List.pairwise_iff_forall_sublist]
        intro a b hab
        have ha := (q1 a (hab.subset (by simp))).1
        have hb := (q1 b (hab.subset (by simp))).1
        rw [ha, hb]
        exact Or.inr ⟨rfl, le_refl _⟩
      · intro a ha b hb
        have h3 := (q1 a ha).1
        have h4 := hs.1 _ (q2 b hb).1
        rw [h3]
        rcases h4 with h4 | h4
        · exact Or.inl h4
        · exact Or.inr ⟨h4.1, le_of_lt h4.2⟩

theorem nested_range_foldl {α : Type} (f : Nat → Nat → α → α) (x : α) :
    (List.range BOARD_SIZE).foldl
      (fun r i => (List.range BOARD_SIZE).foldl (fun r j => f i j r) r) x
      = allCells.foldl (fun r c => f c.1 c.2 r) x := by
  rw [allCells_eq]
  rfl

theorem allCells_sorted : allCells.Pairwise cellLT := by
  rw [allCells_eq]
  decide

/-- The event list of `reconcile`: the events of the merge pass, then those of
the slide pass, each group with destinations on the board and in row-major
order, no event with its source equal to its destination. -/
theorem reconcile_anims (cur prev : Board) :
    ∃ ms ss, (reconcile cur prev).anims = ms ++ ss
      ∧ (∀ a ∈ ms, dest a ∈ allCells ∧ a.merged = true ∧ source a ≠ dest a)
      ∧ ms.Pairwise (fun a b => cellLE (dest a) (dest b))
      ∧ (∀ a ∈ ss, dest a ∈ allCells ∧ a.merged = false ∧ source a ≠ dest a)
      ∧ ss.Pairwise (fun a b => cellLE (dest a) (dest b)) := by
  unfold reconcile
  simp only
  rw [nested_range_foldl (fun i j r => mergePassCell cur prev i j r),
    nested_range_foldl (fun i j r => slidePassCell cur prev i j r)]
  obtain ⟨ms, h1, q1, p1⟩ := pass_anims true (fun c r => mergePassCell cur prev c.1 c.2 r)
    (fun c r => mergePassCell_anims cur prev c r) allCells allCells_sorted
    { accounted := freshTracker, anims := [], mergedMap := [] }
  obtain ⟨ss, h2, q2, p2⟩ := pass_anims false (fun c r => slidePassCell cur prev c.1 c.2 r)
    (fun c r => slidePassCell_anims cur prev c r) allCells allCells_sorted
    (allCells.foldl (fun r c => mergePassCell cur prev c.1 c.2 r)
      { accounted := freshTracker, anims := [], mergedMap := [] })
  refine ⟨ms, ss, ?_, q1, p1, q2, p2⟩
  rw [h2, h1]
  rfl

theorem createMoveAnimations_active (g : Game) :
    activeAnimations (createMoveAnimations g)
      = (reconcile (activeBoard g) (activePrevious g)).anims := by
  unfold createMoveAnimations activeAnimations activeBoard activePrevious
  cases h : p2Active g
  · simp only [Bool.false_eq_true, if_false]
    simp only [p2Active] at h ⊢
    simp only [h, Bool.false_eq_true, if_false]
  · simp only [if_true]
    simp only [p2Active] at h ⊢
    simp only [h, if_true]

/-! ## Claims about `createMoveAnimations` -/

theorem mergePassCell_same (b : Board) (i j : Nat) (r : Recon) :
    mergePassCell b b i j r = r := by
  unfold mergePassCell
  split
  · rfl
  · rw [if_neg]
    intro h
    omega

theorem mergeMap_slideSearchRow (cur prev : Board) (i j pi : Nat) (r : Recon) :
    (slideSearchRow cur prev i j pi r).mergedMap = r.mergedMap := by
  unfold slideSearchRow
  split
  · rfl
  · simp only
    split <;> rfl

theorem mergeMap_foldl {ι : Type} (step : ι → Recon → Recon)
    (hstep : ∀ k r, (step k r).mergedMap = r.mergedMap) (l : List ι) (r : Recon) :
    (l.foldl (fun r k => step k r) r).mergedMap = r.mergedMap := by
  induction l generalizing r with
  | nil => rfl
  | cons k rest ih => rw [List.foldl_cons, ih, hstep]

theorem mergeMap_slidePassCell (cur prev : Board) (c : Nat × Nat) (r : Recon) :
    (slidePassCell cur prev c.1 c.2 r).mergedMap = r.mergedMap := by
  unfold slidePassCell
  split
  · rfl
  · split
    · rfl
    · exact mergeMap_foldl (fun pi r => slideSearchRow cur prev c.1 c.2 pi r)
        (fun pi r => mergeMap_slideSearchRow cur prev c.1 c.2 pi r) _ _

theorem reconcile_same_mergedMap (b : Board) : (reconcile b b).mergedMap = [] := by
  unfold reconcile
  simp only
  rw [nested_range_foldl (fun i j r => mergePassCell b b i j r),
    nested_range_foldl (fun i j r => slidePassCell b b i j r),
    mergeMap_foldl (fun c r => slidePassCell b b c.1 c.2 r)
      (fun c r => mergeMap_slidePassCell b b c r)]
  exact mergeMap_foldl (fun (c : Nat × Nat) r => mergePassCell b b c.1 c.2 r)
    (fun c r => congrArg Recon.mergedMap (mergePassCell_same b c.1 c.2 r)) allCells _

/-- C18: after `moveLeft` on the board with the row `2 2 0 0` above the
row `2 0 0 0`, the event list holds two merge events with the same destination
(0,0): one from (0,1), and one from (1,0), found because the `break` of the
merge search leaves only the loop over the columns. -/
theorem C18_two_events_for_one_destination :
    (moveLeft (playingWith pairAboveBoard)).1.previousBoard = pairAboveBoard
    ∧ (moveLeft (playingWith pairAboveBoard)).1.board
        = [[4, 0, 0, 0], [2, 0, 0, 0], [0, 0, 0, 0], [0, 0, 0, 0]]
    ∧ (moveLeft (playingWith pairAboveBoard)).1.animations
        = [mkAnim 0 1 0 0 true 2, mkAnim 1 0 0 0 true 2]
    ∧ ((moveLeft (playingWith pairAboveBoard)).1.animations.map dest) = [(0, 0), (0, 0)] := by
  decide

/-- C19: no event that `createMoveAnimations` produces has its source cell
equal to its destination cell, for every pair of boards. -/
theorem C19_no_self_events (g : Game) (a : TileAnimation)
    (ha : a ∈ activeAnimations (createMoveAnimations g)) : source a ≠ dest a := by
  rw [createMoveAnimations_active] at ha
  obtain ⟨ms, ss, h, q1, -, q2, -⟩ := reconcile_anims (activeBoard g) (activePrevious g)
  rw [h] at ha
  rcases List.mem_append.mp ha with h1 | h1
  · exact (q1 a h1).2.2
  · exact (q2 a h1).2.2

/-- Witness of C19: the merge event from (0,1) to (0,0) of a move to the
left. -/
theorem C19_witness :
    mkAnim 0 1 0 0 true 2 ∈ activeAnimations (createMoveAnimations
      (reconciling pairAboveBoard [[4, 0, 0, 0], [2, 0, 0, 0], [0, 0, 0, 0], [0, 0, 0, 0]]))
    ∧ source (mkAnim 0 1 0 0 true 2) ≠ dest (mkAnim 0 1 0 0 true 2) := by
  have h : mkAnim 0 1 0 0 true 2 ∈ activeAnimations (createMoveAnimations
      (reconciling pairAboveBoard [[4, 0, 0, 0], [2, 0, 0, 0], [0, 0, 0, 0], [0, 0, 0, 0]])) := by
    decide
  exact ⟨h, C19_no_self_events _ _ h⟩

/-- Counterexample to C20: after `moveLeft` on the board with the row
`0 4 0 0` above the row `2 2 0 0` the merge event into (1,0) comes before the
slide event into (0,0), so the destinations are not in increasing row-major
order. -/
theorem C20_counterexample :
    (moveLeft (playingWith slideAboveMergeBoard)).1.animations
        = [mkAnim 1 1 1 0 true 2, mkAnim 0 1 0 0 false 4]
    ∧ ¬ ((moveLeft (playingWith slideAboveMergeBoard)).1.animations.map dest).Pairwise cellLT := by
  decide

/-- C20, amended: the event list of `createMoveAnimations` consists of the
merge events followed by the slide events, and within each of the two groups
the destinations are in row-major order (not strictly). -/
theorem C20_events_are_ordered_within_each_pass (g : Game) :
    ∃ ms ss, activeAnimations (createMoveAnimations g) = ms ++ ss
      ∧ (∀ a ∈ ms, a.merged = true)
      ∧ ms.Pairwise (fun a b => cellLE (dest a) (dest b))
      ∧ (∀ a ∈ ss, a.merged = false)
      ∧ ss.Pairwise (fun a b => cellLE (dest a) (dest b)) := by
  rw [createMoveAnimations_active]
  obtain ⟨ms, ss, h, q1, p1, q2, p2⟩ := reconcile_anims (activeBoard g) (activePrevious g)
  exact ⟨ms, ss, h, fun a ha => (q1 a ha).2.1, p1, fun a ha => (q2 a ha).2.1, p2⟩

/-! ## The main loop -/

theorem pollEvents_quit (oob : Nat → Nat → Int) (events : List (Event × Outside)) (g : Game) :
    (pollEvents oob events g).2 = true ↔ ∃ p ∈ events, p.1 = Event.SDL_QUIT := by
  induction events generalizing g with
  | nil => simp [pollEvents]
  | cons p rest ih =>
    obtain ⟨e, o⟩ := p
    cases e with
    | SDL_QUIT => simp [pollEvents]
    | SDL_MOUSEMOTION x y => simp [pollEvents, ih]
    | SDL_MOUSEBUTTONDOWN l x y => simp [pollEvents, ih]
    | SDL_KEYDOWN k => simp [pollEvents, ih]
    | OTHER => simp [pollEvents, ih]

theorem exitTest_quit (g2 : Game) (q : Bool) :
    (if g2.gameOver && g2.currentState == GameState.MENU then (g2, true) else (g2, q)).2 = true
      ↔ q = true
        ∨ ((if g2.gameOver && g2.currentState == GameState.MENU then (g2, true)
              else (g2, q)).1.gameOver = true
          ∧ (if g2.gameOver && g2.currentState == GameState.MENU then (g2, true)
              else (g2, q)).1.currentState = GameState.MENU) := by
  by_cases h : (g2.gameOver && g2.currentState == GameState.MENU) = true
  · rw [if_pos h]
    simp only [Bool.and_eq_true, beq_iff_eq] at h
    simp [h]
  · rw [if_neg h]
    simp only [Bool.and_eq_true, beq_iff_eq] at h
    simp [h]

/-- A pass of the main loop quits exactly when a quit event is among the
pending events or, at its end, `gameOver` is set in the phase `MENU`. -/
theorem runIteration_quit (oob : Nat → Nat → Int) (events : List (Event × Outside))
    (timeUp : Bool) (g : Game) :
    (runIteration oob events timeUp g).2 = true ↔
      (∃ p ∈ events, p.1 = Event.SDL_QUIT)
      ∨ ((runIteration oob events timeUp g).1.gameOver = true
          ∧ (runIteration oob events timeUp g).1.currentState = GameState.MENU) := by
  rw [← pollEvents_quit oob events g]
  unfold runIteration
  exact exitTest_quit _ _

/-- C15: the loop also quits without the Exit button and without a quit
event.  A pass of the loop quits exactly when a quit event is pending or, at
its end, `gameOver` is set in the phase `MENU`; and `gameOver` is not only set
by the Exit button.  Player one presses `a` in a multiplayer game and is stuck
afterwards: `checkGameOver` sets `gameOver` as the stuck flag of player one,
and the game goes on with player two.  Two passes of the loop later Escape
leads to the menu, and the test `gameOver && currentState == MENU` of `run`
quits the application in that pass. -/
theorem C15_escape_after_player_one_is_stuck_quits :
    (∀ (oob : Nat → Nat → Int) (events : List (Event × Outside)) (timeUp : Bool) (g : Game),
      (runIteration oob events timeUp g).2 = true ↔
        (∃ p ∈ events, p.1 = Event.SDL_QUIT)
        ∨ ((runIteration oob events timeUp g).1.gameOver = true
            ∧ (runIteration oob events timeUp g).1.currentState = GameState.MENU))
    ∧ lastMoveGame.gameOver = false
    ∧ (runIteration (fun _ _ => 0) [(Event.SDL_KEYDOWN Key.SDLK_a, plainOutside)] false
        lastMoveGame).2 = false
    ∧ afterLastMove.board = [[2, 4, 2, 4], [4, 2, 4, 2], [2, 4, 2, 4], [4, 2, 8, 2]]
    ∧ afterLastMove.gameOver = true
    ∧ afterLastMove.currentState = GameState.MULTIPLAYER
    ∧ afterLastMove.currentPlayer = PlayerTurn.PLAYER_TWO
    ∧ (runIteration (fun _ _ => 0) [] true afterLastMove).2 = false
    ∧ afterSettle.currentState = GameState.MULTIPLAYER
    ∧ afterSettle.animating = false
    ∧ (runIteration (fun _ _ => 0) [(Event.SDL_KEYDOWN Key.SDLK_ESCAPE, plainOutside)] false
        afterSettle).1.currentState = GameState.MENU
    ∧ (runIteration (fun _ _ => 0) [(Event.SDL_KEYDOWN Key.SDLK_ESCAPE, plainOutside)] false
        afterSettle).2 = true :=
  ⟨runIteration_quit, by decide⟩

/-! ## Key presses while an animation runs -/

theorem handleGameInput_animating (oob : Nat → Nat → Int) (o : Outside) (sym : Key)
    (g : Game) (ha : g.animating = true) :
    handleGameInput oob o (Event.SDL_KEYDOWN sym) g = g := by
  simp only [handleGameInput, ha, if_true]

theorem handleMultiplayerInput_animating (oob : Nat → Nat → Int) (o : Outside) (sym : Key)
    (g : Game) (ha : g.animating = true) :
    handleMultiplayerInput oob o (Event.SDL_KEYDOWN sym) g = g := by
  simp only [handleMultiplayerInput, ha, if_true]

/-- C23: in a single-player or multiplayer state with `animating = true` a
key-down event, whatever the key, leaves the whole state unchanged: both
boards, both scores, `bestScore`, the phase, the turn marker and all event
lists. -/
theorem C23_keys_are_ignored_while_animating (oob : Nat → Nat → Int) (o : Outside) (sym : Key)
    (g : Game) (ha : g.animating = true) :
    handleGameInput oob o (Event.SDL_KEYDOWN sym) g = g
    ∧ handleMultiplayerInput oob o (Event.SDL_KEYDOWN sym) g = g
    ∧ (g.currentState = GameState.PLAYING ∨ g.currentState = GameState.MULTIPLAYER →
        handleInput oob o (Event.SDL_KEYDOWN sym) g = g) := by
  have h1 := handleGameInput_animating oob o sym g ha
  have h2 := handleMultiplayerInput_animating oob o sym g ha
  refine ⟨h1, h2, ?_⟩
  intro hs
  unfold handleInput
  rcases hs with hs | hs <;> rw [hs]
  · exact h1
  · exact h2

/-- Witness of C23: the key `a` during the animation of the last move of
player one. -/
theorem C23_witness :
    afterLastMove.animating = true
    ∧ afterLastMove.currentState = GameState.MULTIPLAYER
    ∧ handleInput (fun _ _ => 0) plainOutside (Event.SDL_KEYDOWN Key.SDLK_a) afterLastMove
        = afterLastMove := by
  have ha : afterLastMove.animating = true := by decide
  have hs : afterLastMove.currentState = GameState.MULTIPLAYER := by decide
  exact ⟨ha, hs,
    (C23_keys_are_ignored_while_animating (fun _ _ => 0) plainOutside Key.SDLK_a afterLastMove
      ha).2.2 (Or.inr hs)⟩

/-! ## A move that reports `moved` changed the board -/

theorem lines_unlines (d : Direction) (b : Board) (hb : WellFormed b) :
    lines d (unlines d b) = b := by
  cases d
  · rfl
  · exact mirror_mirror b
  · exact transposeWith_transposeWith 0 b hb
  · show mirror (transpose (transpose (mirror b))) = b
    have h := transposeWith_transposeWith 0 (mirror b) (wellFormed_mirror b hb)
    unfold transpose
    rw [h]
    exact mirror_mirror b

/-- Two boards of 4 by 4 cells that differ differ in a cell. -/
theorem exists_cell_ne (b1 b2 : Board) (h1 : WellFormed b1) (h2 : WellFormed b2)
    (hne : b1 ≠ b2) :
    ∃ i j : Nat, i < BOARD_SIZE ∧ j < BOARD_SIZE ∧ getCell b1 i j ≠ getCell b2 i j := by
  obtain ⟨a0, a1, a2, a3, b0, b1', b2', b3, c0, c1, c2, c3, d0, d1, d2, d3, rfl⟩ :=
    wellFormed_cells b1 h1
  obtain ⟨e0, e1, e2, e3, f0, f1, f2, f3, g0, g1, g2, g3, k0, k1, k2, k3, rfl⟩ :=
    wellFormed_cells b2 h2
  by_contra hcon
  push_neg at hcon
  apply hne
  have q00 : a0 = e0 := hcon 0 0 (by decide) (by decide)
  have q01 : a1 = e1 := hcon 0 1 (by decide) (by decide)
  have q02 : a2 = e2 := hcon 0 2 (by decide) (by decide)
  have q03 : a3 = e3 := hcon 0 3 (by decide) (by decide)
  have q10 : b0 = f0 := hcon 1 0 (by decide) (by decide)
  have q11 : b1' = f1 := hcon 1 1 (by decide) (by decide)
  have q12 : b2' = f2 := hcon 1 2 (by decide) (by decide)
  have q13 : b3 = f3 := hcon 1 3 (by decide) (by decide)
  have q20 : c0 = g0 := hcon 2 0 (by decide) (by decide)
  have q21 : c1 = g1 := hcon 2 1 (by decide) (by decide)
  have q22 : c2 = g2 := hcon 2 2 (by decide) (by decide)
  have q23 : c3 = g3 := hcon 2 3 (by decide) (by decide)
  have q30 : d0 = k0 := hcon 3 0 (by decide) (by decide)
  have q31 : d1 = k1 := hcon 3 1 (by decide) (by decide)
  have q32 : d2 = k2 := hcon 3 2 (by decide) (by decide)
  have q33 : d3 = k3 := hcon 3 3 (by decide) (by decide)
  subst q00 q01 q02 q03 q10 q11 q12 q13 q20 q21 q22 q23 q30 q31 q32 q33
  rfl

theorem wellFormed_activeBoard_move (d : Direction) (g : Game) (h : WellFormed (activeBoard g)) :
    WellFormed (activeBoard (move d g).1) := by
  rw [(move_char d g h).1]
  exact wellFormed_unlines d _ (wellFormed_map_refRow _ (wellFormed_lines d _ h))

theorem moved_iff_changed (d : Direction) (g : Game) (h : WellFormed (activeBoard g)) :
    (move d g).2 = true ↔ activeBoard (move d g).1 ≠ activeBoard g := by
  obtain ⟨c1, -, c3, -⟩ := move_char d g h
  have hl := wellFormed_lines d _ h
  rw [c3, c1, decide_eq_true_eq]
  constructor
  · intro hne heq
    apply hne
    have := congrArg (lines d) heq
    rwa [lines_unlines d _ (wellFormed_map_refRow _ hl)] at this
  · intro hne heq
    apply hne
    rw [heq]
    exact unlines_lines d _ h

/-- C24: a move in any direction on a board of 4 by 4 cells reports
`didMove = true` exactly when the board after the move is not the board before
it, and then the two boards differ in at least one cell. -/
theorem C24_didMove_iff_board_changed (d : Direction) (g : Game)
    (h : WellFormed (activeBoard g)) :
    ((move d g).2 = true ↔ activeBoard (move d g).1 ≠ activeBoard g)
    ∧ ((move d g).2 = true →
        ∃ i j : Nat, i < BOARD_SIZE ∧ j < BOARD_SIZE
          ∧ getCell (activeBoard (move d g).1) i j ≠ getCell (activeBoard g) i j) := by
  refine ⟨moved_iff_changed d g h, ?_⟩
  intro hm
  exact exists_cell_ne _ _ (wellFormed_activeBoard_move d g h) h
    ((moved_iff_changed d g h).1 hm)

/-- Witness of C24: a move to the left that slides one tile. -/
theorem C24_witness :
    WellFormed (activeBoard (playingWith slideAboveMergeBoard))
    ∧ (move Direction.Left (playingWith slideAboveMergeBoard)).2 = true
    ∧ ∃ i j : Nat, i < BOARD_SIZE ∧ j < BOARD_SIZE
        ∧ getCell (activeBoard (move Direction.Left (playingWith slideAboveMergeBoard)).1) i j
          ≠ getCell (activeBoard (playingWith slideAboveMergeBoard)) i j := by
  have hw : WellFormed (activeBoard (playingWith slideAboveMergeBoard)) := by decide
  have hm : (move Direction.Left (playingWith slideAboveMergeBoard)).2 = true := by decide
  exact ⟨hw, hm, (C24_didMove_iff_board_changed Direction.Left _ hw).2 hm⟩

/-! ## What the calls after a move leave alone -/

theorem addRandomTile_frame (g : Game) (k d : Nat) :
    (addRandomTile g k d).score = g.score
    ∧ (addRandomTile g k d).scoreP2 = g.scoreP2
    ∧ (addRandomTile g k d).bestScore = g.bestScore
    ∧ (p2Active g = true → (addRandomTile g k d).board = g.board)
    ∧ (p2Active g = false → (addRandomTile g k d).boardP2 = g.boardP2) := by
  unfold addRandomTile
  simp only
  split
  · exact ⟨rfl, rfl, rfl, fun _ => rfl, fun _ => rfl⟩
  · cases hp : p2Active g <;> simp

theorem checkWin_frame (g : Game) :
    (checkWin g).board = g.board ∧ (checkWin g).boardP2 = g.boardP2
    ∧ (checkWin g).score = g.score ∧ (checkWin g).scoreP2 = g.scoreP2
    ∧ (checkWin g).bestScore = g.bestScore := by
  unfold checkWin
  split_ifs <;> simp

theorem checkGameOver_frame (oob : Nat → Nat → Int) (g : Game) :
    (checkGameOver oob g).board = g.board ∧ (checkGameOver oob g).boardP2 = g.boardP2
    ∧ (checkGameOver oob g).score = g.score ∧ (checkGameOver oob g).scoreP2 = g.scoreP2
    ∧ (checkGameOver oob g).bestScore = g.bestScore := by
  unfold checkGameOver
  split_ifs <;> simp

theorem afterMove_frame (oob : Nat → Nat → Int) (o : Outside) (g : Game) :
    (afterMove oob o g).score = g.score
    ∧ (afterMove oob o g).scoreP2 = g.scoreP2
    ∧ (afterMove oob o g).bestScore = g.bestScore
    ∧ (afterMove oob o g).board = (addRandomTile g o.index o.d).board
    ∧ (afterMove oob o g).boardP2 = (addRandomTile g o.index o.d).boardP2 := by
  unfold afterMove
  obtain ⟨a1, a2, a3, a4, a5⟩ := checkGameOver_frame oob (checkWin (addRandomTile g o.index o.d))
  obtain ⟨b1, b2, b3, b4, b5⟩ := checkWin_frame (addRandomTile g o.index o.d)
  obtain ⟨c1, c2, c3, -, -⟩ := addRandomTile_frame g o.index o.d
  exact ⟨by rw [a3, b3, c1], by rw [a4, b4, c2], by rw [a5, b5, c3], by rw [a1, b1],
    by rw [a2, b2]⟩

theorem p2Active_withPlayer (g : Game) (hs : g.currentState = GameState.MULTIPLAYER) :
    p2Active (withPlayer g PlayerTurn.PLAYER_TWO) = true
    ∧ p2Active (withPlayer g PlayerTurn.PLAYER_ONE) = false := by
  simp [p2Active, withPlayer, hs]

/-- The scores a move leaves alone. -/
theorem move_other_scores (d : Direction) (g : Game) (h : WellFormed (activeBoard g)) :
    (p2Active g = true → (move d g).1.score = g.score ∧ (move d g).1.bestScore = g.bestScore)
    ∧ (p2Active g = false → (move d g).1.scoreP2 = g.scoreP2) := by
  obtain ⟨-, c2, -, -, -⟩ := move_char d g h
  have e1 := congrArg Scores.score c2
  have e2 := congrArg Scores.scoreP2 c2
  have e3 := congrArg Scores.bestScore c2
  simp only at e1 e2 e3
  constructor
  · intro hp
    rw [hp] at e1 e3
    exact ⟨e1.trans (applyGains_true _ _).1, e3.trans (applyGains_true _ _).2⟩
  · intro hp
    rw [hp] at e2
    exact e2.trans (applyGains_false _ _)

theorem playerOneKey_arrow (sym : Key) (d : Direction) (g : Game)
    (hd : arrowDirection sym = some d) : playerOneKey sym g = (g, false) := by
  cases sym <;> simp [arrowDirection] at hd <;> rfl

theorem playerTwoKey_arrow (o : Outside) (sym : Key) (d : Direction) (g : Game)
    (hd : arrowDirection sym = some d) :
    playerTwoKey o sym g = move d (withPlayer g PlayerTurn.PLAYER_TWO) := by
  cases sym <;> simp [arrowDirection] at hd <;> subst hd <;> rfl

theorem playerOneKey_letter (sym : Key) (d : Direction) (g : Game)
    (hd : letterDirection sym = some d) :
    playerOneKey sym g = move d (withPlayer g PlayerTurn.PLAYER_ONE) := by
  cases sym <;> simp [letterDirection] at hd <;> subst hd <;> rfl

theorem playerTwoKey_letter (o : Outside) (sym : Key) (d : Direction) (g : Game)
    (hd : letterDirection sym = some d) : playerTwoKey o sym g = (g, false) := by
  cases sym <;> simp [letterDirection] at hd <;> rfl

theorem handleMultiplayerInput_key (oob : Nat → Nat → Int) (o : Outside) (sym : Key)
    (g : Game) (ha : g.animating = false) :
    handleMultiplayerInput oob o (Event.SDL_KEYDOWN sym) g
      = if (playerTwoKey o sym (playerOneKey sym g).1).2 then
          afterMove oob o (if (playerOneKey sym g).2 then
            afterMove oob o (playerTwoKey o sym (playerOneKey sym g).1).1
            else (playerTwoKey o sym (playerOneKey sym g).1).1)
        else (if (playerOneKey sym g).2 then
            afterMove oob o (playerTwoKey o sym (playerOneKey sym g).1).1
            else (playerTwoKey o sym (playerOneKey sym g).1).1) := by
  simp only [handleMultiplayerInput, ha, Bool.false_eq_true, if_false]

theorem handleMultiplayerInput_arrow (oob : Nat → Nat → Int) (o : Outside) (sym : Key)
    (d : Direction) (g : Game) (hd : arrowDirection sym = some d) (ha : g.animating = false) :
    handleMultiplayerInput oob o (Event.SDL_KEYDOWN sym) g
      = if (move d (withPlayer g PlayerTurn.PLAYER_TWO)).2 then
          afterMove oob o (move d (withPlayer g PlayerTurn.PLAYER_TWO)).1
        else (move d (withPlayer g PlayerTurn.PLAYER_TWO)).1 := by
  rw [handleMultiplayerInput_key oob o sym g ha, playerOneKey_arrow sym d g hd,
    playerTwoKey_arrow o sym d g hd]
  simp only [Bool.false_eq_true, if_false]

theorem handleMultiplayerInput_letter (oob : Nat → Nat → Int) (o : Outside) (sym : Key)
    (d : Direction) (g : Game) (hd : letterDirection sym = some d) (ha : g.animating = false) :
    handleMultiplayerInput oob o (Event.SDL_KEYDOWN sym) g
      = if (move d (withPlayer g PlayerTurn.PLAYER_ONE)).2 then
          afterMove oob o (move d (withPlayer g PlayerTurn.PLAYER_ONE)).1
        else (move d (withPlayer g PlayerTurn.PLAYER_ONE)).1 := by
  rw [handleMultiplayerInput_key oob o sym g ha, playerOneKey_letter sym d g hd,
    playerTwoKey_letter o sym d _ hd]
  simp only [Bool.false_eq_true, if_false]

theorem withPlayer_fields (g : Game) (p : PlayerTurn) :
    (withPlayer g p).board = g.board ∧ (withPlayer g p).boardP2 = g.boardP2
    ∧ (withPlayer g p).score = g.score ∧ (withPlayer g p).scoreP2 = g.scoreP2
    ∧ (withPlayer g p).bestScore = g.bestScore := by
  simp only [withPlayer, and_self]

/-- A move of player two in multiplayer, followed by the calls after a move
when it moved: player one's board and score are untouched, and the board of
player two is the moved board, with the spawned tile when it moved. -/
theorem playerTwo_move (oob : Nat → Nat → Int) (o : Outside) (d : Direction) (g : Game)
    (hs : g.currentState = GameState.MULTIPLAYER) (hb2 : WellFormed g.boardP2) :
    (if (move d (withPlayer g PlayerTurn.PLAYER_TWO)).2 then
        afterMove oob o (move d (withPlayer g PlayerTurn.PLAYER_TWO)).1
      else (move d (withPlayer g PlayerTurn.PLAYER_TWO)).1).board = g.board
    ∧ (if (move d (withPlayer g PlayerTurn.PLAYER_TWO)).2 then
        afterMove oob o (move d (withPlayer g PlayerTurn.PLAYER_TWO)).1
      else (move d (withPlayer g PlayerTurn.PLAYER_TWO)).1).score = g.score
    ∧ (move d (withPlayer g PlayerTurn.PLAYER_TWO)).1.boardP2
        = unlines d ((lines d g.boardP2).map refRow)
    ∧ (if (move d (withPlayer g PlayerTurn.PLAYER_TWO)).2 then
        afterMove oob o (move d (withPlayer g PlayerTurn.PLAYER_TWO)).1
      else (move d (withPlayer g PlayerTurn.PLAYER_TWO)).1).boardP2
        = (if (move d (withPlayer g PlayerTurn.PLAYER_TWO)).2 then
            (addRandomTile (move d (withPlayer g PlayerTurn.PLAYER_TWO)).1 o.index o.d).boardP2
          else (move d (withPlayer g PlayerTurn.PLAYER_TWO)).1.boardP2) := by
  obtain ⟨w1, w2, w3, -, -⟩ := withPlayer_fields g PlayerTurn.PLAYER_TWO
  have hp := (p2Active_withPlayer g hs).1
  have hact : activeBoard (withPlayer g PlayerTurn.PLAYER_TWO) = g.boardP2 := by
    simp only [activeBoard, hp, if_true, w2]
  have hwf : WellFormed (activeBoard (withPlayer g PlayerTurn.PLAYER_TWO)) := by
    rw [hact]; exact hb2
  obtain ⟨-, -, -, -, -, s6, s7, -⟩ := move_spec d (withPlayer g PlayerTurn.PLAYER_TWO)
  obtain ⟨c1, -⟩ := move_char d (withPlayer g PlayerTurn.PLAYER_TWO) hwf
  have hsc := ((move_other_scores d _ hwf).1 hp).1
  have hp' : p2Active (move d (withPlayer g PlayerTurn.PLAYER_TWO)).1 = true := s6.trans hp
  have hb : (move d (withPlayer g PlayerTurn.PLAYER_TWO)).1.board = g.board := (s7 hp).trans w1
  have hm2 : (move d (withPlayer g PlayerTurn.PLAYER_TWO)).1.boardP2
      = unlines d ((lines d g.boardP2).map refRow) := by
    rw [← hact, ← c1]
    simp only [activeBoard, hp', if_true]
  obtain ⟨f1, -, -, f4, f5⟩ := afterMove_frame oob o (move d (withPlayer g PlayerTurn.PLAYER_TWO)).1
  obtain ⟨-, -, -, a4, -⟩ :=
    addRandomTile_frame (move d (withPlayer g PlayerTurn.PLAYER_TWO)).1 o.index o.d
  refine ⟨?_, ?_, hm2, ?_⟩
  · split
    · rw [f4, a4 hp', hb]
    · exact hb
  · split
    · rw [f1, hsc, w3]
    · rw [hsc, w3]
  · split
    · exact f5
    · rfl

/-- A move of player one in multiplayer, followed by the calls after a move
when it moved: player two's board and score are untouched, and the board of
player one is the moved board, with the spawned tile when it moved. -/
theorem playerOne_move (oob : Nat → Nat → Int) (o : Outside) (d : Direction) (g : Game)
    (hs : g.currentState = GameState.MULTIPLAYER) (hb1 : WellFormed g.board) :
    (if (move d (withPlayer g PlayerTurn.PLAYER_ONE)).2 then
        afterMove oob o (move d (withPlayer g PlayerTurn.PLAYER_ONE)).1
      else (move d (withPlayer g PlayerTurn.PLAYER_ONE)).1).boardP2 = g.boardP2
    ∧ (if (move d (withPlayer g PlayerTurn.PLAYER_ONE)).2 then
        afterMove oob o (move d (withPlayer g PlayerTurn.PLAYER_ONE)).1
      else (move d (withPlayer g PlayerTurn.PLAYER_ONE)).1).scoreP2 = g.scoreP2
    ∧ (move d (withPlayer g PlayerTurn.PLAYER_ONE)).1.board
        = unlines d ((lines d g.board).map refRow)
    ∧ (if (move d (withPlayer g PlayerTurn.PLAYER_ONE)).2 then
        afterMove oob o (move d (withPlayer g PlayerTurn.PLAYER_ONE)).1
      else (move d (withPlayer g PlayerTurn.PLAYER_ONE)).1).board
        = (if (move d (withPlayer g PlayerTurn.PLAYER_ONE)).2 then
            (addRandomTile (move d (withPlayer g PlayerTurn.PLAYER_ONE)).1 o.index o.d).board
          else (move d (withPlayer g PlayerTurn.PLAYER_ONE)).1.board) := by
  obtain ⟨w1, w2, -, w4, -⟩ := withPlayer_fields g PlayerTurn.PLAYER_ONE
  have hp := (p2Active_withPlayer g hs).2
  have hact : activeBoard (withPlayer g PlayerTurn.PLAYER_ONE) = g.board := by
    simp only [activeBoard, hp, Bool.false_eq_true, if_false, w1]
  have hwf : WellFormed (activeBoard (withPlayer g PlayerTurn.PLAYER_ONE)) := by
    rw [hact]; exact hb1
  obtain ⟨-, -, -, -, -, s6, -, s8⟩ := move_spec d (withPlayer g PlayerTurn.PLAYER_ONE)
  obtain ⟨c1, -⟩ := move_char d (withPlayer g PlayerTurn.PLAYER_ONE) hwf
  have hsc := (move_other_scores d _ hwf).2 hp
  have hp' : p2Active (move d (withPlayer g PlayerTurn.PLAYER_ONE)).1 = false := s6.trans hp
  have hb : (move d (withPlayer g PlayerTurn.PLAYER_ONE)).1.boardP2 = g.boardP2 :=
    (s8 hp).trans w2
  have hm2 : (move d (withPlayer g PlayerTurn.PLAYER_ONE)).1.board
      = unlines d ((lines d g.board).map refRow) := by
    rw [← hact, ← c1]
    simp only [activeBoard, hp', Bool.false_eq_true, if_false]
  obtain ⟨-, f2, -, f4, f5⟩ := afterMove_frame oob o (move d (withPlayer g PlayerTurn.PLAYER_ONE)).1
  obtain ⟨-, -, -, -, a5⟩ :=
    addRandomTile_frame (move d (withPlayer g PlayerTurn.PLAYER_ONE)).1 o.index o.d
  refine ⟨?_, ?_, hm2, ?_⟩
  · split
    · rw [f5, a5 hp', hb]
    · exact hb
  · split
    · rw [f2, hsc, w4]
    · rw [hsc, w4]
  · split
    · exact f4
    · rfl

/-- C29: `canMove` is not index-safe.  On every board of 4 by 4 cells
without a zero cell, whose row 0 has no equal neighbours and differs from
row 1 in columns 0 to 2, the call reaches the test of main.cpp 642 at
`i = 0`, `j = 3` and reads `checkBoard[0][4]`, column index 4: with
bounds-checked reads it has no result. -/
theorem C29_canMove_reads_column_four (b : Board) (hb : WellFormed b)
    (hfull : ∀ c ∈ allCells, getCell b c.1 c.2 ≠ 0)
    (h01 : getCell b 0 0 ≠ getCell b 0 1) (h12 : getCell b 0 1 ≠ getCell b 0 2)
    (h23 : getCell b 0 2 ≠ getCell b 0 3) (v0 : getCell b 0 0 ≠ getCell b 1 0)
    (v1 : getCell b 0 1 ≠ getCell b 1 1) (v2 : getCell b 0 2 ≠ getCell b 1 2) :
    canMove b = none
    ∧ sameNonZero b (decide (0 < BOARD_SIZE - 1)) 0 3 0 (3 + 1) = none
    ∧ cellAt? b 0 4 = none := by
  obtain ⟨a0, a1, a2, a3, b0, b1, b2, b3, c0, c1, c2, c3, d0, d1, d2, d3, rfl⟩ :=
    wellFormed_cells b hb
  rw [allCells_eq] at hfull
  have f00 : a0 ≠ 0 := hfull (0, 0) (by simp)
  have f01 : a1 ≠ 0 := hfull (0, 1) (by simp)
  have f02 : a2 ≠ 0 := hfull (0, 2) (by simp)
  have f03 : a3 ≠ 0 := hfull (0, 3) (by simp)
  have f10 : b0 ≠ 0 := hfull (1, 0) (by simp)
  have f11 : b1 ≠ 0 := hfull (1, 1) (by simp)
  have f12 : b2 ≠ 0 := hfull (1, 2) (by simp)
  have f13 : b3 ≠ 0 := hfull (1, 3) (by simp)
  have f20 : c0 ≠ 0 := hfull (2, 0) (by simp)
  have f21 : c1 ≠ 0 := hfull (2, 1) (by simp)
  have f22 : c2 ≠ 0 := hfull (2, 2) (by simp)
  have f23 : c3 ≠ 0 := hfull (2, 3) (by simp)
  have f30 : d0 ≠ 0 := hfull (3, 0) (by simp)
  have f31 : d1 ≠ 0 := hfull (3, 1) (by simp)
  have f32 : d2 ≠ 0 := hfull (3, 2) (by simp)
  have f33 : d3 ≠ 0 := hfull (3, 3) (by simp)
  have g01 : a0 ≠ a1 := h01
  have g12 : a1 ≠ a2 := h12
  have g23 : a2 ≠ a3 := h23
  have w0 : a0 ≠ b0 := v0
  have w1 : a1 ≠ b1 := v1
  have w2 : a2 ≠ b2 := v2
  refine ⟨?_, ?_, rfl⟩
  · unfold canMove
    rw [allCells_eq]
    simp [anyEmpty, anyAdjacent, sameNonZero, cellAt?, BOARD_SIZE, f00, f01, f02, f03, f10, f11,
      f12, f13, f20, f21, f22, f23, f30, f31, f32, f33, g01, g12, g23, w0, w1, w2]
  · simp [sameNonZero, cellAt?, BOARD_SIZE]

/-- Witness of C29: a full board with a move left (the pair `64 64` in the
last row), on which `canMove` reads `checkBoard[0][4]`. -/
theorem C29_witness :
    WellFormed lastRowPairBoard
    ∧ getCell lastRowPairBoard 3 2 = getCell lastRowPairBoard 3 3
    ∧ canMove lastRowPairBoard = none
    ∧ cellAt? lastRowPairBoard 0 4 = none := by
  have hw : WellFormed lastRowPairBoard := by decide
  have h := C29_canMove_reads_column_four lastRowPairBoard hw (by decide) (by decide)
    (by decide) (by decide) (by decide) (by decide) (by decide)
  exact ⟨hw, by decide, h.1, h.2.2⟩

/-! ## The end of an animation -/

theorem checkWin_lists (g : Game) :
    (checkWin g).animating = g.animating
    ∧ (checkWin g).animations = g.animations ∧ (checkWin g).animationsP2 = g.animationsP2
    ∧ (checkWin g).mergedTiles = g.mergedTiles ∧ (checkWin g).mergedTilesP2 = g.mergedTilesP2
    ∧ (checkWin g).newTiles = g.newTiles ∧ (checkWin g).newTilesP2 = g.newTilesP2 := by
  unfold checkWin
  split_ifs <;> simp

theorem checkGameOver_lists (oob : Nat → Nat → Int) (g : Game) :
    (checkGameOver oob g).animating = g.animating
    ∧ (checkGameOver oob g).animations = g.animations
    ∧ (checkGameOver oob g).animationsP2 = g.animationsP2
    ∧ (checkGameOver oob g).mergedTiles = g.mergedTiles
    ∧ (checkGameOver oob g).mergedTilesP2 = g.mergedTilesP2
    ∧ (checkGameOver oob g).newTiles = g.newTiles
    ∧ (checkGameOver oob g).newTilesP2 = g.newTilesP2 := by
  unfold checkGameOver
  split_ifs <;> simp

/-- At the end of an animation `updateAnimations` clears the three lists of
the player that the turn marker selects at that moment, and leaves the three
lists of the other player as they are. -/
theorem updateAnimations_settle (oob : Nat → Nat → Int) (g : Game) :
    (updateAnimations oob true g).animating = false
    ∧ (p2Active g = false →
        (updateAnimations oob true g).animations = []
        ∧ (updateAnimations oob true g).mergedTiles = []
        ∧ (updateAnimations oob true g).newTiles = []
        ∧ (updateAnimations oob true g).animationsP2 = g.animationsP2
        ∧ (updateAnimations oob true g).mergedTilesP2 = g.mergedTilesP2
        ∧ (updateAnimations oob true g).newTilesP2 = g.newTilesP2)
    ∧ (p2Active g = true →
        (updateAnimations oob true g).animationsP2 = []
        ∧ (updateAnimations oob true g).mergedTilesP2 = []
        ∧ (updateAnimations oob true g).newTilesP2 = []
        ∧ (updateAnimations oob true g).animations = g.animations
        ∧ (updateAnimations oob true g).mergedTiles = g.mergedTiles
        ∧ (updateAnimations oob true g).newTiles = g.newTiles) := by
  unfold updateAnimations
  simp only [if_true]
  cases hp : p2Active g
  · simp only [Bool.false_eq_true, if_false]
    obtain ⟨a0, a1, a2, a3, a4, a5, a6⟩ := checkGameOver_lists oob (checkWin
      { g with animating := false, animations := [], mergedTiles := [], newTiles := [] })
    obtain ⟨b0, b1, b2, b3, b4, b5, b6⟩ := checkWin_lists
      { g with animating := false, animations := [], mergedTiles := [], newTiles := [] }
    refine ⟨by rw [a0, b0], fun _ => ⟨by rw [a1, b1], by rw [a3, b3], by rw [a5, b5],
      by rw [a2, b2], by rw [a4, b4], by rw [a6, b6]⟩, ?_⟩
    intro h
    cases h
  · simp only [if_true]
    obtain ⟨a0, a1, a2, a3, a4, a5, a6⟩ := checkGameOver_lists oob (checkWin
      { g with animating := false, animationsP2 := [], mergedTilesP2 := [], newTilesP2 := [] })
    obtain ⟨b0, b1, b2, b3, b4, b5, b6⟩ := checkWin_lists
      { g with animating := false, animationsP2 := [], mergedTilesP2 := [], newTilesP2 := [] }
    refine ⟨by rw [a0, b0], ?_, fun _ => ⟨by rw [a2, b2], by rw [a4, b4],
      by rw [a6, b6], by rw [a1, b1], by rw [a3, b3], by rw [a5, b5]⟩⟩
    intro h
    cases h

/-- C22: the data of a move can outlive its playback.  At the end of the
animation `updateAnimations` clears the lists of the player that the turn
marker selects at that moment.  Player one presses `a` in a multiplayer game
and is stuck afterwards, so `checkGameOver` passes the turn to player two
before the animation ends; the end of the animation then clears the (empty)
lists of player two, and the animation list and the new-tile list of player
one's move remain with `animating = false`. -/
theorem C22_settle_clears_the_lists_of_the_turn_marker :
    (∀ (oob : Nat → Nat → Int) (g : Game),
      (updateAnimations oob true g).animating = false
      ∧ (p2Active g = false →
          (updateAnimations oob true g).animations = []
          ∧ (updateAnimations oob true g).mergedTiles = []
          ∧ (updateAnimations oob true g).newTiles = [])
      ∧ (p2Active g = true →
          (updateAnimations oob true g).animationsP2 = []
          ∧ (updateAnimations oob true g).mergedTilesP2 = []
          ∧ (updateAnimations oob true g).newTilesP2 = []
          ∧ (updateAnimations oob true g).animations = g.animations
          ∧ (updateAnimations oob true g).newTiles = g.newTiles))
    ∧ lastMoveGame.currentPlayer = PlayerTurn.PLAYER_ONE
    ∧ lastMoveGame.animations = []
    ∧ lastMoveGame.newTiles = []
    ∧ afterLastMove.animating = true
    ∧ afterLastMove.currentPlayer = PlayerTurn.PLAYER_TWO
    ∧ afterLastMove.newTiles = [(3, 3)]
    ∧ mkAnim 3 3 3 2 false 8 ∈ afterLastMove.animations
    ∧ afterSettle = updateAnimations (fun _ _ => 0) true afterLastMove
    ∧ afterSettle.animating = false
    ∧ afterSettle.animations = afterLastMove.animations
    ∧ afterSettle.newTiles = [(3, 3)] := by
  refine ⟨?_, by decide, by decide, by decide, by decide, by decide, by decide, by decide,
    by decide, by decide, by decide, by decide⟩
  intro oob g
  obtain ⟨h0, h1, h2⟩ := updateAnimations_settle oob g
  exact ⟨h0, fun hp => ⟨(h1 hp).1, (h1 hp).2.1, (h1 hp).2.2.1⟩,
    fun hp => ⟨(h2 hp).1, (h2 hp).2.1, (h2 hp).2.2.1, (h2 hp).2.2.2.1, (h2 hp).2.2.2.2.2⟩⟩

/-! ## Invariants of the two passes of `createMoveAnimations` -/

theorem getFlag_setFlag (t : Tracker) (r c : Nat) (v : Bool) (i j : Nat) :
    getFlag (setFlag t r c v) i j
      = if i = r ∧ j = c ∧ r < t.length ∧ c < (t.getD r []).length then v else getFlag t i j := by
  unfold getFlag setFlag
  rw [getD_set_eq]
  by_cases h1 : i = r ∧ r < t.length
  · rw [if_pos h1, getD_set_eq]
    obtain ⟨rfl, hr⟩ := h1
    by_cases h2 : j = c ∧ c < (t.getD i []).length
    · simp [h2, hr]
    · rw [if_neg h2, if_neg]
      intro h
      exact h2 ⟨h.2.1, h.2.2.2⟩
  · rw [if_neg h1, if_neg]
    intro h
    exact h1 ⟨h.1, h.2.2.1⟩

/-- A flag that is set stays set. -/
theorem getFlag_setFlag_of_true (t : Tracker) (r c i j : Nat) (h : getFlag t i j = true) :
    getFlag (setFlag t r c true) i j = true := by
  rw [getFlag_setFlag]
  split
  · rfl
  · exact h

/-- On a table of 4 by 4 flags the flag just set is set. -/
theorem getFlag_setFlag_self (t : Tracker) (ht : WellFormed t) (r c : Nat)
    (hr : r < BOARD_SIZE) (hc : c < BOARD_SIZE) : getFlag (setFlag t r c true) r c = true := by
  rw [getFlag_setFlag, if_pos]
  refine ⟨rfl, rfl, by rw [ht.1]; exact hr, ?_⟩
  have : (t.getD r []) ∈ t := by
    rw [List.getD_eq_getElem _ _ (by rw [ht.1]; exact hr)]
    exact List.getElem_mem _
  rw [ht.2 _ this]
  exact hc

/-- What one row of the merge search does: nothing, or it takes the first
column `nj` of the row whose cell is not accounted for and holds the value
looked for, marks it, and pushes an event unless that cell is the destination
itself. -/
theorem mergeSearchRow_cases (prev : Board) (i j ni : Nat) (r : Recon) :
    ((∀ nj, nj < BOARD_SIZE →
        getFlag r.accounted ni nj = true ∨ getCell prev ni nj ≠ getCell prev i j)
      ∧ mergeSearchRow prev i j ni r = r)
    ∨ ∃ nj, nj < BOARD_SIZE ∧ getFlag r.accounted ni nj = false
        ∧ getCell prev ni nj = getCell prev i j
        ∧ (((ni ≠ i ∨ nj ≠ j) ∧ mergeSearchRow prev i j ni r
              = ⟨setFlag r.accounted ni nj true,
                  r.anims ++ [mkAnim ni nj i j true (getCell prev ni nj)],
                  mapAssign r.mergedMap (i, j) (ni, nj)⟩)
          ∨ (¬ (ni ≠ i ∨ nj ≠ j) ∧ mergeSearchRow prev i j ni r
              = ⟨setFlag r.accounted ni nj true, r.anims, r.mergedMap⟩)) := by
  unfold mergeSearchRow
  split
  · rename_i hnone
    left
    refine ⟨?_, rfl⟩
    intro nj hnj
    have := List.find?_eq_none.mp hnone nj (List.mem_range.mpr hnj)
    simp only [Bool.not_eq_true, Bool.not_eq_false', Bool.or_eq_true, decide_eq_true_eq] at this
    exact this
  · rename_i nj hsome
    right
    have hp := List.find?_some hsome
    have hm := List.mem_range.mp (List.mem_of_find?_eq_some hsome)
    simp only [Bool.not_eq_true', Bool.or_eq_false_iff, decide_eq_false_iff_not, ne_eq,
      not_not] at hp
    refine ⟨nj, hm, hp.1, hp.2, ?_⟩
    by_cases h : ni ≠ i ∨ nj ≠ j
    · left
      exact ⟨h, by simp only [h, if_true]⟩
    · right
      exact ⟨h, by simp only [h, if_false]⟩

/-- What one row of the slide search does. -/
theorem slideSearchRow_cases (cur prev : Board) (i j pi : Nat) (r : Recon) :
    ((∀ pj, pj < BOARD_SIZE →
        getFlag r.accounted pi pj = true ∨ getCell prev pi pj ≠ getCell cur i j)
      ∧ slideSearchRow cur prev i j pi r = r)
    ∨ ∃ pj, pj < BOARD_SIZE ∧ getFlag r.accounted pi pj = false
        ∧ getCell prev pi pj = getCell cur i j
        ∧ (((pi ≠ i ∨ pj ≠ j) ∧ slideSearchRow cur prev i j pi r
              = ⟨setFlag r.accounted pi pj true,
                  r.anims ++ [mkAnim pi pj i j false (getCell prev pi pj)], r.mergedMap⟩)
          ∨ (¬ (pi ≠ i ∨ pj ≠ j) ∧ slideSearchRow cur prev i j pi r
              = ⟨setFlag r.accounted pi pj true, r.anims, r.mergedMap⟩)) := by
  unfold slideSearchRow
  split
  · rename_i hnone
    left
    refine ⟨?_, rfl⟩
    intro pj hpj
    have := List.find?_eq_none.mp hnone pj (List.mem_range.mpr hpj)
    simp only [Bool.and_eq_true, Bool.not_eq_true', decide_eq_true_eq, not_and,
      Bool.not_eq_false] at this
    by_cases hf : getFlag r.accounted pi pj = true
    · exact Or.inl hf
    · exact Or.inr (this (by simpa using hf))
  · rename_i pj hsome
    right
    have hp := List.find?_some hsome
    have hm := List.mem_range.mp (List.mem_of_find?_eq_some hsome)
    simp only [Bool.and_eq_true, Bool.not_eq_true', decide_eq_true_eq] at hp
    refine ⟨pj, hm, hp.1, hp.2, ?_⟩
    by_cases h : pi ≠ i ∨ pj ≠ j
    · left
      exact ⟨h, by simp only [h, if_true]⟩
    · right
      exact ⟨h, by simp only [h, if_false]⟩

theorem foldl_inv {ι α : Type} (I : α → Prop) (step : ι → α → α) (l : List ι)
    (hstep : ∀ k ∈ l, ∀ r, I r → I (step k r)) (r : α) (h : I r) :
    I (l.foldl (fun r k => step k r) r) := by
  induction l generalizing r with
  | nil => exact h
  | cons k rest ih =>
    rw [List.foldl_cons]
    exact ih (fun k' hk' => hstep k' (List.mem_cons_of_mem _ hk')) _
      (hstep k (List.mem_cons_self _ _) r h)

/-- Induction over the two passes of `createMoveAnimations`: a property
`I1` that the merge pass keeps and a property `I2` that the slide pass keeps
hold at the end, if `I1` holds of the empty lists and passes to `I2`. -/
theorem reconcile_inv (cur prev : Board) (I1 I2 : Recon → Prop)
    (h0 : I1 ⟨freshTracker, [], []⟩)
    (hmark : ∀ c ∈ allCells, ∀ r, I1 r → getCell cur c.1 c.2 ≠ 0 → getCell prev c.1 c.2 ≠ 0 →
      getCell cur c.1 c.2 = getCell prev c.1 c.2 * 2 →
      I1 { r with accounted := setFlag r.accounted c.1 c.2 true })
    (hmerge : ∀ c ∈ allCells, ∀ ni, ni < BOARD_SIZE → ∀ r, I1 r → getCell cur c.1 c.2 ≠ 0 →
      getCell prev c.1 c.2 ≠ 0 → getCell cur c.1 c.2 = getCell prev c.1 c.2 * 2 →
      I1 (mergeSearchRow prev c.1 c.2 ni r))
    (hbridge : ∀ r, I1 r → I2 r)
    (hslide : ∀ c ∈ allCells, ∀ pi, pi < BOARD_SIZE → ∀ r, I2 r → getCell cur c.1 c.2 ≠ 0 →
      mapHas r.mergedMap c = false → I2 (slideSearchRow cur prev c.1 c.2 pi r)) :
    I2 (reconcile cur prev) := by
  unfold reconcile
  simp only
  rw [nested_range_foldl (fun i j r => mergePassCell cur prev i j r),
    nested_range_foldl (fun i j r => slidePassCell cur prev i j r)]
  apply foldl_inv I2 (fun (c : Nat × Nat) r => slidePassCell cur prev c.1 c.2 r)
  · intro c hc r hr
    show I2 (slidePassCell cur prev c.1 c.2 r)
    unfold slidePassCell
    split
    · exact hr
    · rename_i hz
      split
      · exact hr
      · rename_i hmap
        have hmap' : mapHas r.mergedMap c = false := by simpa using hmap
        have key : I2 ((List.range BOARD_SIZE).foldl
            (fun r pi => slideSearchRow cur prev c.1 c.2 pi r) r)
            ∧ ((List.range BOARD_SIZE).foldl
              (fun r pi => slideSearchRow cur prev c.1 c.2 pi r) r).mergedMap = r.mergedMap := by
          apply foldl_inv (fun x => I2 x ∧ x.mergedMap = r.mergedMap)
            (fun pi r => slideSearchRow cur prev c.1 c.2 pi r)
          · intro pi hpi x hx
            refine ⟨hslide c hc pi (List.mem_range.mp hpi) x hx.1 hz (by rw [hx.2]; exact hmap'),
              ?_⟩
            rw [mergeMap_slideSearchRow, hx.2]
          · exact ⟨hr, rfl⟩
        exact key.1
  · apply hbridge
    apply foldl_inv I1 (fun (c : Nat × Nat) r => mergePassCell cur prev c.1 c.2 r)
    · intro c hc r hr
      show I1 (mergePassCell cur prev c.1 c.2 r)
      unfold mergePassCell
      split
      · exact hr
      · rename_i hz
        split
        · rename_i hcond
          simp only
          apply foldl_inv I1 (fun ni r => mergeSearchRow prev c.1 c.2 ni r)
          · intro ni hni x hx
            exact hmerge c hc ni (List.mem_range.mp hni) x hx hz hcond.1 hcond.2
          · exact hmark c hc r hr hz hcond.1 hcond.2
        · exact hr
    · exact h0

/-! ## Soundness of the events -/

/-- The invariant of both passes behind the soundness of the events: the
table `accounted` has 4 by 4 flags, the source of every event is accounted
for, every event agrees with the boards, and no two events have the same
source. -/
theorem reconcile_sound (cur prev : Board) :
    WellFormed (reconcile cur prev).accounted
    ∧ (∀ a ∈ (reconcile cur prev).anims,
        getFlag (reconcile cur prev).accounted a.startRow a.startCol = true
        ∧ EventSound prev cur a)
    ∧ ((reconcile cur prev).anims.map source).Nodup := by
  apply reconcile_inv cur prev
    (fun r => WellFormed r.accounted
      ∧ (∀ a ∈ r.anims, getFlag r.accounted a.startRow a.startCol = true ∧ EventSound prev cur a)
      ∧ (r.anims.map source).Nodup)
    (fun r => WellFormed r.accounted
      ∧ (∀ a ∈ r.anims, getFlag r.accounted a.startRow a.startCol = true ∧ EventSound prev cur a)
      ∧ (r.anims.map source).Nodup)
  · exact ⟨wellFormed_freshTracker, by simp, by simp⟩
  · intro c _ r hr _ _ _
    obtain ⟨h1, h2, h3⟩ := hr
    exact ⟨wellFormed_setFlag _ h1 _ _ _,
      fun a ha => ⟨getFlag_setFlag_of_true _ _ _ _ _ (h2 a ha).1, (h2 a ha).2⟩, h3⟩
  · intro c hc ni hni r hr hz hp hd
    obtain ⟨h1, h2, h3⟩ := hr
    obtain ⟨hc1, hc2⟩ := mem_allCells c hc
    rcases mergeSearchRow_cases prev c.1 c.2 ni r with ⟨-, e⟩ | ⟨nj, hnj, hf, hv, e⟩
    · rw [e]
      exact ⟨h1, h2, h3⟩
    · rcases e with ⟨-, e⟩ | ⟨-, e⟩
      · rw [e]
        refine ⟨wellFormed_setFlag _ h1 _ _ _, ?_, ?_⟩
        · intro a ha
          rcases List.mem_append.mp ha with ha | ha
          · exact ⟨getFlag_setFlag_of_true _ _ _ _ _ (h2 a ha).1, (h2 a ha).2⟩
          · rw [List.mem_singleton] at ha
            subst ha
            refine ⟨getFlag_setFlag_self _ h1 _ _ hni hnj, hni, hnj, hc1, hc2, ?_, hz, rfl, ?_, ?_⟩
            · show getCell prev ni nj ≠ 0
              rw [hv]; exact hp
            · intro hm
              cases hm
            · intro _
              refine ⟨hv, ?_⟩
              show getCell cur c.1 c.2 = 2 * getCell prev ni nj
              rw [hv, hd]
              ring
        · rw [List.map_append, List.nodup_append]
          refine ⟨h3, by simp, ?_⟩
          intro s hs1 hs2
          obtain ⟨a, ha, rfl⟩ := List.mem_map.mp hs1
          simp only [List.map_cons, List.map_nil, List.mem_singleton] at hs2
          have hfa := (h2 a ha).1
          have e1 : a.startRow = ni := congrArg Prod.fst hs2
          have e2 : a.startCol = nj := congrArg Prod.snd hs2
          rw [e1, e2, hf] at hfa
          cases hfa
      · rw [e]
        exact ⟨wellFormed_setFlag _ h1 _ _ _,
          fun a ha => ⟨getFlag_setFlag_of_true _ _ _ _ _ (h2 a ha).1, (h2 a ha).2⟩, h3⟩
  · exact fun r hr => hr
  · intro c hc pi hpi r hr hz _
    obtain ⟨h1, h2, h3⟩ := hr
    obtain ⟨hc1, hc2⟩ := mem_allCells c hc
    rcases slideSearchRow_cases cur prev c.1 c.2 pi r with ⟨-, e⟩ | ⟨pj, hpj, hf, hv, e⟩
    · rw [e]
      exact ⟨h1, h2, h3⟩
    · rcases e with ⟨-, e⟩ | ⟨-, e⟩
      · rw [e]
        refine ⟨wellFormed_setFlag _ h1 _ _ _, ?_, ?_⟩
        · intro a ha
          rcases List.mem_append.mp ha with ha | ha
          · exact ⟨getFlag_setFlag_of_true _ _ _ _ _ (h2 a ha).1, (h2 a ha).2⟩
          · rw [List.mem_singleton] at ha
            subst ha
            refine ⟨getFlag_setFlag_self _ h1 _ _ hpi hpj, hpi, hpj, hc1, hc2, ?_, hz, rfl, ?_, ?_⟩
            · show getCell prev pi pj ≠ 0
              rw [hv]; exact hz
            · intro _
              exact hv
            · intro hm
              cases hm
        · rw [List.map_append, List.nodup_append]
          refine ⟨h3, by simp, ?_⟩
          intro s hs1 hs2
          obtain ⟨a, ha, rfl⟩ := List.mem_map.mp hs1
          simp only [List.map_cons, List.map_nil, List.mem_singleton] at hs2
          have hfa := (h2 a ha).1
          have e1 : a.startRow = pi := congrArg Prod.fst hs2
          have e2 : a.startCol = pj := congrArg Prod.snd hs2
          rw [e1, e2, hf] at hfa
          cases hfa
      · rw [e]
        exact ⟨wellFormed_setFlag _ h1 _ _ _,
          fun a ha => ⟨getFlag_setFlag_of_true _ _ _ _ _ (h2 a ha).1, (h2 a ha).2⟩, h3⟩

/-- C30: every event that `createMoveAnimations` produces, for every pair
of boards, has a source cell that is non-zero in the previous board and a
destination cell that is non-zero in the current board, both on the board,
and its value is the previous value of the source; for a slide the source
value is the current value of the destination, for a merge it is the previous
value of the destination and the current value of the destination is twice as
large; and no cell is the source of two events. -/
theorem C30_events_are_sound (g : Game) :
    (∀ a ∈ activeAnimations (createMoveAnimations g),
      EventSound (activePrevious g) (activeBoard g) a)
    ∧ ((activeAnimations (createMoveAnimations g)).map source).Nodup := by
  rw [createMoveAnimations_active]
  obtain ⟨-, h2, h3⟩ := reconcile_sound (activeBoard g) (activePrevious g)
  exact ⟨fun a ha => (h2 a ha).2, h3⟩

/-! ## Merge destinations and slide events -/

theorem mapHas_mapAssign (m : List ((Nat × Nat) × (Nat × Nat))) (k v k' : Nat × Nat) :
    mapHas (mapAssign m k v) k' = (mapHas m k' || decide (k = k')) := by
  unfold mapAssign
  by_cases h : mapHas m k = true
  · rw [if_pos h]
    have e : mapHas (m.map (fun e => if e.1 = k then (k, v) else e)) k' = mapHas m k' := by
      unfold mapHas
      rw [List.any_map]
      congr 1
      funext e
      simp only [Function.comp]
      by_cases he : e.1 = k
      · simp [he]
      · simp [he]
    rw [e]
    by_cases hk : k = k'
    · subst hk
      simp [h]
    · simp [hk]
  · rw [if_neg h]
    unfold mapHas
    simp [List.any_append]

/-- In the event list of `reconcile` the destination of every merge event is a
key of the merge map and the destination of no slide event is. -/
theorem reconcile_map_keys (cur prev : Board) :
    ∀ a ∈ (reconcile cur prev).anims,
      (a.merged = true → mapHas (reconcile cur prev).mergedMap (dest a) = true)
      ∧ (a.merged = false → mapHas (reconcile cur prev).mergedMap (dest a) = false) := by
  apply reconcile_inv cur prev
    (fun r => ∀ a ∈ r.anims, a.merged = true ∧ mapHas r.mergedMap (dest a) = true)
    (fun r => ∀ a ∈ r.anims, (a.merged = true → mapHas r.mergedMap (dest a) = true)
      ∧ (a.merged = false → mapHas r.mergedMap (dest a) = false))
  · simp
  · intro c _ r hr _ _ _
    exact hr
  · intro c _ ni _ r hr _ _ _
    rcases mergeSearchRow_cases prev c.1 c.2 ni r with ⟨-, e⟩ | ⟨nj, -, -, -, e⟩
    · rw [e]
      exact hr
    · rcases e with ⟨-, e⟩ | ⟨-, e⟩
      · rw [e]
        intro a ha
        rcases List.mem_append.mp ha with ha | ha
        · refine ⟨(hr a ha).1, ?_⟩
          show mapHas (mapAssign r.mergedMap (c.1, c.2) (ni, nj)) (dest a) = true
          rw [mapHas_mapAssign, (hr a ha).2]
          rfl
        · rw [List.mem_singleton] at ha
          subst ha
          refine ⟨rfl, ?_⟩
          show mapHas (mapAssign r.mergedMap (c.1, c.2) (ni, nj)) (c.1, c.2) = true
          rw [mapHas_mapAssign]
          simp
      · rw [e]
        exact hr
  · intro r hr a ha
    exact ⟨fun _ => (hr a ha).2, fun h => by rw [(hr a ha).1] at h; cases h⟩
  · intro c _ pi _ r hr _ hmap
    rcases slideSearchRow_cases cur prev c.1 c.2 pi r with ⟨-, e⟩ | ⟨pj, -, -, -, e⟩
    · rw [e]
      exact hr
    · rcases e with ⟨-, e⟩ | ⟨-, e⟩
      · rw [e]
        intro a ha
        rcases List.mem_append.mp ha with ha | ha
        · exact hr a ha
        · rw [List.mem_singleton] at ha
          subst ha
          constructor
          · intro h
            cases h
          · intro _
            exact hmap
      · rw [e]
        exact hr

/-- Counterexample to C26: after `moveLeft` on the row `0 2 4 0` the cell
(0,1) holds 4, twice the 2 it held before, so it passes the doubling test of
the merge pass; the merge pass finds no source for it and enters nothing in
the merge map, and the slide pass emits the slide of the 4 from (0,2) to
(0,1). -/
theorem C26_counterexample :
    (moveLeft (playingWith doublingBoard)).1.previousBoard = doublingBoard
    ∧ (moveLeft (playingWith doublingBoard)).1.board
        = [[2, 4, 0, 0], [0, 0, 0, 0], [0, 0, 0, 0], [0, 0, 0, 0]]
    ∧ getCell doublingBoard 0 1 ≠ 0
    ∧ getCell (moveLeft (playingWith doublingBoard)).1.board 0 1 = 2 * getCell doublingBoard 0 1
    ∧ (moveLeft (playingWith doublingBoard)).1.mergedTiles = []
    ∧ (moveLeft (playingWith doublingBoard)).1.animations = [mkAnim 0 2 0 1 false 4] := by
  decide

/-- C26, amended: for every pair of boards, a cell that is the destination
of a merge event of `createMoveAnimations` is never the destination of a slide
event: the slide pass skips exactly the cells that the merge pass entered in
the merge map, and these are the destinations of the merge events. -/
theorem C26_merge_event_destinations_get_no_slide (g : Game) (a b : TileAnimation)
    (ha : a ∈ activeAnimations (createMoveAnimations g))
    (hb : b ∈ activeAnimations (createMoveAnimations g))
    (hma : a.merged = true) (hmb : b.merged = false) : dest a ≠ dest b := by
  intro heq
  rw [createMoveAnimations_active] at ha hb
  have h1 := (reconcile_map_keys _ _ a ha).1 hma
  have h2 := (reconcile_map_keys _ _ b hb).2 hmb
  rw [heq, h2] at h1
  cases h1

/-- Witness of C26: the merge into (1,0) and the slide into (0,0) of a move
to the left. -/
theorem C26_witness :
    mkAnim 1 1 1 0 true 2 ∈ activeAnimations (createMoveAnimations
      (reconciling slideAboveMergeBoard [[4, 0, 0, 0], [4, 0, 0, 0], [0, 0, 0, 0], [0, 0, 0, 0]]))
    ∧ mkAnim 0 1 0 0 false 4 ∈ activeAnimations (createMoveAnimations
      (reconciling slideAboveMergeBoard [[4, 0, 0, 0], [4, 0, 0, 0], [0, 0, 0, 0], [0, 0, 0, 0]]))
    ∧ dest (mkAnim 1 1 1 0 true 2) ≠ dest (mkAnim 0 1 0 0 false 4) := by
  have h1 : mkAnim 1 1 1 0 true 2 ∈ activeAnimations (createMoveAnimations
      (reconciling slideAboveMergeBoard
        [[4, 0, 0, 0], [4, 0, 0, 0], [0, 0, 0, 0], [0, 0, 0, 0]])) := by decide
  have h2 : mkAnim 0 1 0 0 false 4 ∈ activeAnimations (createMoveAnimations
      (reconciling slideAboveMergeBoard
        [[4, 0, 0, 0], [4, 0, 0, 0], [0, 0, 0, 0], [0, 0, 0, 0]])) := by decide
  exact ⟨h1, h2, C26_merge_event_destinations_get_no_slide _ _ _ h1 h2 rfl rfl⟩

/-! ## The gains of a move and the best score -/

theorem mergeGains_pos (l : List Int) :
    (∀ x ∈ l, 0 < x) → ∀ v ∈ mergeGains l, 0 < v := by
  induction l using mergeGains.induct with
  | case1 b rest ih =>
    intro h v hv
    rw [mergeGains, if_pos rfl] at hv
    rcases List.mem_cons.mp hv with rfl | hv
    · have := h b (by simp)
      omega
    · exact ih (fun x hx => h x (by simp [hx])) v hv
  | case2 a b rest hab ih =>
    intro h v hv
    rw [mergeGains, if_neg hab] at hv
    exact ih (fun x hx => h x (List.mem_cons_of_mem _ hx)) v hv
  | case3 l hl =>
    intro _ v hv
    have e : mergeGains l = [] := by
      cases l with
      | nil => rfl
      | cons a t =>
        cases t with
        | nil => rfl
        | cons b r => exact (hl a b r rfl).elim
    rw [e] at hv
    cases hv

theorem refGains_pos (line : List Int) (h : ∀ x ∈ line, 0 ≤ x) : ∀ v ∈ refGains line, 0 < v := by
  apply mergeGains_pos
  intro x hx
  unfold tiles at hx
  obtain ⟨h1, h2⟩ := List.mem_filter.mp hx
  have := h x h1
  have hne : x ≠ 0 := by simpa using h2
  omega

theorem lineGains_pos (b : List (List Int)) (h : AllCells (fun v => 0 ≤ v) b) :
    ∀ v ∈ lineGains b, 0 < v := by
  induction b with
  | nil => simp [lineGains]
  | cons l rest ih =>
    intro v hv
    rw [lineGains] at hv
    rcases List.mem_append.mp hv with hv | hv
    · exact refGains_pos l (h l (List.mem_cons_self _ _)) v hv
    · exact ih (fun row hrow => h row (List.mem_cons_of_mem _ hrow)) v hv

/-- The score update of player one (or of single-player) over the gains of
a move with positive gains: the score grows by their sum, and `bestScore`
becomes the larger of its old value and the new score, if there is a gain. -/
theorem applyGains_false_best (gains : List Int) (h : ∀ v ∈ gains, 0 < v) (sc : Scores) :
    (applyGains false gains sc).score = sc.score + gains.sum
    ∧ (applyGains false gains sc).bestScore
        = (if gains = [] then sc.bestScore else max sc.bestScore (sc.score + gains.sum)) := by
  induction gains generalizing sc with
  | nil => simp [applyGains]
  | cons v rest ih =>
    have hv := h v (List.mem_cons_self _ _)
    have hrest : ∀ w ∈ rest, 0 < w := fun w hw => h w (List.mem_cons_of_mem _ hw)
    have hsum : 0 ≤ rest.sum := List.sum_nonneg (fun w hw => le_of_lt (hrest w hw))
    obtain ⟨i1, i2⟩ := ih hrest (addScore false v sc)
    simp only [applyGains, List.foldl_cons] at i1 i2 ⊢
    rw [i1, i2]
    simp only [addScore, Bool.false_eq_true, if_false, List.sum_cons, reduceCtorEq]
    refine ⟨by omega, ?_⟩
    by_cases hr : rest = []
    · subst hr
      simp only [if_true, List.sum_nil, add_zero, max_def]
      split_ifs <;> omega
    · simp only [hr, if_false, max_def]
      split_ifs <;> omega

/-! ## The events of a move -/

theorem copyCells_eq (src dst : Board) (hs : WellFormed src) (hd : WellFormed dst) :
    copyCells src dst = src := by
  obtain ⟨a0, a1, a2, a3, b0, b1, b2, b3, c0, c1, c2, c3, d0, d1, d2, d3, rfl⟩ :=
    wellFormed_cells src hs
  obtain ⟨e0, e1, e2, e3, f0, f1, f2, f3, g0, g1, g2, g3, k0, k1, k2, k3, rfl⟩ :=
    wellFormed_cells dst hd
  simp only [copyCells, BOARD_SIZE, List.range, List.range.loop, List.foldl, setCell, getCell,
    List.getD_cons_zero, List.getD_cons_succ, List.set_cons_zero, List.set_cons_succ]

theorem activePrevious_savePreviousBoard (g : Game) :
    activePrevious (savePreviousBoard g) = copyCells (activeBoard g) (activePrevious g) := by
  unfold activePrevious activeBoard
  rw [p2Active_savePreviousBoard]
  unfold savePreviousBoard
  cases hp : p2Active g <;> simp

theorem activePrevious_clearMergedTiles (g : Game) :
    activePrevious (clearMergedTiles g) = activePrevious g := by
  have hp : p2Active (clearMergedTiles g) = p2Active g :=
    p2Active_of_core _ _ (core_clearMergedTiles g)
  unfold activePrevious
  rw [hp]
  unfold clearMergedTiles
  cases hp2 : p2Active g <;> simp

theorem activePrevious_storeAcc (g : Game) (a : MoveAcc) :
    activePrevious (storeAcc g a) = activePrevious g := by
  unfold activePrevious
  rw [p2Active_storeAcc]
  unfold storeAcc
  cases hp : p2Active g <;> simp

theorem activePrevious_createMoveAnimations (g : Game) :
    activePrevious (createMoveAnimations g) = activePrevious g := by
  unfold activePrevious
  rw [p2Active_createMoveAnimations]
  unfold createMoveAnimations
  cases hp : p2Active g <;> simp

theorem animating_createMoveAnimations (g : Game) :
    (createMoveAnimations g).animating
      = !(reconcile (activeBoard g) (activePrevious g)).anims.isEmpty := by
  unfold createMoveAnimations activeBoard activePrevious
  cases hp : p2Active g <;> simp

/-- The state a move function returns when it moved: `createMoveAnimations`
ran on the state with the new board. -/
theorem finishMove_moved (loop : Bool → MoveAcc → MoveAcc) (g : Game)
    (hm : (finishMove loop g).2 = true) :
    activeAnimations (finishMove loop g).1
        = (reconcile (activeBoard (finishMove loop g).1) (activePrevious g)).anims
    ∧ (finishMove loop g).1.animating
        = !(reconcile (activeBoard (finishMove loop g).1) (activePrevious g)).anims.isEmpty
    ∧ activePrevious (finishMove loop g).1 = activePrevious g := by
  unfold finishMove at hm ⊢
  simp only at hm ⊢
  split at hm
  · rename_i hmv
    rw [if_pos hmv]
    simp only
    rw [createMoveAnimations_active, animating_createMoveAnimations,
      activePrevious_createMoveAnimations, activePrevious_storeAcc,
      activeBoard_of_core _ _ (core_createMoveAnimations _)]
    exact ⟨rfl, rfl, rfl⟩
  · simp at hm

/-- The events of a move that moved are those that `createMoveAnimations`
infers from the board before the move and the board after it. -/
theorem move_events (d : Direction) (g : Game) (hw : WellFormed (activeBoard g))
    (hp : WellFormed (activePrevious g)) (hm : (move d g).2 = true) :
    activeAnimations (move d g).1
        = (reconcile (activeBoard (move d g).1) (activeBoard g)).anims
    ∧ (move d g).1.animating
        = !(reconcile (activeBoard (move d g).1) (activeBoard g)).anims.isEmpty
    ∧ activePrevious (move d g).1 = activeBoard g := by
  have hs : activePrevious (savePreviousBoard g) = activeBoard g := by
    rw [activePrevious_savePreviousBoard, copyCells_eq _ _ hw hp]
  cases d
  · simp only [move, moveLeft] at hm ⊢
    have h := finishMove_moved loopLeft _ hm
    rw [activePrevious_clearMergedTiles, hs] at h
    exact h
  · simp only [move, moveRight] at hm ⊢
    have h := finishMove_moved loopRight _ hm
    rw [hs] at h
    exact h
  · simp only [move, moveUp] at hm ⊢
    have h := finishMove_moved loopUp _ hm
    rw [hs] at h
    exact h
  · simp only [move, moveDown] at hm ⊢
    have h := finishMove_moved loopDown _ hm
    rw [hs] at h
    exact h

/-! ## A move without a merge produces an event -/

/-- Facts established step by step under a condition `G` on the final
state that every step can only lose. -/
theorem foldl_facts {ι α : Type} (J G : α → Prop) (F : ι → Prop) (step : ι → α → α)
    (l : List ι) (hJ : ∀ k ∈ l, ∀ r, J r → J (step k r))
    (hG : ∀ k ∈ l, ∀ r, G (step k r) → G r)
    (hF : ∀ k ∈ l, ∀ r, J r → G (step k r) → F k) (r : α) (hr : J r)
    (hfin : G (l.foldl (fun r k => step k r) r)) :
    (∀ k ∈ l, F k) ∧ G r ∧ J (l.foldl (fun r k => step k r) r) := by
  induction l generalizing r with
  | nil => exact ⟨by simp, hfin, hr⟩
  | cons k rest ih =>
    rw [List.foldl_cons] at hfin ⊢
    obtain ⟨f1, g1, j1⟩ := ih (fun k' hk' => hJ k' (List.mem_cons_of_mem _ hk'))
      (fun k' hk' => hG k' (List.mem_cons_of_mem _ hk'))
      (fun k' hk' => hF k' (List.mem_cons_of_mem _ hk')) (step k r)
      (hJ k (List.mem_cons_self _ _) r hr) hfin
    refine ⟨?_, hG k (List.mem_cons_self _ _) r g1, j1⟩
    intro k' hk'
    rcases List.mem_cons.mp hk' with rfl | hk'
    · exact hF k' (List.mem_cons_self _ _) r hr g1
    · exact f1 k' hk'

theorem reconcile_eq (cur prev : Board) :
    reconcile cur prev
      = allCells.foldl (fun r c => slidePassCell cur prev c.1 c.2 r)
          (allCells.foldl (fun r c => mergePassCell cur prev c.1 c.2 r)
            ⟨freshTracker, [], []⟩) := by
  unfold reconcile
  simp only
  rw [nested_range_foldl (fun i j r => mergePassCell cur prev i j r),
    nested_range_foldl (fun i j r => slidePassCell cur prev i j r)]

theorem getFlag_freshTracker (i j : Nat) : getFlag freshTracker i j = false := by
  unfold getFlag freshTracker
  simp only [BOARD_SIZE, List.replicate]
  rcases i with _ | _ | _ | _ | _ | i <;>
  rcases j with _ | _ | _ | _ | _ | j <;> rfl

theorem getFlag_setFlag_true (t : Tracker) (r c i j : Nat)
    (h : getFlag (setFlag t r c true) i j = true) : (i = r ∧ j = c) ∨ getFlag t i j = true := by
  rw [getFlag_setFlag] at h
  split at h
  · rename_i hh
    exact Or.inl ⟨hh.1, hh.2.1⟩
  · exact Or.inr h

theorem mergePassCell_inv (cur prev : Board) (I1 : Recon → Prop) (c : Nat × Nat)
    (hmark : ∀ r, I1 r → getCell cur c.1 c.2 ≠ 0 → getCell prev c.1 c.2 ≠ 0 →
      getCell cur c.1 c.2 = getCell prev c.1 c.2 * 2 →
      I1 { r with accounted := setFlag r.accounted c.1 c.2 true })
    (hmerge : ∀ ni, ni < BOARD_SIZE → ∀ r, I1 r → getCell cur c.1 c.2 ≠ 0 →
      getCell prev c.1 c.2 ≠ 0 → getCell cur c.1 c.2 = getCell prev c.1 c.2 * 2 →
      I1 (mergeSearchRow prev c.1 c.2 ni r))
    (r : Recon) (hr : I1 r) : I1 (mergePassCell cur prev c.1 c.2 r) := by
  unfold mergePassCell
  split
  · exact hr
  · rename_i hz
    split
    · rename_i hcond
      simp only
      apply foldl_inv I1 (fun ni r => mergeSearchRow prev c.1 c.2 ni r)
      · intro ni hni x hx
        exact hmerge ni (List.mem_range.mp hni) x hx hz hcond.1 hcond.2
      · exact hmark r hr hz hcond.1 hcond.2
    · exact hr

theorem quiet_setFlag (cur : Board) (r : Recon) (h : Quiet cur r) (i j : Nat)
    (hz : getCell cur i j ≠ 0) :
    Quiet cur ⟨setFlag r.accounted i j true, r.anims, r.mergedMap⟩ := by
  refine ⟨wellFormed_setFlag _ h.1 _ _ _, ?_⟩
  intro ha
  refine ⟨(h.2 ha).1, ?_⟩
  intro x y hxy
  rcases getFlag_setFlag_true _ _ _ _ _ hxy with ⟨rfl, rfl⟩ | hf
  · exact hz
  · exact (h.2 ha).2 x y hf

theorem quiet_push (cur : Board) (t : Tracker) (ht : WellFormed t) (l : List TileAnimation)
    (a : TileAnimation) (m : List ((Nat × Nat) × (Nat × Nat))) :
    Quiet cur ⟨t, l ++ [a], m⟩ :=
  ⟨ht, fun h => by simp at h⟩

theorem quiet_mergeSearchRow (cur prev : Board) (i j ni : Nat) (r : Recon) (h : Quiet cur r)
    (hz : getCell cur i j ≠ 0) : Quiet cur (mergeSearchRow prev i j ni r) := by
  rcases mergeSearchRow_cases prev i j ni r with ⟨-, e⟩ | ⟨nj, -, -, -, e⟩
  · rw [e]; exact h
  · rcases e with ⟨-, e⟩ | ⟨hne, e⟩
    · rw [e]
      exact quiet_push cur _ (wellFormed_setFlag _ h.1 _ _ _) _ _ _
    · rw [e]
      have h1 : ni = i := by
        by_contra hh
        exact hne (Or.inl hh)
      have h2 : nj = j := by
        by_contra hh
        exact hne (Or.inr hh)
      subst h1 h2
      exact quiet_setFlag cur r h _ _ hz

theorem quiet_slideSearchRow (cur prev : Board) (i j pi : Nat) (r : Recon) (h : Quiet cur r)
    (hz : getCell cur i j ≠ 0) : Quiet cur (slideSearchRow cur prev i j pi r) := by
  rcases slideSearchRow_cases cur prev i j pi r with ⟨-, e⟩ | ⟨pj, -, -, -, e⟩
  · rw [e]; exact h
  · rcases e with ⟨-, e⟩ | ⟨hne, e⟩
    · rw [e]
      exact quiet_push cur _ (wellFormed_setFlag _ h.1 _ _ _) _ _ _
    · rw [e]
      have h1 : pi = i := by
        by_contra hh
        exact hne (Or.inl hh)
      have h2 : pj = j := by
        by_contra hh
        exact hne (Or.inr hh)
      subst h1 h2
      exact quiet_setFlag cur r h _ _ hz

theorem quiet_mergePassCell (cur prev : Board) (c : Nat × Nat) (r : Recon) (h : Quiet cur r) :
    Quiet cur (mergePassCell cur prev c.1 c.2 r) := by
  apply mergePassCell_inv cur prev (Quiet cur) c
  · intro x hx hz _ _
    exact quiet_setFlag cur x hx _ _ hz
  · intro ni _ x hx hz _ _
    exact quiet_mergeSearchRow cur prev _ _ ni x hx hz
  · exact h

theorem quiet_slidePassCell (cur prev : Board) (c : Nat × Nat) (r : Recon) (h : Quiet cur r) :
    Quiet cur (slidePassCell cur prev c.1 c.2 r) := by
  unfold slidePassCell
  split
  · exact h
  · rename_i hz
    split
    · exact h
    · apply foldl_inv (Quiet cur) (fun pi r => slideSearchRow cur prev c.1 c.2 pi r)
      · intro pi _ x hx
        exact quiet_slideSearchRow cur prev _ _ pi x hx hz
      · exact h

theorem quiet_mergePass (cur prev : Board) :
    Quiet cur (allCells.foldl (fun r c => mergePassCell cur prev c.1 c.2 r)
      ⟨freshTracker, [], []⟩) := by
  apply foldl_inv (Quiet cur) (fun (c : Nat × Nat) r => mergePassCell cur prev c.1 c.2 r)
  · intro c _ r hr
    exact quiet_mergePassCell cur prev c r hr
  · refine ⟨wellFormed_freshTracker, fun _ => ⟨rfl, ?_⟩⟩
    intro i j hf
    rw [getFlag_freshTracker] at hf
    cases hf

theorem anims_nil_of_slideSearchRow (cur prev : Board) (i j pi : Nat) (r : Recon)
    (h : (slideSearchRow cur prev i j pi r).anims = []) : r.anims = [] := by
  obtain ⟨extra, he, -⟩ := slideSearchRow_anims cur prev i j pi r
  rw [he] at h
  exact (List.append_eq_nil.mp h).1

theorem anims_nil_of_slidePassCell (cur prev : Board) (c : Nat × Nat) (r : Recon)
    (h : (slidePassCell cur prev c.1 c.2 r).anims = []) : r.anims = [] := by
  obtain ⟨extra, he, -⟩ := slidePassCell_anims cur prev c r
  rw [he] at h
  exact (List.append_eq_nil.mp h).1

/-- One row of the slide search for the cell `D`, in the row of a tile `P`
that left its cell and whose value `D` now holds: if no event is pushed, `D`
held that value before. -/
theorem quiet_row_fact (cur prev : Board) (P D : Nat × Nat) (hP2 : P.2 < BOARD_SIZE)
    (hcur : getCell cur P.1 P.2 = 0)
    (hv : getCell cur D.1 D.2 = getCell prev P.1 P.2) (x : Recon) (hx : Quiet cur x)
    (hgx : (slideSearchRow cur prev D.1 D.2 P.1 x).anims = []) :
    getCell prev D.1 D.2 = getCell prev P.1 P.2 := by
  rcases slideSearchRow_cases cur prev D.1 D.2 P.1 x with ⟨hall, e⟩ | ⟨pj, -, -, hval, e⟩
  · rw [e] at hgx
    rcases hall P.2 hP2 with hf | hne
    · exact absurd hcur ((hx.2 hgx).2 _ _ hf)
    · exact absurd hv.symm hne
  · rcases e with ⟨-, e⟩ | ⟨hne, e⟩
    · rw [e] at hgx
      simp at hgx
    · have h1 : P.1 = D.1 := by
        by_contra hh
        exact hne (Or.inl hh)
      have h2 : pj = D.2 := by
        by_contra hh
        exact hne (Or.inr hh)
      rw [← h2, ← h1, hval, hv]

theorem quiet_cell_fact (cur prev : Board) (P D : Nat × Nat) (hP : P ∈ allCells)
    (hprev : getCell prev P.1 P.2 ≠ 0) (hcur : getCell cur P.1 P.2 = 0)
    (r : Recon) (hr : Quiet cur r) (hg : (slidePassCell cur prev D.1 D.2 r).anims = [])
    (hv : getCell cur D.1 D.2 = getCell prev P.1 P.2) :
    getCell prev D.1 D.2 = getCell prev P.1 P.2 := by
  obtain ⟨hP1, hP2⟩ := mem_allCells P hP
  have hra := anims_nil_of_slidePassCell cur prev D r hg
  have hz : getCell cur D.1 D.2 ≠ 0 := by rw [hv]; exact hprev
  have hmap : mapHas r.mergedMap (D.1, D.2) = false := by
    rw [(hr.2 hra).1]
    rfl
  unfold slidePassCell at hg
  rw [if_neg hz, hmap] at hg
  simp only [Bool.false_eq_true, if_false] at hg
  have rows := foldl_facts (Quiet cur) (fun x => x.anims = [])
    (fun pi => pi = P.1 → getCell prev D.1 D.2 = getCell prev P.1 P.2)
    (fun pi x => slideSearchRow cur prev D.1 D.2 pi x) (List.range BOARD_SIZE)
    (fun pi _ x hx => quiet_slideSearchRow cur prev _ _ pi x hx hz)
    (fun pi _ x hgx => anims_nil_of_slideSearchRow cur prev _ _ pi x hgx)
    (fun pi _ x hx hgx hpi => by
      subst hpi
      exact quiet_row_fact cur prev P D hP2 hcur hv x hx hgx)
    r hr hg
  exact rows.1 P.1 (List.mem_range.mpr hP1) rfl

/-- If `reconcile` pushes no event at all, every cell that now holds the
value of a tile that left its cell already held that value before. -/
theorem no_events_same_value (cur prev : Board) (P : Nat × Nat) (hP : P ∈ allCells)
    (hprev : getCell prev P.1 P.2 ≠ 0) (hcur : getCell cur P.1 P.2 = 0)
    (hnone : (reconcile cur prev).anims = []) :
    ∀ D ∈ allCells, getCell cur D.1 D.2 = getCell prev P.1 P.2 →
      getCell prev D.1 D.2 = getCell prev P.1 P.2 := by
  rw [reconcile_eq] at hnone
  have key := foldl_facts (Quiet cur) (fun r => r.anims = [])
    (fun (D : Nat × Nat) => getCell cur D.1 D.2 = getCell prev P.1 P.2 →
      getCell prev D.1 D.2 = getCell prev P.1 P.2)
    (fun (c : Nat × Nat) r => slidePassCell cur prev c.1 c.2 r) allCells
    (fun c _ r hr => quiet_slidePassCell cur prev c r hr)
    (fun c _ r hg => anims_nil_of_slidePassCell cur prev c r hg)
    (fun D _ r hr hg hv => quiet_cell_fact cur prev P D hP hprev hcur r hr hg hv)
    _ (quiet_mergePass cur prev) hnone
  exact key.1

/-! ## Counting cells before and after a move -/

theorem pairSum_literal (F : Int → Int → Int)
    (a0 a1 a2 a3 b0 b1 b2 b3 c0 c1 c2 c3 d0 d1 d2 d3 : Int)
    (e0 e1 e2 e3 f0 f1 f2 f3 g0 g1 g2 g3 k0 k1 k2 k3 : Int) :
    pairSum F [[a0, a1, a2, a3], [b0, b1, b2, b3], [c0, c1, c2, c3], [d0, d1, d2, d3]]
        [[e0, e1, e2, e3], [f0, f1, f2, f3], [g0, g1, g2, g3], [k0, k1, k2, k3]]
      = F a0 e0 + F a1 e1 + F a2 e2 + F a3 e3 + (F b0 f0 + F b1 f1 + F b2 f2 + F b3 f3)
        + (F c0 g0 + F c1 g1 + F c2 g2 + F c3 g3) + (F d0 k0 + F d1 k1 + F d2 k2 + F d3 k3) := by
  simp only [pairSum, allCells_eq, List.map, getCell, List.getD_cons_zero, List.getD_cons_succ,
    List.sum_cons, List.sum_nil]
  ring

theorem rowPair_literal (F : Int → Int → Int) (a b c d e f g k : Int) :
    rowPair F [a, b, c, d] [e, f, g, k] = F a e + F b f + F c g + F d k := by
  simp only [rowPair, BOARD_SIZE, List.range, List.range.loop, List.map, List.getD_cons_zero,
    List.getD_cons_succ, List.sum_cons, List.sum_nil]
  ring

theorem pairSum_lines (F : Int → Int → Int) (d : Direction) (b1 b2 : Board)
    (h1 : WellFormed b1) (h2 : WellFormed b2) :
    pairSum F (lines d b1) (lines d b2) = pairSum F b1 b2 := by
  obtain ⟨a0, a1, a2, a3, b0, b1', b2', b3, c0, c1, c2, c3, d0, d1, d2, d3, rfl⟩ :=
    wellFormed_cells b1 h1
  obtain ⟨e0, e1, e2, e3, f0, f1, f2, f3, g0, g1, g2, g3, k0, k1, k2, k3, rfl⟩ :=
    wellFormed_cells b2 h2
  cases d <;>
  simp only [lines, mirror, transpose, transposeWith, BOARD_SIZE, List.range, List.range.loop,
    List.map, List.getD_cons_zero, List.getD_cons_succ, List.reverse_cons, List.reverse_nil,
    List.nil_append, List.cons_append, pairSum_literal] <;>
  ring

theorem pairSum_rows (F : Int → Int → Int) (r0 r1 r2 r3 s0 s1 s2 s3 : List Int) :
    pairSum F [r0, r1, r2, r3] [s0, s1, s2, s3]
      = rowPair F r0 s0 + rowPair F r1 s1 + rowPair F r2 s2 + rowPair F r3 s3 := by
  simp only [pairSum, allCells_eq, List.map, getCell, List.getD_cons_zero, List.getD_cons_succ,
    List.sum_cons, List.sum_nil, rowPair, BOARD_SIZE, List.range, List.range.loop]
  ring

theorem mergePairs_of_no_gains (l : List Int) : mergeGains l = [] → mergePairs l = l := by
  induction l using mergeGains.induct with
  | case1 b rest ih =>
    intro h
    simp [mergeGains] at h
  | case2 a b rest hab ih =>
    intro h
    simp only [mergeGains, hab, if_false] at h
    simp only [mergePairs, hab, if_false, ih h]
  | case3 l hl =>
    intro _
    cases l with
    | nil => rfl
    | cons a t =>
      cases t with
      | nil => rfl
      | cons b rest => exact absurd rfl (hl a b rest)

theorem refRow_of_no_gains (line : List Int) (h : refGains line = []) :
    refRow line = padTo 0 (tiles line) := by
  simp only [refRow, mergePairs_of_no_gains (tiles line) h]

/-- A line without a merge keeps, for every function of the cell value, the
sum over its cells. -/
theorem rowPair_refRow (f : Int → Int) (a b c d : Int) (h : refGains [a, b, c, d] = []) :
    rowPair (fun x _ => f x) (refRow [a, b, c, d]) (refRow [a, b, c, d])
      = rowPair (fun x _ => f x) [a, b, c, d] [a, b, c, d] := by
  rw [refRow_of_no_gains _ h]
  by_cases ha : a = 0 <;> by_cases hb : b = 0 <;> by_cases hc : c = 0 <;> by_cases hd : d = 0 <;>
  simp only [tiles, padTo, BOARD_SIZE, ha, hb, hc, hd, rowPair, List.range, List.range.loop,
    List.filter, ne_eq, not_true_eq_false, not_false_eq_true, decide_True, decide_False,
    List.length_cons, List.length_nil, List.replicate, List.map, List.getD_cons_zero,
    List.getD_cons_succ, List.sum_cons, List.sum_nil, List.cons_append, List.nil_append,
    List.append_nil, Nat.reduceSub, Nat.reduceAdd] <;>
  ring

/-- A line that changes without a merge has a cell that held a tile and is
empty afterwards. -/
theorem rowPair_leftCell (a b c d : Int) (h : refGains [a, b, c, d] = [])
    (hne : refRow [a, b, c, d] ≠ [a, b, c, d]) :
    1 ≤ rowPair leftCell [a, b, c, d] (refRow [a, b, c, d]) := by
  rw [refRow_of_no_gains _ h] at hne ⊢
  revert hne
  by_cases ha : a = 0 <;> by_cases hb : b = 0 <;> by_cases hc : c = 0 <;> by_cases hd : d = 0 <;>
  simp [tiles, padTo, BOARD_SIZE, ha, hb, hc, hd, rowPair, List.range, List.range.loop,
    leftCell]

theorem rowPair_leftCell_nonneg (r s : List Int) : 0 ≤ rowPair leftCell r s := by
  unfold rowPair
  apply List.sum_nonneg
  intro x hx
  obtain ⟨j, -, rfl⟩ := List.mem_map.1 hx
  unfold leftCell
  split_ifs <;> decide

theorem lineGains_rows (r0 r1 r2 r3 : List Int) (h : lineGains [r0, r1, r2, r3] = []) :
    refGains r0 = [] ∧ refGains r1 = [] ∧ refGains r2 = [] ∧ refGains r3 = [] := by
  simp only [lineGains, List.append_nil, List.append_eq_nil] at h
  exact h

/-- A slide without a merge permutes the cell values of the lines. -/
theorem pairSum_map_refRow (f : Int → Int) (L : Board) (hL : WellFormed L)
    (hg : lineGains L = []) :
    pairSum (fun x _ => f x) (L.map refRow) (L.map refRow) = pairSum (fun x _ => f x) L L := by
  obtain ⟨a0, a1, a2, a3, b0, b1, b2, b3, c0, c1, c2, c3, d0, d1, d2, d3, rfl⟩ :=
    wellFormed_cells L hL
  obtain ⟨g0, g1, g2, g3⟩ := lineGains_rows _ _ _ _ hg
  simp only [List.map, pairSum_rows, rowPair_refRow f _ _ _ _ g0, rowPair_refRow f _ _ _ _ g1,
    rowPair_refRow f _ _ _ _ g2, rowPair_refRow f _ _ _ _ g3]

/-- A slide without a merge that changes a line empties a cell that held a
tile. -/
theorem pairSum_leftCell_map_refRow (L : Board) (hL : WellFormed L) (hg : lineGains L = [])
    (hne : L.map refRow ≠ L) : 1 ≤ pairSum leftCell L (L.map refRow) := by
  obtain ⟨a0, a1, a2, a3, b0, b1, b2, b3, c0, c1, c2, c3, d0, d1, d2, d3, rfl⟩ :=
    wellFormed_cells L hL
  obtain ⟨g0, g1, g2, g3⟩ := lineGains_rows _ _ _ _ hg
  simp only [List.map, pairSum_rows]
  have n0 := rowPair_leftCell_nonneg [a0, a1, a2, a3] (refRow [a0, a1, a2, a3])
  have n1 := rowPair_leftCell_nonneg [b0, b1, b2, b3] (refRow [b0, b1, b2, b3])
  have n2 := rowPair_leftCell_nonneg [c0, c1, c2, c3] (refRow [c0, c1, c2, c3])
  have n3 := rowPair_leftCell_nonneg [d0, d1, d2, d3] (refRow [d0, d1, d2, d3])
  by_cases e0 : refRow [a0, a1, a2, a3] = [a0, a1, a2, a3]
  · by_cases e1 : refRow [b0, b1, b2, b3] = [b0, b1, b2, b3]
    · by_cases e2 : refRow [c0, c1, c2, c3] = [c0, c1, c2, c3]
      · by_cases e3 : refRow [d0, d1, d2, d3] = [d0, d1, d2, d3]
        · exact absurd (by simp only [List.map, e0, e1, e2, e3]) hne
        · have := rowPair_leftCell _ _ _ _ g3 e3
          omega
      · have := rowPair_leftCell _ _ _ _ g2 e2
        omega
    · have := rowPair_leftCell _ _ _ _ g1 e1
      omega
  · have := rowPair_leftCell _ _ _ _ g0 e0
    omega

/-- The board after a move without a merge holds every value as often as
the board before it. -/
theorem pairSum_slide (f : Int → Int) (d : Direction) (b : Board) (hb : WellFormed b)
    (hg : lineGains (lines d b) = []) :
    pairSum (fun x _ => f x) (unlines d ((lines d b).map refRow))
        (unlines d ((lines d b).map refRow))
      = pairSum (fun x _ => f x) b b := by
  have hl := wellFormed_lines d b hb
  have hm := wellFormed_map_refRow _ hl
  have hu := wellFormed_unlines d _ hm
  rw [← pairSum_lines _ d _ _ hu hu, lines_unlines d _ hm, pairSum_map_refRow f _ hl hg,
    pairSum_lines _ d _ _ hb hb]

/-- A move without a merge that changes the board empties a cell that held
a tile. -/
theorem slide_leaves_a_cell (d : Direction) (b : Board) (hb : WellFormed b)
    (hg : lineGains (lines d b) = []) (hne : (lines d b).map refRow ≠ lines d b) :
    ∃ P ∈ allCells, getCell b P.1 P.2 ≠ 0
      ∧ getCell (unlines d ((lines d b).map refRow)) P.1 P.2 = 0 := by
  have hl := wellFormed_lines d b hb
  have hm := wellFormed_map_refRow _ hl
  have hu := wellFormed_unlines d _ hm
  have h1 := pairSum_leftCell_map_refRow _ hl hg hne
  have h2 := pairSum_lines leftCell d b (unlines d ((lines d b).map refRow)) hb hu
  rw [lines_unlines d _ hm] at h2
  rw [h2] at h1
  by_contra hcon
  push_neg at hcon
  have hz : pairSum leftCell b (unlines d ((lines d b).map refRow)) = 0 := by
    unfold pairSum
    apply List.sum_eq_zero
    intro x hx
    obtain ⟨P, hP, rfl⟩ := List.mem_map.1 hx
    unfold leftCell
    rw [if_neg]
    rintro ⟨p1, p2⟩
    exact hcon P hP p1 p2
  omega

/-- Where every cell that holds `v` now held it before, and one cell held
it before but not now, `v` occurs less often now. -/
theorem pairSum_holds_lt (v : Int) (cur prev : Board) (P : Nat × Nat) (hP : P ∈ allCells)
    (hprev : getCell prev P.1 P.2 = v) (hcur : getCell cur P.1 P.2 ≠ v)
    (hall : ∀ D ∈ allCells, getCell cur D.1 D.2 = v → getCell prev D.1 D.2 = v) :
    pairSum (fun x _ => holds v x) cur cur < pairSum (fun x _ => holds v x) prev prev := by
  unfold pairSum
  apply List.sum_lt_sum
  · intro D hD
    show holds v (getCell cur D.1 D.2) ≤ holds v (getCell prev D.1 D.2)
    unfold holds
    by_cases hc : getCell cur D.1 D.2 = v
    · rw [if_pos hc, if_pos (hall D hD hc)]
    · rw [if_neg hc]
      split_ifs <;> decide
  · refine ⟨P, hP, ?_⟩
    show holds v (getCell cur P.1 P.2) < holds v (getCell prev P.1 P.2)
    unfold holds
    rw [if_neg hcur, if_pos hprev]
    decide

/-- A move that changes the board and merges nothing yields an event. -/
theorem slide_has_event (d : Direction) (b : Board) (hb : WellFormed b)
    (hg : lineGains (lines d b) = []) (hne : (lines d b).map refRow ≠ lines d b) :
    (reconcile (unlines d ((lines d b).map refRow)) b).anims ≠ [] := by
  intro hnone
  obtain ⟨P, hP, hprev, hcur⟩ := slide_leaves_a_cell d b hb hg hne
  have hall := no_events_same_value _ b P hP hprev hcur hnone
  have hlt := pairSum_holds_lt (getCell b P.1 P.2) _ b P hP rfl (by rw [hcur]; exact Ne.symm hprev)
    hall
  rw [pairSum_slide (holds (getCell b P.1 P.2)) d b hb hg] at hlt
  exact lt_irrefl _ hlt

/-! ## Cells that hold a given value -/

theorem holds_self (v : Int) : holds v v = 1 := by
  unfold holds
  rw [if_pos rfl]

theorem holds_nonneg (v x : Int) : 0 ≤ holds v x := by
  unfold holds
  split_ifs <;> decide

theorem holds_of_ne (v x : Int) (h : x ≠ v) : holds v x = 0 := by
  unfold holds
  rw [if_neg h]

theorem allCells_nodup : allCells.Nodup := by
  rw [allCells_eq]
  decide

/-! ## What the slide pass keeps -/

theorem allCells_mem (i j : Nat) (hi : i < BOARD_SIZE) (hj : j < BOARD_SIZE) :
    (i, j) ∈ allCells := by
  rw [allCells_eq]
  have key : ∀ i, i < 4 → ∀ j, j < 4 →
      (i, j) ∈ [(0, 0), (0, 1), (0, 2), (0, 3), (1, 0), (1, 1), (1, 2), (1, 3),
        (2, 0), (2, 1), (2, 2), (2, 3), (3, 0), (3, 1), (3, 2), (3, 3)] := by decide
  exact key i hi j hj

theorem wellFormed_slideSearchRow (cur prev : Board) (i j pi : Nat) (r : Recon)
    (h : WellFormed r.accounted) : WellFormed (slideSearchRow cur prev i j pi r).accounted := by
  rcases slideSearchRow_cases cur prev i j pi r with ⟨-, e⟩ | ⟨pj, -, -, -, ⟨-, e⟩ | ⟨-, e⟩⟩ <;>
  rw [e]
  · exact h
  · exact wellFormed_setFlag _ h _ _ _
  · exact wellFormed_setFlag _ h _ _ _

theorem wellFormed_slidePassCell (cur prev : Board) (c : Nat × Nat) (r : Recon)
    (h : WellFormed r.accounted) : WellFormed (slidePassCell cur prev c.1 c.2 r).accounted := by
  unfold slidePassCell
  split
  · exact h
  · split
    · exact h
    · exact foldl_inv (fun r => WellFormed r.accounted)
        (fun pi r => slideSearchRow cur prev c.1 c.2 pi r) _
        (fun pi _ r hr => wellFormed_slideSearchRow cur prev _ _ pi r hr) r h

/-! ## The move engine within the range of `int`

The move functions double a cell and add to a score in `Int`; the program does
both in a 32-bit `int`.  The two agree as long as no doubling and no sum leaves
the range of `int`: the theorems of this section assume cells that are not
negative and below `2 ^ 30`, and scores whose sum with the gains of the move is
below `2 ^ 31`, and they show that the results stay in the range. -/

theorem smallTile_double (w : Int) (h : SmallTile w) : InInt (w * 2) := by
  unfold SmallTile at h
  unfold InInt
  omega

theorem smallTile_inInt (w : Int) (h : SmallTile w) : InInt w := by
  unfold SmallTile at h
  unfold InInt
  omega

theorem allCells_mono (P Q : Int → Prop) (h : ∀ w, P w → Q w) (b : Board)
    (hb : AllCells P b) : AllCells Q b :=
  fun row hr v hv => h v (hb row hr v hv)

/-- After a move on a board of small tiles every cell is in the range of
`int` and not negative. -/
theorem move_inInt (d : Direction) (g : Game) (h : WellFormed (activeBoard g))
    (hs : AllCells SmallTile (activeBoard g)) :
    AllCells (fun v => 0 ≤ v ∧ InInt v) (activeBoard (move d g).1) :=
  (allCells_move SmallTile (fun v => 0 ≤ v ∧ InInt v) (by unfold InInt; norm_num)
    (fun w hw => ⟨hw.1, smallTile_inInt w hw⟩)
    (fun w hw => ⟨by unfold SmallTile at hw; omega, smallTile_double w hw⟩) d g h hs).2

/-- C1: on every board of 4 by 4 cells that are not negative and below
`2 ^ 30` (so that no doubling leaves the range of `int`), `moveLeft` turns each
row of the active board into the reference row of that row: its non-zero
values in their order, equal neighbours merged pairwise from the left with
every value in at most one merge, padded with zeros to length 4; every cell of
the result is in the range of `int`. -/
theorem C1_moveLeft_rows_are_reference_rows (g : Game) (h : WellFormed (activeBoard g))
    (hs : AllCells SmallTile (activeBoard g)) :
    activeBoard (moveLeft g).1 = (activeBoard g).map refRow
    ∧ AllCells (fun v => 0 ≤ v ∧ InInt v) (activeBoard (moveLeft g).1) := by
  have h1 := (move_char Direction.Left g h).1
  have h2 := move_inInt Direction.Left g h hs
  rw [move_left] at h1 h2
  exact ⟨h1, h2⟩

/-- Witness of C1 on the rows of the scenarios of the specification. -/
theorem C1_witness :
    WellFormed (activeBoard (playingWith [[2, 0, 2, 2], [2, 2, 0, 0], [2, 4, 8, 16], [4, 4, 8, 0]]))
    ∧ AllCells SmallTile
        (activeBoard (playingWith [[2, 0, 2, 2], [2, 2, 0, 0], [2, 4, 8, 16], [4, 4, 8, 0]]))
    ∧ activeBoard (moveLeft (playingWith [[2, 0, 2, 2], [2, 2, 0, 0], [2, 4, 8, 16], [4, 4, 8, 0]])).1
        = (activeBoard (playingWith [[2, 0, 2, 2], [2, 2, 0, 0], [2, 4, 8, 16], [4, 4, 8, 0]])).map
            refRow
    ∧ (activeBoard (playingWith [[2, 0, 2, 2], [2, 2, 0, 0], [2, 4, 8, 16], [4, 4, 8, 0]])).map refRow
        = [[4, 2, 0, 0], [4, 0, 0, 0], [2, 4, 8, 16], [8, 8, 0, 0]] := by
  have hs : AllCells SmallTile
      (activeBoard (playingWith [[2, 0, 2, 2], [2, 2, 0, 0], [2, 4, 8, 16], [4, 4, 8, 0]])) := by
    show AllCells SmallTile [[2, 0, 2, 2], [2, 2, 0, 0], [2, 4, 8, 16], [4, 4, 8, 0]]
    rw [allCells_literal]
    decide
  exact ⟨by decide, hs, (C1_moveLeft_rows_are_reference_rows _ (by decide) hs).1, by decide⟩

theorem lineGains_sum_nonneg (d : Direction) (b : Board) (hb : WellFormed b)
    (hs : AllCells SmallTile b) : 0 ≤ (lineGains (lines d b)).sum :=
  List.sum_nonneg (fun w hw => le_of_lt (lineGains_pos _
    (allCells_lines _ d b hb (allCells_mono SmallTile (fun v => 0 ≤ v) (fun _ h => h.1) b hs))
    w hw))

/-- C3: on a board of 4 by 4 cells that are not negative and below `2 ^ 30`,
with the acting player's score in the range of `int` and its sum with the
gains of the move below `2 ^ 31` (so that neither a doubling nor the score
leaves the range of `int`), the amount a move adds to the acting player's
score is the sum of the values that the merges of that move wrote into their
destination cells: the cells flagged in `mergedTracker`, whose values in the
moved board are the doubled values.  The sum is also the sum of the gains of
the reference rows, it is 0 when the move merged nothing, and the new score is
in the range of `int`. -/
theorem C3_score_delta_is_sum_of_merged_values (d : Direction) (g : Game)
    (h : WellFormed (activeBoard g)) (hs : AllCells SmallTile (activeBoard g))
    (hlo : InInt (activeScore g))
    (hhi : activeScore g + (lineGains (lines d (activeBoard g))).sum < 2 ^ 31) :
    activeScore (move d g).1
      = activeScore g + flaggedSum (activeBoard (move d g).1) (moveAcc d g).tracker
    ∧ flaggedSum (activeBoard (move d g).1) (moveAcc d g).tracker
      = (lineGains (lines d (activeBoard g))).sum
    ∧ ((moveAcc d g).merged = false → activeScore (move d g).1 = activeScore g)
    ∧ InInt (activeScore (move d g).1) := by
  obtain ⟨c1, -, -, c4, c5⟩ := move_char d g h
  have hl := wellFormed_lines d _ h
  have hf : flaggedSum (activeBoard (move d g).1) (moveAcc d g).tracker
      = (lineGains (lines d (activeBoard g))).sum := by
    rw [c1, c5, flaggedSum_unlines d _ _ (wellFormed_map_refRow _ hl)
      (wellFormed_map_refMarks _ hl), flaggedSum_map _ hl]
  refine ⟨by rw [hf]; exact activeScore_move d g h, hf, ?_, ?_⟩
  · intro hm
    rw [c4] at hm
    have : lineGains (lines d (activeBoard g)) = [] := by simpa using hm
    rw [activeScore_move d g h, this]
    simp
  · have hn := lineGains_sum_nonneg d _ h hs
    rw [activeScore_move d g h]
    unfold InInt at hlo ⊢
    omega

/-- Witness of C3: scenario 1 of the specification, the row `[2,2,0,0]` moved
left becomes `[4,0,0,0]`, the score grows by 4 and `merged` is set. -/
theorem C3_witness :
    WellFormed (activeBoard (playingWith pairRowBoard))
    ∧ AllCells SmallTile (activeBoard (playingWith pairRowBoard))
    ∧ InInt (activeScore (playingWith pairRowBoard))
    ∧ activeScore (playingWith pairRowBoard)
        + (lineGains (lines Direction.Left (activeBoard (playingWith pairRowBoard)))).sum < 2 ^ 31
    ∧ activeScore (move Direction.Left (playingWith pairRowBoard)).1
        = activeScore (playingWith pairRowBoard)
          + flaggedSum (activeBoard (move Direction.Left (playingWith pairRowBoard)).1)
            (moveAcc Direction.Left (playingWith pairRowBoard)).tracker
    ∧ flaggedSum (activeBoard (move Direction.Left (playingWith pairRowBoard)).1)
          (moveAcc Direction.Left (playingWith pairRowBoard)).tracker = 4
    ∧ activeBoard (moveLeft (playingWith pairRowBoard)).1
        = [[4, 0, 0, 0], [0, 0, 0, 0], [0, 0, 0, 0], [0, 0, 0, 0]]
    ∧ (moveLeft (playingWith pairRowBoard)).1.score = 4
    ∧ (moveAcc Direction.Left (playingWith pairRowBoard)).merged = true := by
  have hw : WellFormed (activeBoard (playingWith pairRowBoard)) := by decide
  have hs : AllCells SmallTile (activeBoard (playingWith pairRowBoard)) := by
    show AllCells SmallTile [[2, 2, 0, 0], [0, 0, 0, 0], [0, 0, 0, 0], [0, 0, 0, 0]]
    rw [allCells_literal]
    decide
  have hlo : InInt (activeScore (playingWith pairRowBoard)) := by decide
  have hhi : activeScore (playingWith pairRowBoard)
      + (lineGains (lines Direction.Left (activeBoard (playingWith pairRowBoard)))).sum
        < 2 ^ 31 := by decide
  exact ⟨hw, hs, hlo, hhi,
    (C3_score_delta_is_sum_of_merged_values Direction.Left _ hw hs hlo hhi).1,
    by decide, by decide, by decide, by decide⟩

/-- C4: no chain merges in one move.  For every `v` with `0 < v < 2 ^ 30`
and every row index, on a board whose other rows hold cells that are not
negative and below `2 ^ 30` and with the acting player's score and its sum with
the gains of the move in the range of `int`, `moveLeft` turns the row
`[v, v, 2v, 0]` into `[2v, 2v, 0, 0]` and that row adds `2v` to the score, and
it turns `[v, v, v, v]` into `[2v, 2v, 0, 0]` and that row adds `4v`; the tile
`2v` created by the first merge does not merge with the equal tile that slides
next to it.  (The other rows add their own gains.)  The doubled value `2v` and
the new score are in the range of `int`. -/
theorem C4_no_chain_merges (g : Game) (h : WellFormed (activeBoard g)) (i : Nat)
    (hi : i < BOARD_SIZE) (v : Int) (hv : 0 < v) (hv2 : v < 2 ^ 30) (row : List Int) (gain : Int)
    (hrow : (row = [v, v, 2 * v, 0] ∧ gain = 2 * v) ∨ (row = [v, v, v, v] ∧ gain = 4 * v))
    (hg : (activeBoard g).getD i [] = row)
    (hrest : AllCells SmallTile ((activeBoard g).eraseIdx i))
    (hlo : InInt (activeScore g))
    (hhi : activeScore g + gain + (lineGains ((activeBoard g).eraseIdx i)).sum < 2 ^ 31) :
    (activeBoard (moveLeft g).1).getD i [] = [2 * v, 2 * v, 0, 0]
    ∧ activeScore (moveLeft g).1
        = activeScore g + gain + (lineGains ((activeBoard g).eraseIdx i)).sum
    ∧ InInt (2 * v) ∧ InInt (activeScore (moveLeft g).1) := by
  obtain ⟨c1, -, -, -, -⟩ := move_char Direction.Left g h
  have hs := activeScore_move Direction.Left g h
  rw [move_left] at c1 hs
  rw [lines_left] at hs
  rw [lines_left, unlines_left] at c1
  have hn : 0 ≤ (lineGains ((activeBoard g).eraseIdx i)).sum :=
    List.sum_nonneg (fun w hw => le_of_lt (lineGains_pos _
      (allCells_mono SmallTile (fun v => 0 ≤ v) (fun _ h => h.1) _ hrest) w hw))
  have key : activeScore (moveLeft g).1
      = activeScore g + gain + (lineGains ((activeBoard g).eraseIdx i)).sum := by
    rw [hs, lineGains_split _ h i hi, hg]
    rcases hrow with ⟨rfl, rfl⟩ | ⟨rfl, rfl⟩
    · rw [(refRow_pair_double v hv).2]
      simp
      omega
    · rw [(refRow_four_equal v hv).2]
      simp
      omega
  have hgain : 0 ≤ gain := by
    rcases hrow with ⟨-, rfl⟩ | ⟨-, rfl⟩ <;> omega
  refine ⟨?_, key, ?_, ?_⟩
  · rw [c1, getD_map_refRow _ h i hi, hg]
    rcases hrow with ⟨rfl, -⟩ | ⟨rfl, -⟩
    · exact (refRow_pair_double v hv).1
    · exact (refRow_four_equal v hv).1
  · unfold InInt
    omega
  · rw [key]
    unfold InInt at hlo ⊢
    omega

/-- Witness of C4 with `v = 2`: the rows `[2,2,4,0]` and `[2,2,2,2]`, both in
row 1 of an otherwise empty board. -/
theorem C4_witness :
    ((activeBoard (moveLeft (playingWith chainRowBoard)).1).getD 1 [] = [2 * 2, 2 * 2, 0, 0]
      ∧ activeScore (moveLeft (playingWith chainRowBoard)).1
        = activeScore (playingWith chainRowBoard) + 2 * 2
          + (lineGains ((activeBoard (playingWith chainRowBoard)).eraseIdx 1)).sum
      ∧ InInt (2 * 2) ∧ InInt (activeScore (moveLeft (playingWith chainRowBoard)).1))
    ∧ ((activeBoard (moveLeft (playingWith fourEqualBoard)).1).getD 1 [] = [2 * 2, 2 * 2, 0, 0]
      ∧ activeScore (moveLeft (playingWith fourEqualBoard)).1
        = activeScore (playingWith fourEqualBoard) + 4 * 2
          + (lineGains ((activeBoard (playingWith fourEqualBoard)).eraseIdx 1)).sum
      ∧ InInt (2 * 2) ∧ InInt (activeScore (moveLeft (playingWith fourEqualBoard)).1)) :=
  ⟨C4_no_chain_merges (playingWith chainRowBoard) (by decide) 1 (by decide) 2 (by decide)
      (by decide) [2, 2, 2 * 2, 0] (2 * 2) (Or.inl ⟨rfl, rfl⟩) (by decide)
      (by unfold AllCells; decide) (by decide) (by decide),
    C4_no_chain_merges (playingWith fourEqualBoard) (by decide) 1 (by decide) 2 (by decide)
      (by decide) [2, 2, 2, 2] (4 * 2) (Or.inr ⟨rfl, rfl⟩) (by decide)
      (by unfold AllCells; decide) (by decide) (by decide)⟩

/-- C6: on a board of 4 by 4 cells that are not negative and below `2 ^ 30`
(so that no doubling leaves the range of `int`), a move in any direction keeps
the sum of the sixteen cells of the active board (a merge replaces `v` and `v`
by `2v` and `0`), whatever it adds to the score, and every cell of the result
is in the range of `int`. -/
theorem C6_move_conserves_cell_sum (d : Direction) (g : Game)
    (h : WellFormed (activeBoard g)) (hs : AllCells SmallTile (activeBoard g)) :
    boardSum (activeBoard (move d g).1) = boardSum (activeBoard g)
    ∧ AllCells (fun v => 0 ≤ v ∧ InInt v) (activeBoard (move d g).1) := by
  have hl := wellFormed_lines d _ h
  refine ⟨?_, move_inInt d g h hs⟩
  rw [(move_char d g h).1, boardSum_unlines d _ (wellFormed_map_refRow _ hl),
    boardSum_map_refRow _ hl, boardSum_lines d _ h]

/-- Witness of C6: a move with two merges (the score grows by 12, the sum of
the cells stays 20). -/
theorem C6_witness :
    WellFormed (activeBoard (playingWith twoMergesBoard))
    ∧ AllCells SmallTile (activeBoard (playingWith twoMergesBoard))
    ∧ boardSum (activeBoard (move Direction.Left (playingWith twoMergesBoard)).1)
        = boardSum (activeBoard (playingWith twoMergesBoard))
    ∧ boardSum (activeBoard (playingWith twoMergesBoard)) = 20
    ∧ (move Direction.Left (playingWith twoMergesBoard)).1.score = 12 := by
  have hw : WellFormed (activeBoard (playingWith twoMergesBoard)) := by decide
  have hs : AllCells SmallTile (activeBoard (playingWith twoMergesBoard)) := by
    show AllCells SmallTile [[2, 2, 4, 4], [0, 0, 0, 0], [0, 8, 0, 0], [0, 0, 0, 0]]
    rw [allCells_literal]
    decide
  exact ⟨hw, hs, (C6_move_conserves_cell_sum Direction.Left _ hw hs).1, by decide, by decide⟩

/-! ## What `canMove` returns

`canMoveWith oob` follows `canMove` past the read of main.cpp 642 that
leaves the row; `oob i j` is the word that read finds. -/

theorem cellOr_inside (oob : Nat → Nat → Int) (b : Board) (hb : WellFormed b) (i j : Nat)
    (hi : i < BOARD_SIZE) (hj : j < BOARD_SIZE) : cellOr oob b i j = getCell b i j := by
  obtain ⟨a0, a1, a2, a3, b0, b1, b2, b3, c0, c1, c2, c3, d0, d1, d2, d3, rfl⟩ :=
    wellFormed_cells b hb
  rcases lt_four_cases i hi with rfl | rfl | rfl | rfl <;>
  rcases lt_four_cases j hj with rfl | rfl | rfl | rfl <;> rfl

theorem cellOr_past (oob : Nat → Nat → Int) (b : Board) (hb : WellFormed b) (i : Nat)
    (hi : i < BOARD_SIZE) : cellOr oob b i BOARD_SIZE = oob i BOARD_SIZE := by
  obtain ⟨a0, a1, a2, a3, b0, b1, b2, b3, c0, c1, c2, c3, d0, d1, d2, d3, rfl⟩ :=
    wellFormed_cells b hb
  rcases lt_four_cases i hi with rfl | rfl | rfl | rfl <;> rfl

theorem anyEmptyWith_iff (oob : Nat → Nat → Int) (b : Board) (l : List (Nat × Nat)) :
    anyEmptyWith oob b l = true ↔ ∃ c ∈ l, cellOr oob b c.1 c.2 = 0 := by
  induction l with
  | nil => simp [anyEmptyWith]
  | cons c rest ih =>
    obtain ⟨i, j⟩ := c
    simp only [anyEmptyWith, List.mem_cons, exists_eq_or_imp]
    by_cases h : cellOr oob b i j = 0
    · simp [h]
    · simp [h, ih]

theorem anyAdjacentWith_iff (oob : Nat → Nat → Int) (b : Board) (l : List (Nat × Nat)) :
    anyAdjacentWith oob b l = true ↔
      ∃ c ∈ l, sameNonZeroWith oob b (decide (c.2 < BOARD_SIZE - 1)) c.1 c.2 c.1 (c.2 + 1) = true
        ∨ sameNonZeroWith oob b (decide (c.1 < BOARD_SIZE - 1)) c.1 c.2 c.1 (c.2 + 1) = true
        ∨ sameNonZeroWith oob b (decide (c.1 < BOARD_SIZE - 1)) c.1 c.2 (c.1 + 1) c.2 = true := by
  induction l with
  | nil => simp [anyAdjacentWith]
  | cons c rest ih =>
    obtain ⟨i, j⟩ := c
    simp only [anyAdjacentWith, List.mem_cons, exists_eq_or_imp]
    by_cases h1 : sameNonZeroWith oob b (decide (j < BOARD_SIZE - 1)) i j i (j + 1) = true
    · simp [h1]
    · by_cases h2 : sameNonZeroWith oob b (decide (i < BOARD_SIZE - 1)) i j i (j + 1) = true
      · simp [h2]
      · by_cases h3 : sameNonZeroWith oob b (decide (i < BOARD_SIZE - 1)) i j (i + 1) j = true
        · simp [h3]
        · simp [h1, h2, h3, ih]

theorem sameNonZeroWith_iff (oob : Nat → Nat → Int) (b : Board) (guard : Bool)
    (i j i2 j2 : Nat) :
    sameNonZeroWith oob b guard i j i2 j2 = true
      ↔ guard = true ∧ cellOr oob b i j = cellOr oob b i2 j2 ∧ cellOr oob b i j ≠ 0 := by
  unfold sameNonZeroWith
  cases guard <;> simp

/-- On a board of 4 by 4 cells `canMove` returns true exactly if a cell is
empty, or two neighbours hold the same non-zero value, or the word after one of
the rows 0 to 2 equals the non-zero last cell of that row. -/
theorem canMoveWith_iff (oob : Nat → Nat → Int) (b : Board) (hb : WellFormed b) :
    canMoveWith oob b = true ↔ HasEmpty b ∨ EqualNeighbours b ∨ StrayHit oob b := by
  have hin : ∀ c ∈ allCells, cellOr oob b c.1 c.2 = getCell b c.1 c.2 :=
    fun c hc => cellOr_inside oob b hb c.1 c.2 (mem_allCells c hc).1 (mem_allCells c hc).2
  have hE : anyEmptyWith oob b allCells = true ↔ HasEmpty b := by
    rw [anyEmptyWith_iff]
    unfold HasEmpty
    constructor
    · rintro ⟨c, hc, h⟩
      exact ⟨c, hc, by rw [← hin c hc]; exact h⟩
    · rintro ⟨c, hc, h⟩
      exact ⟨c, hc, by rw [hin c hc]; exact h⟩
  have hA : anyAdjacentWith oob b allCells = true ↔ EqualNeighbours b ∨ StrayHit oob b := by
    rw [anyAdjacentWith_iff]
    simp only [sameNonZeroWith_iff, decide_eq_true_eq]
    constructor
    · rintro ⟨c, hc, h⟩
      obtain ⟨h1, h2⟩ := mem_allCells c hc
      simp only [BOARD_SIZE] at h1 h2
      rcases h with ⟨g, e, nz⟩ | ⟨g, e, nz⟩ | ⟨g, e, nz⟩
      · simp only [BOARD_SIZE] at g
        rw [hin c hc, cellOr_inside oob b hb c.1 (c.2 + 1) (by simp only [BOARD_SIZE]; omega)
          (by simp only [BOARD_SIZE]; omega)] at e
        rw [hin c hc] at nz
        exact Or.inl ⟨c, hc, nz, Or.inl ⟨by simp only [BOARD_SIZE]; omega, e⟩⟩
      · simp only [BOARD_SIZE] at g
        by_cases h3 : c.2 + 1 < 4
        · rw [hin c hc, cellOr_inside oob b hb c.1 (c.2 + 1) (by simp only [BOARD_SIZE]; omega)
            (by simp only [BOARD_SIZE]; omega)] at e
          rw [hin c hc] at nz
          exact Or.inl ⟨c, hc, nz, Or.inl ⟨by simp only [BOARD_SIZE]; omega, e⟩⟩
        · have h4 : c.2 = 3 := by omega
          have e' := e
          rw [hin c hc, h4] at e'
          have hp := cellOr_past oob b hb c.1 (by simp only [BOARD_SIZE]; omega)
          simp only [BOARD_SIZE] at hp
          rw [show (3 : Nat) + 1 = 4 from rfl, hp] at e'
          rw [hin c hc, h4] at nz
          refine Or.inr ⟨c.1, List.mem_range.mpr (by simp only [BOARD_SIZE]; omega), ?_, ?_⟩
          · simpa only [BOARD_SIZE] using nz
          · simpa only [BOARD_SIZE] using e'
      · simp only [BOARD_SIZE] at g
        rw [hin c hc, cellOr_inside oob b hb (c.1 + 1) c.2 (by simp only [BOARD_SIZE]; omega)
          (by simp only [BOARD_SIZE]; omega)] at e
        rw [hin c hc] at nz
        exact Or.inl ⟨c, hc, nz, Or.inr ⟨by simp only [BOARD_SIZE]; omega, e⟩⟩
    · rintro (⟨c, hc, nz, h⟩ | ⟨i, hi, nz, e⟩)
      · obtain ⟨h1, h2⟩ := mem_allCells c hc
        refine ⟨c, hc, ?_⟩
        rcases h with ⟨g, e⟩ | ⟨g, e⟩
        · left
          refine ⟨by simp only [BOARD_SIZE] at g ⊢; omega, ?_, by rw [hin c hc]; exact nz⟩
          rw [hin c hc, cellOr_inside oob b hb c.1 (c.2 + 1) h1 g]
          exact e
        · right
          right
          refine ⟨by simp only [BOARD_SIZE] at g ⊢; omega, ?_, by rw [hin c hc]; exact nz⟩
          rw [hin c hc, cellOr_inside oob b hb (c.1 + 1) c.2 g h2]
          exact e
      · have hi' := List.mem_range.mp hi
        simp only [BOARD_SIZE] at hi' nz e
        have hc : (i, 3) ∈ allCells :=
          allCells_mem i 3 (by simp only [BOARD_SIZE]; omega) (by decide)
        refine ⟨(i, 3), hc, Or.inr (Or.inl ⟨by simp only [BOARD_SIZE]; omega, ?_, ?_⟩)⟩
        · have hp := cellOr_past oob b hb i (by simp only [BOARD_SIZE]; omega)
          simp only [BOARD_SIZE] at hp
          show cellOr oob b i 3 = cellOr oob b i (3 + 1)
          rw [show (3 : Nat) + 1 = 4 from rfl, hp, hin (i, 3) hc]
          exact e
        · rw [hin (i, 3) hc]
          exact nz
  unfold canMoveWith
  by_cases h : anyEmptyWith oob b allCells = true
  · rw [if_pos h]
    exact ⟨fun _ => Or.inl (hE.mp h), fun _ => rfl⟩
  · rw [if_neg h, hA]
    constructor
    · exact fun h' => Or.inr h'
    · rintro (h' | h')
      · exact absurd (hE.mpr h') h
      · exact h'

/-! ## Claims about `canMove` -/

/-- A line is its own reference row exactly if its tiles stand before its
empty cells and no tile equals its successor. -/
theorem refRow_fixed_iff (a b c d : Int) :
    refRow [a, b, c, d] = [a, b, c, d]
      ↔ (b ≠ 0 → a ≠ 0) ∧ (c ≠ 0 → b ≠ 0) ∧ (d ≠ 0 → c ≠ 0)
        ∧ (a ≠ 0 → a ≠ b) ∧ (b ≠ 0 → b ≠ c) ∧ (c ≠ 0 → c ≠ d) := by
  by_cases ha : a = 0 <;> by_cases hb : b = 0 <;> by_cases hc : c = 0 <;> by_cases hd : d = 0 <;>
  simp [refRow, tiles, padTo, mergePairs, BOARD_SIZE, ha, hb, hc, hd] <;>
  (try split_ifs) <;> simp_all

theorem moved_false_iff (d : Direction) (g : Game) (h : WellFormed (activeBoard g)) :
    (move d g).2 = false ↔ (lines d (activeBoard g)).map refRow = lines d (activeBoard g) := by
  rw [(move_char d g h).2.2.1]
  simp

/-- If no move moves anything on a board with a tile, the board is full and
no two neighbours are equal. -/
theorem stuck_forward (a0 a1 a2 a3 b0 b1 b2 b3 c0 c1 c2 c3 d0 d1 d2 d3 : Int)
    (hL : ([[a0, a1, a2, a3], [b0, b1, b2, b3], [c0, c1, c2, c3], [d0, d1, d2, d3]] : Board).map refRow
      = [[a0, a1, a2, a3], [b0, b1, b2, b3], [c0, c1, c2, c3], [d0, d1, d2, d3]])
    (hR : (lines Direction.Right [[a0, a1, a2, a3], [b0, b1, b2, b3], [c0, c1, c2, c3], [d0, d1, d2, d3]]).map refRow
      = lines Direction.Right [[a0, a1, a2, a3], [b0, b1, b2, b3], [c0, c1, c2, c3], [d0, d1, d2, d3]])
    (hU : (lines Direction.Up [[a0, a1, a2, a3], [b0, b1, b2, b3], [c0, c1, c2, c3], [d0, d1, d2, d3]]).map refRow
      = lines Direction.Up [[a0, a1, a2, a3], [b0, b1, b2, b3], [c0, c1, c2, c3], [d0, d1, d2, d3]])
    (hD : (lines Direction.Down [[a0, a1, a2, a3], [b0, b1, b2, b3], [c0, c1, c2, c3], [d0, d1, d2, d3]]).map refRow
      = lines Direction.Down [[a0, a1, a2, a3], [b0, b1, b2, b3], [c0, c1, c2, c3], [d0, d1, d2, d3]])
    (hnz : ∃ c ∈ allCells,
      getCell [[a0, a1, a2, a3], [b0, b1, b2, b3], [c0, c1, c2, c3], [d0, d1, d2, d3]] c.1 c.2 ≠ 0) :
    ¬ HasEmpty [[a0, a1, a2, a3], [b0, b1, b2, b3], [c0, c1, c2, c3], [d0, d1, d2, d3]]
    ∧ ¬ EqualNeighbours [[a0, a1, a2, a3], [b0, b1, b2, b3], [c0, c1, c2, c3], [d0, d1, d2, d3]] := by
  simp only [List.map, List.cons.injEq, and_true, refRow_fixed_iff] at hL
  simp only [lines, mirror, transpose, transposeWith, BOARD_SIZE, List.range, List.range.loop,
    List.map, List.getD_cons_zero, List.getD_cons_succ, List.reverse_cons, List.reverse_nil,
    List.nil_append, List.cons_append, List.cons.injEq, and_true, refRow_fixed_iff] at hR hU hD
  obtain ⟨⟨L0_1, L0_2, L0_3, LE0_0, LE0_1, LE0_2⟩, ⟨L1_1, L1_2, L1_3, LE1_0, LE1_1, LE1_2⟩, ⟨L2_1, L2_2, L2_3, LE2_0, LE2_1, LE2_2⟩, ⟨L3_1, L3_2, L3_3, LE3_0, LE3_1, LE3_2⟩⟩ := hL
  obtain ⟨⟨R0_1, R0_2, R0_3, RE0_0, RE0_1, RE0_2⟩, ⟨R1_1, R1_2, R1_3, RE1_0, RE1_1, RE1_2⟩, ⟨R2_1, R2_2, R2_3, RE2_0, RE2_1, RE2_2⟩, ⟨R3_1, R3_2, R3_3, RE3_0, RE3_1, RE3_2⟩⟩ := hR
  obtain ⟨⟨U0_1, U0_2, U0_3, UE0_0, UE0_1, UE0_2⟩, ⟨U1_1, U1_2, U1_3, UE1_0, UE1_1, UE1_2⟩, ⟨U2_1, U2_2, U2_3, UE2_0, UE2_1, UE2_2⟩, ⟨U3_1, U3_2, U3_3, UE3_0, UE3_1, UE3_2⟩⟩ := hU
  obtain ⟨⟨D0_1, D0_2, D0_3, DE0_0, DE0_1, DE0_2⟩, ⟨D1_1, D1_2, D1_3, DE1_0, DE1_1, DE1_2⟩, ⟨D2_1, D2_2, D2_3, DE2_0, DE2_1, DE2_2⟩, ⟨D3_1, D3_2, D3_3, DE3_0, DE3_1, DE3_2⟩⟩ := hD
  have n00 : a0 ≠ 0 := by
    obtain ⟨c, hc, h⟩ := hnz
    rw [allCells_eq] at hc
    simp only [List.mem_cons, List.mem_singleton, List.not_mem_nil, or_false] at hc
    rcases hc with rfl | rfl | rfl | rfl | rfl | rfl | rfl | rfl | rfl | rfl | rfl | rfl | rfl
      | rfl | rfl | rfl
    · exact h
    · exact (L0_1 h)
    · exact (L0_1 (L0_2 h))
    · exact (L0_1 (L0_2 (L0_3 h)))
    · exact (U0_1 h)
    · exact (U0_1 (L1_1 h))
    · exact (U0_1 (L1_1 (L1_2 h)))
    · exact (U0_1 (L1_1 (L1_2 (L1_3 h))))
    · exact (U0_1 (U0_2 h))
    · exact (U0_1 (U0_2 (L2_1 h)))
    · exact (U0_1 (U0_2 (L2_1 (L2_2 h))))
    · exact (U0_1 (U0_2 (L2_1 (L2_2 (L2_3 h)))))
    · exact (U0_1 (U0_2 (U0_3 h)))
    · exact (U0_1 (U0_2 (U0_3 (L3_1 h))))
    · exact (U0_1 (U0_2 (U0_3 (L3_1 (L3_2 h)))))
    · exact (U0_1 (U0_2 (U0_3 (L3_1 (L3_2 (L3_3 h))))))
  have n01 : a1 ≠ 0 := R0_3 n00
  have n02 : a2 ≠ 0 := R0_2 n01
  have n03 : a3 ≠ 0 := R0_1 n02
  have n10 : b0 ≠ 0 := (D0_3 n00)
  have n11 : b1 ≠ 0 := R1_3 n10
  have n12 : b2 ≠ 0 := R1_2 n11
  have n13 : b3 ≠ 0 := R1_1 n12
  have n20 : c0 ≠ 0 := (D0_2 (D0_3 n00))
  have n21 : c1 ≠ 0 := R2_3 n20
  have n22 : c2 ≠ 0 := R2_2 n21
  have n23 : c3 ≠ 0 := R2_1 n22
  have n30 : d0 ≠ 0 := (D0_1 (D0_2 (D0_3 n00)))
  have n31 : d1 ≠ 0 := R3_3 n30
  have n32 : d2 ≠ 0 := R3_2 n31
  have n33 : d3 ≠ 0 := R3_1 n32
  have h00 : a0 ≠ a1 := LE0_0 n00
  have h01 : a1 ≠ a2 := LE0_1 n01
  have h02 : a2 ≠ a3 := LE0_2 n02
  have h10 : b0 ≠ b1 := LE1_0 n10
  have h11 : b1 ≠ b2 := LE1_1 n11
  have h12 : b2 ≠ b3 := LE1_2 n12
  have h20 : c0 ≠ c1 := LE2_0 n20
  have h21 : c1 ≠ c2 := LE2_1 n21
  have h22 : c2 ≠ c3 := LE2_2 n22
  have h30 : d0 ≠ d1 := LE3_0 n30
  have h31 : d1 ≠ d2 := LE3_1 n31
  have h32 : d2 ≠ d3 := LE3_2 n32
  have v00 : a0 ≠ b0 := UE0_0 n00
  have v01 : a1 ≠ b1 := UE1_0 n01
  have v02 : a2 ≠ b2 := UE2_0 n02
  have v03 : a3 ≠ b3 := UE3_0 n03
  have v10 : b0 ≠ c0 := UE0_1 n10
  have v11 : b1 ≠ c1 := UE1_1 n11
  have v12 : b2 ≠ c2 := UE2_1 n12
  have v13 : b3 ≠ c3 := UE3_1 n13
  have v20 : c0 ≠ d0 := UE0_2 n20
  have v21 : c1 ≠ d1 := UE1_2 n21
  have v22 : c2 ≠ d2 := UE2_2 n22
  have v23 : c3 ≠ d3 := UE3_2 n23
  constructor
  · rintro ⟨c, hc, h⟩
    rw [allCells_eq] at hc
    simp only [List.mem_cons, List.mem_singleton, List.not_mem_nil, or_false] at hc
    rcases hc with rfl | rfl | rfl | rfl | rfl | rfl | rfl | rfl | rfl | rfl | rfl | rfl | rfl
      | rfl | rfl | rfl
    · exact n00 h
    · exact n01 h
    · exact n02 h
    · exact n03 h
    · exact n10 h
    · exact n11 h
    · exact n12 h
    · exact n13 h
    · exact n20 h
    · exact n21 h
    · exact n22 h
    · exact n23 h
    · exact n30 h
    · exact n31 h
    · exact n32 h
    · exact n33 h
  · rintro ⟨c, hc, -, h⟩
    rw [allCells_eq] at hc
    simp only [List.mem_cons, List.mem_singleton, List.not_mem_nil, or_false] at hc
    rcases hc with rfl | rfl | rfl | rfl | rfl | rfl | rfl | rfl | rfl | rfl | rfl | rfl | rfl
      | rfl | rfl | rfl
    · rcases h with ⟨g, e⟩ | ⟨g, e⟩
      · exact h00 e
      · exact v00 e
    · rcases h with ⟨g, e⟩ | ⟨g, e⟩
      · exact h01 e
      · exact v01 e
    · rcases h with ⟨g, e⟩ | ⟨g, e⟩
      · exact h02 e
      · exact v02 e
    · rcases h with ⟨g, e⟩ | ⟨g, e⟩
      · exact absurd g (by decide)
      · exact v03 e
    · rcases h with ⟨g, e⟩ | ⟨g, e⟩
      · exact h10 e
      · exact v10 e
    · rcases h with ⟨g, e⟩ | ⟨g, e⟩
      · exact h11 e
      · exact v11 e
    · rcases h with ⟨g, e⟩ | ⟨g, e⟩
      · exact h12 e
      · exact v12 e
    · rcases h with ⟨g, e⟩ | ⟨g, e⟩
      · exact absurd g (by decide)
      · exact v13 e
    · rcases h with ⟨g, e⟩ | ⟨g, e⟩
      · exact h20 e
      · exact v20 e
    · rcases h with ⟨g, e⟩ | ⟨g, e⟩
      · exact h21 e
      · exact v21 e
    · rcases h with ⟨g, e⟩ | ⟨g, e⟩
      · exact h22 e
      · exact v22 e
    · rcases h with ⟨g, e⟩ | ⟨g, e⟩
      · exact absurd g (by decide)
      · exact v23 e
    · rcases h with ⟨g, e⟩ | ⟨g, e⟩
      · exact h30 e
      · exact absurd g (by decide)
    · rcases h with ⟨g, e⟩ | ⟨g, e⟩
      · exact h31 e
      · exact absurd g (by decide)
    · rcases h with ⟨g, e⟩ | ⟨g, e⟩
      · exact h32 e
      · exact absurd g (by decide)
    · rcases h with ⟨g, e⟩ | ⟨g, e⟩
      · exact absurd g (by decide)
      · exact absurd g (by decide)

/-- On a full board on which no two neighbours are equal no move moves
anything. -/
theorem stuck_backward (a0 a1 a2 a3 b0 b1 b2 b3 c0 c1 c2 c3 d0 d1 d2 d3 : Int)
    (hE : ¬ HasEmpty [[a0, a1, a2, a3], [b0, b1, b2, b3], [c0, c1, c2, c3], [d0, d1, d2, d3]])
    (hN : ¬ EqualNeighbours [[a0, a1, a2, a3], [b0, b1, b2, b3], [c0, c1, c2, c3], [d0, d1, d2, d3]])
    (d : Direction) :
    (lines d [[a0, a1, a2, a3], [b0, b1, b2, b3], [c0, c1, c2, c3], [d0, d1, d2, d3]]).map refRow
      = lines d [[a0, a1, a2, a3], [b0, b1, b2, b3], [c0, c1, c2, c3], [d0, d1, d2, d3]] := by
  have n00 : a0 ≠ 0 :=
    fun h => hE ⟨(0, 0), allCells_mem 0 0 (by decide) (by decide), h⟩
  have n01 : a1 ≠ 0 :=
    fun h => hE ⟨(0, 1), allCells_mem 0 1 (by decide) (by decide), h⟩
  have n02 : a2 ≠ 0 :=
    fun h => hE ⟨(0, 2), allCells_mem 0 2 (by decide) (by decide), h⟩
  have n03 : a3 ≠ 0 :=
    fun h => hE ⟨(0, 3), allCells_mem 0 3 (by decide) (by decide), h⟩
  have n10 : b0 ≠ 0 :=
    fun h => hE ⟨(1, 0), allCells_mem 1 0 (by decide) (by decide), h⟩
  have n11 : b1 ≠ 0 :=
    fun h => hE ⟨(1, 1), allCells_mem 1 1 (by decide) (by decide), h⟩
  have n12 : b2 ≠ 0 :=
    fun h => hE ⟨(1, 2), allCells_mem 1 2 (by decide) (by decide), h⟩
  have n13 : b3 ≠ 0 :=
    fun h => hE ⟨(1, 3), allCells_mem 1 3 (by decide) (by decide), h⟩
  have n20 : c0 ≠ 0 :=
    fun h => hE ⟨(2, 0), allCells_mem 2 0 (by decide) (by decide), h⟩
  have n21 : c1 ≠ 0 :=
    fun h => hE ⟨(2, 1), allCells_mem 2 1 (by decide) (by decide), h⟩
  have n22 : c2 ≠ 0 :=
    fun h => hE ⟨(2, 2), allCells_mem 2 2 (by decide) (by decide), h⟩
  have n23 : c3 ≠ 0 :=
    fun h => hE ⟨(2, 3), allCells_mem 2 3 (by decide) (by decide), h⟩
  have n30 : d0 ≠ 0 :=
    fun h => hE ⟨(3, 0), allCells_mem 3 0 (by decide) (by decide), h⟩
  have n31 : d1 ≠ 0 :=
    fun h => hE ⟨(3, 1), allCells_mem 3 1 (by decide) (by decide), h⟩
  have n32 : d2 ≠ 0 :=
    fun h => hE ⟨(3, 2), allCells_mem 3 2 (by decide) (by decide), h⟩
  have n33 : d3 ≠ 0 :=
    fun h => hE ⟨(3, 3), allCells_mem 3 3 (by decide) (by decide), h⟩
  have h00 : a0 ≠ a1 :=
    fun e => hN ⟨(0, 0), allCells_mem 0 0 (by decide) (by decide), n00, Or.inl ⟨by decide, e⟩⟩
  have h01 : a1 ≠ a2 :=
    fun e => hN ⟨(0, 1), allCells_mem 0 1 (by decide) (by decide), n01, Or.inl ⟨by decide, e⟩⟩
  have h02 : a2 ≠ a3 :=
    fun e => hN ⟨(0, 2), allCells_mem 0 2 (by decide) (by decide), n02, Or.inl ⟨by decide, e⟩⟩
  have h10 : b0 ≠ b1 :=
    fun e => hN ⟨(1, 0), allCells_mem 1 0 (by decide) (by decide), n10, Or.inl ⟨by decide, e⟩⟩
  have h11 : b1 ≠ b2 :=
    fun e => hN ⟨(1, 1), allCells_mem 1 1 (by decide) (by decide), n11, Or.inl ⟨by decide, e⟩⟩
  have h12 : b2 ≠ b3 :=
    fun e => hN ⟨(1, 2), allCells_mem 1 2 (by decide) (by decide), n12, Or.inl ⟨by decide, e⟩⟩
  have h20 : c0 ≠ c1 :=
    fun e => hN ⟨(2, 0), allCells_mem 2 0 (by decide) (by decide), n20, Or.inl ⟨by decide, e⟩⟩
  have h21 : c1 ≠ c2 :=
    fun e => hN ⟨(2, 1), allCells_mem 2 1 (by decide) (by decide), n21, Or.inl ⟨by decide, e⟩⟩
  have h22 : c2 ≠ c3 :=
    fun e => hN ⟨(2, 2), allCells_mem 2 2 (by decide) (by decide), n22, Or.inl ⟨by decide, e⟩⟩
  have h30 : d0 ≠ d1 :=
    fun e => hN ⟨(3, 0), allCells_mem 3 0 (by decide) (by decide), n30, Or.inl ⟨by decide, e⟩⟩
  have h31 : d1 ≠ d2 :=
    fun e => hN ⟨(3, 1), allCells_mem 3 1 (by decide) (by decide), n31, Or.inl ⟨by decide, e⟩⟩
  have h32 : d2 ≠ d3 :=
    fun e => hN ⟨(3, 2), allCells_mem 3 2 (by decide) (by decide), n32, Or.inl ⟨by decide, e⟩⟩
  have v00 : a0 ≠ b0 :=
    fun e => hN ⟨(0, 0), allCells_mem 0 0 (by decide) (by decide), n00, Or.inr ⟨by decide, e⟩⟩
  have v01 : a1 ≠ b1 :=
    fun e => hN ⟨(0, 1), allCells_mem 0 1 (by decide) (by decide), n01, Or.inr ⟨by decide, e⟩⟩
  have v02 : a2 ≠ b2 :=
    fun e => hN ⟨(0, 2), allCells_mem 0 2 (by decide) (by decide), n02, Or.inr ⟨by decide, e⟩⟩
  have v03 : a3 ≠ b3 :=
    fun e => hN ⟨(0, 3), allCells_mem 0 3 (by decide) (by decide), n03, Or.inr ⟨by decide, e⟩⟩
  have v10 : b0 ≠ c0 :=
    fun e => hN ⟨(1, 0), allCells_mem 1 0 (by decide) (by decide), n10, Or.inr ⟨by decide, e⟩⟩
  have v11 : b1 ≠ c1 :=
    fun e => hN ⟨(1, 1), allCells_mem 1 1 (by decide) (by decide), n11, Or.inr ⟨by decide, e⟩⟩
  have v12 : b2 ≠ c2 :=
    fun e => hN ⟨(1, 2), allCells_mem 1 2 (by decide) (by decide), n12, Or.inr ⟨by decide, e⟩⟩
  have v13 : b3 ≠ c3 :=
    fun e => hN ⟨(1, 3), allCells_mem 1 3 (by decide) (by decide), n13, Or.inr ⟨by decide, e⟩⟩
  have v20 : c0 ≠ d0 :=
    fun e => hN ⟨(2, 0), allCells_mem 2 0 (by decide) (by decide), n20, Or.inr ⟨by decide, e⟩⟩
  have v21 : c1 ≠ d1 :=
    fun e => hN ⟨(2, 1), allCells_mem 2 1 (by decide) (by decide), n21, Or.inr ⟨by decide, e⟩⟩
  have v22 : c2 ≠ d2 :=
    fun e => hN ⟨(2, 2), allCells_mem 2 2 (by decide) (by decide), n22, Or.inr ⟨by decide, e⟩⟩
  have v23 : c3 ≠ d3 :=
    fun e => hN ⟨(2, 3), allCells_mem 2 3 (by decide) (by decide), n23, Or.inr ⟨by decide, e⟩⟩
  cases d
  · simp only [lines, mirror, transpose, transposeWith, BOARD_SIZE, List.range, List.range.loop,
    List.map, List.getD_cons_zero, List.getD_cons_succ, List.reverse_cons, List.reverse_nil,
    List.nil_append, List.cons_append, List.cons.injEq, and_true, refRow_fixed_iff]
    exact ⟨⟨fun _ => n00, fun _ => n01, fun _ => n02, fun _ => h00, fun _ => h01, fun _ => h02⟩,
      ⟨fun _ => n10, fun _ => n11, fun _ => n12, fun _ => h10, fun _ => h11, fun _ => h12⟩,
      ⟨fun _ => n20, fun _ => n21, fun _ => n22, fun _ => h20, fun _ => h21, fun _ => h22⟩,
      ⟨fun _ => n30, fun _ => n31, fun _ => n32, fun _ => h30, fun _ => h31, fun _ => h32⟩⟩
  · simp only [lines, mirror, transpose, transposeWith, BOARD_SIZE, List.range, List.range.loop,
    List.map, List.getD_cons_zero, List.getD_cons_succ, List.reverse_cons, List.reverse_nil,
    List.nil_append, List.cons_append, List.cons.injEq, and_true, refRow_fixed_iff]
    exact ⟨⟨fun _ => n03, fun _ => n02, fun _ => n01, fun _ => h02.symm, fun _ => h01.symm, fun _ => h00.symm⟩,
      ⟨fun _ => n13, fun _ => n12, fun _ => n11, fun _ => h12.symm, fun _ => h11.symm, fun _ => h10.symm⟩,
      ⟨fun _ => n23, fun _ => n22, fun _ => n21, fun _ => h22.symm, fun _ => h21.symm, fun _ => h20.symm⟩,
      ⟨fun _ => n33, fun _ => n32, fun _ => n31, fun _ => h32.symm, fun _ => h31.symm, fun _ => h30.symm⟩⟩
  · simp only [lines, mirror, transpose, transposeWith, BOARD_SIZE, List.range, List.range.loop,
    List.map, List.getD_cons_zero, List.getD_cons_succ, List.reverse_cons, List.reverse_nil,
    List.nil_append, List.cons_append, List.cons.injEq, and_true, refRow_fixed_iff]
    exact ⟨⟨fun _ => n00, fun _ => n10, fun _ => n20, fun _ => v00, fun _ => v10, fun _ => v20⟩,
      ⟨fun _ => n01, fun _ => n11, fun _ => n21, fun _ => v01, fun _ => v11, fun _ => v21⟩,
      ⟨fun _ => n02, fun _ => n12, fun _ => n22, fun _ => v02, fun _ => v12, fun _ => v22⟩,
      ⟨fun _ => n03, fun _ => n13, fun _ => n23, fun _ => v03, fun _ => v13, fun _ => v23⟩⟩
  · simp only [lines, mirror, transpose, transposeWith, BOARD_SIZE, List.range, List.range.loop,
    List.map, List.getD_cons_zero, List.getD_cons_succ, List.reverse_cons, List.reverse_nil,
    List.nil_append, List.cons_append, List.cons.injEq, and_true, refRow_fixed_iff]
    exact ⟨⟨fun _ => n30, fun _ => n20, fun _ => n10, fun _ => v20.symm, fun _ => v10.symm, fun _ => v00.symm⟩,
      ⟨fun _ => n31, fun _ => n21, fun _ => n11, fun _ => v21.symm, fun _ => v11.symm, fun _ => v01.symm⟩,
      ⟨fun _ => n32, fun _ => n22, fun _ => n12, fun _ => v22.symm, fun _ => v12.symm, fun _ => v02.symm⟩,
      ⟨fun _ => n33, fun _ => n23, fun _ => n13, fun _ => v23.symm, fun _ => v13.symm, fun _ => v03.symm⟩⟩

/-- On a board of 4 by 4 cells with at least one tile, none of the four
moves moves anything exactly if the board is full and no two neighbours are
equal. -/
theorem stuck_iff (g : Game) (hw : WellFormed (activeBoard g))
    (hnz : ∃ c ∈ allCells, getCell (activeBoard g) c.1 c.2 ≠ 0) :
    (∀ d : Direction, (move d g).2 = false)
      ↔ ¬ HasEmpty (activeBoard g) ∧ ¬ EqualNeighbours (activeBoard g) := by
  have hm := fun d => moved_false_iff d g hw
  obtain ⟨a0, a1, a2, a3, b0, b1, b2, b3, c0, c1, c2, c3, d0, d1, d2, d3, hb⟩ :=
    wellFormed_cells (activeBoard g) hw
  rw [hb] at hm hnz ⊢
  constructor
  · intro h
    exact stuck_forward a0 a1 a2 a3 b0 b1 b2 b3 c0 c1 c2 c3 d0 d1 d2 d3
      ((hm Direction.Left).mp (h Direction.Left)) ((hm Direction.Right).mp (h Direction.Right))
      ((hm Direction.Up).mp (h Direction.Up)) ((hm Direction.Down).mp (h Direction.Down)) hnz
  · intro h d
    exact (hm d).mpr (stuck_backward a0 a1 a2 a3 b0 b1 b2 b3 c0 c1 c2 c3 d0 d1 d2 d3 h.1 h.2 d)

/-- A move that reports `moved` and merged no pair of tiles makes
`createMoveAnimations` produce at least one event, and `animating` is true
when the move function returns. -/
theorem move_without_merge_starts_playback (d : Direction) (g : Game)
    (hw : WellFormed (activeBoard g)) (hp : WellFormed (activePrevious g))
    (hm : (move d g).2 = true) (hq : (moveAcc d g).merged = false) :
    activeAnimations (move d g).1 ≠ [] ∧ (move d g).1.animating = true := by
  obtain ⟨e1, e2, -⟩ := move_events d g hw hp hm
  obtain ⟨c1, -, c3, c4, -⟩ := move_char d g hw
  rw [c3, decide_eq_true_eq] at hm
  rw [c4] at hq
  have hg : lineGains (lines d (activeBoard g)) = [] := by
    cases h : lineGains (lines d (activeBoard g)) with
    | nil => rfl
    | cons x t => rw [h] at hq; simp at hq
  have hne := slide_has_event d (activeBoard g) hw hg hm
  rw [← c1] at hne
  rw [e1, e2]
  refine ⟨hne, ?_⟩
  cases h : (reconcile (activeBoard (move d g).1) (activeBoard g)).anims with
  | nil => exact absurd h hne
  | cons x t => rfl

/-- C25 (defect in the code): an effective move can leave playback off.
`moveLeft` on the row `0 2 2 0` merges the two tiles into a 4 at (0,0) and
reports `moved`; the cell (0,0) was empty before, so the doubling test of the
merge pass (main.cpp 769) fails for it, and no cell of the previous board
holds a 4, so the slide pass finds no source: `createMoveAnimations` produces
no event and sets `animating = false` (main.cpp 843).  The key handler then
spawns a tile at (0,1) and records it in `newTiles`; since `animating` is
false the loop of `run` never calls `updateAnimations`, so the entry stays in
`newTiles` in every later pass without a key. -/
theorem C25_effective_move_without_playback :
    (moveLeft (playingWith movingPairBoard)).2 = true
    ∧ (moveLeft (playingWith movingPairBoard)).1.board
        = [[4, 0, 0, 0], [0, 0, 0, 0], [0, 0, 0, 0], [0, 0, 0, 0]]
    ∧ (moveLeft (playingWith movingPairBoard)).1.previousBoard = movingPairBoard
    ∧ (moveLeft (playingWith movingPairBoard)).1.animations = []
    ∧ (moveLeft (playingWith movingPairBoard)).1.animating = false
    ∧ afterPairKey.board = [[4, 2, 0, 0], [0, 0, 0, 0], [0, 0, 0, 0], [0, 0, 0, 0]]
    ∧ afterPairKey.newTiles = [(0, 1)]
    ∧ afterPairKey.animations = []
    ∧ afterPairKey.animating = false
    ∧ (∀ timeUp : Bool,
        (runIteration (fun _ _ => 0) [] timeUp afterPairKey).1 = afterPairKey) := by
  refine ⟨by decide, by decide, by decide, by decide, by decide, by decide, by decide,
    by decide, by decide, ?_⟩
  intro timeUp
  cases timeUp <;> decide

/-! ## The best score in multiplayer -/

/-- C28 (defect in the code): in the phase `MULTIPLAYER`, on a board of 4 by
4 cells that are not negative and below `2 ^ 30`, with the acting player's
score and its sum with the gains of the move in the range of `int`, a move of
player two in any direction never changes `bestScore`, but a move of player
one that changes player one's score sets `bestScore` to the larger of its old
value and player one's new score: the score update of the move functions
(main.cpp 891-898) tests only for player two in multiplayer, and player one's
multiplayer moves take the branch written for single-player play. -/
theorem C28_player_one_raises_bestScore_in_multiplayer (d : Direction) (g : Game)
    (hs : g.currentState = GameState.MULTIPLAYER) (hw : WellFormed (activeBoard g))
    (hsm : AllCells SmallTile (activeBoard g)) (hlo : InInt (activeScore g))
    (hhi : activeScore g + (lineGains (lines d (activeBoard g))).sum < 2 ^ 31) :
    (g.currentPlayer = PlayerTurn.PLAYER_TWO → (move d g).1.bestScore = g.bestScore)
    ∧ (g.currentPlayer = PlayerTurn.PLAYER_ONE →
        (move d g).1.bestScore
          = (if (move d g).1.score = g.score then g.bestScore
             else max g.bestScore (move d g).1.score))
    ∧ InInt (activeScore (move d g).1) := by
  obtain ⟨-, c2, -, -, -⟩ := move_char d g hw
  have hnn : AllCells (fun v => 0 ≤ v) (activeBoard g) :=
    allCells_mono SmallTile (fun v => 0 ≤ v) (fun _ h => h.1) _ hsm
  refine ⟨?_, ?_, ?_⟩
  · intro hp
    have hp2 : p2Active g = true := by simp [p2Active, hs, hp]
    exact ((move_other_scores d g hw).1 hp2).2
  · intro hp
    have hp2 : p2Active g = false := by simp [p2Active, hs, hp]
    have hpos := lineGains_pos _ (allCells_lines _ d _ hw hnn)
    obtain ⟨a1, a2⟩ := applyGains_false_best _ hpos ⟨g.score, g.scoreP2, g.bestScore⟩
    rw [hp2] at c2
    have e1 := congrArg Scores.score c2
    have e3 := congrArg Scores.bestScore c2
    simp only at e1 e3 a1 a2
    rw [e3, a2, e1, a1]
    by_cases hg : lineGains (lines d (activeBoard g)) = []
    · simp [hg]
    · have hsum : 0 < (lineGains (lines d (activeBoard g))).sum := by
        cases hl : lineGains (lines d (activeBoard g)) with
        | nil => exact absurd hl hg
        | cons v rest =>
          rw [hl] at hpos
          have h1 := hpos v (List.mem_cons_self _ _)
          have h2 : 0 ≤ rest.sum :=
            List.sum_nonneg (fun w hw => le_of_lt (hpos w (List.mem_cons_of_mem _ hw)))
          simp only [List.sum_cons]
          omega
      rw [if_neg hg, if_neg (by omega)]
  · have hn := lineGains_sum_nonneg d _ hw hsm
    rw [activeScore_move d g hw]
    unfold InInt at hlo ⊢
    omega

/-- Witness of C28: in a multiplayer game with `bestScore = 0` player one
merges the pair `2 2`: the score becomes 4 and `bestScore` becomes 4, by the
move itself and after the key `a` has been handled, in the phase
`MULTIPLAYER`. -/
theorem C28_witness :
    (multiplayerWith pairAboveBoard twoRowsBoard PlayerTurn.PLAYER_ONE).bestScore = 0
    ∧ (move Direction.Left
        (multiplayerWith pairAboveBoard twoRowsBoard PlayerTurn.PLAYER_ONE)).1.score = 4
    ∧ (move Direction.Left
        (multiplayerWith pairAboveBoard twoRowsBoard PlayerTurn.PLAYER_ONE)).1.bestScore
        = (if (move Direction.Left
              (multiplayerWith pairAboveBoard twoRowsBoard PlayerTurn.PLAYER_ONE)).1.score
              = (multiplayerWith pairAboveBoard twoRowsBoard PlayerTurn.PLAYER_ONE).score
            then (multiplayerWith pairAboveBoard twoRowsBoard PlayerTurn.PLAYER_ONE).bestScore
            else max (multiplayerWith pairAboveBoard twoRowsBoard PlayerTurn.PLAYER_ONE).bestScore
              (move Direction.Left
                (multiplayerWith pairAboveBoard twoRowsBoard PlayerTurn.PLAYER_ONE)).1.score)
    ∧ (move Direction.Left
        (multiplayerWith pairAboveBoard twoRowsBoard PlayerTurn.PLAYER_ONE)).1.bestScore = 4
    ∧ (handleMultiplayerInput (fun _ _ => 0) plainOutside (Event.SDL_KEYDOWN Key.SDLK_a)
        (multiplayerWith pairAboveBoard twoRowsBoard PlayerTurn.PLAYER_TWO)).currentState
        = GameState.MULTIPLAYER
    ∧ (handleMultiplayerInput (fun _ _ => 0) plainOutside (Event.SDL_KEYDOWN Key.SDLK_a)
        (multiplayerWith pairAboveBoard twoRowsBoard PlayerTurn.PLAYER_TWO)).bestScore = 4 := by
  have h1 : (multiplayerWith pairAboveBoard twoRowsBoard PlayerTurn.PLAYER_ONE).currentState
      = GameState.MULTIPLAYER := rfl
  have h2 : WellFormed
      (activeBoard (multiplayerWith pairAboveBoard twoRowsBoard PlayerTurn.PLAYER_ONE)) := by
    decide
  have h3 : AllCells SmallTile
      (activeBoard (multiplayerWith pairAboveBoard twoRowsBoard PlayerTurn.PLAYER_ONE)) := by
    show AllCells SmallTile [[2, 2, 0, 0], [2, 0, 0, 0], [0, 0, 0, 0], [0, 0, 0, 0]]
    rw [allCells_literal]
    decide
  exact ⟨rfl, by decide,
    (C28_player_one_raises_bestScore_in_multiplayer Direction.Left _ h1 h2 h3 (by decide)
      (by decide)).2.1 rfl, by decide, by decide, by decide⟩

/-! ## One cell of the slide pass when its value stands in one row -/

theorem find?_range_first (p : Nat → Bool) (k : Nat)
    (h : (List.range BOARD_SIZE).find? p = some k) : ∀ q, q < k → p q = false := by
  have e : List.range BOARD_SIZE = [0, 1, 2, 3] := rfl
  rw [e] at h
  intro q hq
  simp only [List.find?] at h
  cases h0 : p 0 <;> rw [h0] at h <;> simp only at h
  · cases h1 : p 1 <;> rw [h1] at h <;> simp only at h
    · cases h2 : p 2 <;> rw [h2] at h <;> simp only at h
      · cases h3 : p 3 <;> rw [h3] at h <;> simp only at h
        · cases h
        · have : k = 3 := by injection h with h; exact h.symm
          subst this
          rcases q with _ | _ | _ | q
          · exact h0
          · exact h1
          · exact h2
          · omega
      · have : k = 2 := by injection h with h; exact h.symm
        subst this
        rcases q with _ | _ | q
        · exact h0
        · exact h1
        · omega
    · have : k = 1 := by injection h with h; exact h.symm
      subst this
      rcases q with _ | q
      · exact h0
      · omega
  · have : k = 0 := by injection h with h; exact h.symm
    subst this
    omega

/-- What one row of the slide search does, with the fact that the cell it
takes is the first of the row that is not accounted for and holds the value
looked for. -/
theorem slideSearchRow_first (cur prev : Board) (i j pi : Nat) (r : Recon) :
    ((∀ pj, pj < BOARD_SIZE →
        getFlag r.accounted pi pj = true ∨ getCell prev pi pj ≠ getCell cur i j)
      ∧ slideSearchRow cur prev i j pi r = r)
    ∨ ∃ pj, pj < BOARD_SIZE ∧ getFlag r.accounted pi pj = false
        ∧ getCell prev pi pj = getCell cur i j
        ∧ (∀ q, q < pj →
            getFlag r.accounted pi q = true ∨ getCell prev pi q ≠ getCell cur i j)
        ∧ slideSearchRow cur prev i j pi r
            = ⟨setFlag r.accounted pi pj true,
                if pi ≠ i ∨ pj ≠ j then
                  r.anims ++ [mkAnim pi pj i j false (getCell prev pi pj)]
                else r.anims, r.mergedMap⟩ := by
  unfold slideSearchRow
  split
  · rename_i hnone
    left
    refine ⟨?_, rfl⟩
    intro pj hpj
    have := List.find?_eq_none.mp hnone pj (List.mem_range.mpr hpj)
    simp only [Bool.and_eq_true, Bool.not_eq_true', decide_eq_true_eq, not_and,
      Bool.not_eq_false] at this
    by_cases hf : getFlag r.accounted pi pj = true
    · exact Or.inl hf
    · exact Or.inr (this (by simpa using hf))
  · rename_i pj hsome
    right
    have hp := List.find?_some hsome
    have hm := List.mem_range.mp (List.mem_of_find?_eq_some hsome)
    have hfirst := find?_range_first _ pj hsome
    simp only [Bool.and_eq_true, Bool.not_eq_true', decide_eq_true_eq] at hp
    refine ⟨pj, hm, hp.1, hp.2, ?_, ?_⟩
    · intro q hq
      have := hfirst q hq
      simp only [Bool.and_eq_false_iff, Bool.not_eq_false', decide_eq_false_iff_not] at this
      exact this
    · by_cases h : pi ≠ i ∨ pj ≠ j
      · simp only [h, if_true]
      · simp only [h, if_false]

/-- A loop in which only one step does something. -/
theorem foldl_noop {ι α : Type} (Q : α → Prop) (step : ι → α → α) (l : List ι)
    (hno : ∀ k ∈ l, ∀ r, Q r → step k r = r) (r : α) (hr : Q r) :
    l.foldl (fun r k => step k r) r = r := by
  induction l with
  | nil => rfl
  | cons k rest ih =>
    rw [List.foldl_cons, hno k (List.mem_cons_self _ _) r hr]
    exact ih (fun k' hk' => hno k' (List.mem_cons_of_mem _ hk'))

theorem foldl_single {ι α : Type} (Q : α → Prop) (step : ι → α → α) (l : List ι)
    (hl : l.Nodup) (R : ι) (hR : R ∈ l)
    (hno : ∀ k ∈ l, k ≠ R → ∀ r, Q r → step k r = r) (hQ : ∀ r, Q r → Q (step R r))
    (r : α) (hr : Q r) : l.foldl (fun r k => step k r) r = step R r := by
  induction l with
  | nil => exact absurd hR (List.not_mem_nil _)
  | cons k rest ih =>
    obtain ⟨hk, hrest⟩ := List.nodup_cons.mp hl
    rw [List.foldl_cons]
    by_cases e : k = R
    · subst e
      exact foldl_noop Q step rest
        (fun k' hk' => hno k' (List.mem_cons_of_mem _ hk') (fun e => hk (e ▸ hk'))) _ (hQ r hr)
    · rw [hno k (List.mem_cons_self _ _) e r hr]
      rcases List.mem_cons.mp hR with e' | hR'
      · exact absurd e'.symm e
      · exact ih hrest hR' (fun k' hk' => hno k' (List.mem_cons_of_mem _ hk'))

/-- The slide search for a cell whose value stands in one row of the
previous board: nothing happens if every cell holding the value is accounted
for; otherwise the first such cell of that row that is not accounted for is
marked, with an event unless it is the cell itself. -/
theorem slideSearch_oneRow (cur prev : Board) (D : Nat × Nat) (r : Recon)
    (hrow : ∀ X ∈ allCells, ∀ Y ∈ allCells, getCell prev X.1 X.2 = getCell cur D.1 D.2 →
      getCell prev Y.1 Y.2 = getCell cur D.1 D.2 → X.1 = Y.1) :
    ((∀ X ∈ allCells, getCell prev X.1 X.2 = getCell cur D.1 D.2 →
        getFlag r.accounted X.1 X.2 = true)
      ∧ (List.range BOARD_SIZE).foldl (fun r pi => slideSearchRow cur prev D.1 D.2 pi r) r = r)
    ∨ ∃ X ∈ allCells, getFlag r.accounted X.1 X.2 = false
        ∧ getCell prev X.1 X.2 = getCell cur D.1 D.2
        ∧ (∀ q, q < X.2 → getFlag r.accounted X.1 q = true
            ∨ getCell prev X.1 q ≠ getCell cur D.1 D.2)
        ∧ (List.range BOARD_SIZE).foldl (fun r pi => slideSearchRow cur prev D.1 D.2 pi r) r
            = ⟨setFlag r.accounted X.1 X.2 true,
                if X.1 ≠ D.1 ∨ X.2 ≠ D.2 then
                  r.anims ++ [mkAnim X.1 X.2 D.1 D.2 false (getCell prev X.1 X.2)]
                else r.anims, r.mergedMap⟩ := by
  by_cases hex : ∃ X ∈ allCells, getCell prev X.1 X.2 = getCell cur D.1 D.2
  · obtain ⟨X0, hX0, hv0⟩ := hex
    have hR : X0.1 ∈ List.range BOARD_SIZE := List.mem_range.mpr (mem_allCells X0 hX0).1
    have hno : ∀ k ∈ List.range BOARD_SIZE, k ≠ X0.1 → ∀ x : Recon, True →
        slideSearchRow cur prev D.1 D.2 k x = x := by
      intro k hk hne x _
      rcases slideSearchRow_first cur prev D.1 D.2 k x with ⟨-, e⟩ | ⟨pj, hpj, -, hv, -, -⟩
      · exact e
      · exact absurd (hrow (k, pj) (allCells_mem k pj (List.mem_range.mp hk) hpj) X0 hX0 hv hv0)
          hne
    have key := foldl_single (fun _ => True)
      (fun pi x => slideSearchRow cur prev D.1 D.2 pi x) (List.range BOARD_SIZE)
      (List.nodup_range _) X0.1 hR hno (fun _ _ => trivial) r trivial
    rw [key]
    rcases slideSearchRow_first cur prev D.1 D.2 X0.1 r with
      ⟨hall, e⟩ | ⟨pj, hpj, hf, hv, hfirst, e⟩
    · left
      refine ⟨?_, e⟩
      intro X hX hv
      have hx1 := hrow X hX X0 hX0 hv hv0
      rcases hall X.2 (mem_allCells X hX).2 with h | h
      · rw [← hx1] at h
        exact h
      · rw [← hx1] at h
        exact absurd hv h
    · right
      exact ⟨(X0.1, pj), allCells_mem _ _ (mem_allCells X0 hX0).1 hpj, hf, hv, hfirst, e⟩
  · left
    have hno : ∀ k ∈ List.range BOARD_SIZE, ∀ x : Recon, True →
        slideSearchRow cur prev D.1 D.2 k x = x := by
      intro k hk x _
      rcases slideSearchRow_first cur prev D.1 D.2 k x with ⟨-, e⟩ | ⟨pj, hpj, -, hv, -, -⟩
      · exact e
      · exact absurd ⟨(k, pj), allCells_mem k pj (List.mem_range.mp hk) hpj, hv⟩ hex
    refine ⟨fun X hX hv => absurd ⟨X, hX, hv⟩ hex, ?_⟩
    exact foldl_noop (fun _ => True) (fun pi x => slideSearchRow cur prev D.1 D.2 pi x)
      (List.range BOARD_SIZE) hno r trivial

/-! ## Loops over the cells in row-major order -/

/-- Induction over a loop with an invariant that may mention the steps
already taken. -/
theorem foldl_steps {ι α : Type} (step : ι → α → α) (J : List ι → α → Prop) (l : List ι) :
    ∀ (pre : List ι) (r : α), J pre r →
      (∀ p k s r, pre ++ l = p ++ k :: s → J p r → J (p ++ [k]) (step k r)) →
      J (pre ++ l) (l.foldl (fun r k => step k r) r) := by
  induction l with
  | nil =>
    intro pre r h0 _
    rw [List.append_nil]
    exact h0
  | cons k rest ih =>
    intro pre r h0 hstep
    rw [List.foldl_cons]
    have e : pre ++ k :: rest = (pre ++ [k]) ++ rest := by simp
    rw [e]
    apply ih (pre ++ [k]) (step k r) (hstep pre k rest r rfl h0)
    intro p k' s r' hp hJ
    exact hstep p k' s r' (e.trans hp) hJ

theorem cellLT_irrefl (c : Nat × Nat) : ¬ cellLT c c := by
  unfold cellLT
  omega

theorem cellLT_asymm (c d : Nat × Nat) (h : cellLT c d) : ¬ cellLT d c := by
  unfold cellLT at h ⊢
  omega

/-- A cell of the row-major list splits it into the cells before it and the
cells after it. -/
theorem allCells_split (p : List (Nat × Nat)) (D : Nat × Nat) (s : List (Nat × Nat))
    (h : allCells = p ++ D :: s) :
    D ∉ p ∧ D ∉ s ∧ (∀ X ∈ allCells, cellLT X D → X ∈ p)
    ∧ (∀ X ∈ allCells, cellLT D X → X ∈ s) := by
  have hs := allCells_sorted
  rw [h, List.pairwise_append] at hs
  obtain ⟨-, h2, h3⟩ := hs
  have h4 := (List.pairwise_cons.mp h2).1
  have hmem : ∀ X ∈ allCells, X ∈ p ∨ X = D ∨ X ∈ s := by
    intro X hX
    rw [h, List.mem_append, List.mem_cons] at hX
    exact hX
  refine ⟨?_, ?_, ?_, ?_⟩
  · intro hD
    exact cellLT_irrefl D (h3 D hD D (List.mem_cons_self _ _))
  · intro hD
    exact cellLT_irrefl D (h4 D hD)
  · intro X hX hlt
    rcases hmem X hX with h' | rfl | h'
    · exact h'
    · exact absurd hlt (cellLT_irrefl _)
    · exact absurd (h4 X h') (cellLT_asymm _ _ hlt)
  · intro X hX hlt
    rcases hmem X hX with h' | rfl | h'
    · exact absurd (h3 X h' D (List.mem_cons_self _ _)) (cellLT_asymm _ _ hlt)
    · exact absurd hlt (cellLT_irrefl _)
    · exact h'

theorem mergePass_same (b : Board) :
    allCells.foldl (fun r c => mergePassCell b b c.1 c.2 r) ⟨freshTracker, [], []⟩
      = ⟨freshTracker, [], []⟩ := by
  apply foldl_inv (fun r => r = (⟨freshTracker, [], []⟩ : Recon))
    (fun (c : Nat × Nat) r => mergePassCell b b c.1 c.2 r)
  · intro c _ r hr
    show mergePassCell b b c.1 c.2 r = _
    rw [mergePassCell_same]
    exact hr
  · rfl

/-! ## The passes on a board reconciled with itself -/

theorem selfFound_step (b : Board)
    (hrow : ∀ X ∈ allCells, ∀ Y ∈ allCells, getCell b X.1 X.2 ≠ 0 →
      getCell b X.1 X.2 = getCell b Y.1 Y.2 → X.1 = Y.1)
    (p : List (Nat × Nat)) (D : Nat × Nat) (s : List (Nat × Nat)) (r : Recon)
    (hsplit : allCells = p ++ D :: s) (hJ : SelfFound b p r) :
    SelfFound b (p ++ [D]) (slidePassCell b b D.1 D.2 r) := by
  obtain ⟨ha, hmp, hwf, hfl⟩ := hJ
  obtain ⟨hDp, -, hbefore, -⟩ := allCells_split p D s hsplit
  have hD : D ∈ allCells := by
    rw [hsplit]
    exact List.mem_append_right _ (List.mem_cons_self _ _)
  unfold slidePassCell
  by_cases hz : getCell b D.1 D.2 = 0
  · rw [if_pos hz]
    refine ⟨ha, hmp, hwf, fun X hX => ?_⟩
    rw [hfl X hX, List.mem_append, List.mem_singleton]
    constructor
    · exact fun h => ⟨Or.inl h.1, h.2⟩
    · rintro ⟨h1 | h1, h2⟩
      · exact ⟨h1, h2⟩
      · rw [h1] at h2
        exact absurd hz h2
  · have hmap : mapHas r.mergedMap (D.1, D.2) = false := by
      rw [hmp]
      rfl
    rw [if_neg hz, hmap]
    simp only [Bool.false_eq_true, if_false]
    have hDacc : getFlag r.accounted D.1 D.2 = false := by
      cases hf : getFlag r.accounted D.1 D.2 with
      | false => rfl
      | true => exact absurd ((hfl D hD).mp hf).1 hDp
    rcases slideSearch_oneRow b b D r (fun X hX Y hY hx hy =>
        hrow X hX Y hY (by rw [hx]; exact hz) (by rw [hx, hy])) with
      ⟨hall, -⟩ | ⟨X, hX, hf, hv, hfirst, e⟩
    · rw [hall D hD rfl] at hDacc
      cases hDacc
    · have h1 : X.1 = D.1 := hrow X hX D hD (by rw [hv]; exact hz) hv
      have h2 : X.2 = D.2 := by
        rcases Nat.lt_trichotomy X.2 D.2 with hlt | heq | hgt
        · have hXp : X ∈ p := hbefore X hX (Or.inr ⟨h1, hlt⟩)
          have := (hfl X hX).mpr ⟨hXp, by rw [hv]; exact hz⟩
          rw [hf] at this
          cases this
        · exact heq
        · rcases hfirst D.2 hgt with h | h
          · rw [h1, hDacc] at h
            cases h
          · rw [h1] at h
            exact absurd rfl h
      rw [e, if_neg (by rw [h1, h2]; simp)]
      refine ⟨ha, hmp, wellFormed_setFlag _ hwf _ _ _, fun Y hY => ?_⟩
      show getFlag (setFlag r.accounted X.1 X.2 true) Y.1 Y.2 = true ↔ _
      rw [h1, h2, List.mem_append, List.mem_singleton]
      by_cases hYD : Y = D
      · subst hYD
        have hin := mem_allCells Y hY
        rw [getFlag_setFlag_self _ hwf _ _ hin.1 hin.2]
        simp [hz]
      · rw [getFlag_setFlag, if_neg (fun h => hYD (Prod.ext h.1 h.2.1)), hfl Y hY]
        constructor
        · exact fun h => ⟨Or.inl h.1, h.2⟩
        · rintro ⟨h1 | h1, h2⟩
          · exact ⟨h1, h2⟩
          · exact absurd h1 hYD

/-- Reconciling a board with itself, where equal tiles stand in one row:
every tile finds itself and no event is produced. -/
theorem reconcile_same_quiet (b : Board)
    (hrow : ∀ X ∈ allCells, ∀ Y ∈ allCells, getCell b X.1 X.2 ≠ 0 →
      getCell b X.1 X.2 = getCell b Y.1 Y.2 → X.1 = Y.1) :
    (reconcile b b).anims = [] := by
  rw [reconcile_eq, mergePass_same]
  have key := foldl_steps (fun (c : Nat × Nat) r => slidePassCell b b c.1 c.2 r)
    (SelfFound b) allCells [] ⟨freshTracker, [], []⟩
    ⟨rfl, rfl, wellFormed_freshTracker, fun X _ => by
      rw [getFlag_freshTracker]
      simp⟩
    (fun p D s r hsplit hJ => selfFound_step b hrow p D s r hsplit hJ)
  exact key.1

theorem allCells_split_before (p : List (Nat × Nat)) (D : Nat × Nat) (s : List (Nat × Nat))
    (h : allCells = p ++ D :: s) : ∀ X ∈ p, cellLT X D := by
  have hs := allCells_sorted
  rw [h, List.pairwise_append] at hs
  exact fun X hX => hs.2.2 X hX D (List.mem_cons_self _ _)

/-- A row of the slide search that pushes no event marks nothing or the
cell itself. -/
theorem slideSearchRow_quiet_mark (cur prev : Board) (i j pi : Nat) (r : Recon)
    (h : (slideSearchRow cur prev i j pi r).anims = []) :
    r.anims = [] ∧ ∀ x y, getFlag (slideSearchRow cur prev i j pi r).accounted x y = true →
      getFlag r.accounted x y = true ∨ (x = i ∧ y = j) := by
  refine ⟨anims_nil_of_slideSearchRow cur prev i j pi r h, ?_⟩
  rcases slideSearchRow_cases cur prev i j pi r with ⟨-, e⟩ | ⟨pj, -, -, -, ⟨-, e⟩ | ⟨hne, e⟩⟩
  · rw [e]
    exact fun x y hf => Or.inl hf
  · rw [e] at h
    simp at h
  · rw [e]
    intro x y hf
    rcases getFlag_setFlag_true _ _ _ _ _ hf with ⟨h1, h2⟩ | hold
    · right
      have p1 : pi = i := by
        by_contra hh
        exact hne (Or.inl hh)
      have p2 : pj = j := by
        by_contra hh
        exact hne (Or.inr hh)
      exact ⟨h1.trans p1, h2.trans p2⟩
    · exact Or.inl hold

theorem slideRows_quiet_mark (cur prev : Board) (i j : Nat) (l : List Nat) :
    ∀ r : Recon, (l.foldl (fun r pi => slideSearchRow cur prev i j pi r) r).anims = [] →
      r.anims = [] ∧ ∀ x y,
        getFlag (l.foldl (fun r pi => slideSearchRow cur prev i j pi r) r).accounted x y = true →
        getFlag r.accounted x y = true ∨ (x = i ∧ y = j) := by
  induction l with
  | nil => exact fun r h => ⟨h, fun x y hf => Or.inl hf⟩
  | cons k rest ih =>
    intro r h
    rw [List.foldl_cons] at h ⊢
    obtain ⟨h1, h2⟩ := ih _ h
    obtain ⟨h3, h4⟩ := slideSearchRow_quiet_mark cur prev i j k r h1
    refine ⟨h3, fun x y hf => ?_⟩
    rcases h2 x y hf with h' | h'
    · exact h4 x y h'
    · exact Or.inr h'

theorem slidePassCell_quiet_mark (cur prev : Board) (c : Nat × Nat) (r : Recon)
    (h : (slidePassCell cur prev c.1 c.2 r).anims = []) :
    ∀ x y, getFlag (slidePassCell cur prev c.1 c.2 r).accounted x y = true →
      getFlag r.accounted x y = true ∨ (x = c.1 ∧ y = c.2) := by
  unfold slidePassCell at h ⊢
  split
  · exact fun x y hf => Or.inl hf
  · rename_i hz
    rw [if_neg hz] at h
    split
    · exact fun x y hf => Or.inl hf
    · rename_i hm
      rw [if_neg hm] at h
      exact (slideRows_quiet_mark cur prev c.1 c.2 _ r h).2

theorem slidePass_anims_nil (cur prev : Board) (l : List (Nat × Nat)) (r : Recon)
    (h : (l.foldl (fun r c => slidePassCell cur prev c.1 c.2 r) r).anims = []) :
    r.anims = [] := by
  obtain ⟨extra, he, -⟩ := foldl_anims (fun _ => True)
    (fun (c : Nat × Nat) r => slidePassCell cur prev c.1 c.2 r)
    (fun c r => by
      obtain ⟨extra, he, -⟩ := slidePassCell_anims cur prev c r
      exact ⟨extra, he, fun _ _ => trivial⟩) l r
  rw [he] at h
  exact (List.append_eq_nil.mp h).1

/-- While the slide pass has pushed no event, only cells it has already
visited are accounted for. -/
theorem slidePass_quiet_visited (cur prev : Board) (p : List (Nat × Nat)) :
    (p.foldl (fun r c => slidePassCell cur prev c.1 c.2 r) ⟨freshTracker, [], []⟩).mergedMap = []
    ∧ ((p.foldl (fun r c => slidePassCell cur prev c.1 c.2 r) ⟨freshTracker, [], []⟩).anims = [] →
      ∀ Z : Nat × Nat,
        getFlag (p.foldl (fun r c => slidePassCell cur prev c.1 c.2 r)
          ⟨freshTracker, [], []⟩).accounted Z.1 Z.2 = true → Z ∈ p) := by
  have key := foldl_steps (fun (c : Nat × Nat) r => slidePassCell cur prev c.1 c.2 r)
    (fun p r => r.mergedMap = []
      ∧ (r.anims = [] → ∀ Z : Nat × Nat, getFlag r.accounted Z.1 Z.2 = true → Z ∈ p))
    p [] ⟨freshTracker, [], []⟩
    ⟨rfl, fun _ Z hf => by
      rw [getFlag_freshTracker] at hf
      cases hf⟩
    (fun q k s r _ hJ => by
      refine ⟨by rw [mergeMap_slidePassCell]; exact hJ.1, fun hnil Z hf => ?_⟩
      rw [List.mem_append, List.mem_singleton]
      rcases slidePassCell_quiet_mark cur prev k r hnil Z.1 Z.2 hf with h | h
      · exact Or.inl (hJ.2 (anims_nil_of_slidePassCell cur prev k r hnil) Z h)
      · exact Or.inr (Prod.ext h.1 h.2))
  rw [List.nil_append] at key
  exact key

theorem slidePassCell_active (cur prev : Board) (i j : Nat) (r : Recon)
    (hz : getCell cur i j ≠ 0) (hm : r.mergedMap = []) :
    slidePassCell cur prev i j r
      = (List.range BOARD_SIZE).foldl (fun r pi => slideSearchRow cur prev i j pi r) r := by
  unfold slidePassCell
  rw [if_neg hz, if_neg (by rw [hm]; simp [mapHas])]

/-- Reconciling a board with itself, where two equal tiles stand in
different rows, produces an event. -/
theorem reconcile_same_event (b : Board) (X Y : Nat × Nat) (hX : X ∈ allCells)
    (hY : Y ∈ allCells) (hnz : getCell b X.1 X.2 ≠ 0)
    (he : getCell b X.1 X.2 = getCell b Y.1 Y.2) (hlt : X.1 < Y.1) :
    (reconcile b b).anims ≠ [] := by
  intro hnil
  rw [reconcile_eq, mergePass_same] at hnil
  obtain ⟨p, s, hsplit⟩ := List.append_of_mem hX
  rw [hsplit, List.foldl_append, List.foldl_cons] at hnil
  obtain ⟨hmap, hpre⟩ := slidePass_quiet_visited b b p
  have h1 := slidePass_anims_nil b b s _ hnil
  have hrp := anims_nil_of_slidePassCell b b X _ h1
  have hYp : Y ∉ p := fun h =>
    cellLT_asymm _ _ (allCells_split_before p X s hsplit Y h) (Or.inl hlt)
  rw [slidePassCell_active b b X.1 X.2 _ hnz hmap] at h1
  obtain ⟨q, t, hrows⟩ := List.append_of_mem (List.mem_range.mpr (mem_allCells Y hY).1)
  rw [hrows, List.foldl_append, List.foldl_cons] at h1
  have h2 := (slideRows_quiet_mark b b X.1 X.2 t _ h1).1
  have h3 := slideRows_quiet_mark b b X.1 X.2 q _
    (anims_nil_of_slideSearchRow b b X.1 X.2 Y.1 _ h2)
  rcases slideSearchRow_cases b b X.1 X.2 Y.1
      (q.foldl (fun r pi => slideSearchRow b b X.1 X.2 pi r)
        (p.foldl (fun r c => slidePassCell b b c.1 c.2 r) ⟨freshTracker, [], []⟩)) with
    ⟨hall, -⟩ | ⟨pj, -, -, -, ⟨-, e⟩ | ⟨hne, -⟩⟩
  · rcases hall Y.2 (mem_allCells Y hY).2 with hf | hf
    · rcases h3.2 Y.1 Y.2 hf with h | h
      · exact hYp (hpre hrp Y h)
      · omega
    · exact hf he.symm
  · rw [e] at h2
    simp at h2
  · exact hne (Or.inl (by omega))

/-! ## Reconciling a grid with itself -/

theorem createMoveAnimations_reconciling (before after : Board) :
    (createMoveAnimations (reconciling before after)).animations
        = (reconcile after before).anims
    ∧ (createMoveAnimations (reconciling before after)).mergedTiles
        = (reconcile after before).mergedMap
    ∧ (createMoveAnimations (reconciling before after)).animating
        = !(reconcile after before).anims.isEmpty := by
  have hp : p2Active (reconciling before after) = false := rfl
  unfold createMoveAnimations
  rw [hp]
  exact ⟨rfl, rfl, rfl⟩

theorem reconcile_same_quiet_iff (b : Board) :
    (reconcile b b).anims = [] ↔ EqualTilesShareRow b := by
  constructor
  · intro hnil X hX Y hY hnz he
    by_contra hne
    rcases Nat.lt_or_gt_of_ne hne with hlt | hlt
    · exact reconcile_same_event b X Y hX hY hnz he hlt hnil
    · exact reconcile_same_event b Y X hY hX (he ▸ hnz) he.symm hlt hnil
  · exact reconcile_same_quiet b

theorem holds_double (w a : Int) : holds (w * 2) (a * 2) = holds w a := by
  unfold holds
  by_cases h : a = w
  · rw [if_pos h, if_pos (by rw [h])]
  · rw [if_neg h, if_neg (by omega)]

theorem mergePairs_share (w : Int) (l : List Int) :
    listShare w (mergePairs l) (mergeMarks l) = (l.map (holds w)).sum := by
  induction l using mergeGains.induct with
  | case1 b rest ih =>
    simp only [mergePairs, mergeMarks, if_true, listShare, share, holds_double, ih,
      List.map_cons, List.sum_cons]
    ring
  | case2 a b rest hab ih =>
    simp only [mergePairs, mergeMarks, hab, if_false, listShare, share, Bool.false_eq_true] at ih ⊢
    rw [ih]
    simp only [List.map_cons, List.sum_cons]
  | case3 l hl =>
    cases l with
    | nil => rfl
    | cons a t =>
      cases t with
      | nil => simp [mergePairs, mergeMarks, listShare, share]
      | cons b rest => exact absurd rfl (hl a b rest)

theorem mergePairs_length (l : List Int) :
    (mergePairs l).length = (mergeMarks l).length ∧ (mergePairs l).length ≤ l.length := by
  induction l using mergeGains.induct with
  | case1 b rest ih =>
    simp only [mergePairs, mergeMarks, if_true, List.length_cons]
    omega
  | case2 a b rest hab ih =>
    simp only [mergePairs, mergeMarks, hab, if_false, List.length_cons] at ih ⊢
    omega
  | case3 l hl =>
    cases l with
    | nil => simp [mergePairs, mergeMarks]
    | cons a t =>
      cases t with
      | nil => simp [mergePairs, mergeMarks]
      | cons b rest => exact absurd rfl (hl a b rest)

theorem rowFlagSum_literal (G : Int → Bool → Int) (a b c d : Int) (e f g k : Bool) :
    rowFlagSum G [a, b, c, d] [e, f, g, k] = G a e + G b f + G c g + G d k := by
  simp only [rowFlagSum, BOARD_SIZE, List.range, List.range.loop, List.map, List.getD_cons_zero,
    List.getD_cons_succ, List.sum_cons, List.sum_nil]
  ring

theorem share_zero (w : Int) (hw : w ≠ 0) : share w 0 false = 0 := by
  simp only [share, Bool.false_eq_true, if_false]
  exact holds_of_ne _ _ (fun h => hw h.symm)

theorem rowFlagSum_pad (w : Int) (hw : w ≠ 0) (xs : List Int) (ms : List Bool)
    (hl : xs.length = ms.length) (h4 : xs.length ≤ 4) :
    rowFlagSum (share w) (padTo 0 xs) (padTo false ms) = listShare w xs ms := by
  have z := share_zero w hw
  match xs, ms, hl, h4 with
  | [], [], _, _ =>
    simp only [padTo, BOARD_SIZE, List.length_nil, List.replicate, List.nil_append,
      rowFlagSum_literal, listShare, z]
    rfl
  | [x], [m], _, _ =>
    simp only [padTo, BOARD_SIZE, List.length_cons, List.length_nil, List.replicate,
      List.cons_append, List.nil_append, rowFlagSum_literal, listShare, z]
    ring
  | [x, y], [m, n], _, _ =>
    simp only [padTo, BOARD_SIZE, List.length_cons, List.length_nil, List.replicate,
      List.cons_append, List.nil_append, rowFlagSum_literal, listShare, z]
    ring
  | [x, y, u], [m, n, o], _, _ =>
    simp only [padTo, BOARD_SIZE, List.length_cons, List.length_nil, List.replicate,
      List.cons_append, List.nil_append, rowFlagSum_literal, listShare, z]
    ring
  | [x, y, u, v], [m, n, o, q], _, _ =>
    simp only [padTo, BOARD_SIZE, List.length_cons, List.length_nil, List.replicate,
      List.cons_append, List.nil_append, rowFlagSum_literal, listShare]
    ring

theorem tiles_holds (w : Int) (hw : w ≠ 0) (l : List Int) :
    ((tiles l).map (holds w)).sum = (l.map (holds w)).sum := by
  induction l with
  | nil => rfl
  | cons a t ih =>
    unfold tiles at ih ⊢
    by_cases ha : a = 0
    · subst ha
      simp only [List.filter, ne_eq, not_true_eq_false, decide_False, List.map_cons,
        List.sum_cons, ih, holds_of_ne w 0 (fun h => hw h.symm)]
      ring
    · simp only [List.filter, ne_eq, ha, not_false_eq_true, decide_True, List.map_cons,
        List.sum_cons, ih]

theorem tiles_length (l : List Int) : (tiles l).length ≤ l.length := by
  unfold tiles
  exact List.length_filter_le _ _

/-- On a line, the tiles of a value `w` before the move are the unmerged
tiles of value `w` and two for every merged tile of value `2 w` after it. -/
theorem rowFlagSum_refRow (w : Int) (hw : w ≠ 0) (a b c d : Int) :
    rowFlagSum (share w) (refRow [a, b, c, d]) (refMarks [a, b, c, d])
      = rowPair (fun x _ => holds w x) [a, b, c, d] [a, b, c, d] := by
  have h1 := mergePairs_length (tiles [a, b, c, d])
  have h2 := tiles_length [a, b, c, d]
  unfold refRow refMarks
  rw [rowFlagSum_pad w hw _ _ h1.1 (by simp only [List.length_cons, List.length_nil] at h2; omega),
    mergePairs_share, tiles_holds w hw, rowPair_literal]
  simp only [List.map_cons, List.map_nil, List.sum_cons, List.sum_nil]
  ring

theorem flagSum_literal (G : Int → Bool → Int)
    (a0 a1 a2 a3 b0 b1 b2 b3 c0 c1 c2 c3 d0 d1 d2 d3 : Int)
    (e0 e1 e2 e3 f0 f1 f2 f3 g0 g1 g2 g3 k0 k1 k2 k3 : Bool) :
    flagSum G [[a0, a1, a2, a3], [b0, b1, b2, b3], [c0, c1, c2, c3], [d0, d1, d2, d3]]
        [[e0, e1, e2, e3], [f0, f1, f2, f3], [g0, g1, g2, g3], [k0, k1, k2, k3]]
      = G a0 e0 + G a1 e1 + G a2 e2 + G a3 e3 + (G b0 f0 + G b1 f1 + G b2 f2 + G b3 f3)
        + (G c0 g0 + G c1 g1 + G c2 g2 + G c3 g3) + (G d0 k0 + G d1 k1 + G d2 k2 + G d3 k3) := by
  simp only [flagSum, allCells_eq, List.map, getCell, getFlag, List.getD_cons_zero,
    List.getD_cons_succ, List.sum_cons, List.sum_nil]
  ring

theorem flagSum_unlines (G : Int → Bool → Int) (d : Direction) (b : Board) (t : Tracker)
    (hb : WellFormed b) (ht : WellFormed t) :
    flagSum G (unlines d b) (unlinesFlags d t) = flagSum G b t := by
  obtain ⟨a0, a1, a2, a3, b0, b1, b2, b3, c0, c1, c2, c3, d0, d1, d2, d3, rfl⟩ :=
    wellFormed_cells b hb
  obtain ⟨e0, e1, e2, e3, f0, f1, f2, f3, g0, g1, g2, g3, h0, h1, h2, h3, rfl⟩ :=
    wellFormed_cells t ht
  cases d <;>
  simp only [unlines, unlinesFlags, mirror, transpose, transposeWith,
    BOARD_SIZE, List.range, List.range.loop, List.map, List.getD_cons_zero, List.getD_cons_succ,
    List.reverse_cons, List.reverse_nil, List.nil_append,
    List.cons_append, flagSum_literal] <;>
  ring

theorem flagSum_rows (G : Int → Bool → Int) (r0 r1 r2 r3 : List Int) (m0 m1 m2 m3 : List Bool) :
    flagSum G [r0, r1, r2, r3] [m0, m1, m2, m3]
      = rowFlagSum G r0 m0 + rowFlagSum G r1 m1 + rowFlagSum G r2 m2 + rowFlagSum G r3 m3 := by
  simp only [flagSum, allCells_eq, List.map, getCell, getFlag, List.getD_cons_zero,
    List.getD_cons_succ, List.sum_cons, List.sum_nil, rowFlagSum, BOARD_SIZE, List.range,
    List.range.loop]
  ring

theorem flagSum_map_refRow (w : Int) (hw : w ≠ 0) (L : Board) (hL : WellFormed L) :
    flagSum (share w) (L.map refRow) (L.map refMarks) = pairSum (fun x _ => holds w x) L L := by
  obtain ⟨a0, a1, a2, a3, b0, b1, b2, b3, c0, c1, c2, c3, d0, d1, d2, d3, rfl⟩ :=
    wellFormed_cells L hL
  simp only [List.map, flagSum_rows, pairSum_rows, rowFlagSum_refRow w hw]

/-- The tiles of a value `w` before a move are the unmerged tiles of value
`w` and two for every merged tile of value `2 w` after it. -/
theorem move_share (d : Direction) (g : Game) (h : WellFormed (activeBoard g)) (w : Int)
    (hw : w ≠ 0) :
    flagSum (share w) (activeBoard (move d g).1) (moveAcc d g).tracker
      = (allCells.map (fun c => holds w (getCell (activeBoard g) c.1 c.2))).sum := by
  obtain ⟨c1, -, -, -, c5⟩ := move_char d g h
  have hl := wellFormed_lines d _ h
  rw [c1, c5, flagSum_unlines (share w) d _ _ (wellFormed_map_refRow _ hl)
    (wellFormed_map_refMarks _ hl), flagSum_map_refRow w hw _ hl, pairSum_lines _ d _ _ h h]
  rfl

/-! ## Counting the cells that the passes of `createMoveAnimations` mark -/

theorem sum_le_sum_at {ι : Type} (l : List ι) (hl : l.Nodup) (f g : ι → Int) (X : ι) (e : Int)
    (he : 0 ≤ e) (h1 : ∀ c ∈ l, c ≠ X → f c ≤ g c) (h2 : f X ≤ g X + e) :
    (l.map f).sum ≤ (l.map g).sum + e := by
  induction l with
  | nil => simpa using he
  | cons z t ih =>
    obtain ⟨hz, ht⟩ := List.nodup_cons.mp hl
    rw [List.map_cons, List.sum_cons, List.map_cons, List.sum_cons]
    by_cases e' : z = X
    · subst e'
      have : (t.map f).sum ≤ (t.map g).sum :=
        List.sum_le_sum (fun c hc =>
          h1 c (List.mem_cons_of_mem _ hc) (fun e => hz (e ▸ hc)))
      omega
    · have a1 := h1 z (List.mem_cons_self _ _) e'
      have a2 := ih ht (fun c hc => h1 c (List.mem_cons_of_mem _ hc))
      omega

theorem getFlag_setFlag_other (t : Tracker) (X c : Nat × Nat) (h : c ≠ X) :
    getFlag (setFlag t X.1 X.2 true) c.1 c.2 = getFlag t c.1 c.2 := by
  rw [getFlag_setFlag, if_neg]
  intro hh
  exact h (Prod.ext hh.1 hh.2.1)

theorem accCount_setFlag (prev : Board) (w : Int) (t : Tracker) (X : Nat × Nat) :
    accCount prev w (setFlag t X.1 X.2 true)
      ≤ accCount prev w t + holds w (getCell prev X.1 X.2) := by
  unfold accCount
  apply sum_le_sum_at allCells allCells_nodup _ _ X _ (holds_nonneg _ _)
  · intro c _ hc
    show (if getFlag (setFlag t X.1 X.2 true) c.1 c.2 = true then _ else _) ≤ _
    rw [getFlag_setFlag_other t X c hc]
  · show (if getFlag (setFlag t X.1 X.2 true) X.1 X.2 = true then _ else _)
      ≤ (if getFlag t X.1 X.2 = true then _ else _) + _
    have := holds_nonneg w (getCell prev X.1 X.2)
    split <;> split <;> omega

theorem accCount_le_of (prev : Board) (w : Int) (t t2 : Tracker)
    (h : ∀ c ∈ allCells, getFlag t2 c.1 c.2 = true →
      getFlag t c.1 c.2 = true ∨ getCell prev c.1 c.2 ≠ w) :
    accCount prev w t2 ≤ accCount prev w t := by
  unfold accCount
  apply List.sum_le_sum
  intro c hc
  show (if getFlag t2 c.1 c.2 = true then _ else _) ≤ (if getFlag t c.1 c.2 = true then _ else _)
  have n := holds_nonneg w (getCell prev c.1 c.2)
  by_cases h2 : getFlag t2 c.1 c.2 = true
  · rw [if_pos h2]
    rcases h c hc h2 with h' | h'
    · rw [if_pos h']
    · rw [holds_of_ne _ _ h']
      split <;> omega
  · rw [if_neg h2]
    split <;> omega

theorem accCount_full (prev : Board) (w : Int) (t : Tracker)
    (h : ∀ X ∈ allCells, getCell prev X.1 X.2 = w → getFlag t X.1 X.2 = true) :
    accCount prev w t = (allCells.map (fun c => holds w (getCell prev c.1 c.2))).sum := by
  unfold accCount
  congr 1
  apply List.map_congr_left
  intro c hc
  by_cases hv : getCell prev c.1 c.2 = w
  · rw [if_pos (h c hc hv)]
  · rw [holds_of_ne _ _ hv]
    split <;> rfl

theorem accCount_fresh (prev : Board) (w : Int) : accCount prev w freshTracker = 0 := by
  unfold accCount
  have : (fun c : Nat × Nat => if getFlag freshTracker c.1 c.2 = true
      then holds w (getCell prev c.1 c.2) else 0) = fun _ => 0 := by
    funext c
    rw [getFlag_freshTracker]
    rfl
  rw [this]
  simp

theorem sum_split (f : Nat × Nat → Int) (hf : ∀ c, 0 ≤ f c) (p : List (Nat × Nat))
    (D : Nat × Nat) (s : List (Nat × Nat)) (h : allCells = p ++ D :: s) :
    (p.map f).sum + f D ≤ (allCells.map f).sum := by
  rw [h, List.map_append, List.sum_append, List.map_cons, List.sum_cons]
  have : 0 ≤ (s.map f).sum := List.sum_nonneg (fun x hx => by
    obtain ⟨c, -, rfl⟩ := List.mem_map.mp hx
    exact hf c)
  omega

theorem sum_snoc (f : Nat × Nat → Int) (p : List (Nat × Nat)) (D : Nat × Nat) :
    ((p ++ [D]).map f).sum = (p.map f).sum + f D := by
  rw [List.map_append, List.sum_append]
  simp

theorem mdest_nonneg (prev cur : Board) (w : Int) (c : Nat × Nat) : 0 ≤ mdest prev cur w c := by
  unfold mdest
  split <;> decide

theorem sdest_nonneg (prev cur : Board) (w : Int) (c : Nat × Nat) : 0 ≤ sdest prev cur w c := by
  unfold sdest
  split <;> decide

theorem sum_mdest_nonneg (prev cur : Board) (w : Int) (l : List (Nat × Nat)) :
    0 ≤ (l.map (mdest prev cur w)).sum :=
  List.sum_nonneg (fun x hx => by
    obtain ⟨c, -, rfl⟩ := List.mem_map.mp hx
    exact mdest_nonneg prev cur w c)

theorem sum_sdest_nonneg (prev cur : Board) (w : Int) (l : List (Nat × Nat)) :
    0 ≤ (l.map (sdest prev cur w)).sum :=
  List.sum_nonneg (fun x hx => by
    obtain ⟨c, -, rfl⟩ := List.mem_map.mp hx
    exact sdest_nonneg prev cur w c)

/-! ## One cell of the merge pass when the other cells of its value stand
in one row -/

theorem mergeSearchRow_first (prev : Board) (i j ni : Nat) (r : Recon) :
    ((∀ nj, nj < BOARD_SIZE →
        getFlag r.accounted ni nj = true ∨ getCell prev ni nj ≠ getCell prev i j)
      ∧ mergeSearchRow prev i j ni r = r)
    ∨ ∃ nj, nj < BOARD_SIZE ∧ getFlag r.accounted ni nj = false
        ∧ getCell prev ni nj = getCell prev i j
        ∧ mergeSearchRow prev i j ni r
            = (if ni ≠ i ∨ nj ≠ j then
                ⟨setFlag r.accounted ni nj true,
                  r.anims ++ [mkAnim ni nj i j true (getCell prev ni nj)],
                  mapAssign r.mergedMap (i, j) (ni, nj)⟩
              else ⟨setFlag r.accounted ni nj true, r.anims, r.mergedMap⟩) := by
  rcases mergeSearchRow_cases prev i j ni r with h | ⟨nj, h1, h2, h3, ⟨h4, e⟩ | ⟨h4, e⟩⟩
  · exact Or.inl h
  · exact Or.inr ⟨nj, h1, h2, h3, by rw [if_pos h4]; exact e⟩
  · exact Or.inr ⟨nj, h1, h2, h3, by rw [if_neg h4]; exact e⟩

/-- The merge search for a cell that is marked itself, when the other cells
holding its previous value stand in one row: nothing happens if every cell
holding the value is accounted for; otherwise one such cell is marked, and an
event from it and an entry of the merge map are recorded. -/
theorem mergeSearch_oneRow (prev : Board) (D : Nat × Nat) (r : Recon)
    (hD : getFlag r.accounted D.1 D.2 = true)
    (hrow : ∀ X ∈ allCells, ∀ Y ∈ allCells, X ≠ D → Y ≠ D →
      getCell prev X.1 X.2 = getCell prev D.1 D.2 →
      getCell prev Y.1 Y.2 = getCell prev D.1 D.2 → X.1 = Y.1) :
    ((∀ X ∈ allCells, getCell prev X.1 X.2 = getCell prev D.1 D.2 →
        getFlag r.accounted X.1 X.2 = true)
      ∧ (List.range BOARD_SIZE).foldl (fun r ni => mergeSearchRow prev D.1 D.2 ni r) r = r)
    ∨ ∃ X ∈ allCells, X ≠ D ∧ getFlag r.accounted X.1 X.2 = false
        ∧ getCell prev X.1 X.2 = getCell prev D.1 D.2
        ∧ (List.range BOARD_SIZE).foldl (fun r ni => mergeSearchRow prev D.1 D.2 ni r) r
            = ⟨setFlag r.accounted X.1 X.2 true,
                r.anims ++ [mkAnim X.1 X.2 D.1 D.2 true (getCell prev X.1 X.2)],
                mapAssign r.mergedMap (D.1, D.2) (X.1, X.2)⟩ := by
  have hne : ∀ (x : Recon) (k nj : Nat), getFlag x.accounted D.1 D.2 = true →
      getFlag x.accounted k nj = false → (k, nj) ≠ D := by
    intro x k nj h1 h2 e
    rw [← e] at h1
    rw [h1] at h2
    cases h2
  by_cases hex : ∃ X ∈ allCells, X ≠ D ∧ getCell prev X.1 X.2 = getCell prev D.1 D.2
  · obtain ⟨X0, hX0, hXD, hv0⟩ := hex
    have hR : X0.1 ∈ List.range BOARD_SIZE := List.mem_range.mpr (mem_allCells X0 hX0).1
    have hno : ∀ k ∈ List.range BOARD_SIZE, k ≠ X0.1 → ∀ x : Recon,
        getFlag x.accounted D.1 D.2 = true → mergeSearchRow prev D.1 D.2 k x = x := by
      intro k hk hk0 x hx
      rcases mergeSearchRow_first prev D.1 D.2 k x with ⟨-, e⟩ | ⟨nj, hnj, hf, hv, -⟩
      · exact e
      · exact absurd (hrow (k, nj) (allCells_mem k nj (List.mem_range.mp hk) hnj) X0 hX0
          (hne x k nj hx hf) hXD hv hv0) hk0
    have hQ : ∀ x : Recon, getFlag x.accounted D.1 D.2 = true →
        getFlag (mergeSearchRow prev D.1 D.2 X0.1 x).accounted D.1 D.2 = true := by
      intro x hx
      rcases mergeSearchRow_first prev D.1 D.2 X0.1 x with ⟨-, e⟩ | ⟨nj, -, -, -, e⟩
      · rw [e]
        exact hx
      · rw [e]
        split <;> exact getFlag_setFlag_of_true _ _ _ _ _ hx
    have key := foldl_single (fun x : Recon => getFlag x.accounted D.1 D.2 = true)
      (fun ni x => mergeSearchRow prev D.1 D.2 ni x) (List.range BOARD_SIZE)
      (List.nodup_range _) X0.1 hR hno hQ r hD
    rw [key]
    rcases mergeSearchRow_first prev D.1 D.2 X0.1 r with ⟨hall, e⟩ | ⟨nj, hnj, hf, hv, e⟩
    · left
      refine ⟨?_, e⟩
      intro X hX hv
      by_cases hXD' : X = D
      · rw [hXD']
        exact hD
      · have hx1 := hrow X hX X0 hX0 hXD' hXD hv hv0
        rcases hall X.2 (mem_allCells X hX).2 with h | h
        · rw [← hx1] at h
          exact h
        · rw [← hx1] at h
          exact absurd hv h
    · right
      have hnD := hne r X0.1 nj hD hf
      refine ⟨(X0.1, nj), allCells_mem _ _ (mem_allCells X0 hX0).1 hnj, hnD, hf, hv, ?_⟩
      show mergeSearchRow prev D.1 D.2 X0.1 r = _
      rw [e, if_pos]
      by_contra hh
      apply hnD
      have a1 : X0.1 = D.1 := by
        by_contra h'
        exact hh (Or.inl h')
      have a2 : nj = D.2 := by
        by_contra h'
        exact hh (Or.inr h')
      exact Prod.ext a1 a2
  · left
    have hno : ∀ k ∈ List.range BOARD_SIZE, ∀ x : Recon,
        getFlag x.accounted D.1 D.2 = true → mergeSearchRow prev D.1 D.2 k x = x := by
      intro k hk x hx
      rcases mergeSearchRow_first prev D.1 D.2 k x with ⟨-, e⟩ | ⟨nj, hnj, hf, hv, -⟩
      · exact e
      · exact absurd ⟨(k, nj), allCells_mem k nj (List.mem_range.mp hk) hnj,
          hne x k nj hx hf, hv⟩ hex
    refine ⟨?_, ?_⟩
    · intro X hX hv
      by_cases hXD' : X = D
      · rw [hXD']
        exact hD
      · exact absurd ⟨X, hX, hXD', hv⟩ hex
    · exact foldl_noop (fun x : Recon => getFlag x.accounted D.1 D.2 = true)
        (fun ni x => mergeSearchRow prev D.1 D.2 ni x) (List.range BOARD_SIZE) hno r hD

/-! ## The merge pass -/

theorem doubled_iff (prev cur : Board) (D : Nat × Nat) :
    doubled prev cur D = true
      ↔ getCell prev D.1 D.2 ≠ 0 ∧ getCell cur D.1 D.2 = getCell prev D.1 D.2 * 2 := by
  unfold doubled
  exact decide_eq_true_iff

theorem mergePassCell_skip (cur prev : Board) (D : Nat × Nat) (r : Recon)
    (h : doubled prev cur D = false) : mergePassCell cur prev D.1 D.2 r = r := by
  have h2 : ¬ (getCell prev D.1 D.2 ≠ 0 ∧ getCell cur D.1 D.2 = getCell prev D.1 D.2 * 2) := by
    intro hh
    rw [(doubled_iff prev cur D).mpr hh] at h
    cases h
  unfold mergePassCell
  rw [if_neg h2]
  split <;> rfl

theorem mergePassCell_run (cur prev : Board) (D : Nat × Nat) (r : Recon)
    (h : doubled prev cur D = true) :
    mergePassCell cur prev D.1 D.2 r
      = (List.range BOARD_SIZE).foldl (fun r ni => mergeSearchRow prev D.1 D.2 ni r)
          ⟨setFlag r.accounted D.1 D.2 true, r.anims, r.mergedMap⟩ := by
  have h2 := (doubled_iff prev cur D).mp h
  have h3 : getCell cur D.1 D.2 ≠ 0 := by
    rw [h2.2]
    have := h2.1
    omega
  unfold mergePassCell
  rw [if_neg h3, if_pos h2]

theorem mdest_of_doubled (prev cur : Board) (w : Int) (D : Nat × Nat)
    (h : doubled prev cur D = true) : mdest prev cur w D = holds w (getCell prev D.1 D.2) := by
  unfold mdest holds
  by_cases e : getCell prev D.1 D.2 = w
  · rw [if_pos ⟨h, e⟩, if_pos e]
  · rw [if_neg (fun hh => e hh.2), if_neg e]

theorem mdest_of_not_doubled (prev cur : Board) (w : Int) (D : Nat × Nat)
    (h : doubled prev cur D = false) : mdest prev cur w D = 0 := by
  unfold mdest
  rw [if_neg]
  intro hh
  rw [hh.1] at h
  cases h

theorem eventsTo_append (c : Nat × Nat) (l1 l2 : List TileAnimation) :
    eventsTo c (l1 ++ l2) = eventsTo c l1 ++ eventsTo c l2 := by
  unfold eventsTo
  exact List.filter_append _ _

theorem eventsTo_nil_of (c : Nat × Nat) (l : List TileAnimation) (h : ∀ a ∈ l, dest a ≠ c) :
    eventsTo c l = [] := by
  unfold eventsTo
  rw [List.filter_eq_nil_iff]
  intro a ha
  simpa using h a ha

theorem eventsTo_mkAnim_self (X D : Nat × Nat) (m : Bool) (v : Int) :
    eventsTo D [mkAnim X.1 X.2 D.1 D.2 m v] = [mkAnim X.1 X.2 D.1 D.2 m v] := by
  unfold eventsTo
  rw [List.filter_cons_of_pos]
  · rfl
  · exact decide_eq_true rfl

theorem eventsTo_mkAnim_other (X D c : Nat × Nat) (m : Bool) (v : Int) (h : D ≠ c) :
    eventsTo c [mkAnim X.1 X.2 D.1 D.2 m v] = [] :=
  eventsTo_nil_of c _ (fun a ha => by
    rw [List.mem_singleton] at ha
    subst ha
    exact h)

theorem mergeInv_start (prev cur : Board) : MergeInv prev cur [] ⟨freshTracker, [], []⟩ := by
  refine ⟨wellFormed_freshTracker, ?_, ?_, ?_, ?_, ?_⟩
  · intro w _
    rw [accCount_fresh]
    simp
  · intro k hk
    simp [mapHas] at hk
  · intro c hc
    cases hc
  · intro a ha
    cases ha
  · intro c hc
    cases hc

theorem mergeInv_skip (prev cur : Board) (p : List (Nat × Nat)) (D : Nat × Nat) (r : Recon)
    (hd : doubled prev cur D = false) (h : MergeInv prev cur p r) :
    MergeInv prev cur (p ++ [D]) r := by
  obtain ⟨h1, h2, h3, h4, h5, h6⟩ := h
  refine ⟨h1, ?_, h3, ?_, ?_, ?_⟩
  · intro w hw
    rw [sum_snoc, mdest_of_not_doubled prev cur w D hd]
    have := h2 w hw
    omega
  · intro c hc hdc
    rcases List.mem_append.mp hc with hc | hc
    · exact h4 c hc hdc
    · rw [List.mem_singleton] at hc
      rw [hc, hd] at hdc
      cases hdc
  · intro a ha
    exact ⟨List.mem_append_left _ (h5 a ha).1, (h5 a ha).2⟩
  · intro c hc hdc
    rcases List.mem_append.mp hc with hc | hc
    · exact h6 c hc hdc
    · rw [List.mem_singleton] at hc
      rw [hc, hd] at hdc
      cases hdc

theorem mergeInv_step (prev cur : Board) (hK : CountRel prev cur) (hOne : OneRowSources prev cur)
    (p : List (Nat × Nat)) (D : Nat × Nat) (s : List (Nat × Nat))
    (hsplit : allCells = p ++ D :: s) (r : Recon) (h : MergeInv prev cur p r) :
    MergeInv prev cur (p ++ [D]) (mergePassCell cur prev D.1 D.2 r) := by
  cases hd : doubled prev cur D
  · rw [mergePassCell_skip cur prev D r hd]
    exact mergeInv_skip prev cur p D r hd h
  · obtain ⟨h1, h2, h3, h4, h5, h6⟩ := h
    have hDm : D ∈ allCells := by
      rw [hsplit]
      exact List.mem_append_right _ (List.mem_cons_self _ _)
    have hDp : D ∉ p := (allCells_split p D s hsplit).1
    obtain ⟨hv0, hcur⟩ := (doubled_iff prev cur D).mp hd
    have hcur0 : getCell cur D.1 D.2 ≠ 0 := by
      rw [hcur]
      omega
    have hso : sought prev cur D = getCell prev D.1 D.2 := by
      unfold sought
      rw [if_pos hd]
    have hrow : ∀ X ∈ allCells, ∀ Y ∈ allCells, X ≠ D → Y ≠ D →
        getCell prev X.1 X.2 = getCell prev D.1 D.2 →
        getCell prev Y.1 Y.2 = getCell prev D.1 D.2 → X.1 = Y.1 := by
      intro X hX Y hY a1 a2 a3 a4
      exact hOne D hDm hcur0 (by rw [hcur]; omega) X hX Y hY a1 a2 (a3.trans hso.symm)
        (a4.trans hso.symm)
    have hwf1 : WellFormed (setFlag r.accounted D.1 D.2 true) := wellFormed_setFlag _ h1 _ _ _
    have hself : getFlag (setFlag r.accounted D.1 D.2 true) D.1 D.2 = true :=
      getFlag_setFlag_self _ h1 _ _ (mem_allCells D hDm).1 (mem_allCells D hDm).2
    rw [mergePassCell_run cur prev D r hd]
    rcases mergeSearch_oneRow prev D ⟨setFlag r.accounted D.1 D.2 true, r.anims, r.mergedMap⟩
        hself hrow with ⟨hall, -⟩ | ⟨X, hX, hXD, hXf, hXv, e⟩
    · exfalso
      have c3 : accCount prev (getCell prev D.1 D.2) (setFlag r.accounted D.1 D.2 true)
          = (allCells.map (fun c => holds (getCell prev D.1 D.2) (getCell prev c.1 c.2))).sum :=
        accCount_full prev (getCell prev D.1 D.2) _ hall
      have c1 := accCount_setFlag prev (getCell prev D.1 D.2) r.accounted D
      rw [holds_self] at c1
      have c2 := h2 _ hv0
      have k := hK _ hv0
      have s1 := sum_split (mdest prev cur (getCell prev D.1 D.2))
        (mdest_nonneg prev cur _) p D s hsplit
      rw [mdest_of_doubled prev cur _ D hd, holds_self] at s1
      have s2 := sum_sdest_nonneg prev cur (getCell prev D.1 D.2) allCells
      omega
    · rw [e]
      refine ⟨wellFormed_setFlag _ hwf1 _ _ _, ?_, ?_, ?_, ?_, ?_⟩
      · intro w hw
        have c1 := accCount_setFlag prev w (setFlag r.accounted D.1 D.2 true) X
        have c2 := accCount_setFlag prev w r.accounted D
        have c3 := h2 w hw
        rw [hXv] at c1
        rw [sum_snoc, mdest_of_doubled prev cur w D hd]
        show accCount prev w (setFlag (setFlag r.accounted D.1 D.2 true) X.1 X.2 true) ≤ _
        omega
      · intro k hk
        have hk2 : mapHas (mapAssign r.mergedMap (D.1, D.2) (X.1, X.2)) k = true := hk
        rw [mapHas_mapAssign, Bool.or_eq_true, decide_eq_true_eq] at hk2
        rcases hk2 with hk2 | hk2
        · exact h3 k hk2
        · rw [← hk2]
          exact hd
      · intro c hc hdc
        show mapHas (mapAssign r.mergedMap (D.1, D.2) (X.1, X.2)) c = true
        rw [mapHas_mapAssign, Bool.or_eq_true, decide_eq_true_eq]
        rcases List.mem_append.mp hc with hc | hc
        · exact Or.inl (h4 c hc hdc)
        · rw [List.mem_singleton] at hc
          exact Or.inr hc.symm
      · intro a ha
        have ha2 : a ∈ r.anims ++ [mkAnim X.1 X.2 D.1 D.2 true (getCell prev X.1 X.2)] := ha
        rcases List.mem_append.mp ha2 with ha2 | ha2
        · exact ⟨List.mem_append_left _ (h5 a ha2).1, (h5 a ha2).2⟩
        · rw [List.mem_singleton] at ha2
          subst ha2
          exact ⟨List.mem_append_right _ (List.mem_singleton.mpr rfl), hd⟩
      · intro c hc hdc
        show ∃ Y ∈ allCells, Y ≠ c ∧ getCell prev Y.1 Y.2 = getCell prev c.1 c.2
          ∧ eventsTo c (r.anims ++ [mkAnim X.1 X.2 D.1 D.2 true (getCell prev X.1 X.2)])
              = [mkAnim Y.1 Y.2 c.1 c.2 true (getCell prev Y.1 Y.2)]
        rw [eventsTo_append]
        rcases List.mem_append.mp hc with hc | hc
        · obtain ⟨Y, hY, hYc, hYv, hYe⟩ := h6 c hc hdc
          refine ⟨Y, hY, hYc, hYv, ?_⟩
          rw [hYe, eventsTo_mkAnim_other X D c true _ (fun e => hDp (e ▸ hc))]
          rfl
        · rw [List.mem_singleton] at hc
          subst hc
          refine ⟨X, hX, hXD, hXv, ?_⟩
          rw [eventsTo_nil_of c r.anims (fun a ha e => hDp (e ▸ (h5 a ha).1)),
            eventsTo_mkAnim_self]
          rfl

/-- The locals of `createMoveAnimations` after the merge pass. -/
theorem mergePass_inv (prev cur : Board) (hK : CountRel prev cur)
    (hOne : OneRowSources prev cur) :
    MergeInv prev cur allCells
      (allCells.foldl (fun r c => mergePassCell cur prev c.1 c.2 r) ⟨freshTracker, [], []⟩) := by
  have key := foldl_steps (fun (c : Nat × Nat) r => mergePassCell cur prev c.1 c.2 r)
    (MergeInv prev cur) allCells [] ⟨freshTracker, [], []⟩ (mergeInv_start prev cur)
    (fun p k s r hp hJ => mergeInv_step prev cur hK hOne p k s
      (by rw [List.nil_append] at hp; exact hp) r hJ)
  rw [List.nil_append] at key
  exact key

/-! ## The slide pass -/

theorem slidePassCell_skip_map (cur prev : Board) (D : Nat × Nat) (r : Recon)
    (h : mapHas r.mergedMap (D.1, D.2) = true) : slidePassCell cur prev D.1 D.2 r = r := by
  unfold slidePassCell
  rw [if_pos h]
  split <;> rfl

theorem slidePassCell_skip_zero (cur prev : Board) (D : Nat × Nat) (r : Recon)
    (h : getCell cur D.1 D.2 = 0) : slidePassCell cur prev D.1 D.2 r = r := by
  unfold slidePassCell
  rw [if_pos h]

theorem slidePassCell_run (cur prev : Board) (D : Nat × Nat) (r : Recon)
    (hz : getCell cur D.1 D.2 ≠ 0) (hm : mapHas r.mergedMap (D.1, D.2) = false) :
    slidePassCell cur prev D.1 D.2 r
      = (List.range BOARD_SIZE).foldl (fun r pi => slideSearchRow cur prev D.1 D.2 pi r) r := by
  unfold slidePassCell
  rw [if_neg hz, if_neg (by rw [hm]; decide)]

/-- The slide pass adds no event for a cell that has an entry in the merge
map. -/
theorem slidePass_keeps (cur prev : Board) (T : Nat × Nat) (l : List (Nat × Nat)) (r : Recon)
    (hmap : mapHas r.mergedMap (T.1, T.2) = true) :
    eventsTo T (l.foldl (fun r c => slidePassCell cur prev c.1 c.2 r) r).anims
      = eventsTo T r.anims := by
  have key := foldl_inv
    (fun x : Recon => x.mergedMap = r.mergedMap ∧ eventsTo T x.anims = eventsTo T r.anims)
    (fun (c : Nat × Nat) x => slidePassCell cur prev c.1 c.2 x) l
    (fun c _ x hx => by
      refine ⟨(mergeMap_slidePassCell cur prev c x).trans hx.1, ?_⟩
      show eventsTo T (slidePassCell cur prev c.1 c.2 x).anims = eventsTo T r.anims
      by_cases hc : c = T
      · subst hc
        rw [slidePassCell_skip_map cur prev c x (by rw [hx.1]; exact hmap)]
        exact hx.2
      · obtain ⟨extra, he, hq⟩ := slidePassCell_anims cur prev c x
        rw [he, eventsTo_append, eventsTo_nil_of T extra (fun a ha e => hc ((hq a ha).1.symm.trans e)),
          List.append_nil]
        exact hx.2) r ⟨rfl, rfl⟩
  exact key.2

theorem slideSearchRow_marks (cur prev : Board) (i j pi : Nat) (r : Recon) (x y : Nat)
    (h : getFlag (slideSearchRow cur prev i j pi r).accounted x y = true) :
    getFlag r.accounted x y = true ∨ getCell prev x y = getCell cur i j := by
  rcases slideSearchRow_cases cur prev i j pi r with ⟨-, e⟩ | ⟨pj, -, -, hv, ⟨-, e⟩ | ⟨-, e⟩⟩ <;>
  rw [e] at h
  · exact Or.inl h
  · rcases getFlag_setFlag_true _ _ _ _ _ h with ⟨h1, h2⟩ | h'
    · right
      rw [h1, h2]
      exact hv
    · exact Or.inl h'
  · rcases getFlag_setFlag_true _ _ _ _ _ h with ⟨h1, h2⟩ | h'
    · right
      rw [h1, h2]
      exact hv
    · exact Or.inl h'

theorem slideRows_marks (cur prev : Board) (i j : Nat) (l : List Nat) :
    ∀ (r : Recon) (x y : Nat),
      getFlag (l.foldl (fun r pi => slideSearchRow cur prev i j pi r) r).accounted x y = true →
      getFlag r.accounted x y = true ∨ getCell prev x y = getCell cur i j := by
  induction l with
  | nil => exact fun r x y h => Or.inl h
  | cons k rest ih =>
    intro r x y h
    rw [List.foldl_cons] at h
    rcases ih _ x y h with h' | h'
    · exact slideSearchRow_marks cur prev i j k r x y h'
    · exact Or.inr h'

theorem slidePassCell_marks (cur prev : Board) (D : Nat × Nat) (r : Recon) (x y : Nat)
    (h : getFlag (slidePassCell cur prev D.1 D.2 r).accounted x y = true) :
    getFlag r.accounted x y = true ∨ getCell prev x y = getCell cur D.1 D.2 := by
  unfold slidePassCell at h
  split at h
  · exact Or.inl h
  · split at h
    · exact Or.inl h
    · exact slideRows_marks cur prev D.1 D.2 _ r x y h

theorem sdest_of (prev cur : Board) (D : Nat × Nat) (h : doubled prev cur D = false) :
    sdest prev cur (getCell cur D.1 D.2) D = 1 := by
  unfold sdest
  rw [if_pos ⟨h, rfl⟩]

/-- A step of the slide pass marks at most one cell of a value that stands
in one row, and none unless the cell fails the doubling test and holds the
value. -/
theorem slidePassCell_count (prev cur : Board) (w : Int)
    (hrow : ∀ X ∈ allCells, ∀ Y ∈ allCells, getCell prev X.1 X.2 = w →
      getCell prev Y.1 Y.2 = w → X.1 = Y.1)
    (D : Nat × Nat) (r : Recon)
    (hM : doubled prev cur D = true → mapHas r.mergedMap (D.1, D.2) = true) :
    accCount prev w (slidePassCell cur prev D.1 D.2 r).accounted
      ≤ accCount prev w r.accounted + sdest prev cur w D := by
  have n := sdest_nonneg prev cur w D
  by_cases hz : getCell cur D.1 D.2 = 0
  · rw [slidePassCell_skip_zero cur prev D r hz]
    omega
  · cases hm : mapHas r.mergedMap (D.1, D.2)
    · have hd : doubled prev cur D = false := by
        cases hd : doubled prev cur D
        · rfl
        · rw [hM hd] at hm
          cases hm
      by_cases hw : getCell cur D.1 D.2 = w
      · subst hw
        have hs := sdest_of prev cur D hd
        rw [slidePassCell_run cur prev D r hz hm]
        rcases slideSearch_oneRow cur prev D r hrow with ⟨-, e⟩ | ⟨X, -, -, hv, -, e⟩
        · rw [e]
          omega
        · rw [e]
          have c := accCount_setFlag prev (getCell cur D.1 D.2) r.accounted X
          rw [hv, holds_self] at c
          show accCount prev (getCell cur D.1 D.2) (setFlag r.accounted X.1 X.2 true) ≤ _
          omega
      · have c := accCount_le_of prev w r.accounted (slidePassCell cur prev D.1 D.2 r).accounted
          (fun c _ hc => by
            rcases slidePassCell_marks cur prev D r c.1 c.2 hc with h | h
            · exact Or.inl h
            · exact Or.inr (fun e => hw (h.symm.trans e)))
        omega
    · rw [slidePassCell_skip_map cur prev D r hm]
      omega

theorem slideInv_step (prev cur : Board) (hK : CountRel prev cur) (T : Nat × Nat)
    (hT0 : getCell cur T.1 T.2 ≠ 0) (hTd : doubled prev cur T = false)
    (hTch : getCell cur T.1 T.2 ≠ getCell prev T.1 T.2)
    (hrow : ∀ X ∈ allCells, ∀ Y ∈ allCells, getCell prev X.1 X.2 = getCell cur T.1 T.2 →
      getCell prev Y.1 Y.2 = getCell cur T.1 T.2 → X.1 = Y.1)
    (M : List ((Nat × Nat) × (Nat × Nat)))
    (hM1 : ∀ k, mapHas M k = true → doubled prev cur k = true)
    (hM2 : ∀ c ∈ allCells, doubled prev cur c = true → mapHas M c = true)
    (p : List (Nat × Nat)) (D : Nat × Nat) (s : List (Nat × Nat))
    (hsplit : allCells = p ++ D :: s) (r : Recon) (h : SlideInv prev cur T M p r) :
    SlideInv prev cur T M (p ++ [D]) (slidePassCell cur prev D.1 D.2 r) := by
  obtain ⟨h1, h2, h3, h4, h5⟩ := h
  have hDm : D ∈ allCells := by
    rw [hsplit]
    exact List.mem_append_right _ (List.mem_cons_self _ _)
  have hDp : D ∉ p := (allCells_split p D s hsplit).1
  have hcount := slidePassCell_count prev cur (getCell cur T.1 T.2) hrow D r
    (fun hd => by rw [h3]; exact hM2 D hDm hd)
  have hsum := sum_snoc (sdest prev cur (getCell cur T.1 T.2)) p D
  refine ⟨wellFormed_slidePassCell cur prev D r h1, by omega,
    (mergeMap_slidePassCell cur prev D r).trans h3, ?_, ?_⟩
  · intro hT
    have hDT : D ≠ T := fun e => hT (List.mem_append_right _ (List.mem_singleton.mpr e.symm))
    obtain ⟨extra, he, hq⟩ := slidePassCell_anims cur prev D r
    rw [he, eventsTo_append, eventsTo_nil_of T extra (fun a ha e => hDT ((hq a ha).1.symm.trans e)),
      List.append_nil]
    exact h4 (fun hh => hT (List.mem_append_left _ hh))
  · intro hT
    by_cases hDT : D = T
    · subst hDT
      have hm : mapHas r.mergedMap (D.1, D.2) = false := by
        cases hm : mapHas r.mergedMap (D.1, D.2)
        · rfl
        · rw [h3] at hm
          rw [hM1 D hm] at hTd
          cases hTd
      rw [slidePassCell_run cur prev D r hT0 hm]
      rcases slideSearch_oneRow cur prev D r hrow with ⟨hall, -⟩ | ⟨X, hX, -, hv, -, e⟩
      · exfalso
        have c3 := accCount_full prev (getCell cur D.1 D.2) r.accounted hall
        have k := hK _ hT0
        have s1 := sum_split (sdest prev cur (getCell cur D.1 D.2))
          (sdest_nonneg prev cur _) p D s hsplit
        rw [sdest_of prev cur D hTd] at s1
        omega
      · have hXD : X ≠ D := by
          intro e'
          rw [e'] at hv
          exact hTch hv.symm
        have hpos : X.1 ≠ D.1 ∨ X.2 ≠ D.2 := by
          by_contra hh
          apply hXD
          have a1 : X.1 = D.1 := by
            by_contra h'
            exact hh (Or.inl h')
          have a2 : X.2 = D.2 := by
            by_contra h'
            exact hh (Or.inr h')
          exact Prod.ext a1 a2
        rw [e, if_pos hpos]
        refine ⟨X, hX, hXD, hv, ?_⟩
        show eventsTo D (r.anims ++ [mkAnim X.1 X.2 D.1 D.2 false (getCell prev X.1 X.2)]) = _
        rw [eventsTo_append, h4 hDp, eventsTo_mkAnim_self]
        rfl
    · have hTp : T ∈ p := by
        rcases List.mem_append.mp hT with hh | hh
        · exact hh
        · rw [List.mem_singleton] at hh
          exact absurd hh.symm hDT
      obtain ⟨X, hX, hXT, hv, hev⟩ := h5 hTp
      refine ⟨X, hX, hXT, hv, ?_⟩
      obtain ⟨extra, he, hq⟩ := slidePassCell_anims cur prev D r
      rw [he, eventsTo_append,
        eventsTo_nil_of T extra (fun a ha e => hDT ((hq a ha).1.symm.trans e)), List.append_nil]
      exact hev

/-- Coverage by `createMoveAnimations`: when the tiles of the previous
board are counted by the cells of the current board, and the cells searched
for a changed cell stand in one row, every changed non-empty cell of the
current board
has exactly one event, a merge event exactly where the doubling test passes;
the event comes from a cell of the previous board that holds the value
sought. -/
theorem reconcile_cover (prev cur : Board) (hK : CountRel prev cur)
    (hOne : OneRowSources prev cur) (T : Nat × Nat) (hT : T ∈ allCells)
    (hT0 : getCell cur T.1 T.2 ≠ 0) (hTch : getCell cur T.1 T.2 ≠ getCell prev T.1 T.2) :
    ∃ X ∈ allCells, X ≠ T ∧ getCell prev X.1 X.2 = sought prev cur T
      ∧ eventsTo T (reconcile cur prev).anims
          = [mkAnim X.1 X.2 T.1 T.2 (doubled prev cur T) (getCell prev X.1 X.2)] := by
  obtain ⟨m1, m2, m3, m4, m5, m6⟩ := mergePass_inv prev cur hK hOne
  rw [reconcile_eq]
  cases hd : doubled prev cur T
  · have hso : sought prev cur T = getCell cur T.1 T.2 := by
      unfold sought
      rw [hd]
      rfl
    have hrow : ∀ X ∈ allCells, ∀ Y ∈ allCells, getCell prev X.1 X.2 = getCell cur T.1 T.2 →
        getCell prev Y.1 Y.2 = getCell cur T.1 T.2 → X.1 = Y.1 := by
      intro X hX Y hY a1 a2
      exact hOne T hT hT0 hTch X hX Y hY (fun e => hTch (by rw [← a1, e]))
        (fun e => hTch (by rw [← a2, e])) (a1.trans hso.symm) (a2.trans hso.symm)
    have key := foldl_steps (fun (c : Nat × Nat) r => slidePassCell cur prev c.1 c.2 r)
      (SlideInv prev cur T
        (allCells.foldl (fun r c => mergePassCell cur prev c.1 c.2 r)
          ⟨freshTracker, [], []⟩).mergedMap) allCells []
      (allCells.foldl (fun r c => mergePassCell cur prev c.1 c.2 r) ⟨freshTracker, [], []⟩)
      ⟨m1, by
          have := m2 _ hT0
          simp only [List.map_nil, List.sum_nil, add_zero]
          exact this, rfl,
        fun _ => eventsTo_nil_of T _ (fun a ha e => by
          have := (m5 a ha).2
          rw [e, hd] at this
          cases this),
        fun hh => by cases hh⟩
      (fun p k s r hp hJ => slideInv_step prev cur hK T hT0 hd hTch hrow _ m3
        (fun c hc hdc => m4 c hc hdc) p k s (by rw [List.nil_append] at hp; exact hp) r hJ)
    rw [List.nil_append] at key
    obtain ⟨X, hX, hXT, hv, hev⟩ := key.2.2.2.2 hT
    exact ⟨X, hX, hXT, hv.trans hso.symm, hev⟩
  · have hso : sought prev cur T = getCell prev T.1 T.2 := by
      unfold sought
      rw [hd]
      rfl
    obtain ⟨X, hX, hXT, hv, hev⟩ := m6 T hT hd
    refine ⟨X, hX, hXT, hv.trans hso.symm, ?_⟩
    rw [slidePass_keeps cur prev T allCells _ (m4 T hT hd)]
    exact hev

/-! ## Coverage of the changed cells -/

theorem allCells_getCell (P : Int → Prop) (b : Board) (hb : WellFormed b) (h : AllCells P b)
    (i j : Nat) (hi : i < BOARD_SIZE) (hj : j < BOARD_SIZE) : P (getCell b i j) := by
  have hrow : b.getD i [] ∈ b := by
    rw [List.getD_eq_getElem _ _ (by rw [hb.1]; exact hi)]
    exact List.getElem_mem _
  have hcell : (b.getD i []).getD j 0 ∈ b.getD i [] := by
    rw [List.getD_eq_getElem (b.getD i []) 0 (by rw [hb.2 _ hrow]; exact hj)]
    exact List.getElem_mem _
  exact h _ hrow _ hcell

theorem sum_add_two {ι : Type} (f g : ι → Int) (l : List ι) :
    (l.map (fun c => f c + 2 * g c)).sum = (l.map f).sum + 2 * (l.map g).sum := by
  induction l with
  | nil => rfl
  | cons z t ih =>
    simp only [List.map_cons, List.sum_cons, ih]
    ring

theorem sdest_of_doubled (prev cur : Board) (w : Int) (D : Nat × Nat)
    (h : doubled prev cur D = true) : sdest prev cur w D = 0 := by
  unfold sdest
  rw [if_neg]
  intro hh
  rw [h] at hh
  cases hh.1

theorem sdest_of_not_doubled (prev cur : Board) (w : Int) (D : Nat × Nat)
    (h : doubled prev cur D = false) : sdest prev cur w D = holds w (getCell cur D.1 D.2) := by
  unfold sdest holds
  by_cases e : getCell cur D.1 D.2 = w
  · rw [if_pos ⟨h, e⟩, if_pos e]
  · rw [if_neg (fun hh => e hh.2), if_neg e]

/-- When the doubling test passes at exactly the merged cells, the tiles of
the board before a move are counted by the cells of the board after it. -/
theorem move_countRel (d : Direction) (g : Game) (hw : WellFormed (activeBoard g))
    (h1 : MergesInPlace d g) : CountRel (activeBoard g) (activeBoard (move d g).1) := by
  intro w hw0
  rw [← move_share d g hw w hw0, ← sum_add_two]
  unfold flagSum
  congr 1
  apply List.map_congr_left
  intro c hc
  rw [h1 c hc]
  cases hd : doubled (activeBoard g) (activeBoard (move d g).1) c
  · rw [sdest_of_not_doubled _ _ w c hd, mdest_of_not_doubled _ _ w c hd]
    simp only [share, Bool.false_eq_true, if_false]
    ring
  · rw [sdest_of_doubled _ _ w c hd, mdest_of_doubled _ _ w c hd]
    simp only [share, if_true]
    rw [((doubled_iff _ _ c).mp hd).2, holds_double]
    ring

end Game2048
